import Mathlib

/-!
# HashBounds: a shallow embedding of the module sources

The embedding follows `src/src/TreeBucket.js`, `src/src/HashGrid.js` and
`src/src/HashBounds.js`.

* JavaScript numbers are rationals (`ℚ`); the numbers a caller passes are
  taken to be doubles. Every product, sum and difference from which the
  source derives a bucket coordinate, a level, a bucket corner or a converted
  box is rounded to the nearest double (`fl`).
* Bucket coordinates, which the source obtains from `Math.floor`, are
  integers. The loops over them and the slot keys are computed on integers,
  which is what the source computes as long as no coordinate and no key
  reaches `2 ^ 53`. `HashBounds.insertD` and `HashBounds.removeD` compute the
  slot keys as the source does, rounded, also beyond that.
* The static functions `convertBounds` and `truncateBounds` are given twice:
  in exact arithmetic, and with their sums and differences rounded
  (`convertBoundsD`, `truncateBoundsD`); the methods of the index convert
  with the rounded one.
* Objects that the source shares by reference live in a store: tree buckets in
  `St.buckets` (addressed by allocation number), entries in `St.entries`
  (addressed by a natural number chosen by the caller).
* A JavaScript array is its integer-keyed properties together with its
  `length`; only the keys `0 ≤ k < length` that are array indices are visited
  by `forEach` and `every`.
* A run is a function `St → Except Err α × St`: an exception keeps the
  mutations made before it was thrown.
-/

set_option autoImplicit false

/-! ## Errors -/

/-- The ways a run can stop early. The first five are the exceptions of the
source; `typeError` is the engine's `TypeError` for a property read on
`undefined`; `rangeError` is the engine's `RangeError` for a typed array
whose length exceeds the largest array index `2 ^ 53 - 1`; `stuck` marks a run that leaves the embedding (recursion deeper
than the number of levels, a slot index outside its item list, a box with a
missing number). -/
inductive Err
  | levelCount
  | alreadyPresent
  | notPresent
  | invalidBounds
  | notFormatted
  | typeError
  | rangeError
  | stuck
  deriving DecidableEq, Repr

/-! ## Numbers -/

/-- The number `⌊log₂ n⌋` for `n ≥ 1`, by halving; the first argument bounds
the number of steps. -/
def log2Steps : Nat → Nat → Nat
  | 0, _ => 0
  | f + 1, n => if n < 2 then 0 else log2Steps f (n / 2) + 1

/-- The number `⌊log₂ (n / d)⌋` for positive `n` and `d`. -/
def log2Floor (n d : Nat) : Int :=
  let e0 : Int := (log2Steps n n : Int) - (log2Steps d d : Int)
  if 0 ≤ e0 then (if d * 2 ^ e0.toNat ≤ n then e0 else e0 - 1)
  else (if d ≤ n * 2 ^ (-e0).toNat then e0 else e0 - 1)

/-- The integer nearest to `n / d`, the even one of two equally near. -/
def roundHalfEven (n d : Nat) : Nat :=
  let t := n / d
  let r := n % d
  if 2 * r < d then t
  else if d < 2 * r then t + 1
  else if t % 2 = 0 then t else t + 1

/-- The double nearest to the positive rational `n / d`: a significand of 53
bits, the even one of two equally near doubles, exponents from `-1022` on
(below, the spacing stays `2 ^ -1074`). Overflow to `Infinity` is not
modelled. -/
def flPos (n d : Nat) : ℚ :=
  let s : Int := 52 - max (log2Floor n d) (-1022)
  if 0 ≤ s then ((roundHalfEven (n * 2 ^ s.toNat) d : Nat) : ℚ) / ((2 ^ s.toNat : Nat) : ℚ)
  else ((roundHalfEven n (d * 2 ^ (-s).toNat) : Nat) : ℚ) * ((2 ^ (-s).toNat : Nat) : ℚ)

/-- Rounding to the nearest double: what a JavaScript arithmetic operation
returns for the exact result `q`. -/
def fl (q : ℚ) : ℚ :=
  if q = 0 then 0
  else if 0 < q then flPos q.num.natAbs q.den
  else - flPos q.num.natAbs q.den

/-! ## Bounds objects -/

/-- A bounds object as the caller passes it: every field may be missing
(`none` stands for `undefined`, and for the not-a-number that arithmetic on
`undefined` produces). -/
structure Bounds where
  x : Option ℚ := none
  y : Option ℚ := none
  width : Option ℚ := none
  height : Option ℚ := none
  minX : Option ℚ := none
  minY : Option ℚ := none
  maxX : Option ℚ := none
  maxY : Option ℚ := none
  TYPE : Option Int := none
  deriving DecidableEq

/-- Addition of two possibly missing numbers. -/
def jsAdd (a b : Option ℚ) : Option ℚ :=
  match a, b with
  | some p, some q => some (p + q)
  | _, _ => none

/-- Subtraction of two possibly missing numbers. -/
def jsSub (a b : Option ℚ) : Option ℚ :=
  match a, b with
  | some p, some q => some (p - q)
  | _, _ => none

namespace HashBounds

/-- `HashBounds.mmToPS`. -/
def mmToPS (b : Bounds) : Bounds :=
  { b with x := b.minX, y := b.minY,
           width := jsSub b.maxX b.minX, height := jsSub b.maxY b.minY }

/-- `HashBounds.psToMM`. -/
def psToMM (b : Bounds) : Bounds :=
  { b with minX := b.x, minY := b.y,
           maxX := jsAdd b.x b.width, maxY := jsAdd b.y b.height }

/-- `HashBounds.convertBounds`. -/
def convertBounds (b : Bounds) : Except Err Bounds :=
  match b.TYPE with
  | none =>
    if b.x.isSome then .ok { psToMM b with TYPE := some 1 }
    else .ok { mmToPS b with TYPE := some 2 }
  | some 1 => .ok (psToMM b)
  | some 2 => .ok (mmToPS b)
  | some _ => .error .invalidBounds

end HashBounds

/-- Addition of two possibly missing numbers as the engine performs it: the
sum rounded to a double. -/
def jsAddD (a b : Option ℚ) : Option ℚ :=
  match a, b with
  | some p, some q => some (fl (p + q))
  | _, _ => none

/-- Subtraction of two possibly missing numbers as the engine performs it:
the difference rounded to a double. -/
def jsSubD (a b : Option ℚ) : Option ℚ :=
  match a, b with
  | some p, some q => some (fl (p - q))
  | _, _ => none

namespace HashBounds

/-- `HashBounds.mmToPS` with the differences rounded. -/
def mmToPSD (b : Bounds) : Bounds :=
  { b with x := b.minX, y := b.minY,
           width := jsSubD b.maxX b.minX, height := jsSubD b.maxY b.minY }

/-- `HashBounds.psToMM` with the sums rounded. -/
def psToMMD (b : Bounds) : Bounds :=
  { b with minX := b.x, minY := b.y,
           maxX := jsAddD b.x b.width, maxY := jsAddD b.y b.height }

/-- `HashBounds.convertBounds` with the sums and differences rounded: the
conversion as the methods of the index run it. -/
def convertBoundsD (b : Bounds) : Except Err Bounds :=
  match b.TYPE with
  | none =>
    if b.x.isSome then .ok { psToMMD b with TYPE := some 1 }
    else .ok { mmToPSD b with TYPE := some 2 }
  | some 1 => .ok (psToMMD b)
  | some 2 => .ok (mmToPSD b)
  | some _ => .error .invalidBounds

end HashBounds

/-- The numbers the index reads from a converted bounds object. -/
structure Box where
  minX : ℚ
  minY : ℚ
  maxX : ℚ
  maxY : ℚ
  width : ℚ
  height : ℚ
  deriving DecidableEq

/-- The numeric fields of a bounds object, when none is missing. -/
def Bounds.box? (b : Bounds) : Option Box :=
  match b.minX, b.minY, b.maxX, b.maxY, b.width, b.height with
  | some a, some b', some c, some d, some w, some h => some ⟨a, b', c, d, w, h⟩
  | _, _, _, _, _, _ => none

/-- An untagged bounds object in point and size form. -/
def Bounds.ps (x y width height : ℚ) : Bounds :=
  { x := some x, y := some y, width := some width, height := some height }

/-- An untagged bounds object in min and max form. -/
def Bounds.mm (minX minY maxX maxY : ℚ) : Bounds :=
  { minX := some minX, minY := some minY, maxX := some maxX, maxY := some maxY }

namespace HashBounds

/-- `HashBounds.boundsOverlap`, on the numeric fields. -/
def boundsOverlap (b1 b2 : Box) : Bool :=
  !(decide (b1.minX > b2.maxX) || decide (b1.minY > b2.maxY)
    || decide (b1.maxX < b2.minX) || decide (b1.maxY < b2.minY))

/-- `HashBounds.boundsContains`, on the numeric fields. -/
def boundsContains (b1 b2 : Box) : Bool :=
  decide (b1.minX ≥ b2.minX) && decide (b1.maxX ≤ b2.maxX)
    && decide (b1.minY ≥ b2.minY) && decide (b1.maxY ≤ b2.maxY)

end HashBounds

/-! ## JavaScript arrays -/

/-- A JavaScript array: its integer-keyed properties and its `length`. -/
structure JSArray (α : Type) where
  props : Int → Option α
  length : Nat

namespace JSArray

variable {α : Type}

/-- The literal `[]`. -/
def empty : JSArray α := ⟨fun _ => none, 0⟩

/-- Whether an integer key is an array index (it counts for `length` and is
visited by `forEach` and `every`). -/
def isIndex (k : Int) : Bool := decide (0 ≤ k) && decide (k < 4294967295)

/-- The read `a[k]`. -/
def get (a : JSArray α) (k : Int) : Option α := a.props k

/-- The write `a[k] = v`. -/
def set (a : JSArray α) (k : Int) (v : α) : JSArray α :=
  { props := fun j => if j = k then some v else a.props j
    length := if isIndex k then max a.length (k.toNat + 1) else a.length }

/-- The statement `delete a[k]`: the length stays. -/
def delete (a : JSArray α) (k : Int) : JSArray α :=
  { props := fun j => if j = k then none else a.props j
    length := a.length }

end JSArray

/-! ## The store -/

/-- The record `entry._HashBounds[ID]` the index keeps on an entry. -/
structure EntryCache where
  k1x : Int
  k1y : Int
  k2x : Int
  k2y : Int
  indexes : Int → Option Nat
  cachedIndex : Option Nat
  cacheWidth : ℚ
  cacheHeight : ℚ
  hashID : Nat
  isInHash : Bool

/-- The assignment `indexes[k] = v` on a record. -/
def EntryCache.setIndex (c : EntryCache) (k : Int) (v : Nat) : EntryCache :=
  { c with indexes := fun j => if j = k then some v else c.indexes j }

/-- An entry object: the records of the indexes that have seen it, by index
ID, and the stamp `_HashBoundsTempCheck` (shared by all indexes). -/
structure Entry where
  _HashBounds : Nat → Option EntryCache
  _HashBoundsTempCheck : Option Int

/-- A `TreeBucket` object. `PARENT`, `CHILDREN` and `QUAD_CACHE` hold
references (allocation numbers) to other buckets. -/
structure TreeBucket where
  PARENT : Option Nat
  CHILDREN : Int → Option Nat
  BUCKET_SIZE : ℚ
  COUNTER : Int
  BUCKET_X : Int
  BUCKET_Y : Int
  X : ℚ
  Y : ℚ
  MAX_X : ℚ
  MAX_Y : ℚ
  HALFX : ℚ
  HALFY : ℚ
  QUAD_CACHE : List (List Nat)
  ITEM_LIST : List Nat

/-- A `HashGrid` object. `PREV_GRID` and `NEXT_GRID` are positions in
`HashBounds.LEVELS`; `BUCKET_GRID` is an array of arrays of bucket
references. -/
structure HashGrid where
  BUCKETSIZE : ℚ
  BUCKETSIZE_INV : ℚ
  LEVEL : Nat
  PREV_GRID : Option Nat
  NEXT_GRID : Option Nat
  BUCKET_GRID : JSArray (JSArray Nat)

/-- A `HashBounds` object. `BASE` is a position in `LEVELS`. -/
structure HashBounds where
  ID : Nat
  MIN_SIZE : ℚ
  MIN_SIZE_INV : ℚ
  LEVEL_COUNT : Nat
  INITIAL_BOUNDS : Bounds
  LEVELS : List HashGrid
  BASE : Option Nat
  LOG2CACHE : List Nat
  QUERYID : Int

/-- The state of a run: one index, the entry objects, the bucket objects
allocated so far, and the static counter `HashBounds.LAST_ID`. -/
structure St where
  hb : HashBounds
  entries : Nat → Entry
  buckets : Nat → TreeBucket
  nextBucket : Nat
  LAST_ID : Nat

/-- A run of the source: a result or an exception, and the state after it. -/
def M (α : Type) : Type := St → Except Err α × St

namespace M

variable {α β : Type}

/-- A run that returns without touching the state. -/
def ret (a : α) : M α := fun s => (.ok a, s)

/-- Sequencing: an exception stops the run, the state reached is kept. -/
def andThen (m : M α) (f : α → M β) : M β := fun s =>
  match m s with
  | (.ok a, s1) => f a s1
  | (.error e, s1) => (.error e, s1)

/-- A run that throws. -/
def throw (e : Err) : M α := fun s => (.error e, s)

/-- The current state. -/
def read : M St := fun s => (.ok s, s)

/-- A run that changes the state. -/
def modify (f : St → St) : M Unit := fun s => (.ok (), f s)

end M

instance : Monad M where
  pure := M.ret
  bind := M.andThen

/-! ## Store updates -/

/-- The bucket object `b` after a field update. -/
def St.setBucket (s : St) (b : Nat) (f : TreeBucket → TreeBucket) : St :=
  { s with buckets := fun i => if i = b then f (s.buckets b) else s.buckets i }

/-- The record of entry `e` for index `id`, after a field update (nothing
happens when the record is missing). -/
def St.setCache (s : St) (e id : Nat) (f : EntryCache → EntryCache) : St :=
  { s with entries := fun i =>
      if i = e then
        { s.entries e with
          _HashBounds := fun j =>
            if j = id then (s.entries e)._HashBounds id |>.map f
            else (s.entries e)._HashBounds j }
      else s.entries i }

/-- The stamp `_HashBoundsTempCheck` of entry `e`, after an assignment. -/
def St.setStamp (s : St) (e : Nat) (v : Option Int) : St :=
  { s with entries := fun i =>
      if i = e then
        { s.entries e with _HashBoundsTempCheck := v }
      else s.entries i }

/-- The record of entry `e` for index `id`. -/
def St.cache (s : St) (e id : Nat) : Option EntryCache :=
  (s.entries e)._HashBounds id

/-- The grid at position `l` of `LEVELS`, after a field update. -/
def St.setGrid (s : St) (l : Nat) (f : HashGrid → HashGrid) : St :=
  { s with hb := { s.hb with LEVELS := s.hb.LEVELS.modify f l } }

/-! ## TreeBucket -/

namespace TreeBucket

/-- The `TreeBucket` constructor. -/
def new (bucketX bucketY : Int) (bucketSize : ℚ) : TreeBucket :=
  { PARENT := none
    CHILDREN := fun _ => none
    BUCKET_SIZE := bucketSize
    COUNTER := 0
    BUCKET_X := bucketX
    BUCKET_Y := bucketY
    X := fl (bucketX * bucketSize)
    Y := fl (bucketY * bucketSize)
    MAX_X := fl (fl (bucketX * bucketSize) + bucketSize)
    MAX_Y := fl (fl (bucketY * bucketSize) + bucketSize)
    HALFX := fl (fl (bucketX * bucketSize) + fl (bucketSize / 2))
    HALFY := fl (fl (bucketY * bucketSize) + fl (bucketSize / 2))
    QUAD_CACHE := [[], [], [], [], [], [], [], [], []]
    ITEM_LIST := [] }

/-- The table `TreeBucket.QUADS`. -/
def QUADS : List (List Int) :=
  [[0, 1, 2, 3], [0], [1], [2], [3], [0, 1], [2, 3], [0, 2], [1, 3]]

/-- `TreeBucket.updateQuadCache`, as a function of the bucket. -/
def updateQuadCache (t : TreeBucket) : TreeBucket :=
  { t with QUAD_CACHE := QUADS.map (fun quad => quad.filterMap t.CHILDREN) }

/-- `TreeBucket.add` on bucket `b`; the first argument bounds the depth of
the recursion through `PARENT`. -/
def add : Nat → Nat → M Unit
  | 0, _ => M.throw .stuck
  | fuel + 1, b => do
    let s ← M.read
    let t := s.buckets b
    if t.COUNTER = 0 then
      match t.PARENT with
      | some p => add fuel p
      | none => pure ()
    M.modify (fun s => s.setBucket b (fun t => { t with COUNTER := t.COUNTER + 1 }))

/-- `TreeBucket.subtract` on bucket `b`. -/
def subtract : Nat → Nat → M Unit
  | 0, _ => M.throw .stuck
  | fuel + 1, b => do
    M.modify (fun s => s.setBucket b (fun t => { t with COUNTER := t.COUNTER - 1 }))
    let s ← M.read
    let t := s.buckets b
    if t.COUNTER = 0 then
      match t.PARENT with
      | some p => subtract fuel p
      | none => pure ()

/-- `TreeBucket.getQuad`. -/
def getQuad (t : TreeBucket) (bounds : Box) : Int :=
  if (t.QUAD_CACHE.getD 0 []).length ≤ 1 then 0
  else if bounds.maxY ≤ t.HALFY then
    if bounds.maxX ≤ t.HALFX then 1
    else if bounds.minX ≥ t.HALFX then 2
    else 5
  else if bounds.minY ≥ t.HALFY then
    if bounds.maxX ≤ t.HALFX then 3
    else if bounds.minX ≥ t.HALFX then 4
    else 6
  else if bounds.maxX ≤ t.HALFX then 7
  else if bounds.minX ≥ t.HALFX then 8
  else if bounds.width < t.BUCKET_SIZE ∨ bounds.height < t.BUCKET_SIZE
      ∨ bounds.minX > t.X ∨ bounds.maxX < t.MAX_X
      ∨ bounds.minY > t.Y ∨ bounds.maxY < t.MAX_Y then 0
  else -1

end TreeBucket

/-! ## Loops -/

/-- The integers `lo, lo + 1, …, hi` a `for (k = lo; k <= hi; ++k)` loop
runs through, as long as `hi` is below `2 ^ 53`; from there on `++k` of the
source no longer advances and its loop does not end. -/
def intRange (lo hi : Int) : List Int :=
  (List.range (hi + 1 - lo).toNat).map (fun (i : Nat) => lo + (i : Int))

/-- A loop whose body cannot stop it. -/
def forEachM {α : Type} : List α → (α → M Unit) → M Unit
  | [], _ => pure ()
  | a :: rest, body => do
    body a
    forEachM rest body

/-- A visitor: it sees the entries visited so far in this query and the
entry at hand, and answers whether the traversal goes on. -/
abbrev Visitor : Type := List Nat → Nat → Bool

/-- A loop in the manner of `Array.prototype.every`: the body answers whether
to go on, and the list of visited entries is threaded through. -/
def everyM {α : Type} : List α → (α → List Nat → M (Bool × List Nat)) →
    List Nat → M (Bool × List Nat)
  | [], _, tr => pure (true, tr)
  | a :: rest, body, tr => do
    let r ← body a tr
    if r.1 then everyM rest body r.2 else pure (false, r.2)

namespace TreeBucket

/-- The callback of `TreeBucket._every` on one item. -/
def visitItem (call : Visitor) (QID : Int) (item : Nat) (tr : List Nat) :
    M (Bool × List Nat) := do
  let s ← M.read
  if (s.entries item)._HashBoundsTempCheck ≠ some QID then
    M.modify (fun s => s.setStamp item (some QID))
    pure (call tr item, tr ++ [item])
  else pure (true, tr)

/-- `TreeBucket._every` on bucket `b`. -/
def _every (call : Visitor) (QID : Int) (b : Nat) (tr : List Nat) :
    M (Bool × List Nat) := do
  let s ← M.read
  everyM (s.buckets b).ITEM_LIST (visitItem call QID) tr

/-- `TreeBucket.everyAll` on bucket `b`; the fuel bounds the depth of the
recursion through `QUAD_CACHE`. -/
def everyAll (call : Visitor) (QID : Int) : Nat → Nat → List Nat → M (Bool × List Nat)
  | 0, _, _ => M.throw .stuck
  | fuel + 1, b, tr => do
    let s ← M.read
    if (s.buckets b).COUNTER = 0 then pure (true, tr)
    else
      let r ← _every call QID b tr
      if !r.1 then pure (false, r.2)
      else everyM ((s.buckets b).QUAD_CACHE.getD 0 []) (everyAll call QID fuel) r.2

/-- `TreeBucket.every` on bucket `b`. -/
def every (bounds : Box) (call : Visitor) (QID : Int) :
    Nat → Nat → List Nat → M (Bool × List Nat)
  | 0, _, _ => M.throw .stuck
  | fuel + 1, b, tr => do
    let s ← M.read
    if (s.buckets b).COUNTER = 0 then pure (true, tr)
    else
      let quads := (s.buckets b).getQuad bounds
      if quads = -1 then everyAll call QID (fuel + 1) b tr
      else
        let r ← _every call QID b tr
        if !r.1 then pure (false, r.2)
        else
          everyM ((s.buckets b).QUAD_CACHE.getD quads.toNat []) (every bounds call QID fuel) r.2

/-- `TreeBucket.remove` on bucket `b`, for the record of entry `e` in index
`id`. A slot index that is missing or outside the item list stops the run
with `Err.stuck`. The `swapKey` is computed on integers;
`TreeBucket.removeD` computes it as the source does. -/
def remove (fuel b e id : Nat) (indexKey : Int) : M Unit := do
  let s ← M.read
  match s.cache e id with
  | none => M.throw .typeError
  | some c =>
    let items := (s.buckets b).ITEM_LIST
    match c.indexes indexKey with
    | none => M.throw .stuck
    | some index =>
      let len1 : Int := (items.length : Int) - 1
      if (index : Int) ≠ len1 then
        match items.getLast? with
        | none => M.throw .typeError
        | some swap =>
          if items.length ≤ index then M.throw .stuck
          else
            M.modify (fun s => s.setBucket b
              (fun t => { t with ITEM_LIST := t.ITEM_LIST.set index swap }))
            match s.cache swap c.hashID with
            | none => M.throw .typeError
            | some c2 =>
              let t := s.buckets b
              let swapKey : Int :=
                (t.BUCKET_X - c2.k1x) * (c2.k2y - c2.k1y + 1) + t.BUCKET_Y - c2.k1y
              M.modify (fun s => s.setCache swap c.hashID (fun r => r.setIndex swapKey index))
      M.modify (fun s => s.setBucket b
        (fun t => { t with ITEM_LIST := t.ITEM_LIST.dropLast }))
      if len1 = 0 then subtract fuel b

/-- `TreeBucket.set` on bucket `b`, for entry `e` and its record in index
`id`. -/
def set (fuel b e id : Nat) (indexKey : Int) : M Unit := do
  let s ← M.read
  let len := (s.buckets b).ITEM_LIST.length
  M.modify (fun s => s.setCache e id (fun r => r.setIndex indexKey len))
  M.modify (fun s => s.setBucket b (fun t => { t with ITEM_LIST := t.ITEM_LIST ++ [e] }))
  if len = 0 then add fuel b

end TreeBucket

/-! ## HashGrid -/

/-- The JavaScript remainder `a % b` (the sign follows the dividend). -/
def jsRem (a b : ℚ) : ℚ :=
  let q := a / b
  a - b * (if 0 ≤ q then (⌊q⌋ : ℚ) else (⌈q⌉ : ℚ))

/-- The integer a number is, when it is one (a property key that is not an
integer names no element of an array of buckets). -/
def asInt (q : ℚ) : Option Int := if q.den = 1 then some q.num else none

namespace HashGrid

/-- The `HashGrid` constructor. -/
def new (bucketSize : ℚ) (level : Nat) : HashGrid :=
  { BUCKETSIZE := bucketSize
    BUCKETSIZE_INV := fl (1 / bucketSize)
    LEVEL := level
    PREV_GRID := none
    NEXT_GRID := none
    BUCKET_GRID := JSArray.empty }

/-- The grid at position `l` of `LEVELS`; a missing grid is a `TypeError`. -/
def grid (l : Nat) : M HashGrid := fun s =>
  match s.hb.LEVELS[l]? with
  | some g => (.ok g, s)
  | none => (.error .typeError, s)

/-- `HashGrid.getBucket` on the grid at position `l`. -/
def getBucket (l : Nat) (bucketX bucketY : Int) : M (Option Nat) := do
  let g ← grid l
  match g.BUCKET_GRID.get bucketX with
  | none => pure none
  | some map2 => pure (map2.get bucketY)

/-- `HashGrid.setBucket` on the grid at position `l`. -/
def setBucket (l : Nat) (bucketX bucketY : Int) (bucket : Nat) : M Unit := do
  let g ← grid l
  let map2 := (g.BUCKET_GRID.get bucketX).getD JSArray.empty
  M.modify (fun s => s.setGrid l (fun g =>
    { g with BUCKET_GRID := g.BUCKET_GRID.set bucketX (map2.set bucketY bucket) }))

/-- `HashGrid.deleteBucket` on the grid at position `l`. The arguments are
numbers: a key that is not an integer names no element. -/
def deleteBucket (l : Nat) (bucketX bucketY : ℚ) : M Unit := do
  let g ← grid l
  match (asInt bucketX).bind g.BUCKET_GRID.get with
  | none => M.throw .typeError
  | some map2 =>
    let kx := (asInt bucketX).getD 0
    let map2 := match asInt bucketY with
      | some ky => map2.delete ky
      | none => map2
    if map2.length = 0 then
      M.modify (fun s => s.setGrid l (fun g =>
        { g with BUCKET_GRID := g.BUCKET_GRID.delete kx }))
    else
      M.modify (fun s => s.setGrid l (fun g =>
        { g with BUCKET_GRID := { g.BUCKET_GRID with
            props := fun j => if j = kx then some map2 else g.BUCKET_GRID.props j } }))

/-- `HashGrid.createBucket` on the grid at position `l`; the fuel bounds the
recursion through `NEXT_GRID`. Returns the reference of the new bucket. -/
def createBucket : Nat → Nat → Int → Int → M Nat
  | 0, _, _, _ => M.throw .stuck
  | fuel + 1, l, bucketX, bucketY => do
    let g ← grid l
    let s ← M.read
    let bucket := s.nextBucket
    M.modify (fun s => { s with
      buckets := fun i =>
        if i = bucket then TreeBucket.new bucketX bucketY g.BUCKETSIZE else s.buckets i
      nextBucket := s.nextBucket + 1 })
    setBucket l bucketX bucketY bucket
    match g.NEXT_GRID with
    | none => pure bucket
    | some nl =>
      let x2 : Int := bucketX / 2
      let y2 : Int := bucketY / 2
      let index : Int := (bucketY - y2 * 2) * 2 + bucketX - x2 * 2
      let found ← getBucket nl x2 y2
      let parentbucket ← match found with
        | some p => pure p
        | none => createBucket fuel nl x2 y2
      M.modify (fun s => s.setBucket bucket (fun t => { t with PARENT := some parentbucket }))
      M.modify (fun s => s.setBucket parentbucket (fun t =>
        TreeBucket.updateQuadCache
          { t with CHILDREN := fun k => if k = index then some bucket else t.CHILDREN k }))
      pure bucket

/-- `HashGrid.initializeArea` on the grid at position `l`: the loops run
over `minSize ≤ bucket < maxSize`, and not at all when a bound is missing. -/
def initializeArea (fuel l : Nat) (initialBounds : Bounds) : M Unit := do
  let g ← grid l
  match initialBounds.maxX, initialBounds.maxY, initialBounds.minX, initialBounds.minY with
  | some maxX, some maxY, some minX, some minY =>
    let maxSizeX : Int := ⌈fl (maxX * g.BUCKETSIZE_INV)⌉
    let maxSizeY : Int := ⌈fl (maxY * g.BUCKETSIZE_INV)⌉
    let minSizeX : Int := ⌊fl (minX * g.BUCKETSIZE_INV)⌋
    let minSizeY : Int := ⌊fl (minY * g.BUCKETSIZE_INV)⌋
    forEachM (intRange minSizeX (maxSizeX - 1)) (fun bucketX =>
      forEachM (intRange minSizeY (maxSizeY - 1)) (fun bucketY => do
        let _ ← createBucket fuel l bucketX bucketY
        pure ()))
  | _, _, _, _ => pure ()

/-- `HashGrid.pruneBucket` on the grid at position `l`, for bucket `b`; the
fuel bounds the recursion through `NEXT_GRID`. -/
def pruneBucket : Nat → Nat → Nat → M Unit
  | 0, _, _ => M.throw .stuck
  | fuel + 1, l, b => do
    let g ← grid l
    let s ← M.read
    let t := s.buckets b
    match t.PARENT with
    | some p =>
      if (s.buckets p).COUNTER = 0 then
        match g.NEXT_GRID with
        | some nl => pruneBucket fuel nl p
        | none => M.throw .typeError
      else
        let index : ℚ := jsRem t.X 2 * 2 + jsRem t.Y 2
        M.modify (fun s => s.setBucket p (fun u =>
          TreeBucket.updateQuadCache
            { u with CHILDREN := fun k =>
                if asInt index = some k then none else u.CHILDREN k }))
    | none => pure ()
    M.modify (fun s => s.setBucket b (fun t => { t with COUNTER := -1 }))
    deleteBucket l t.X t.Y

/-- The callback of `HashGrid.prune` at the array position `(kx, ky)`:
`forEach` calls it when the element is present at the time of the visit. -/
def pruneAt (fuel l : Nat) (kx ky : Nat) : M Unit := do
  let g ← grid l
  match (g.BUCKET_GRID.get kx).bind (fun dataX => dataX.get ky) with
  | none => pure ()
  | some b =>
    let s ← M.read
    if (s.buckets b).COUNTER = 0 then pruneBucket fuel l b

/-- `HashGrid.prune` on the grid at position `l`: `forEach` runs over the
array positions below the length read at the start of each loop. -/
def prune (fuel l : Nat) : M Unit := do
  let g ← grid l
  forEachM (List.range g.BUCKET_GRID.length) (fun kx => do
    let g ← grid l
    match g.BUCKET_GRID.get kx with
    | none => pure ()
    | some dataX => forEachM (List.range dataX.length) (fun ky => pruneAt fuel l kx ky))

end HashGrid

namespace JSArray

/-- The elements `forEach` and `every` visit, in order: those present at an
array position below the length. -/
def elems {α : Type} (a : JSArray α) : List α :=
  (List.range a.length).filterMap (fun k => a.props (k : Int))

end JSArray

namespace HashGrid

/-- The bucket span `k1x, k1y, k2x, k2y` of a box in a grid. -/
def span (g : HashGrid) (bounds : Box) : Int × Int × Int × Int :=
  (⌊fl (bounds.minX * g.BUCKETSIZE_INV)⌋, ⌊fl (bounds.minY * g.BUCKETSIZE_INV)⌋,
   ⌊fl (bounds.maxX * g.BUCKETSIZE_INV)⌋, ⌊fl (bounds.maxY * g.BUCKETSIZE_INV)⌋)

/-- `HashGrid.insert` on the grid at position `l`, for entry `e` and its
record in index `id`; `ks` is the span when the caller passes it. The slot
keys are computed on integers; `HashGrid.insertD` computes them as the
source does. -/
def insert (fuel l e id : Nat) (bounds : Box) (ks : Option (Int × Int × Int × Int)) :
    M Unit := do
  let g ← grid l
  let (k1x, k1y, k2x, k2y) := ks.getD (g.span bounds)
  M.modify (fun s => s.setCache e id
    (fun r => { r with k1x := k1x, k1y := k1y, k2x := k2x, k2y := k2y }))
  let width : Int := k2y - k1y + 1
  forEachM (intRange k1x k2x) (fun x =>
    let x2 : Int := (x - k1x) * width - k1y
    forEachM (intRange k1y k2y) (fun y => do
      let found ← getBucket l x y
      let bucket ← match found with
        | some b => pure b
        | none => createBucket fuel l x y
      TreeBucket.set fuel bucket e id (x2 + y)))

/-- `HashGrid.remove` on the grid at position `l`, for the record of entry
`e` in index `id`. -/
def remove (fuel l e id : Nat) : M Unit := do
  let s ← M.read
  match s.cache e id with
  | none => M.throw .typeError
  | some c =>
    let k1x := c.k1x
    let k1y := c.k1y
    let k2x := c.k2x
    let k2y := c.k2y
    let width : Int := k2y - k1y + 1
    forEachM (intRange k1x k2x) (fun x =>
      let x2 : Int := (x - k1x) * width - k1y
      forEachM (intRange k1y k2y) (fun y => do
        let found ← getBucket l x y
        match found with
        | some b => TreeBucket.remove fuel b e id (x2 + y)
        | none => M.throw .typeError))

/-- `HashGrid.update` on the grid at position `l`. -/
def update (fuel l e id : Nat) (bounds : Box) : M Bool := do
  let g ← grid l
  let s ← M.read
  match s.cache e id with
  | none => M.throw .typeError
  | some c =>
    let (k1x, k1y, k2x, k2y) := g.span bounds
    if c.k1x ≠ k1x ∨ c.k1y ≠ k1y ∨ c.k2x ≠ k2x ∨ c.k2y ≠ k2y then
      remove fuel l e id
      insert fuel l e id bounds (some (k1x, k1y, k2x, k2y))
      pure true
    else pure false

/-- `HashGrid.every` on the grid at position `l`; `bounds` is `none` for a
query without a box. -/
def every (fuel l : Nat) (bounds : Option Box) (call : Visitor) (QID : Int)
    (tr : List Nat) : M (Bool × List Nat) := do
  let g ← grid l
  match bounds with
  | none =>
    everyM g.BUCKET_GRID.elems (fun dataX =>
      everyM dataX.elems (TreeBucket.everyAll call QID fuel)) tr
  | some box =>
    let (k1x, k1y, k2x, k2y) := g.span box
    everyM (intRange k1x k2x) (fun x =>
      everyM (intRange k1y k2y) (fun y tr => do
        let found ← getBucket l x y
        match found with
        | some b => TreeBucket.every box call QID fuel b tr
        | none => pure (true, tr))) tr

end HashGrid

/-! ## HashBounds -/

/-- The least `k` with `i ≤ 2 ^ k`: the value of `Math.ceil(Math.log2(i))` for
`i ≥ 1`; for `i = 0` the source stores minus infinity in a byte, which is 0. -/
def ceilLog2 (i : Nat) : Nat :=
  ((List.range (i + 1)).find? (fun k => decide (i ≤ 2 ^ k))).getD 0

namespace HashBounds

/-- `HashBounds.contains`. -/
def contains (s : St) (e : Nat) : Bool :=
  match s.cache e s.hb.ID with
  | some c => c.isInHash
  | none => false

/-- The table `setupLog2` builds: a byte array of length
`⌊2 ^ (LEVEL_COUNT - 2) + 1⌋`. -/
def setupLog2 (levelCount : Nat) : List Nat :=
  let pow : ℚ := (2 : ℚ) ^ ((levelCount : Int) - 2) + 1
  (List.range ⌊pow⌋₊).map (fun i => ceilLog2 i % 256)

/-- `HashBounds.getLevel` for the record of entry `e`; the result is `none`
when the source reads `undefined` from the table. -/
def getLevel (bounds : Box) (e : Nat) : M (Option Nat) := do
  let s ← M.read
  match s.cache e s.hb.ID with
  | none => M.throw .typeError
  | some c =>
    if c.cacheWidth = bounds.width ∧ c.cacheHeight = bounds.height then
      pure c.cachedIndex
    else
      let i : Int := ⌈fl (max bounds.width bounds.height * s.hb.MIN_SIZE_INV)⌉
      let index : Option Nat :=
        if i ≥ (s.hb.LOG2CACHE.length : Int) then some (s.hb.LEVEL_COUNT - 1)
        else if i < 0 then none
        else s.hb.LOG2CACHE[i.toNat]?
      M.modify (fun s => s.setCache e s.hb.ID (fun r =>
        { r with cachedIndex := index, cacheWidth := bounds.width,
                 cacheHeight := bounds.height }))
      pure index

/-- The level `getLevel` computes from a width and a height when it does not
answer from the record: the table entry at the ceiling of the rounded
product `max(width, height) * MIN_SIZE_INV`, the coarsest level beyond the
table, `none` for `undefined`. -/
def levelFor (hb : HashBounds) (width height : ℚ) : Option Nat :=
  let i : Int := ⌈fl (max width height * hb.MIN_SIZE_INV)⌉
  if i ≥ (hb.LOG2CACHE.length : Int) then some (hb.LEVEL_COUNT - 1)
  else if i < 0 then none
  else hb.LOG2CACHE[i.toNat]?

/-- The record `insert` creates on an entry the index has not seen. -/
def freshCache (id : Nat) : EntryCache :=
  { k1x := 0, k1y := 0, k2x := 0, k2y := 0
    indexes := fun k => if 0 ≤ k ∧ k < 4 then some 0 else none
    cachedIndex := some 0
    cacheWidth := 0
    cacheHeight := 0
    hashID := id
    isInHash := false }

/-- The entry `e` after `insert` has created its record for index `id`. -/
def createCache (s : St) (e id : Nat) : St :=
  { s with entries := fun i =>
      if i = e then
        { _HashBounds := fun j => if j = id then some (freshCache id)
                                   else (s.entries e)._HashBounds j
          _HashBoundsTempCheck := some (-1) }
      else s.entries i }

/-- `HashBounds.insert`. A box with a missing number stops the run with
`Err.stuck` after the record has been marked: the source goes on with
not-a-number there, which the records of the embedding cannot hold. -/
def insert (e : Nat) (bounds : Bounds) : M Unit := do
  let s ← M.read
  if contains s e then M.throw .alreadyPresent
  else
    if (s.cache e s.hb.ID).isNone then M.modify (fun s => createCache s e s.hb.ID)
    match convertBoundsD bounds with
    | .error err => M.throw err
    | .ok cb =>
      M.modify (fun s => s.setCache e s.hb.ID (fun r => { r with isInHash := true }))
      match cb.box? with
      | none => M.throw .stuck
      | some box =>
        let level ← getLevel box e
        match level with
        | none => M.throw .typeError
        | some l => HashGrid.insert s.hb.LEVELS.length l e s.hb.ID box none

/-- `HashBounds.remove`. -/
def remove (e : Nat) : M Unit := do
  let s ← M.read
  if !contains s e then M.throw .notPresent
  else
    match (s.cache e s.hb.ID).bind (fun c => c.cachedIndex) with
    | none => M.throw .typeError
    | some l =>
      HashGrid.remove s.hb.LEVELS.length l e s.hb.ID
      M.modify (fun s => s.setCache e s.hb.ID (fun r => { r with isInHash := false }))

/-- `HashBounds.update`. A box with a missing number stops the run with
`Err.stuck`, as in `insert`. -/
def update (e : Nat) (bounds : Bounds) : M Bool := do
  let s ← M.read
  if !contains s e then M.throw .notPresent
  else
    match convertBoundsD bounds with
    | .error err => M.throw err
    | .ok cb =>
      match cb.box? with
      | none => M.throw .stuck
      | some box =>
        let prev := (s.cache e s.hb.ID).bind (fun c => c.cachedIndex)
        let level ← getLevel box e
        if prev ≠ level then
          match prev with
          | none => M.throw .typeError
          | some pl =>
            HashGrid.remove s.hb.LEVELS.length pl e s.hb.ID
            match level with
            | none => M.throw .typeError
            | some l =>
              HashGrid.insert s.hb.LEVELS.length l e s.hb.ID box none
              pure true
        else
          match level with
          | none => M.throw .typeError
          | some l => HashGrid.update s.hb.LEVELS.length l e s.hb.ID box

/-- The call `this.BASE.every(bounds, call, QID)`. -/
def baseEvery (bounds : Option Box) (call : Visitor) (QID : Int) : M (Bool × List Nat) := do
  let s ← M.read
  match s.hb.BASE with
  | none => M.throw .typeError
  | some l => HashGrid.every s.hb.LEVELS.length l bounds call QID []

/-- The expression `this.QUERYID++`. -/
def nextQueryID : M Int := do
  let s ← M.read
  M.modify (fun s => { s with hb := { s.hb with QUERYID := s.hb.QUERYID + 1 } })
  pure s.hb.QUERYID

/-- `HashBounds.getQueryID`. When the counter has reached 4294967295 it is
set to -1 and `forEach` is run with a visitor that does nothing; the id of
that inner query is drawn by `getQueryID` itself, which finds the counter at
-1 and so takes the plain branch. -/
def getQueryID : M Int := do
  let s ← M.read
  if s.hb.QUERYID ≥ 4294967295 then
    M.modify (fun s => { s with hb := { s.hb with QUERYID := -1 } })
    let QID ← nextQueryID
    let _ ← baseEvery none (fun _ _ => true) QID
    pure ()
  nextQueryID

/-- The box a query walks with: `none` without bounds; with bounds, the
numbers of the converted object (a query whose converted bounds miss a
number finds every loop condition false: `some none`). -/
def queryBox (bounds : Option Bounds) : Except Err (Option (Option Box)) :=
  match bounds with
  | none => .ok none
  | some b =>
    match convertBoundsD b with
    | .error err => .error err
    | .ok cb => .ok (some cb.box?)

/-- The shared body of `toArray`, `every` and `forEach`: the answer of the
traversal and the entries handed to the visitor, in order. -/
def query (bounds : Option Bounds) (call : Visitor) : M (Bool × List Nat) := do
  match queryBox bounds with
  | .error err => M.throw err
  | .ok qb =>
    let QID ← getQueryID
    match qb with
    | none => baseEvery none call QID
    | some (some box) => baseEvery (some box) call QID
    | some none =>
      let s ← M.read
      match s.hb.BASE with
      | none => M.throw .typeError
      | some _ => pure (true, [])

/-- `HashBounds.every`: whether the traversal was exhausted. -/
def every (bounds : Option Bounds) (call : Visitor) : M Bool := do
  let r ← query bounds call
  pure r.1

/-- `HashBounds.forEach`: the visitor's answers are ignored. The result is
the list of entries handed to the visitor. -/
def forEach (bounds : Option Bounds) : M (List Nat) := do
  let r ← query bounds (fun _ _ => true)
  pure r.2

/-- `HashBounds.toArray`. -/
def toArray (bounds : Option Bounds) : M (List Nat) := do
  let r ← query bounds (fun _ _ => true)
  pure r.2

/-- `HashBounds.prune`. -/
def prune : M Unit := do
  let s ← M.read
  HashGrid.prune s.hb.LEVELS.length 0

/-- `HashBounds.createLevels`. The bucket size `MIN_SIZE * Math.pow(2, level)`
is a double times a power of two, which no rounding changes. -/
def createLevels : M Unit := do
  let s ← M.read
  let n := s.hb.LEVEL_COUNT
  M.modify (fun s => { s with hb := { s.hb with
    LEVELS := (List.range n).map (fun level =>
      HashGrid.new (s.hb.MIN_SIZE * (2 : ℚ) ^ level) level) } })
  M.modify (fun s => { s with hb := { s.hb with
    LEVELS := (List.range n).zipWith (fun level g =>
      { g with PREV_GRID := if level > 0 then some (level - 1) else none
               NEXT_GRID := if level < n - 1 then some (level + 1) else none })
      s.hb.LEVELS } })
  M.modify (fun s => { s with hb := { s.hb with
    BASE := if n - 1 < s.hb.LEVELS.length then some (n - 1) else none } })

/-- `HashBounds.init`: `createLevels`, then `initializeArea` on the finest
grid. -/
def init : M Unit := do
  createLevels
  let s ← M.read
  HashGrid.initializeArea s.hb.LEVELS.length 0 s.hb.INITIAL_BOUNDS

/-- The `HashBounds` constructor: it replaces the index of the state.
`setupLog2` asks for a byte array of length `2 ^ (levelCount - 2) + 1`, which
the engine refuses with a `RangeError` beyond `2 ^ 53 - 1`. An engine that
cannot allocate a shorter array refuses it as well; the embedding has no
bound on memory. -/
def new (minSize : ℚ) (levelCount : Int) (initialBounds : Option Bounds)
    (id : Option Nat) : M Unit := do
  if levelCount < 1 then M.throw .levelCount
  else
    let s ← M.read
    let theID := match id with
      | some i => i
      | none => s.LAST_ID
    if id.isNone then M.modify (fun s => { s with LAST_ID := s.LAST_ID + 1 })
    match convertBoundsD (initialBounds.getD {}) with
    | .error err => M.throw err
    | .ok ib =>
      if (2 : ℚ) ^ (levelCount - 2) + 1 > 9007199254740991 then M.throw .rangeError
      else
        M.modify (fun s => { s with hb :=
          { ID := theID
            MIN_SIZE := minSize
            MIN_SIZE_INV := fl (1 / minSize)
            LEVEL_COUNT := levelCount.toNat
            INITIAL_BOUNDS := ib
            LEVELS := []
            BASE := none
            LOG2CACHE := setupLog2 levelCount.toNat
            QUERYID := 0 } })
        init

end HashBounds

/-! ## Further functions of the source -/

/-- `Math.max` of two possibly missing numbers. -/
def jsMax (a b : Option ℚ) : Option ℚ :=
  match a, b with
  | some p, some q => some (max p q)
  | _, _ => none

/-- `Math.min` of two possibly missing numbers. -/
def jsMin (a b : Option ℚ) : Option ℚ :=
  match a, b with
  | some p, some q => some (min p q)
  | _, _ => none

/-- The comparison `a > b` of two possibly missing numbers: false when one
is missing. -/
def jsGt (a b : Option ℚ) : Bool :=
  match a, b with
  | some p, some q => decide (p > q)
  | _, _ => false

/-- The comparison `a >= b` of two possibly missing numbers. -/
def jsGe (a b : Option ℚ) : Bool :=
  match a, b with
  | some p, some q => decide (p ≥ q)
  | _, _ => false

/-- The comparison `a <= b` of two possibly missing numbers. -/
def jsLe (a b : Option ℚ) : Bool :=
  match a, b with
  | some p, some q => decide (p ≤ q)
  | _, _ => false

namespace HashBounds

/-- `HashBounds.truncateBounds`: the bounds object after the call, or the
error for an object that is not tagged 1 or 2. -/
def truncateBounds (b : Bounds) (minX minY maxX maxY : ℚ) : Except Err Bounds :=
  match b.TYPE with
  | some 1 =>
    let x := jsMax b.x (some minX)
    let y := jsMax b.y (some minY)
    let width := if jsGt (jsAdd x b.width) (some maxX) then jsSub (some maxX) x else b.width
    let height := if jsGt (jsAdd y b.height) (some maxY) then jsSub (some maxY) y else b.height
    .ok { b with x := x, y := y, width := width, height := height }
  | some 2 =>
    .ok { b with minX := jsMax b.minX (some minX), minY := jsMax b.minY (some minY),
                 maxX := jsMin b.maxX (some maxX), maxY := jsMin b.maxY (some maxY) }
  | _ => .error .notFormatted

/-- `HashBounds.truncateBounds` with the sums and differences rounded. -/
def truncateBoundsD (b : Bounds) (minX minY maxX maxY : ℚ) : Except Err Bounds :=
  match b.TYPE with
  | some 1 =>
    let x := jsMax b.x (some minX)
    let y := jsMax b.y (some minY)
    let width := if jsGt (jsAddD x b.width) (some maxX) then jsSubD (some maxX) x else b.width
    let height :=
      if jsGt (jsAddD y b.height) (some maxY) then jsSubD (some maxY) y else b.height
    .ok { b with x := x, y := y, width := width, height := height }
  | some 2 =>
    .ok { b with minX := jsMax b.minX (some minX), minY := jsMax b.minY (some minY),
                 maxX := jsMin b.maxX (some maxX), maxY := jsMin b.maxY (some maxY) }
  | _ => .error .notFormatted

/-- `HashBounds.boundsContains` on bounds objects, whose fields may be
missing. -/
def boundsContainsObj (b1 b2 : Bounds) : Bool :=
  jsGe b1.minX b2.minX && jsLe b1.maxX b2.maxX && jsGe b1.minY b2.minY
    && jsLe b1.maxY b2.maxY

/-- `HashBounds.boundsFitsInHash`. -/
def boundsFitsInHash (bounds : Bounds) : M Bool := do
  match convertBoundsD bounds with
  | .error err => M.throw err
  | .ok cb =>
    let s ← M.read
    pure (boundsContainsObj cb s.hb.INITIAL_BOUNDS)

/-- `HashBounds.clear`. -/
def clear : M Unit := do
  M.modify (fun s => { s with hb := { s.hb with LEVELS := [] } })
  M.modify (fun s => { s with hb := { s.hb with ID := s.LAST_ID }, LAST_ID := s.LAST_ID + 1 })
  init

end HashBounds

/-- The store seen from another index object: the entries and the bucket
objects are shared, the index is `h`. -/
def St.withIndex (s : St) (h : HashBounds) : St := { s with hb := h }

/-! ## The slot keys as the source computes them

The functions above compute slot keys on integers. The following ones
compute them as the source does, every operation rounded to a double. The
keys agree for bucket coordinates within `2 ^ 25` in absolute value. -/

/-- The slot key `(x - k1x) * (k2y - k1y + 1) - k1y + y` that `HashGrid.insert`
and `HashGrid.remove` compute for the bucket `(x, y)` from the span they
hold, every operation rounded to a double. -/
def slotKeyD (k1x k1y k2y x y : Int) : ℚ :=
  fl (fl (fl (fl ((x : ℚ) - k1x) * fl (fl ((k2y : ℚ) - k1y) + 1)) - k1y) + y)

/-- The slot key of the bucket `(x, y)` for the span of a record, as the
source computes it. -/
def EntryCache.keyD (c : EntryCache) (x y : Int) : ℚ :=
  slotKeyD c.k1x c.k1y c.k2y x y

/-- The key `(BUCKET_X - k1x) * (k2y - k1y + 1) + BUCKET_Y - k1y` that
`TreeBucket.remove` computes for the entry it moves, in the bucket
`(x, y)`, every operation rounded to a double. -/
def EntryCache.swapKeyD (c : EntryCache) (x y : Int) : ℚ :=
  fl (fl (fl (fl ((x : ℚ) - c.k1x) * fl (fl ((c.k2y : ℚ) - c.k1y) + 1)) + y) - c.k1y)

/-- `TreeBucket.remove` on bucket `b` with the `swapKey` rounded
(`EntryCache.swapKeyD`), and with the source's treatment of every slot
index: a slot index equal to the length of the item list makes the
assignment `ITEM_LIST[index] = ...` append to the list, and a missing slot
index makes it set a property that is no element of the list. A slot index
beyond the length, which would leave a hole in the list, stops the run with
`Err.stuck`. On an empty item list the source raises its `TypeError` after
an assignment of `undefined`, which the item lists of the embedding cannot
hold. -/
def TreeBucket.removeD (fuel b e id : Nat) (indexKey : Int) : M Unit := do
  let s ← M.read
  match s.cache e id with
  | none => M.throw .typeError
  | some c =>
    let items := (s.buckets b).ITEM_LIST
    let index : Option Nat := c.indexes indexKey
    let len1 : Int := (items.length : Int) - 1
    if index.map (fun (i : Nat) => (i : Int)) ≠ some len1 then
      match items.getLast? with
      | none => M.throw .typeError
      | some swap =>
        match index with
        | none => pure ()
        | some i =>
          if i < items.length then
            M.modify (fun s => s.setBucket b
              (fun t => { t with ITEM_LIST := t.ITEM_LIST.set i swap }))
          else if i = items.length then
            M.modify (fun s => s.setBucket b
              (fun t => { t with ITEM_LIST := t.ITEM_LIST ++ [swap] }))
          else M.throw .stuck
        match s.cache swap c.hashID with
        | none => M.throw .typeError
        | some c2 =>
          let t := s.buckets b
          let swapKey : Int := ⌊c2.swapKeyD t.BUCKET_X t.BUCKET_Y⌋
          M.modify (fun s => s.setCache swap c.hashID (fun r =>
            { r with indexes := fun j => if j = swapKey then index else r.indexes j }))
    M.modify (fun s => s.setBucket b
      (fun t => { t with ITEM_LIST := t.ITEM_LIST.dropLast }))
    if len1 = 0 then TreeBucket.subtract fuel b

/-- `HashGrid.insert`, called without a span, with the slot keys rounded
(`slotKeyD`). -/
def HashGrid.insertD (fuel l e id : Nat) (bounds : Box) : M Unit := do
  let g ← HashGrid.grid l
  let (k1x, k1y, k2x, k2y) := g.span bounds
  M.modify (fun s => s.setCache e id
    (fun r => { r with k1x := k1x, k1y := k1y, k2x := k2x, k2y := k2y }))
  forEachM (intRange k1x k2x) (fun x =>
    forEachM (intRange k1y k2y) (fun y => do
      let found ← HashGrid.getBucket l x y
      let bucket ← match found with
        | some b => pure b
        | none => HashGrid.createBucket fuel l x y
      TreeBucket.set fuel bucket e id ⌊slotKeyD k1x k1y k2y x y⌋))

/-- `HashGrid.remove` with the slot keys rounded. -/
def HashGrid.removeD (fuel l e id : Nat) : M Unit := do
  let s ← M.read
  match s.cache e id with
  | none => M.throw .typeError
  | some c =>
    forEachM (intRange c.k1x c.k2x) (fun x =>
      forEachM (intRange c.k1y c.k2y) (fun y => do
        let found ← HashGrid.getBucket l x y
        match found with
        | some b => TreeBucket.removeD fuel b e id ⌊c.keyD x y⌋
        | none => M.throw .typeError))

/-- `HashBounds.insert` with the slot keys rounded. -/
def HashBounds.insertD (e : Nat) (bounds : Bounds) : M Unit := do
  let s ← M.read
  if HashBounds.contains s e then M.throw .alreadyPresent
  else
    if (s.cache e s.hb.ID).isNone then M.modify (fun s => HashBounds.createCache s e s.hb.ID)
    match HashBounds.convertBoundsD bounds with
    | .error err => M.throw err
    | .ok cb =>
      M.modify (fun s => s.setCache e s.hb.ID (fun r => { r with isInHash := true }))
      match cb.box? with
      | none => M.throw .stuck
      | some box =>
        let level ← HashBounds.getLevel box e
        match level with
        | none => M.throw .typeError
        | some l => HashGrid.insertD s.hb.LEVELS.length l e s.hb.ID box

/-- `HashBounds.remove` with the slot keys rounded. -/
def HashBounds.removeD (e : Nat) : M Unit := do
  let s ← M.read
  if !HashBounds.contains s e then M.throw .notPresent
  else
    match (s.cache e s.hb.ID).bind (fun c => c.cachedIndex) with
    | none => M.throw .typeError
    | some l =>
      HashGrid.removeD s.hb.LEVELS.length l e s.hb.ID
      M.modify (fun s => s.setCache e s.hb.ID (fun r => { r with isInHash := false }))

/-! ## Running the index -/

deriving instance DecidableEq for Except

/-- The state after a run. -/
def M.exec {α : Type} (m : M α) (s : St) : St := (m s).2

/-- The result of a run. -/
def M.val {α : Type} (m : M α) (s : St) : Except Err α := (m s).1

/-- A store without buckets whose entries carry no record and no stamp;
the index in it is a placeholder that the constructor replaces. -/
def St.blank : St :=
  { hb := { ID := 0, MIN_SIZE := 0, MIN_SIZE_INV := 0, LEVEL_COUNT := 0
            INITIAL_BOUNDS := {}, LEVELS := [], BASE := none, LOG2CACHE := []
            QUERYID := 0 }
    entries := fun _ => ⟨fun _ => none, none⟩
    buckets := fun _ => TreeBucket.new 0 0 0
    nextBucket := 0
    LAST_ID := 0 }

/-- The boxes last passed to `insert` or `update`, by entry (`none` for an
entry that is not in the index). -/
abbrev Boxes : Type := Nat → Option Box

/-- Two levels of bucket size 16 and 32, no entry. -/
def exTouch0 : St := (HashBounds.new 16 2 none none).exec St.blank

/-- Entry 0 at `[0,1] × [0,1]` in the index `exTouch0`. -/
def exTouch1 : St := (HashBounds.insert 0 (Bounds.ps 0 0 1 1)).exec exTouch0

/-- Entry 1 at `[16,17] × [0,1]` added to `exTouch1`: the two entries sit in
the two lower quadrants of the coarse bucket `(0,0)`, whose `HALFX` is 16. -/
def exTouch : St := (HashBounds.insert 1 (Bounds.ps 16 0 1 1)).exec exTouch1

/-- The current boxes of the entries of `exTouch`. -/
def boxesTouch : Boxes :=
  Function.update (Function.update (fun _ => none) 0 (some ⟨0, 0, 1, 1, 1, 1⟩))
    1 (some ⟨16, 0, 17, 1, 1, 1⟩)

/-- One level of bucket size 16, no entry. -/
def exNegative0 : St := (HashBounds.new 16 1 none none).exec St.blank

/-- Entry 0 at `[-16,-15] × [0,1]` in the index `exNegative0`, in the bucket
`(-1, 0)`. -/
def exNegative : St := (HashBounds.insert 0 (Bounds.ps (-16) 0 1 1)).exec exNegative0

/-- The current box of the entry of `exNegative`. -/
def boxesNegative : Boxes :=
  Function.update (fun _ => none) 0 (some ⟨-16, 0, -15, 1, 1, 1⟩)

/-- The entry of `exNegative` removed again. -/
def exRemoved : St := (HashBounds.remove 0).exec exNegative

/-- The index `exRemoved` after `prune()`. -/
def exNegativePruned : St := HashBounds.prune.exec exRemoved

/-- The entry inserted once more, with the same box. -/
def exReinserted : St := (HashBounds.insert 0 (Bounds.ps (-16) 0 1 1)).exec exRemoved

/-- The store with the query counter of the index set to `q`, as by the
assignment `hash.QUERYID = q`. -/
def St.withQueryID (s : St) (q : Int) : St :=
  { s with hb := { s.hb with QUERYID := q } }

/-- The index `exTouch0` after `insert` of entry 0 with a box of negative
width and height. -/
def exNegSize : St := (HashBounds.insert 0 (Bounds.ps 0 0 (-16) (-16))).exec exTouch0

/-- Two indexes over one store: `A = new HashBounds(16, 1)`. -/
def exTwoA0 : St := (HashBounds.new 16 1 none none).exec St.blank

/-- Two indexes over one store: `B = new HashBounds(16, 1)`, constructed
after `A`. -/
def exTwoB0 : St := (HashBounds.new 16 1 none none).exec exTwoA0

/-- Two indexes over one store: after `A.insert(entry 0, box)`. -/
def exTwoA1 : St :=
  (HashBounds.insert 0 (Bounds.ps 0 0 1 1)).exec (exTwoB0.withIndex exTwoA0.hb)

/-- Two indexes over one store: after `B.insert(entry 0, box)`. -/
def exTwoB1 : St :=
  (HashBounds.insert 0 (Bounds.ps 0 0 1 1)).exec (exTwoA1.withIndex exTwoB0.hb)

/-- Two indexes over one store: after `A.toArray()`. -/
def exTwoA2 : St := (HashBounds.toArray none).exec (exTwoB1.withIndex exTwoA1.hb)

/-- The index `new HashBounds(16, 1, {minX: 0, minY: 0, maxX: 16, maxY: 16})`. -/
def exWarm : St := (HashBounds.new 16 1 (some (Bounds.mm 0 0 16 16)) none).exec St.blank

/-- The index `exWarm` after `insert` of entry 0 with the initial bounds as
its box. -/
def exWarmInserted : St := (HashBounds.insert 0 (Bounds.mm 0 0 16 16)).exec exWarm

/-- The index `new HashBounds(16, 1, undefined, 0)` in a program that has
constructed no index before. -/
def exClear0 : St := (HashBounds.new 16 1 none (some 0)).exec St.blank

/-- The index `exClear0` after `insert` of entry 0. -/
def exClear1 : St := (HashBounds.insert 0 (Bounds.ps 0 0 1 1)).exec exClear0

/-- The index `exClear1` after `clear()`. -/
def exCleared : St := HashBounds.clear.exec exClear1

/-- The index `exNegative` after a query with the box of its entry. -/
def exWrap0 : St := (HashBounds.toArray (some (Bounds.mm (-16) 0 (-15) 1))).exec exNegative

/-- The index `exWrap0` with its query counter at the wrap-around. -/
def exWrap : St := exWrap0.withQueryID 4294967295

/-- The index `exWrap` after the query that wraps the counter. -/
def exWrapped : St := (HashBounds.toArray (some (Bounds.mm (-16) 0 (-15) 1))).exec exWrap

/-- The index `exTouch` after `remove` of entry 1. -/
def exTouchRemoved : St := (HashBounds.remove 1).exec exTouch

/-- The index `exTouchRemoved` after `prune()`. -/
def exTouchPruned : St := HashBounds.prune.exec exTouchRemoved

/-- The index `new HashBounds(16, 2)`, entry 0 inserted at `(0, 0)`. -/
def exColumn1 : St := (HashBounds.insert 0 (Bounds.ps 0 0 1 1)).exec exTouch0

/-- The index `exColumn1`, entry 1 inserted at `(0, 16)`. -/
def exColumn : St := (HashBounds.insert 1 (Bounds.ps 0 16 1 1)).exec exColumn1

/-- The current boxes of `exColumn`. -/
def boxesColumn : Boxes :=
  Function.update (Function.update (fun _ => none) 0 (some ⟨0, 0, 1, 1, 1, 1⟩)) 1
    (some ⟨0, 16, 1, 17, 1, 1⟩)

/-- The index `exColumn` after `remove` of entry 1. -/
def exColumnRemoved : St := (HashBounds.remove 1).exec exColumn

/-- The index `exColumnRemoved` after `prune()`. -/
def exColumnPruned : St := HashBounds.prune.exec exColumnRemoved

/-- The index `new HashBounds(16, 3)`. -/
def exThree0 : St := (HashBounds.new 16 3 none none).exec St.blank

/-- The index `exThree0`, entry 0 inserted at `(0, 0)`. -/
def exThree1 : St := (HashBounds.insert 0 (Bounds.ps 0 0 1 1)).exec exThree0

/-- The index `exThree1`, entry 1 inserted at `(16, 0)`. -/
def exThree : St := (HashBounds.insert 1 (Bounds.ps 16 0 1 1)).exec exThree1

/-- The current boxes of `exThree`. -/
def boxesThree : Boxes :=
  Function.update (Function.update (fun _ => none) 0 (some ⟨0, 0, 1, 1, 1, 1⟩)) 1
    (some ⟨16, 0, 17, 1, 1, 1⟩)

/-- The index `new HashBounds(16, 1)`, entry 0 inserted at `(0, 0)`. -/
def exStale1 : St := (HashBounds.insert 0 (Bounds.ps 0 0 1 1)).exec exNegative0

/-- The index `exStale1` after a first query. -/
def exStale2 : St := (HashBounds.toArray none).exec exStale1

/-- The index `exStale2` after a second query: entry 0 carries the stamp 1. -/
def exStale3 : St := (HashBounds.toArray none).exec exStale2

/-- The index `exStale3` after `remove` of entry 0. -/
def exStale4 : St := (HashBounds.remove 0).exec exStale3

/-- The index `exStale4` with its query counter at the wrap-around. -/
def exStale5 : St := exStale4.withQueryID 4294967295

/-- The index `exStale5` after the query that wraps the counter. -/
def exStale6 : St := (HashBounds.toArray none).exec exStale5

/-- The index `exStale6` after entry 0 has been inserted again. -/
def exStale7 : St := (HashBounds.insert 0 (Bounds.ps 0 0 1 1)).exec exStale6

/-- The index `new HashBounds(16, 1)`, entry 0 inserted at `(256, 0)`. -/
def exFar1 : St := (HashBounds.insert 0 (Bounds.ps 256 0 1 1)).exec exNegative0

/-- The index `exFar1`, entry 1 inserted at `(16, 0)`. -/
def exFar2 : St := (HashBounds.insert 1 (Bounds.ps 16 0 1 1)).exec exFar1

/-- The current boxes of `exFar2`. -/
def boxesFar : Boxes :=
  Function.update (Function.update (fun _ => none) 0 (some ⟨256, 0, 257, 1, 1, 1⟩)) 1
    (some ⟨16, 0, 17, 1, 1, 1⟩)

/-- The index `exFar2` after `remove` of entry 1. -/
def exFar3 : St := (HashBounds.remove 1).exec exFar2

/-- The index `exFar3` after `prune()`. -/
def exFarPruned : St := HashBounds.prune.exec exFar3

/-- The index `new HashBounds(16, 1)`, entry 0 inserted with the box
`[8, 24] × [0, 1]`, which lies in the buckets `(0, 0)` and `(1, 0)`. -/
def exWide : St := (HashBounds.insert 0 (Bounds.ps 8 0 16 1)).exec exNegative0

/-- The box of the entry of `exWide`. -/
def boxesWide : Boxes :=
  Function.update (fun _ => none) 0 (some ⟨8, 0, 24, 1, 16, 1⟩)

/-- One level of bucket size 49, no entry. -/
def exSeven0 : St := (HashBounds.new 49 1 none none).exec St.blank

/-- Entry 0 inserted into `exSeven0` with the box `{x: 49, y: 0, width: 1,
height: 1}`. -/
def exSeven : St := (HashBounds.insert 0 (Bounds.ps 49 0 1 1)).exec exSeven0

/-- Two levels of bucket size 49 and 98, no entry. -/
def exSquare0 : St := (HashBounds.new 49 2 none none).exec St.blank

/-- Entry 0 inserted into `exSquare0` with the box `{x: 196, y: 196,
width: 49, height: 49}`. -/
def exSquare : St := (HashBounds.insert 0 (Bounds.ps 196 196 49 49)).exec exSquare0

/-- The double next above 3, which prints as `3.0000000000000004`. -/
def aboveThree : ℚ := 3 + 1 / 2 ^ 51

/-- Two levels of bucket size 3 and 6, no entry. -/
def exThird0 : St := (HashBounds.new 3 2 none none).exec St.blank

/-- Entry 0 inserted into `exThird0` with the box `{x: 0, y: 0,
width: 3.0000000000000004, height: 1}`. -/
def exThird : St := (HashBounds.insert 0 (Bounds.ps 0 0 aboveThree 1)).exec exThird0

/-- The double next below 15, which prints as `14.999999999999998`. -/
def belowFifteen : ℚ := 15 - 1 / 2 ^ 49

/-- Two levels of bucket size 5 and 10, no entry. -/
def exFive0 : St := (HashBounds.new 5 2 none none).exec St.blank

/-- Entry 0 inserted into `exFive0` with the box `{x: 11, y: 0, width: 1,
height: 1}`. -/
def exFive1 : St := (HashBounds.insert 0 (Bounds.ps 11 0 1 1)).exec exFive0

/-- Entry 1 inserted into `exFive1` with the box `{x: 14.999999999999998,
y: 0, width: 1, height: 1}`. -/
def exFive : St := (HashBounds.insert 1 (Bounds.ps belowFifteen 0 1 1)).exec exFive1

/-- The box `{x: -5, y: 0, width: 10, height: 1}` after `convertBounds`,
`truncateBounds` to the area `[-10, 0.2] × [-10, 10]` and `convertBounds`
again, every sum and difference rounded; `0.2` is the double nearest to
`1 / 5`. -/
def exTruncated : Except Err Bounds :=
  HashBounds.convertBoundsD (Bounds.ps (-5) 0 10 1)
    >>= (fun b => HashBounds.truncateBoundsD b (-10) (-10) (fl (1 / 5)) 10)
    >>= HashBounds.convertBoundsD

/-- One level of bucket size 1, no entry. -/
def exEdge0 : St := (HashBounds.new 1 1 none none).exec St.blank

/-- Entry 0 inserted into `exEdge0` with the box `{x: 0,
y: 9007199254740990, width: 1, height: 1}`; `9007199254740990` is
`2 ^ 53 - 2`. The slot keys are those of the source. -/
def exEdge1 : St := (HashBounds.insertD 0 (Bounds.ps 0 (2 ^ 53 - 2) 1 1)).exec exEdge0

/-- Entry 1 inserted into `exEdge1` with the same box. -/
def exEdge2 : St := (HashBounds.insertD 1 (Bounds.ps 0 (2 ^ 53 - 2) 1 1)).exec exEdge1

/-- Entry 0 removed from `exEdge2`. -/
def exEdge3 : St := (HashBounds.removeD 0).exec exEdge2

/-- Entry 1 removed from `exEdge3`. -/
def exEdge4 : St := (HashBounds.removeD 1).exec exEdge3

/-! ## The build artifact

The classes `TreeBucket` and `HashBounds` of `src/dist/HashBounds.js` have
the text of the module sources. Its `HashGrid` keeps `BUCKET_GRID` in plain
objects and differs in `initializeArea`, `deleteBucket`, `prune`,
`pruneBucket` and `every`; `getBucket`, `setBucket` and `createBucket` read
and write the same keys. -/

/-- `HashGrid.initializeArea` of the build artifact: the loops run over
`minSize ≤ bucket ≤ maxSize`. -/
def HashGrid.initializeAreaDist (fuel l : Nat) (initialBounds : Bounds) : M Unit := do
  let g ← HashGrid.grid l
  match initialBounds.maxX, initialBounds.maxY, initialBounds.minX, initialBounds.minY with
  | some maxX, some maxY, some minX, some minY =>
    let maxSizeX : Int := ⌈fl (maxX * g.BUCKETSIZE_INV)⌉
    let maxSizeY : Int := ⌈fl (maxY * g.BUCKETSIZE_INV)⌉
    let minSizeX : Int := ⌊fl (minX * g.BUCKETSIZE_INV)⌋
    let minSizeY : Int := ⌊fl (minY * g.BUCKETSIZE_INV)⌋
    forEachM (intRange minSizeX maxSizeX) (fun bucketX =>
      forEachM (intRange minSizeY maxSizeY) (fun bucketY => do
        let _ ← HashGrid.createBucket fuel l bucketX bucketY
        pure ()))
  | _, _, _, _ => pure ()

/-- `HashBounds.init` of the build artifact. -/
def HashBounds.initDist : M Unit := do
  HashBounds.createLevels
  let s ← M.read
  HashGrid.initializeAreaDist s.hb.LEVELS.length 0 s.hb.INITIAL_BOUNDS

/-- The `HashBounds` constructor of the build artifact. -/
def HashBounds.newDist (minSize : ℚ) (levelCount : Int) (initialBounds : Option Bounds)
    (id : Option Nat) : M Unit := do
  if levelCount < 1 then M.throw .levelCount
  else
    let s ← M.read
    let theID := match id with
      | some i => i
      | none => s.LAST_ID
    if id.isNone then M.modify (fun s => { s with LAST_ID := s.LAST_ID + 1 })
    match HashBounds.convertBoundsD (initialBounds.getD {}) with
    | .error err => M.throw err
    | .ok ib =>
      if (2 : ℚ) ^ (levelCount - 2) + 1 > 9007199254740991 then M.throw .rangeError
      else
        M.modify (fun s => { s with hb :=
          { ID := theID
            MIN_SIZE := minSize
            MIN_SIZE_INV := fl (1 / minSize)
            LEVEL_COUNT := levelCount.toNat
            INITIAL_BOUNDS := ib
            LEVELS := []
            BASE := none
            LOG2CACHE := HashBounds.setupLog2 levelCount.toNat
            QUERYID := 0 } })
        HashBounds.initDist

/-- The build artifact's `new HashBounds(16, 1, {minX: 0, minY: 0, maxX: 16,
maxY: 16})`. -/
def exWarmDist : St :=
  (HashBounds.newDist 16 1 (some (Bounds.mm 0 0 16 16)) none).exec St.blank

/-! ## Invariants of the reachable states -/

/-- The bucket resident at `(x, y)` in the grid at position `l`: what
`getBucket` returns. -/
def St.resident (s : St) (l : Nat) (x y : Int) : Option Nat :=
  match s.hb.LEVELS[l]? with
  | some g =>
    match g.BUCKET_GRID.get x with
    | some map2 => map2.get y
    | none => none
  | none => none

/-- The key of bucket `(x, y)` in `indexes`: the value `x2 + y` of
`HashGrid.insert` and the `swapKey` of `TreeBucket.remove`. -/
def EntryCache.key (c : EntryCache) (x y : Int) : Int :=
  (x - c.k1x) * (c.k2y - c.k1y + 1) + y - c.k1y

/-- Whether bucket `(x, y)` lies in the stored span of a record. -/
def EntryCache.inSpan (c : EntryCache) (x y : Int) : Prop :=
  c.k1x ≤ x ∧ x ≤ c.k2x ∧ c.k1y ≤ y ∧ y ≤ c.k2y

/-- The fields of a bucket that its constructor derives from its
coordinates and size. -/
def TreeBucket.SiteOk (t : TreeBucket) (x y : Int) (size : ℚ) : Prop :=
  t.BUCKET_X = x ∧ t.BUCKET_Y = y ∧ t.BUCKET_SIZE = size
    ∧ t.X = fl (x * size) ∧ t.Y = fl (y * size)
    ∧ t.MAX_X = fl (fl (x * size) + size) ∧ t.MAX_Y = fl (fl (y * size) + size)
    ∧ t.HALFX = fl (fl (x * size) + fl (size / 2))
    ∧ t.HALFY = fl (fl (y * size) + fl (size / 2))

/-- The fields of the index that no operation changes after construction. -/
structure Static (s : St) : Prop where
  minSize_pos : 0 < s.hb.MIN_SIZE
  minSize_inv : s.hb.MIN_SIZE_INV = fl (1 / s.hb.MIN_SIZE)
  count_pos : 1 ≤ s.hb.LEVEL_COUNT
  count_le : s.hb.LEVEL_COUNT ≤ 54
  levels_len : s.hb.LEVELS.length = s.hb.LEVEL_COUNT
  base : s.hb.BASE = some (s.hb.LEVEL_COUNT - 1)
  grid : ∀ (l : Nat) (g : HashGrid), s.hb.LEVELS[l]? = some g →
    g.BUCKETSIZE = s.hb.MIN_SIZE * 2 ^ l ∧ g.BUCKETSIZE_INV = fl (1 / g.BUCKETSIZE)
      ∧ g.NEXT_GRID = (if l + 1 < s.hb.LEVEL_COUNT then some (l + 1) else none)
  log2 : ∀ (i v : Nat), s.hb.LOG2CACHE[i]? = some v → v < s.hb.LEVEL_COUNT
  table : s.hb.LOG2CACHE = HashBounds.setupLog2 s.hb.LEVEL_COUNT

/-- The grids and the bucket objects form a forest: every resident bucket
sits at its coordinates, its parent is the resident bucket at the halved
coordinates one level up and holds it in the matching child slot, child
slots hold resident buckets one level down, and `QUAD_CACHE` is what
`updateQuadCache` computes from `CHILDREN`. -/
structure TreeOk (s : St) : Prop where
  lt : ∀ l x y b, s.resident l x y = some b → b < s.nextBucket
  inj : ∀ l x y l' x' y' b, s.resident l x y = some b → s.resident l' x' y' = some b →
    l = l' ∧ x = x' ∧ y = y'
  site : ∀ l x y b, s.resident l x y = some b →
    (s.buckets b).SiteOk x y (s.hb.MIN_SIZE * 2 ^ l)
  parent : ∀ l x y b, s.resident l x y = some b → l + 1 < s.hb.LEVEL_COUNT →
    ∃ p, (s.buckets b).PARENT = some p ∧ s.resident (l + 1) (x / 2) (y / 2) = some p
      ∧ (s.buckets p).CHILDREN ((y - y / 2 * 2) * 2 + x - x / 2 * 2) = some b
  top : ∀ l x y b, s.resident l x y = some b → ¬ l + 1 < s.hb.LEVEL_COUNT →
    (s.buckets b).PARENT = none
  children : ∀ l x y p k c, s.resident l x y = some p → (s.buckets p).CHILDREN k = some c →
    0 ≤ k ∧ k < 4 ∧ 1 ≤ l ∧ s.resident (l - 1) (2 * x + k % 2) (2 * y + k / 2) = some c
  quad : ∀ l x y b, s.resident l x y = some b →
    (s.buckets b).QUAD_CACHE
      = TreeBucket.QUADS.map (fun quad => quad.filterMap (s.buckets b).CHILDREN)

/-- The contribution of child slot `k` of bucket `b` to its counter:
1 when the slot holds a bucket whose counter is positive. -/
def St.posChild (s : St) (b : Nat) (k : Int) : Int :=
  match (s.buckets b).CHILDREN k with
  | some c => if 0 < (s.buckets c).COUNTER then 1 else 0
  | none => 0

/-- The value the counter of bucket `b` should have: 1 for a non-empty item
list, plus 1 for every child with a positive counter. -/
def St.expected (s : St) (b : Nat) : Int :=
  (if (s.buckets b).ITEM_LIST = [] then 0 else 1)
    + s.posChild b 0 + s.posChild b 1 + s.posChild b 2 + s.posChild b 3

/-- The counter of bucket `b` has its expected value. -/
def St.CntAt (s : St) (b : Nat) : Prop := (s.buckets b).COUNTER = s.expected b

/-- Every resident bucket's counter has its expected value. -/
def CntOk (s : St) : Prop :=
  ∀ l x y b, s.resident l x y = some b → s.CntAt b

/-- The item lists agree with the records, for a set `A` of registrations
`(entry, level, x, y)`: an item of a resident bucket is a registration and
its record points back at its position; a registration lies in the span of
its record, its bucket is resident and holds the entry at the recorded
position; the registrations of one entry are on one level. -/
structure ItemsOk (s : St) (A : Nat → Nat → Int → Int → Prop) : Prop where
  single : ∀ e l x y l' x' y', A e l x y → A e l' x' y' → l = l'
  fwd : ∀ l x y b i e, s.resident l x y = some b →
    (s.buckets b).ITEM_LIST[i]? = some e →
    A e l x y ∧ ∀ c, s.cache e s.hb.ID = some c → c.indexes (c.key x y) = some i
  bwd : ∀ e l x y, A e l x y →
    ∃ c b i, s.cache e s.hb.ID = some c ∧ c.inSpan x y ∧ s.resident l x y = some b
      ∧ c.indexes (c.key x y) = some i ∧ (s.buckets b).ITEM_LIST[i]? = some e

/-- The registrations of a state: the spans of the records that are marked
as being in the index, on the level the record names. -/
def St.regs (s : St) (e l : Nat) (x y : Int) : Prop :=
  ∃ c, s.cache e s.hb.ID = some c ∧ c.isInHash = true ∧ c.cachedIndex = some l
    ∧ c.inSpan x y

/-- Every record of this index names it and names an existing level. -/
def RecsOk (s : St) : Prop :=
  ∀ e c, s.cache e s.hb.ID = some c →
    c.hashID = s.hb.ID ∧ ∃ l, c.cachedIndex = some l ∧ l < s.hb.LEVEL_COUNT

/-- The query counter has not wrapped and every entry with a record carries
a stamp below it. -/
def StampsOk (s : St) : Prop :=
  0 ≤ s.hb.QUERYID ∧ s.hb.QUERYID < 4294967295
    ∧ ∀ e c, s.cache e s.hb.ID = some c →
      ∃ v, (s.entries e)._HashBoundsTempCheck = some v ∧ v < s.hb.QUERYID

/-- The record of every entry with a current box holds the span of that box
in the grid of its level, and the entries with a current box are the
contained ones. -/
def BoxesOk (s : St) (g : Boxes) : Prop :=
  (∀ e, HashBounds.contains s e = true ↔ (g e).isSome = true)
  ∧ ∀ e box, g e = some box →
      0 ≤ box.width ∧ 0 ≤ box.height
      ∧ ∃ c l gr, s.cache e s.hb.ID = some c ∧ c.cachedIndex = some l
        ∧ s.hb.LEVELS[l]? = some gr ∧ (c.k1x, c.k1y, c.k2x, c.k2y) = gr.span box

/-- The level stored in every record is the one `getLevel` computes from
the stored width and height. -/
def LevelsOk (s : St) : Prop :=
  ∀ e c, s.cache e s.hb.ID = some c →
    c.cachedIndex = HashBounds.levelFor s.hb c.cacheWidth c.cacheHeight

/-- The width and height stored in the record of an entry with a current
box are those of the box. -/
def DimsOk (s : St) (g : Boxes) : Prop :=
  ∀ e box c, g e = some box → s.cache e s.hb.ID = some c →
    c.cacheWidth = box.width ∧ c.cacheHeight = box.height

/-- The invariant of the states reachable by `insert`, `update` and
`remove`. -/
structure Invariant (s : St) (g : Boxes) : Prop where
  static : Static s
  tree : TreeOk s
  cnt : CntOk s
  items : ItemsOk s s.regs
  recs : RecsOk s
  stamps : StampsOk s
  boxes : BoxesOk s g
  levels : LevelsOk s
  dims : DimsOk s g

/-- The numbers of a bounds object after the conversion that the methods of
the index apply to it. -/
def Bounds.numeric (b : Bounds) : Option Box :=
  match HashBounds.convertBoundsD b with
  | .ok cb => cb.box?
  | .error _ => none

/-- The states reached from a successful construction (with a positive
`minSize`, in a store whose entries carry no record for the new index) by
successful calls of `insert`, `update` and `remove` with boxes of
non-negative width and height, and by queries as long as the query counter
stays below its wrap-around, together with the current box of every
entry. -/
inductive Reach : St → Boxes → Prop
  | init (s0 : St) (minSize : ℚ) (levelCount : Int) (ib : Option Bounds) (id : Option Nat) :
      0 < minSize → (∀ e, s0.cache e (id.getD s0.LAST_ID) = none) →
      (HashBounds.new minSize levelCount ib id).val s0 = .ok () →
      Reach ((HashBounds.new minSize levelCount ib id).exec s0) (fun _ => none)
  | insert (s : St) (g : Boxes) (e : Nat) (b : Bounds) (box : Box) :
      Reach s g → b.numeric = some box → 0 ≤ box.width → 0 ≤ box.height →
      (HashBounds.insert e b).val s = .ok () →
      Reach ((HashBounds.insert e b).exec s) (Function.update g e (some box))
  | update (s : St) (g : Boxes) (e : Nat) (b : Bounds) (box : Box) (r : Bool) :
      Reach s g → b.numeric = some box → 0 ≤ box.width → 0 ≤ box.height →
      (HashBounds.update e b).val s = .ok r →
      Reach ((HashBounds.update e b).exec s) (Function.update g e (some box))
  | remove (s : St) (g : Boxes) (e : Nat) :
      Reach s g → (HashBounds.remove e).val s = .ok () →
      Reach ((HashBounds.remove e).exec s) (Function.update g e none)
  | query (s : St) (g : Boxes) (b : Option Bounds) (call : Visitor) (r : Bool) :
      Reach s g → s.hb.QUERYID < 4294967294 →
      (HashBounds.every b call).val s = .ok r →
      Reach ((HashBounds.every b call).exec s) g

/-- Whether the bucket coordinates of a box stay within `2 ^ 25` in absolute
value on every level of the index. The loops of the source over such a span
and the slot keys it computes stay below `2 ^ 53`, where its arithmetic on
integers is exact. -/
def HashBounds.safeBox (hb : HashBounds) (box : Box) : Prop :=
  ∀ gr ∈ hb.LEVELS,
    (-(2 ^ 25 : Int) ≤ (gr.span box).1 ∧ (gr.span box).1 ≤ 2 ^ 25)
      ∧ (-(2 ^ 25 : Int) ≤ (gr.span box).2.1 ∧ (gr.span box).2.1 ≤ 2 ^ 25)
      ∧ (-(2 ^ 25 : Int) ≤ (gr.span box).2.2.1 ∧ (gr.span box).2.2.1 ≤ 2 ^ 25)
      ∧ (-(2 ^ 25 : Int) ≤ (gr.span box).2.2.2 ∧ (gr.span box).2.2.2 ≤ 2 ^ 25)

/-- The states of `Reach` that are reached with boxes whose bucket
coordinates stay within `2 ^ 25` in absolute value on every level. -/
inductive ReachSafe : St → Boxes → Prop
  | init (s0 : St) (minSize : ℚ) (levelCount : Int) (ib : Option Bounds) (id : Option Nat) :
      0 < minSize → (∀ e, s0.cache e (id.getD s0.LAST_ID) = none) →
      (HashBounds.new minSize levelCount ib id).val s0 = .ok () →
      ReachSafe ((HashBounds.new minSize levelCount ib id).exec s0) (fun _ => none)
  | insert (s : St) (g : Boxes) (e : Nat) (b : Bounds) (box : Box) :
      ReachSafe s g → b.numeric = some box → 0 ≤ box.width → 0 ≤ box.height →
      s.hb.safeBox box →
      (HashBounds.insert e b).val s = .ok () →
      ReachSafe ((HashBounds.insert e b).exec s) (Function.update g e (some box))
  | update (s : St) (g : Boxes) (e : Nat) (b : Bounds) (box : Box) (r : Bool) :
      ReachSafe s g → b.numeric = some box → 0 ≤ box.width → 0 ≤ box.height →
      s.hb.safeBox box →
      (HashBounds.update e b).val s = .ok r →
      ReachSafe ((HashBounds.update e b).exec s) (Function.update g e (some box))
  | remove (s : St) (g : Boxes) (e : Nat) :
      ReachSafe s g → (HashBounds.remove e).val s = .ok () →
      ReachSafe ((HashBounds.remove e).exec s) (Function.update g e none)
  | query (s : St) (g : Boxes) (b : Option Bounds) (call : Visitor) (r : Bool) :
      ReachSafe s g → s.hb.QUERYID < 4294967294 →
      (HashBounds.every b call).val s = .ok r →
      ReachSafe ((HashBounds.every b call).exec s) g

/-- The buckets below `b`: those reached from it through `CHILDREN`. -/
inductive Desc (s : St) : Nat → Nat → Prop
  | child (b : Nat) (k : Int) (c : Nat) : (s.buckets b).CHILDREN k = some c → Desc s b c
  | step (b : Nat) (k : Int) (c d : Nat) :
      (s.buckets b).CHILDREN k = some c → Desc s c d → Desc s b d

/-- A bucket with its counter blanked. -/
def TreeBucket.noCounter (t : TreeBucket) : TreeBucket := { t with COUNTER := 0 }

/-- What `add` (`d = 1`) and `subtract` (`d = -1`) on a bucket `b` of level
`l` do: only counters change, that of `b` by `d`, none at or below the
level of `b` besides, and every other resident bucket whose counter had its
expected value still has it. -/
structure CounterStep (s s' : St) (l b : Nat) (d : Int) : Prop where
  hb : s'.hb = s.hb
  entries : s'.entries = s.entries
  nextBucket : s'.nextBucket = s.nextBucket
  same : ∀ i, (s'.buckets i).noCounter = (s.buckets i).noCounter
  self : (s'.buckets b).COUNTER = (s.buckets b).COUNTER + d
  below : ∀ l' x' y' c, s.resident l' x' y' = some c → l' ≤ l → c ≠ b →
    (s'.buckets c).COUNTER = (s.buckets c).COUNTER
  keep : ∀ l' x' y' q, s.resident l' x' y' = some q → q ≠ b → s.CntAt q → s'.CntAt q

/-- A record with its slot indexes blanked. -/
def EntryCache.noIndexes (c : EntryCache) : EntryCache := { c with indexes := fun _ => none }

/-- An index with its grids blanked. -/
def HashBounds.noLevels (h : HashBounds) : HashBounds := { h with LEVELS := [] }

/-- A grid with its bucket map blanked. -/
def HashGrid.noGrid (g : HashGrid) : HashGrid := { g with BUCKET_GRID := JSArray.empty }

/-- What the operations on item lists and buckets leave alone: the index
apart from the bucket maps, the resident buckets (new ones may appear), the
records apart from their slot indexes, and the stamps. -/
structure Frame (s s' : St) : Prop where
  hbs : s'.hb.noLevels = s.hb.noLevels
  grids : s'.hb.LEVELS.map HashGrid.noGrid = s.hb.LEVELS.map HashGrid.noGrid
  res : ∀ l x y b, s.resident l x y = some b → s'.resident l x y = some b
  recs : ∀ e id, (s'.cache e id).map EntryCache.noIndexes
    = (s.cache e id).map EntryCache.noIndexes
  stamps : ∀ e, (s'.entries e)._HashBoundsTempCheck = (s.entries e)._HashBoundsTempCheck
  nb : s.nextBucket ≤ s'.nextBucket

/-- The forest invariant while `createBucket` is at work: the buckets in
`orph` have been created but not yet linked to their parent. -/
structure TreeOkExc (s : St) (orph : Nat → Prop) : Prop where
  lt : ∀ l x y b, s.resident l x y = some b → b < s.nextBucket
  inj : ∀ l x y l' x' y' b, s.resident l x y = some b → s.resident l' x' y' = some b →
    l = l' ∧ x = x' ∧ y = y'
  site : ∀ l x y b, s.resident l x y = some b →
    (s.buckets b).SiteOk x y (s.hb.MIN_SIZE * 2 ^ l)
  parent : ∀ l x y b, s.resident l x y = some b → l + 1 < s.hb.LEVEL_COUNT → ¬ orph b →
    ∃ p, (s.buckets b).PARENT = some p ∧ s.resident (l + 1) (x / 2) (y / 2) = some p
      ∧ (s.buckets p).CHILDREN ((y - y / 2 * 2) * 2 + x - x / 2 * 2) = some b
  top : ∀ l x y b, s.resident l x y = some b → ¬ l + 1 < s.hb.LEVEL_COUNT →
    (s.buckets b).PARENT = none
  children : ∀ l x y p k c, s.resident l x y = some p → (s.buckets p).CHILDREN k = some c →
    0 ≤ k ∧ k < 4 ∧ 1 ≤ l ∧ s.resident (l - 1) (2 * x + k % 2) (2 * y + k / 2) = some c
  quad : ∀ l x y b, s.resident l x y = some b →
    (s.buckets b).QUAD_CACHE
      = TreeBucket.QUADS.map (fun quad => quad.filterMap (s.buckets b).CHILDREN)

/-- The state after the first two steps of `createBucket` on the grid `g`
of level `l`: the new bucket allocated and entered in the bucket map. -/
def St.alloc (s : St) (l : Nat) (x y : Int) (g : HashGrid) : St :=
  let s1 : St :=
    { s with
      buckets := fun i =>
        if i = s.nextBucket then TreeBucket.new x y g.BUCKETSIZE else s.buckets i
      nextBucket := s.nextBucket + 1 }
  let map2 := (g.BUCKET_GRID.get x).getD JSArray.empty
  s1.setGrid l (fun g' =>
    { g' with BUCKET_GRID := g'.BUCKET_GRID.set x (map2.set y s.nextBucket) })

/-- The state after the last two steps of `createBucket`: bucket `b` and its
parent `p` linked through child slot `index`. -/
def St.link (s : St) (b p : Nat) (index : Int) : St :=
  (s.setBucket b (fun t => { t with PARENT := some p })).setBucket p (fun t =>
    TreeBucket.updateQuadCache
      { t with CHILDREN := fun k => if k = index then some b else t.CHILDREN k })

/-! ## Predicates on runs and steps -/

/-- The run `m` from `s` returns normally, and its result and final state
satisfy `Q`. -/
def M.Ok {α : Type} (m : M α) (s : St) (Q : α → St → Prop) : Prop :=
  ∃ a s', m s = (.ok a, s') ∧ Q a s'

/-- A bucket with its counter and its item list blanked: the fields the
tree shape is made of. -/
def TreeBucket.shape (t : TreeBucket) : TreeBucket :=
  { t with COUNTER := 0, ITEM_LIST := [] }

/-- The part of the invariant that the operations on buckets and item lists
maintain, for a set `A` of registrations. -/
structure Core (s : St) (A : Nat → Nat → Int → Int → Prop) : Prop where
  static : Static s
  tree : TreeOk s
  cnt : CntOk s
  items : ItemsOk s A

/-- What an operation on entry `e` leaves alone: as `Frame`, apart from the
record and the stamp of `e`. -/
structure Step (s s' : St) (e : Nat) : Prop where
  hbs : s'.hb.noLevels = s.hb.noLevels
  grids : s'.hb.LEVELS.map HashGrid.noGrid = s.hb.LEVELS.map HashGrid.noGrid
  res : ∀ l x y b, s.resident l x y = some b → s'.resident l x y = some b
  recs : ∀ e' id, e' ≠ e → (s'.cache e' id).map EntryCache.noIndexes
    = (s.cache e' id).map EntryCache.noIndexes
  stamps : ∀ e', e' ≠ e →
    (s'.entries e')._HashBoundsTempCheck = (s.entries e')._HashBoundsTempCheck
  nb : s.nextBucket ≤ s'.nextBucket

/-- Only the record of entry `e` for this index differs between two states. -/
structure RecOnly (s s' : St) (e : Nat) : Prop where
  hb : s'.hb = s.hb
  buckets : s'.buckets = s.buckets
  nextBucket : s'.nextBucket = s.nextBucket
  entries : ∀ e', e' ≠ e → s'.entries e' = s.entries e'

/-- The stamp of an entry. -/
def St.stamp (s : St) (e : Nat) : Option Int := (s.entries e)._HashBoundsTempCheck

/-- What a traversal with query id `QID` does to the state: it stamps
entries with `QID`, and nothing else. -/
structure Stamped (QID : Int) (s s' : St) : Prop where
  hb : s'.hb = s.hb
  buckets : s'.buckets = s.buckets
  nextBucket : s'.nextBucket = s.nextBucket
  recs : ∀ e, (s'.entries e)._HashBounds = (s.entries e)._HashBounds
  stamps : ∀ e, s'.stamp e = s.stamp e ∨ s'.stamp e = some QID

/-- The outcome of a traversal that started in state `s` with the list `tr`
of entries already handed to the visitor: the entries it handed to the
visitor are distinct and were not stamped before, each is stamped
afterwards, the visitor answered `false` exactly at the last of them when
the traversal was cut short, and a traversal is cut short only by such an
answer. -/
structure Walk (call : Visitor) (QID : Int) (s : St) (tr : List Nat)
    (r : Bool) (tr' : List Nat) (s' : St) : Prop where
  stamped : Stamped QID s s'
  ext : ∃ ext, tr' = tr ++ ext ∧ ext.Nodup
    ∧ (∀ e ∈ ext, s.stamp e ≠ some QID ∧ s'.stamp e = some QID)
    ∧ (∀ p e q, ext = p ++ e :: q → (call (tr ++ p) e = false ↔ q = [] ∧ r = false))
    ∧ (r = false → ext ≠ [])

/-- The run `m` from `s`, if it returns normally, ends with a result and a
state that satisfy `Q`. -/
def M.Post {α : Type} (m : M α) (s : St) (Q : α → St → Prop) : Prop :=
  ∀ a s', m s = (.ok a, s') → Q a s'

/-- What an `insert` of entry `e` that started in `s` has done so far: the
item list of a bucket that existed has grown by copies of `e` at its end, a
bucket created since holds copies of `e` only, a bucket resident now was
resident at the same place or has been created since, and the other entries
are untouched. -/
structure Appended (e : Nat) (s s' : St) : Prop where
  old : ∀ b, b < s.nextBucket →
    ∃ n, (s'.buckets b).ITEM_LIST = (s.buckets b).ITEM_LIST ++ List.replicate n e
  fresh : ∀ b, s.nextBucket ≤ b → b < s'.nextBucket →
    ∃ n, (s'.buckets b).ITEM_LIST = List.replicate n e
  nb : s.nextBucket ≤ s'.nextBucket
  res : ∀ l x y b, s'.resident l x y = some b →
    s.resident l x y = some b ∨ s.nextBucket ≤ b
  others : ∀ e', e' ≠ e → s'.entries e' = s.entries e'

/-- What a `remove` of entry `e` that started in `s` has done so far, when
it has found `e` at the end of every item list it has met: an item list is
as it was or has lost `e` at its end, and the index and the entries are
untouched. -/
structure Popped (e : Nat) (s s' : St) : Prop where
  lists : ∀ b, (s'.buckets b).ITEM_LIST = (s.buckets b).ITEM_LIST
    ∨ (s.buckets b).ITEM_LIST = (s'.buckets b).ITEM_LIST ++ [e]
  entries : s'.entries = s.entries
  hb : s'.hb = s.hb

/-- An index with its query counter blanked. -/
def HashBounds.noQuery (h : HashBounds) : HashBounds := { h with QUERYID := 0 }

/-- What a query leaves alone: everything but the query counter of the
index and the stamps of the entries. -/
structure ReadOnly (s s' : St) : Prop where
  hb : s'.hb.noQuery = s.hb.noQuery
  buckets : s'.buckets = s.buckets
  nextBucket : s'.nextBucket = s.nextBucket
  recs : ∀ e, (s'.entries e)._HashBounds = (s.entries e)._HashBounds

/-- The state after `getQueryID` has drawn the next query id. -/
def St.nextQuery (s : St) : St :=
  { s with hb := { s.hb with QUERYID := s.hb.QUERYID + 1 } }

/-! # Reasoning about runs -/

namespace M

variable {α β : Type}

theorem Ok_mono {m : M α} {s : St} {Q Q' : α → St → Prop}
    (h : m.Ok s Q) (hQ : ∀ a s', Q a s' → Q' a s') : m.Ok s Q' := by
  obtain ⟨a, s', h1, h2⟩ := h
  exact ⟨a, s', h1, hQ a s' h2⟩

@[simp] theorem Ok_pure (a : α) (s : St) (Q : α → St → Prop) :
    (pure a : M α).Ok s Q ↔ Q a s := by
  constructor
  · rintro ⟨a', s', h1, h2⟩
    cases h1
    exact h2
  · intro h
    exact ⟨a, s, rfl, h⟩

@[simp] theorem Ok_ret (a : α) (s : St) (Q : α → St → Prop) :
    (M.ret a : M α).Ok s Q ↔ Q a s := Ok_pure a s Q

@[simp] theorem Ok_read (s : St) (Q : St → St → Prop) :
    M.read.Ok s Q ↔ Q s s := by
  constructor
  · rintro ⟨a', s', h1, h2⟩
    cases h1
    exact h2
  · intro h
    exact ⟨s, s, rfl, h⟩

@[simp] theorem Ok_modify (f : St → St) (s : St) (Q : Unit → St → Prop) :
    (M.modify f).Ok s Q ↔ Q () (f s) := by
  constructor
  · rintro ⟨a', s', h1, h2⟩
    cases h1
    exact h2
  · intro h
    exact ⟨(), f s, rfl, h⟩

@[simp] theorem Ok_throw (e : Err) (s : St) (Q : α → St → Prop) :
    (M.throw e : M α).Ok s Q ↔ False := by
  constructor
  · rintro ⟨a', s', h1, _⟩
    cases h1
  · exact False.elim

theorem bind_apply (m : M α) (f : α → M β) (s : St) :
    (m >>= f) s = match m s with
      | (.ok a, s1) => f a s1
      | (.error e, s1) => (.error e, s1) := rfl

@[simp] theorem Ok_bind (m : M α) (f : α → M β) (s : St) (Q : β → St → Prop) :
    (m >>= f).Ok s Q ↔ m.Ok s (fun a s1 => (f a).Ok s1 Q) := by
  constructor
  · rintro ⟨b, s', h1, h2⟩
    rw [bind_apply] at h1
    rcases hm : m s with ⟨r, s1⟩
    rw [hm] at h1
    cases r with
    | error e => cases h1
    | ok a => exact ⟨a, s1, hm, b, s', h1, h2⟩
  · rintro ⟨a, s1, h1, b, s', h2, h3⟩
    refine ⟨b, s', ?_, h3⟩
    rw [bind_apply, h1]
    exact h2

theorem Ok_val {m : M α} {s : St} {Q : α → St → Prop} (h : m.Ok s Q) :
    ∃ a, m.val s = .ok a ∧ Q a (m.exec s) := by
  obtain ⟨a, s', h1, h2⟩ := h
  exact ⟨a, by simp [M.val, h1], by simpa [M.exec, h1] using h2⟩

theorem Ok_of_val {m : M α} {s : St} {a : α} (h : m.val s = .ok a) :
    m.Ok s (fun a' s' => a' = a ∧ s' = m.exec s) := by
  rcases hm : m s with ⟨r, s1⟩
  simp only [M.val, hm] at h
  subst h
  exact ⟨a, s1, hm, rfl, by simp [M.exec, hm]⟩

theorem Ok_and {m : M α} {s : St} {Q Q' : α → St → Prop}
    (h : m.Ok s Q) (h' : m.Ok s Q') : m.Ok s (fun a s' => Q a s' ∧ Q' a s') := by
  obtain ⟨a, s', h1, h2⟩ := h
  obtain ⟨a', s'', h1', h2'⟩ := h'
  rw [h1] at h1'
  cases h1'
  exact ⟨a, s', h1, h2, h2'⟩

end M

/-! ## Loops -/

theorem mem_intRange (lo hi x : Int) : x ∈ intRange lo hi ↔ lo ≤ x ∧ x ≤ hi := by
  simp only [intRange, List.mem_map, List.mem_range]
  constructor
  · rintro ⟨i, hi', rfl⟩
    omega
  · rintro ⟨h1, h2⟩
    exact ⟨(x - lo).toNat, by omega, by omega⟩

theorem nodup_intRange (lo hi : Int) : (intRange lo hi).Nodup := by
  unfold intRange
  refine List.Nodup.map ?_ (List.nodup_range _)
  intro a b h
  simpa using h

theorem forEachM_ok_aux {α : Type} (body : α → M Unit) (P : List α → St → Prop) :
    ∀ (rest pre : List α) (s : St), P pre s →
      (∀ p a q s1, pre ++ rest = p ++ a :: q → pre.length ≤ p.length → P p s1 →
        (body a).Ok s1 (fun _ s2 => P (p ++ [a]) s2)) →
      (forEachM rest body).Ok s (fun _ s' => P (pre ++ rest) s') := by
  intro rest
  induction rest with
  | nil =>
    intro pre s h _
    simpa [forEachM] using h
  | cons a rest ih =>
    intro pre s h hbody
    simp only [forEachM, M.Ok_bind]
    refine M.Ok_mono (hbody pre a rest s rfl le_rfl h) ?_
    intro _ s2 h2
    have := ih (pre ++ [a]) s2 h2 (by
      intro p a' q s1 hp hlen hP
      refine hbody p a' q s1 (by simpa using hp) ?_ hP
      simp at hlen
      omega)
    simpa using this

/-- The rule for a loop: a property of the processed prefix and the state
that every round carries one element further holds of the whole list at the
end. -/
theorem forEachM_ok {α : Type} (l : List α) (body : α → M Unit) (P : List α → St → Prop)
    (s : St) (h0 : P [] s)
    (hbody : ∀ p a q s1, l = p ++ a :: q → P p s1 →
      (body a).Ok s1 (fun _ s2 => P (p ++ [a]) s2)) :
    (forEachM l body).Ok s (fun _ s' => P l s') := by
  have := forEachM_ok_aux body P l [] s h0 (by
    intro p a q s1 hp _ hP
    exact hbody p a q s1 (by simpa using hp) hP)
  simpa using this

/-! ## Rounding -/

theorem fl_zero : fl 0 = 0 := by simp [fl]

theorem flPos_nonneg (n d : Nat) : 0 ≤ flPos n d := by
  unfold flPos
  simp only []
  split
  · exact div_nonneg (Nat.cast_nonneg _) (Nat.cast_nonneg _)
  · exact mul_nonneg (Nat.cast_nonneg _) (Nat.cast_nonneg _)

theorem fl_nonneg {q : ℚ} (h : 0 ≤ q) : 0 ≤ fl q := by
  unfold fl
  split_ifs with h0 h1
  · exact le_refl _
  · exact flPos_nonneg _ _
  · exact absurd (lt_of_le_of_ne h (Ne.symm h0)) h1

/-! ## Rounding of integers -/

theorem log2Steps_le (k : Nat) : ∀ (f n : Nat), n < 2 ^ (k + 1) → log2Steps f n ≤ k := by
  induction k with
  | zero =>
    intro f n h
    cases f with
    | zero => simp [log2Steps]
    | succ f =>
      have : n < 2 := by simpa using h
      simp [log2Steps, this]
  | succ k ih =>
    intro f n h
    cases f with
    | zero => simp [log2Steps]
    | succ f =>
      unfold log2Steps
      split
      · omega
      · have : n / 2 < 2 ^ (k + 1) := by
          rw [Nat.div_lt_iff_lt_mul (by norm_num)]
          rw [pow_succ] at h
          exact h
        have := ih f (n / 2) this
        omega

theorem roundHalfEven_one (m : Nat) : roundHalfEven m 1 = m := by
  simp [roundHalfEven, Nat.mod_one]

theorem flPos_nat (n : Nat) (h : n < 2 ^ 53) : flPos n 1 = n := by
  have h1 : log2Steps n n ≤ 52 := log2Steps_le 52 n n h
  have h2 : log2Steps 1 1 = 0 := by decide
  have h3 : log2Floor n 1 ≤ 52 := by
    unfold log2Floor
    simp only [h2]
    split_ifs <;> omega
  have h4 : -1 ≤ log2Floor n 1 := by
    unfold log2Floor
    simp only [h2]
    split_ifs <;> omega
  unfold flPos
  have hm : max (log2Floor n 1) (-1022) = log2Floor n 1 := max_eq_left (by omega)
  simp only [hm]
  rw [if_pos (by omega)]
  rw [roundHalfEven_one]
  have hp : ((2 ^ (52 - log2Floor n 1).toNat : Nat) : ℚ) ≠ 0 := by positivity
  rw [Nat.cast_mul, mul_div_assoc, div_self hp, mul_one]

theorem fl_natCast (n : Nat) (h : n < 2 ^ 53) : fl (n : ℚ) = n := by
  rcases Nat.eq_zero_or_pos n with rfl | hn
  · simp [fl]
  · unfold fl
    have h0 : ((n : ℚ)) ≠ 0 := by positivity
    have h1 : (0 : ℚ) < n := by positivity
    rw [if_neg h0, if_pos h1]
    simp only [Rat.num_natCast, Rat.den_natCast, Int.natAbs_ofNat]
    exact flPos_nat n h

theorem fl_neg_natCast (m : Nat) (h : m < 2 ^ 53) : fl (-(m : ℚ)) = -(m : ℚ) := by
  rcases Nat.eq_zero_or_pos m with rfl | hpos
  · simp [fl]
  · unfold fl
    have h1 : (0 : ℚ) < (m : ℚ) := by exact_mod_cast hpos
    rw [if_neg (by linarith), if_neg (by linarith)]
    have hnum : (-(m : ℚ)).num.natAbs = m := by
      rw [Rat.neg_num, Int.natAbs_neg, Rat.num_natCast, Int.natAbs_ofNat]
    have hden : (-(m : ℚ)).den = 1 := by
      rw [Rat.neg_den, Rat.den_natCast]
    rw [hnum, hden, flPos_nat m h]

theorem fl_intCast (n : Int) (h : n.natAbs < 2 ^ 53) : fl (n : ℚ) = n := by
  obtain ⟨m, rfl | rfl⟩ := Int.eq_nat_or_neg n
  · rw [Int.natAbs_ofNat] at h
    simpa using fl_natCast m h
  · rw [Int.natAbs_neg, Int.natAbs_ofNat] at h
    simpa using fl_neg_natCast m h

theorem fl_sub_int (a b : Int) (h : (a - b).natAbs < 2 ^ 53) :
    fl ((a : ℚ) - b) = ((a - b : Int) : ℚ) := by
  have e : (a : ℚ) - b = ((a - b : Int) : ℚ) := by push_cast; rfl
  rw [e, fl_intCast _ h]

theorem fl_add_int (a b : Int) (h : (a + b).natAbs < 2 ^ 53) :
    fl ((a : ℚ) + b) = ((a + b : Int) : ℚ) := by
  have e : (a : ℚ) + b = ((a + b : Int) : ℚ) := by push_cast; rfl
  rw [e, fl_intCast _ h]

theorem fl_mul_int (a b : Int) (h : (a * b).natAbs < 2 ^ 53) :
    fl ((a : ℚ) * b) = ((a * b : Int) : ℚ) := by
  have e : (a : ℚ) * b = ((a * b : Int) : ℚ) := by push_cast; rfl
  rw [e, fl_intCast _ h]

theorem natAbs_mul_lt (a b : Int) (ha : a.natAbs ≤ 2 ^ 26) (hb : b.natAbs ≤ 2 ^ 26 + 1) :
    (a * b).natAbs ≤ 2 ^ 26 * (2 ^ 26 + 1) := by
  rw [Int.natAbs_mul]
  exact Nat.mul_le_mul ha hb

/-- For bucket coordinates within `2 ^ 25` in absolute value the rounded slot
key is the integer one. -/
theorem slotKeyD_eq (k1x k1y k2y x y : Int)
    (h1 : k1x.natAbs ≤ 2 ^ 25) (h2 : k1y.natAbs ≤ 2 ^ 25) (h3 : k2y.natAbs ≤ 2 ^ 25)
    (h4 : x.natAbs ≤ 2 ^ 25) (h5 : y.natAbs ≤ 2 ^ 25) :
    slotKeyD k1x k1y k2y x y = (((x - k1x) * (k2y - k1y + 1) - k1y + y : Int) : ℚ) := by
  unfold slotKeyD
  have ha : (x - k1x).natAbs ≤ 2 ^ 26 := by omega
  have hb : (k2y - k1y + 1).natAbs ≤ 2 ^ 26 + 1 := by omega
  have hp := natAbs_mul_lt _ _ ha hb
  rw [fl_sub_int x k1x (by omega), fl_sub_int k2y k1y (by omega)]
  have e1 : (((k2y - k1y : Int) : ℚ) + 1) = (((k2y - k1y : Int) : ℚ) + ((1 : Int) : ℚ)) := by
    push_cast; rfl
  rw [e1, fl_add_int (k2y - k1y) 1 (by omega)]
  generalize hP : (x - k1x) * (k2y - k1y + 1) = p at hp ⊢
  rw [fl_mul_int (x - k1x) (k2y - k1y + 1) (by rw [hP]; omega), hP]
  rw [fl_sub_int p k1y (by omega), fl_add_int (p - k1y) y (by omega)]

/-- For bucket coordinates within `2 ^ 25` in absolute value the rounded
`swapKey` is the integer one. -/
theorem swapKeyD_eq (c : EntryCache) (x y : Int)
    (h1 : c.k1x.natAbs ≤ 2 ^ 25) (h2 : c.k1y.natAbs ≤ 2 ^ 25) (h3 : c.k2y.natAbs ≤ 2 ^ 25)
    (h4 : x.natAbs ≤ 2 ^ 25) (h5 : y.natAbs ≤ 2 ^ 25) :
    c.swapKeyD x y = (((x - c.k1x) * (c.k2y - c.k1y + 1) + y - c.k1y : Int) : ℚ) := by
  unfold EntryCache.swapKeyD
  have ha : (x - c.k1x).natAbs ≤ 2 ^ 26 := by omega
  have hb : (c.k2y - c.k1y + 1).natAbs ≤ 2 ^ 26 + 1 := by omega
  have hp := natAbs_mul_lt _ _ ha hb
  rw [fl_sub_int x c.k1x (by omega), fl_sub_int c.k2y c.k1y (by omega)]
  have e1 : (((c.k2y - c.k1y : Int) : ℚ) + 1)
      = (((c.k2y - c.k1y : Int) : ℚ) + ((1 : Int) : ℚ)) := by
    push_cast; rfl
  rw [e1, fl_add_int (c.k2y - c.k1y) 1 (by omega)]
  generalize hP : (x - c.k1x) * (c.k2y - c.k1y + 1) = p at hp ⊢
  rw [fl_mul_int (x - c.k1x) (c.k2y - c.k1y + 1) (by rw [hP]; omega), hP]
  rw [fl_add_int p y (by omega), fl_sub_int (p + y) c.k1y (by omega)]

/-! # The store under updates -/

namespace St

@[simp] theorem setBucket_hb (s : St) (b : Nat) (f : TreeBucket → TreeBucket) :
    (s.setBucket b f).hb = s.hb := rfl

@[simp] theorem setBucket_entries (s : St) (b : Nat) (f : TreeBucket → TreeBucket) :
    (s.setBucket b f).entries = s.entries := rfl

@[simp] theorem setBucket_nextBucket (s : St) (b : Nat) (f : TreeBucket → TreeBucket) :
    (s.setBucket b f).nextBucket = s.nextBucket := rfl

theorem setBucket_buckets (s : St) (b : Nat) (f : TreeBucket → TreeBucket) (i : Nat) :
    (s.setBucket b f).buckets i = if i = b then f (s.buckets b) else s.buckets i := rfl

@[simp] theorem setBucket_buckets_self (s : St) (b : Nat) (f : TreeBucket → TreeBucket) :
    (s.setBucket b f).buckets b = f (s.buckets b) := by
  simp [setBucket_buckets]

theorem setBucket_buckets_ne (s : St) (b : Nat) (f : TreeBucket → TreeBucket) (i : Nat)
    (h : i ≠ b) : (s.setBucket b f).buckets i = s.buckets i := by
  simp [setBucket_buckets, h]

@[simp] theorem setBucket_resident (s : St) (b : Nat) (f : TreeBucket → TreeBucket) :
    (s.setBucket b f).resident = s.resident := rfl

@[simp] theorem setBucket_cache (s : St) (b : Nat) (f : TreeBucket → TreeBucket) :
    (s.setBucket b f).cache = s.cache := rfl

@[simp] theorem setCache_hb (s : St) (e id : Nat) (f : EntryCache → EntryCache) :
    (s.setCache e id f).hb = s.hb := rfl

@[simp] theorem setCache_buckets (s : St) (e id : Nat) (f : EntryCache → EntryCache) :
    (s.setCache e id f).buckets = s.buckets := rfl

@[simp] theorem setCache_nextBucket (s : St) (e id : Nat) (f : EntryCache → EntryCache) :
    (s.setCache e id f).nextBucket = s.nextBucket := rfl

@[simp] theorem setCache_resident (s : St) (e id : Nat) (f : EntryCache → EntryCache) :
    (s.setCache e id f).resident = s.resident := rfl

theorem setCache_cache (s : St) (e id : Nat) (f : EntryCache → EntryCache) (e' id' : Nat) :
    (s.setCache e id f).cache e' id'
      = if e' = e ∧ id' = id then (s.cache e id).map f else s.cache e' id' := by
  unfold St.cache St.setCache
  by_cases h1 : e' = e
  · subst h1
    by_cases h2 : id' = id
    · subst h2; simp
    · simp [h2]
  · simp [h1]

@[simp] theorem setCache_cache_self (s : St) (e id : Nat) (f : EntryCache → EntryCache) :
    (s.setCache e id f).cache e id = (s.cache e id).map f := by
  simp [setCache_cache]

theorem setCache_cache_ne (s : St) (e id : Nat) (f : EntryCache → EntryCache) (e' : Nat)
    (h : e' ≠ e) : (s.setCache e id f).cache e' id = s.cache e' id := by
  simp [setCache_cache, h]

@[simp] theorem setCache_stamp (s : St) (e id : Nat) (f : EntryCache → EntryCache) (e' : Nat) :
    ((s.setCache e id f).entries e')._HashBoundsTempCheck
      = (s.entries e')._HashBoundsTempCheck := by
  unfold St.setCache
  by_cases h1 : e' = e
  · subst h1; simp
  · simp [h1]

@[simp] theorem setStamp_hb (s : St) (e : Nat) (v : Option Int) :
    (s.setStamp e v).hb = s.hb := rfl

@[simp] theorem setStamp_buckets (s : St) (e : Nat) (v : Option Int) :
    (s.setStamp e v).buckets = s.buckets := rfl

@[simp] theorem setStamp_nextBucket (s : St) (e : Nat) (v : Option Int) :
    (s.setStamp e v).nextBucket = s.nextBucket := rfl

@[simp] theorem setStamp_resident (s : St) (e : Nat) (v : Option Int) :
    (s.setStamp e v).resident = s.resident := rfl

@[simp] theorem setStamp_cache (s : St) (e : Nat) (v : Option Int) :
    (s.setStamp e v).cache = s.cache := by
  funext e' id
  unfold St.cache St.setStamp
  by_cases h1 : e' = e
  · subst h1; simp
  · simp [h1]

theorem setStamp_stamp (s : St) (e : Nat) (v : Option Int) (e' : Nat) :
    ((s.setStamp e v).entries e')._HashBoundsTempCheck
      = if e' = e then v else (s.entries e')._HashBoundsTempCheck := by
  unfold St.setStamp
  by_cases h1 : e' = e
  · subst h1; simp
  · simp [h1]

theorem resident_some_lt {s : St} {l : Nat} {x y : Int} {b : Nat}
    (h : s.resident l x y = some b) : l < s.hb.LEVELS.length := by
  unfold St.resident at h
  cases hg : s.hb.LEVELS[l]? with
  | none => simp [hg] at h
  | some g =>
    exact (List.getElem?_eq_some_iff.mp hg).1

theorem resident_some_grid {s : St} {l : Nat} {x y : Int} {b : Nat}
    (h : s.resident l x y = some b) : ∃ g, s.hb.LEVELS[l]? = some g := by
  unfold St.resident at h
  cases hg : s.hb.LEVELS[l]? with
  | none => simp [hg] at h
  | some g => exact ⟨g, rfl⟩

end St

/-! ## What a predicate depends on -/

theorem TreeOk_of_shape {s s' : St} (h : TreeOk s) (hhb : s'.hb = s.hb)
    (hnb : s'.nextBucket = s.nextBucket)
    (hsh : ∀ i, (s'.buckets i).shape = (s.buckets i).shape) : TreeOk s' := by
  have hres : s'.resident = s.resident := by
    funext l x y
    simp [St.resident, hhb]
  have hP : ∀ i, (s'.buckets i).PARENT = (s.buckets i).PARENT := by
    intro i
    have := congrArg TreeBucket.PARENT (hsh i)
    exact this
  have hC : ∀ i, (s'.buckets i).CHILDREN = (s.buckets i).CHILDREN := by
    intro i
    have := congrArg TreeBucket.CHILDREN (hsh i)
    exact this
  have hQ : ∀ i, (s'.buckets i).QUAD_CACHE = (s.buckets i).QUAD_CACHE := by
    intro i
    have := congrArg TreeBucket.QUAD_CACHE (hsh i)
    exact this
  have hS : ∀ i x y sz, (s'.buckets i).SiteOk x y sz ↔ (s.buckets i).SiteOk x y sz := by
    intro i x y sz
    have h1 := congrArg TreeBucket.BUCKET_X (hsh i)
    have h2 := congrArg TreeBucket.BUCKET_Y (hsh i)
    have h3 := congrArg TreeBucket.BUCKET_SIZE (hsh i)
    have h4 := congrArg TreeBucket.X (hsh i)
    have h5 := congrArg TreeBucket.Y (hsh i)
    have h6 := congrArg TreeBucket.MAX_X (hsh i)
    have h7 := congrArg TreeBucket.MAX_Y (hsh i)
    have h8 := congrArg TreeBucket.HALFX (hsh i)
    have h9 := congrArg TreeBucket.HALFY (hsh i)
    simp only [TreeBucket.shape] at h1 h2 h3 h4 h5 h6 h7 h8 h9
    simp only [TreeBucket.SiteOk, h1, h2, h3, h4, h5, h6, h7, h8, h9]
  constructor
  · intro l x y b hr
    rw [hnb]
    exact h.lt l x y b (hres ▸ hr)
  · intro l x y l' x' y' b hr hr'
    exact h.inj l x y l' x' y' b (hres ▸ hr) (hres ▸ hr')
  · intro l x y b hr
    rw [hS, hhb]
    exact h.site l x y b (hres ▸ hr)
  · intro l x y b hr hl
    rw [hhb] at hl
    obtain ⟨p, h1, h2, h3⟩ := h.parent l x y b (hres ▸ hr) hl
    exact ⟨p, by rw [hP, h1], by rw [hres, h2], by rw [hC, h3]⟩
  · intro l x y b hr hl
    rw [hhb] at hl
    rw [hP]
    exact h.top l x y b (hres ▸ hr) hl
  · intro l x y p k c hr hc
    rw [hC] at hc
    rw [hres]
    exact h.children l x y p k c (hres ▸ hr) hc
  · intro l x y b hr
    rw [hQ, hC]
    exact h.quad l x y b (hres ▸ hr)

theorem Static_of_hb {s s' : St} (h : Static s) (hhb : s'.hb = s.hb) : Static s' := by
  obtain ⟨h1, h2, h3, h3', h4, h5, h6, h7⟩ := h
  constructor <;> rw [hhb] <;> assumption

theorem shape_setBucket_counter (s : St) (b : Nat) (v : Int → Int) (i : Nat) :
    ((s.setBucket b (fun t => { t with COUNTER := v t.COUNTER })).buckets i).shape
      = (s.buckets i).shape := by
  by_cases h : i = b
  · subst h; simp [TreeBucket.shape]
  · simp [St.setBucket_buckets_ne _ _ _ _ h]

theorem shape_setBucket_items (s : St) (b : Nat) (v : List Nat → List Nat) (i : Nat) :
    ((s.setBucket b (fun t => { t with ITEM_LIST := v t.ITEM_LIST })).buckets i).shape
      = (s.buckets i).shape := by
  by_cases h : i = b
  · subst h; simp [TreeBucket.shape]
  · simp [St.setBucket_buckets_ne _ _ _ _ h]

/-! # Counters -/

theorem noCounter_fields {t t' : TreeBucket} (h : t'.noCounter = t.noCounter) :
    t'.PARENT = t.PARENT ∧ t'.CHILDREN = t.CHILDREN ∧ t'.ITEM_LIST = t.ITEM_LIST
      ∧ t'.shape = t.shape := by
  have h1 := congrArg TreeBucket.PARENT h
  have h2 := congrArg TreeBucket.CHILDREN h
  have h3 := congrArg TreeBucket.ITEM_LIST h
  have h4 := congrArg TreeBucket.shape h
  exact ⟨h1, h2, h3, h4⟩

/-- A child slot of a resident bucket that holds a resident bucket: the
holder sits one level up at the halved coordinates, and the slot is the one
`createBucket` computes. -/
theorem TreeOk.slot_of_child {s : St} (h : TreeOk s) {lq : Nat} {xq yq : Int} {q : Nat}
    {k : Int} {l : Nat} {x y : Int} {b : Nat}
    (hq : s.resident lq xq yq = some q) (hk : (s.buckets q).CHILDREN k = some b)
    (hb : s.resident l x y = some b) :
    lq = l + 1 ∧ xq = x / 2 ∧ yq = y / 2 ∧ k = (y - y / 2 * 2) * 2 + x - x / 2 * 2 := by
  obtain ⟨h0, h4, h1, hr⟩ := h.children lq xq yq q k b hq hk
  obtain ⟨e1, e2, e3⟩ := h.inj _ _ _ _ _ _ b hr hb
  refine ⟨by omega, by omega, by omega, by omega⟩

theorem TreeOk.level_lt {s : St} (h : TreeOk s) (hs : Static s) {l : Nat} {x y : Int} {b : Nat}
    (hb : s.resident l x y = some b) : l < s.hb.LEVEL_COUNT := by
  have := St.resident_some_lt hb
  rw [hs.levels_len] at this
  exact this

theorem posChild_congr {s s' : St} {q : Nat} {k : Int}
    (hC : (s'.buckets q).CHILDREN = (s.buckets q).CHILDREN)
    (hc : ∀ c, (s.buckets q).CHILDREN k = some c →
      (0 < (s'.buckets c).COUNTER ↔ 0 < (s.buckets c).COUNTER)) :
    s'.posChild q k = s.posChild q k := by
  unfold St.posChild
  rw [hC]
  cases hk : (s.buckets q).CHILDREN k with
  | none => rfl
  | some c =>
    simp only [hc c hk]

theorem CntAt_congr {s s' : St} {q : Nat}
    (hcnt : (s'.buckets q).COUNTER = (s.buckets q).COUNTER)
    (hI : (s'.buckets q).ITEM_LIST = [] ↔ (s.buckets q).ITEM_LIST = [])
    (hC : (s'.buckets q).CHILDREN = (s.buckets q).CHILDREN)
    (hc : ∀ k c, (s.buckets q).CHILDREN k = some c →
      (0 < (s'.buckets c).COUNTER ↔ 0 < (s.buckets c).COUNTER))
    (h : s.CntAt q) : s'.CntAt q := by
  unfold St.CntAt St.expected at *
  rw [hcnt, posChild_congr hC (hc 0), posChild_congr hC (hc 1),
    posChild_congr hC (hc 2), posChild_congr hC (hc 3)]
  simp only [hI]
  exact h

theorem CounterStep.treeOk {s s' : St} {l b : Nat} {d : Int} (h : CounterStep s s' l b d)
    (ht : TreeOk s) : TreeOk s' :=
  TreeOk_of_shape ht h.hb h.nextBucket (fun i => (noCounter_fields (h.same i)).2.2.2)

theorem CounterStep.resident {s s' : St} {l b : Nat} {d : Int} (h : CounterStep s s' l b d) :
    s'.resident = s.resident := by
  funext l x y
  simp [St.resident, h.hb]

/-! # `add` and `subtract` -/

theorem counterStep_single {s : St} (ht : TreeOk s) {l : Nat} {x y : Int} {b : Nat}
    (hb : s.resident l x y = some b) (d : Int)
    (hpos : 0 < (s.buckets b).COUNTER + d ↔ 0 < (s.buckets b).COUNTER) :
    CounterStep s (s.setBucket b (fun t => { t with COUNTER := t.COUNTER + d })) l b d := by
  constructor
  · rfl
  · rfl
  · rfl
  · intro i
    by_cases h : i = b
    · subst h; simp [TreeBucket.noCounter]
    · simp [St.setBucket_buckets_ne _ _ _ _ h]
  · simp
  · intro l' x' y' c _ _ hc
    simp [St.setBucket_buckets_ne _ _ _ _ hc]
  · intro l' x' y' q _ hq hcnt
    refine CntAt_congr ?_ ?_ ?_ ?_ hcnt
    · simp [St.setBucket_buckets_ne _ _ _ _ hq]
    · simp [St.setBucket_buckets_ne _ _ _ _ hq]
    · simp [St.setBucket_buckets_ne _ _ _ _ hq]
    · intro k c _
      by_cases h : c = b
      · subst h; simpa using hpos
      · simp [St.setBucket_buckets_ne _ _ _ _ h]

/-- The counter of the parent after one of its children has changed sign:
the expected value moves by `d` when exactly the slot of `b` changes by `d`. -/
theorem expected_shift {s s' : St} (ht : TreeOk s) {l : Nat} {x y : Int} {b p : Nat} {d : Int}
    (hb : s.resident l x y = some b)
    (hp : s.resident (l + 1) (x / 2) (y / 2) = some p)
    (hslot : (s.buckets p).CHILDREN ((y - y / 2 * 2) * 2 + x - x / 2 * 2) = some b)
    (hI : (s'.buckets p).ITEM_LIST = (s.buckets p).ITEM_LIST)
    (hC : (s'.buckets p).CHILDREN = (s.buckets p).CHILDREN)
    (hb' : (if 0 < (s'.buckets b).COUNTER then (1 : Int) else 0)
      = (if 0 < (s.buckets b).COUNTER then 1 else 0) + d)
    (hc : ∀ k c, (s.buckets p).CHILDREN k = some c → c ≠ b →
      (s'.buckets c).COUNTER = (s.buckets c).COUNTER) :
    s'.expected p = s.expected p + d := by
  have hk : ∀ k, k ≠ (y - y / 2 * 2) * 2 + x - x / 2 * 2 → s'.posChild p k = s.posChild p k := by
    intro k hk
    refine posChild_congr hC ?_
    intro c hkc
    have hcb : c ≠ b := by
      rintro rfl
      exact hk (ht.slot_of_child hp hkc hb).2.2.2
    rw [hc k c hkc hcb]
  have hks : s'.posChild p ((y - y / 2 * 2) * 2 + x - x / 2 * 2)
      = s.posChild p ((y - y / 2 * 2) * 2 + x - x / 2 * 2) + d := by
    unfold St.posChild
    rw [hC, hslot]
    exact hb'
  have hrange : (y - y / 2 * 2) * 2 + x - x / 2 * 2 = 0 ∨ (y - y / 2 * 2) * 2 + x - x / 2 * 2 = 1
      ∨ (y - y / 2 * 2) * 2 + x - x / 2 * 2 = 2 ∨ (y - y / 2 * 2) * 2 + x - x / 2 * 2 = 3 := by
    omega
  unfold St.expected
  rw [hI]
  rcases hrange with h | h | h | h <;> rw [h] at hk hks
  · rw [hks, hk 1 (by decide), hk 2 (by decide), hk 3 (by decide)]; ring
  · rw [hks, hk 0 (by decide), hk 2 (by decide), hk 3 (by decide)]; ring
  · rw [hks, hk 0 (by decide), hk 1 (by decide), hk 3 (by decide)]; ring
  · rw [hks, hk 0 (by decide), hk 1 (by decide), hk 2 (by decide)]; ring

/-- Stacking the step on the parent and the step on the bucket itself. -/
theorem counterStep_chain {s s1 : St} (hs : Static s) (ht : TreeOk s) {l : Nat} {x y : Int}
    {b p : Nat} {d : Int}
    (hb : s.resident l x y = some b)
    (hp : s.resident (l + 1) (x / 2) (y / 2) = some p)
    (hslot : (s.buckets p).CHILDREN ((y - y / 2 * 2) * 2 + x - x / 2 * 2) = some b)
    (h1 : CounterStep s s1 (l + 1) p d) (v : Int)
    (hv : (if 0 < v then (1 : Int) else 0) = (if 0 < (s.buckets b).COUNTER then 1 else 0) + d)
    (hvd : v = (s.buckets b).COUNTER + d) :
    CounterStep s (s1.setBucket b (fun t => { t with COUNTER := v })) l b d := by
  have hbp : b ≠ p := by
    rintro rfl
    have := (ht.inj _ _ _ _ _ _ b hb hp).1
    omega
  constructor
  · exact h1.hb
  · exact h1.entries
  · exact h1.nextBucket
  · intro i
    rw [← h1.same i]
    by_cases h : i = b
    · subst h; simp [TreeBucket.noCounter]
    · simp [St.setBucket_buckets_ne _ _ _ _ h]
  · simp [hvd]
  · intro l' x' y' c hc hl hcb
    rw [St.setBucket_buckets_ne _ _ _ _ hcb]
    refine h1.below l' x' y' c hc (by omega) ?_
    rintro rfl
    have := (ht.inj _ _ _ _ _ _ c hc hp).1
    omega
  · intro l' x' y' q hq hqb hcnt
    have hfq := noCounter_fields (h1.same q)
    by_cases hqp : q = p
    · subst hqp
      unfold St.CntAt at hcnt ⊢
      rw [St.setBucket_buckets_ne _ _ _ _ hqb, h1.self, hcnt]
      symm
      refine expected_shift ht hb hp hslot ?_ ?_ ?_ ?_
      · rw [St.setBucket_buckets_ne _ _ _ _ hqb]; exact hfq.2.2.1
      · rw [St.setBucket_buckets_ne _ _ _ _ hqb]; exact hfq.2.1
      · simpa using hv
      · intro k c hkc hcb
        rw [St.setBucket_buckets_ne _ _ _ _ hcb]
        obtain ⟨_, _, _, hr⟩ := ht.children _ _ _ _ k c hp hkc
        refine h1.below _ _ _ c hr (by omega) ?_
        rintro rfl
        have := (ht.inj _ _ _ _ _ _ c hr hp).1
        omega
    · have h2 := h1.keep l' x' y' q hq hqp hcnt
      refine CntAt_congr ?_ ?_ ?_ ?_ h2
      · rw [St.setBucket_buckets_ne _ _ _ _ hqb]
      · rw [St.setBucket_buckets_ne _ _ _ _ hqb]
      · rw [St.setBucket_buckets_ne _ _ _ _ hqb]
      · intro k c hkc
        have hcb : c ≠ b := by
          rintro rfl
          rw [hfq.2.1] at hkc
          obtain ⟨e1, e2, e3, _⟩ := ht.slot_of_child hq hkc hb
          subst e1 e2 e3
          rw [hp] at hq
          exact hqp (Option.some.inj hq).symm
        rw [St.setBucket_buckets_ne _ _ _ _ hcb]

theorem add_ok (fuel : Nat) : ∀ (s : St) (l : Nat) (x y : Int) (b : Nat),
    Static s → TreeOk s → s.resident l x y = some b → s.hb.LEVEL_COUNT ≤ fuel + l →
    (TreeBucket.add fuel b).Ok s (fun _ s' => CounterStep s s' l b 1) := by
  induction fuel with
  | zero =>
    intro s l x y b hs ht hb hf
    have := ht.level_lt hs hb
    omega
  | succ fuel ih =>
    intro s l x y b hs ht hb hf
    simp only [TreeBucket.add, M.Ok_bind, M.Ok_read, M.Ok_modify]
    split
    · rename_i hc0
      split
      · rename_i p hp
        have hl : l + 1 < s.hb.LEVEL_COUNT := by
          by_contra hcon
          rw [ht.top l x y b hb hcon] at hp
          cases hp
        obtain ⟨p', hp1, hp2, hp3⟩ := ht.parent l x y b hb hl
        rw [hp] at hp1
        cases hp1
        simp only [M.Ok_bind, M.Ok_modify]
        refine M.Ok_mono (ih s (l + 1) (x / 2) (y / 2) p hs ht hp2 (by omega)) ?_
        intro _ s1 h1
        have hbp : b ≠ p := by
          rintro rfl
          have := (ht.inj _ _ _ _ _ _ b hb hp2).1
          omega
        have hb1 : (s1.buckets b).COUNTER = (s.buckets b).COUNTER :=
          h1.below l x y b hb (by omega) hbp
        have := counterStep_chain hs ht hb hp2 hp3 h1 ((s.buckets b).COUNTER + 1)
          (by rw [hc0]; simp) rfl
        rw [← hb1] at this
        exact this
      · rename_i hp
        simp only [M.Ok_bind, M.Ok_modify, M.Ok_pure]
        constructor
        · rfl
        · rfl
        · rfl
        · intro i
          by_cases h : i = b
          · subst h; simp [TreeBucket.noCounter]
          · simp [St.setBucket_buckets_ne _ _ _ _ h]
        · simp
        · intro l' x' y' c _ _ hc
          simp [St.setBucket_buckets_ne _ _ _ _ hc]
        · intro l' x' y' q hq hqb hcnt
          refine CntAt_congr ?_ ?_ ?_ ?_ hcnt
          · simp [St.setBucket_buckets_ne _ _ _ _ hqb]
          · simp [St.setBucket_buckets_ne _ _ _ _ hqb]
          · simp [St.setBucket_buckets_ne _ _ _ _ hqb]
          · intro k c hkc
            have hcb : c ≠ b := by
              rintro rfl
              obtain ⟨e1, _, _, _⟩ := ht.slot_of_child hq hkc hb
              have hl : l + 1 < s.hb.LEVEL_COUNT := by
                have := ht.level_lt hs hq
                omega
              obtain ⟨p', hp1, _, _⟩ := ht.parent l x y c hb hl
              rw [hp] at hp1
              cases hp1
            simp [St.setBucket_buckets_ne _ _ _ _ hcb]
    · rename_i hc0
      simp only [M.Ok_bind, M.Ok_modify, M.Ok_pure]
      exact counterStep_single ht hb 1 (by omega)

theorem counterStep_top {s : St} (hs : Static s) (ht : TreeOk s) {l : Nat} {x y : Int} {b : Nat}
    (hb : s.resident l x y = some b) (d : Int)
    (hpar : (s.buckets b).PARENT = none) :
    CounterStep s (s.setBucket b (fun t => { t with COUNTER := t.COUNTER + d })) l b d := by
  constructor
  · rfl
  · rfl
  · rfl
  · intro i
    by_cases h : i = b
    · subst h; simp [TreeBucket.noCounter]
    · simp [St.setBucket_buckets_ne _ _ _ _ h]
  · simp
  · intro l' x' y' c _ _ hc
    simp [St.setBucket_buckets_ne _ _ _ _ hc]
  · intro l' x' y' q hq hqb hcnt
    refine CntAt_congr ?_ ?_ ?_ ?_ hcnt
    · simp [St.setBucket_buckets_ne _ _ _ _ hqb]
    · simp [St.setBucket_buckets_ne _ _ _ _ hqb]
    · simp [St.setBucket_buckets_ne _ _ _ _ hqb]
    · intro k c hkc
      have hcb : c ≠ b := by
        rintro rfl
        obtain ⟨e1, _, _, _⟩ := ht.slot_of_child hq hkc hb
        have hl : l + 1 < s.hb.LEVEL_COUNT := by
          have := ht.level_lt hs hq
          omega
        obtain ⟨p', hp1, _, _⟩ := ht.parent l x y c hb hl
        rw [hpar] at hp1
        cases hp1
      simp [St.setBucket_buckets_ne _ _ _ _ hcb]

/-- Stacking the step on the bucket itself and then the step on the parent. -/
theorem counterStep_chain_rev {s s' : St} (hs : Static s) (ht : TreeOk s) {l : Nat} {x y : Int}
    {b p : Nat} {d : Int}
    (hb : s.resident l x y = some b)
    (hp : s.resident (l + 1) (x / 2) (y / 2) = some p)
    (hslot : (s.buckets p).CHILDREN ((y - y / 2 * 2) * 2 + x - x / 2 * 2) = some b)
    (hv : (if 0 < (s.buckets b).COUNTER + d then (1 : Int) else 0)
      = (if 0 < (s.buckets b).COUNTER then 1 else 0) + d)
    (h1 : CounterStep (s.setBucket b (fun t => { t with COUNTER := t.COUNTER + d })) s'
      (l + 1) p d) :
    CounterStep s s' l b d := by
  have hbp : b ≠ p := by
    rintro rfl
    have := (ht.inj _ _ _ _ _ _ b hb hp).1
    omega
  have hpb : p ≠ b := fun h => hbp h.symm
  have ht0 : TreeOk (s.setBucket b (fun t => { t with COUNTER := t.COUNTER + d })) :=
    TreeOk_of_shape ht rfl rfl (fun i => shape_setBucket_counter s b (fun c => c + d) i)
  have hself : (s'.buckets b).COUNTER = (s.buckets b).COUNTER + d := by
    rw [h1.below l x y b hb (by omega) hbp]
    simp
  constructor
  · exact h1.hb
  · exact h1.entries
  · exact h1.nextBucket
  · intro i
    rw [h1.same i]
    by_cases h : i = b
    · subst h; simp [TreeBucket.noCounter]
    · simp [St.setBucket_buckets_ne _ _ _ _ h]
  · exact hself
  · intro l' x' y' c hc hl hcb
    rw [h1.below l' x' y' c hc (by omega) ?_]
    · rw [St.setBucket_buckets_ne _ _ _ _ hcb]
    · rintro rfl
      have := (ht.inj _ _ _ _ _ _ c hc hp).1
      omega
  · intro l' x' y' q hq hqb hcnt
    by_cases hqp : q = p
    · subst hqp
      have hfq := noCounter_fields (h1.same q)
      rw [St.setBucket_buckets_ne _ _ _ _ hqb] at hfq
      unfold St.CntAt at hcnt ⊢
      rw [h1.self, St.setBucket_buckets_ne _ _ _ _ hqb, hcnt]
      symm
      refine expected_shift ht hb hp hslot hfq.2.2.1 hfq.2.1 ?_ ?_
      · rw [hself]; exact hv
      · intro k c hkc hcb
        obtain ⟨_, _, _, hr⟩ := ht.children _ _ _ _ k c hp hkc
        rw [h1.below _ _ _ c hr (by omega) ?_]
        · rw [St.setBucket_buckets_ne _ _ _ _ hcb]
        · rintro rfl
          have := (ht.inj _ _ _ _ _ _ c hr hp).1
          omega
    · refine h1.keep l' x' y' q hq hqp ?_
      refine CntAt_congr ?_ ?_ ?_ ?_ hcnt
      · rw [St.setBucket_buckets_ne _ _ _ _ hqb]
      · rw [St.setBucket_buckets_ne _ _ _ _ hqb]
      · rw [St.setBucket_buckets_ne _ _ _ _ hqb]
      · intro k c hkc
        have hcb : c ≠ b := by
          rintro rfl
          obtain ⟨e1, e2, e3, _⟩ := ht.slot_of_child hq hkc hb
          subst e1 e2 e3
          rw [hp] at hq
          exact hqp (Option.some.inj hq).symm
        rw [St.setBucket_buckets_ne _ _ _ _ hcb]

theorem subtract_ok (fuel : Nat) : ∀ (s : St) (l : Nat) (x y : Int) (b : Nat),
    Static s → TreeOk s → s.resident l x y = some b → s.hb.LEVEL_COUNT ≤ fuel + l →
    (TreeBucket.subtract fuel b).Ok s (fun _ s' => CounterStep s s' l b (-1)) := by
  induction fuel with
  | zero =>
    intro s l x y b hs ht hb hf
    have := ht.level_lt hs hb
    omega
  | succ fuel ih =>
    intro s l x y b hs ht hb hf
    have ht0 : TreeOk (s.setBucket b (fun t => { t with COUNTER := t.COUNTER + -1 })) :=
      TreeOk_of_shape ht rfl rfl (fun i => shape_setBucket_counter s b (fun c => c + -1) i)
    have hs0 : Static (s.setBucket b (fun t => { t with COUNTER := t.COUNTER + -1 })) :=
      Static_of_hb hs rfl
    simp only [TreeBucket.subtract, M.Ok_bind, M.Ok_read, M.Ok_modify, Int.sub_eq_add_neg]
    split
    · rename_i hc0
      simp only [St.setBucket_buckets_self] at hc0
      split
      · rename_i p hp
        simp only [St.setBucket_buckets_self] at hp
        have hl : l + 1 < s.hb.LEVEL_COUNT := by
          by_contra hcon
          rw [ht.top l x y b hb hcon] at hp
          cases hp
        obtain ⟨p', hp1, hp2, hp3⟩ := ht.parent l x y b hb hl
        rw [hp] at hp1
        cases hp1
        refine M.Ok_mono (ih _ (l + 1) (x / 2) (y / 2) p hs0 ht0 hp2
          (by simp only [St.setBucket_hb]; omega)) ?_
        intro _ s1 h1
        refine counterStep_chain_rev hs ht hb hp2 hp3 ?_ h1
        have : (s.buckets b).COUNTER = 1 := by omega
        rw [this]
        simp
      · rename_i hp
        simp only [St.setBucket_buckets_self] at hp
        simp only [M.Ok_pure]
        exact counterStep_top hs ht hb (-1) hp
    · rename_i hc0
      simp only [St.setBucket_buckets_self] at hc0
      simp only [M.Ok_pure]
      exact counterStep_single ht hb (-1) (by omega)

/-! # Frames -/

theorem Frame.refl (s : St) : Frame s s :=
  ⟨rfl, rfl, fun _ _ _ _ h => h, fun _ _ => rfl, fun _ => rfl, le_rfl⟩

theorem Frame.trans {s s1 s2 : St} (h1 : Frame s s1) (h2 : Frame s1 s2) : Frame s s2 :=
  ⟨h2.hbs.trans h1.hbs, h2.grids.trans h1.grids,
   fun l x y b h => h2.res l x y b (h1.res l x y b h),
   fun e id => (h2.recs e id).trans (h1.recs e id),
   fun e => (h2.stamps e).trans (h1.stamps e), le_trans h1.nb h2.nb⟩

theorem Frame.id_eq {s s' : St} (h : Frame s s') : s'.hb.ID = s.hb.ID := (congrArg HashBounds.ID h.hbs :)

theorem Frame.levelCount_eq {s s' : St} (h : Frame s s') :
    s'.hb.LEVEL_COUNT = s.hb.LEVEL_COUNT := (congrArg HashBounds.LEVEL_COUNT h.hbs :)

theorem Frame.queryID_eq {s s' : St} (h : Frame s s') : s'.hb.QUERYID = s.hb.QUERYID := (congrArg HashBounds.QUERYID h.hbs :)

theorem Frame.length_eq {s s' : St} (h : Frame s s') :
    s'.hb.LEVELS.length = s.hb.LEVELS.length := by
  have := (congrArg List.length h.grids :)
  simpa using this

theorem Frame.grid {s s' : St} (h : Frame s s') {l : Nat} {g' : HashGrid}
    (hg : s'.hb.LEVELS[l]? = some g') :
    ∃ g, s.hb.LEVELS[l]? = some g ∧ g'.noGrid = g.noGrid := by
  have h1 : (s'.hb.LEVELS.map HashGrid.noGrid)[l]? = some g'.noGrid := by
    simp [hg]
  rw [h.grids] at h1
  simp only [List.getElem?_map, Option.map_eq_some'] at h1
  obtain ⟨g, hg1, hg2⟩ := h1
  exact ⟨g, hg1, hg2.symm⟩

theorem Frame.grid_rev {s s' : St} (h : Frame s s') {l : Nat} {g : HashGrid}
    (hg : s.hb.LEVELS[l]? = some g) :
    ∃ g', s'.hb.LEVELS[l]? = some g' ∧ g'.noGrid = g.noGrid := by
  have h1 : (s.hb.LEVELS.map HashGrid.noGrid)[l]? = some g.noGrid := by
    simp [hg]
  rw [← h.grids] at h1
  simp only [List.getElem?_map, Option.map_eq_some'] at h1
  obtain ⟨g', hg1, hg2⟩ := h1
  exact ⟨g', hg1, hg2⟩

theorem Frame.static {s s' : St} (h : Frame s s') (hs : Static s) : Static s' := by
  have e1 : s'.hb.MIN_SIZE = s.hb.MIN_SIZE := (congrArg HashBounds.MIN_SIZE h.hbs :)
  have e2 : s'.hb.MIN_SIZE_INV = s.hb.MIN_SIZE_INV := (congrArg HashBounds.MIN_SIZE_INV h.hbs :)
  have e3 : s'.hb.BASE = s.hb.BASE := (congrArg HashBounds.BASE h.hbs :)
  have e4 : s'.hb.LOG2CACHE = s.hb.LOG2CACHE := (congrArg HashBounds.LOG2CACHE h.hbs :)
  constructor
  · rw [e1]; exact hs.minSize_pos
  · rw [e1, e2]; exact hs.minSize_inv
  · rw [h.levelCount_eq]; exact hs.count_pos
  · rw [h.levelCount_eq]; exact hs.count_le
  · rw [h.levelCount_eq, h.length_eq]; exact hs.levels_len
  · rw [h.levelCount_eq, e3]; exact hs.base
  · intro l g' hg'
    obtain ⟨g, hg, hgg⟩ := h.grid hg'
    have := hs.grid l g hg
    have f1 : g'.BUCKETSIZE = g.BUCKETSIZE := (congrArg HashGrid.BUCKETSIZE hgg :)
    have f2 : g'.BUCKETSIZE_INV = g.BUCKETSIZE_INV := (congrArg HashGrid.BUCKETSIZE_INV hgg :)
    have f3 : g'.NEXT_GRID = g.NEXT_GRID := (congrArg HashGrid.NEXT_GRID hgg :)
    rw [f1, f2, f3, e1, h.levelCount_eq]
    exact this
  · intro i v hv
    rw [e4] at hv
    rw [h.levelCount_eq]
    exact hs.log2 i v hv
  · rw [e4, h.levelCount_eq]
    exact hs.table

/-- A record after a step that keeps everything but the slot indexes. -/
theorem Frame.cache {s s' : St} (h : Frame s s') {e id : Nat} {c : EntryCache}
    (hc : s.cache e id = some c) :
    ∃ c', s'.cache e id = some c' ∧ c'.noIndexes = c.noIndexes := by
  have := h.recs e id
  rw [hc] at this
  cases hc' : s'.cache e id with
  | none => simp [hc'] at this
  | some c' =>
    refine ⟨c', rfl, ?_⟩
    simpa [hc'] using this

theorem Frame.cache_rev {s s' : St} (h : Frame s s') {e id : Nat} {c' : EntryCache}
    (hc : s'.cache e id = some c') :
    ∃ c, s.cache e id = some c ∧ c'.noIndexes = c.noIndexes := by
  have := h.recs e id
  rw [hc] at this
  cases hc0 : s.cache e id with
  | none => simp [hc0] at this
  | some c =>
    refine ⟨c, rfl, ?_⟩
    simpa [hc0] using this

theorem noIndexes_fields {c c' : EntryCache} (h : c'.noIndexes = c.noIndexes) :
    c'.k1x = c.k1x ∧ c'.k1y = c.k1y ∧ c'.k2x = c.k2x ∧ c'.k2y = c.k2y
      ∧ c'.cachedIndex = c.cachedIndex ∧ c'.isInHash = c.isInHash ∧ c'.hashID = c.hashID
      ∧ c'.cacheWidth = c.cacheWidth ∧ c'.cacheHeight = c.cacheHeight := by
  have h1 := congrArg EntryCache.k1x h
  have h2 := congrArg EntryCache.k1y h
  have h3 := congrArg EntryCache.k2x h
  have h4 := congrArg EntryCache.k2y h
  have h5 := (congrArg EntryCache.cachedIndex h :)
  have h6 := (congrArg EntryCache.isInHash h :)
  have h7 := (congrArg EntryCache.hashID h :)
  have h8 := (congrArg EntryCache.cacheWidth h :)
  have h9 := (congrArg EntryCache.cacheHeight h :)
  exact ⟨h1, h2, h3, h4, h5, h6, h7, h8, h9⟩

theorem noIndexes_key {c c' : EntryCache} (h : c'.noIndexes = c.noIndexes) (x y : Int) :
    c'.key x y = c.key x y := by
  obtain ⟨h1, h2, h3, h4, _⟩ := noIndexes_fields h
  simp [EntryCache.key, h1, h2, h3, h4]

theorem noIndexes_inSpan {c c' : EntryCache} (h : c'.noIndexes = c.noIndexes) (x y : Int) :
    c'.inSpan x y ↔ c.inSpan x y := by
  obtain ⟨h1, h2, h3, h4, _⟩ := noIndexes_fields h
  simp [EntryCache.inSpan, h1, h2, h3, h4]

theorem Frame.regs {s s' : St} (h : Frame s s') : s'.regs = s.regs := by
  funext e l x y
  apply propext
  unfold St.regs
  rw [h.id_eq]
  constructor
  · rintro ⟨c', hc', h1, h2, h3⟩
    obtain ⟨c, hc, hcc⟩ := h.cache_rev hc'
    obtain ⟨_, _, _, _, f5, f6, _⟩ := noIndexes_fields hcc
    exact ⟨c, hc, by rw [← f6]; exact h1, by rw [← f5]; exact h2,
      (noIndexes_inSpan hcc x y).mp h3⟩
  · rintro ⟨c, hc, h1, h2, h3⟩
    obtain ⟨c', hc', hcc⟩ := h.cache hc
    obtain ⟨_, _, _, _, f5, f6, _⟩ := noIndexes_fields hcc
    exact ⟨c', hc', by rw [f6]; exact h1, by rw [f5]; exact h2,
      (noIndexes_inSpan hcc x y).mpr h3⟩

theorem Frame.recsOk {s s' : St} (h : Frame s s') (hr : RecsOk s) : RecsOk s' := by
  intro e c' hc'
  rw [h.id_eq] at hc'
  obtain ⟨c, hc, hcc⟩ := h.cache_rev hc'
  obtain ⟨_, _, _, _, f5, _, f7, _⟩ := noIndexes_fields hcc
  rw [f5, f7, h.id_eq, h.levelCount_eq]
  exact hr e c hc

theorem Frame.stampsOk {s s' : St} (h : Frame s s') (hr : StampsOk s) : StampsOk s' := by
  obtain ⟨h1, h2, h3⟩ := hr
  refine ⟨by rw [h.queryID_eq]; exact h1, by rw [h.queryID_eq]; exact h2, ?_⟩
  intro e c' hc'
  rw [h.id_eq] at hc'
  obtain ⟨c, hc, _⟩ := h.cache_rev hc'
  rw [h.stamps, h.queryID_eq]
  exact h3 e c hc

theorem Frame.contains {s s' : St} (h : Frame s s') (e : Nat) :
    HashBounds.contains s' e = HashBounds.contains s e := by
  unfold HashBounds.contains
  rw [h.id_eq]
  cases hc : s.cache e s.hb.ID with
  | none =>
    have := h.recs e s.hb.ID
    rw [hc] at this
    cases hc' : s'.cache e s.hb.ID with
    | none => rfl
    | some c' => simp [hc'] at this
  | some c =>
    obtain ⟨c', hc', hcc⟩ := h.cache hc
    rw [hc']
    exact (noIndexes_fields hcc).2.2.2.2.2.1

theorem Frame.boxesOk {s s' : St} (h : Frame s s') {g : Boxes} (hb : BoxesOk s g) :
    BoxesOk s' g := by
  refine ⟨fun e => by rw [h.contains]; exact hb.1 e, ?_⟩
  intro e box hbox
  obtain ⟨h1, h2, c, l, gr, hc, hl, hgr, hsp⟩ := hb.2 e box hbox
  refine ⟨h1, h2, ?_⟩
  obtain ⟨c', hc', hcc⟩ := h.cache hc
  obtain ⟨gr', hgr', hgg⟩ := h.grid_rev hgr
  obtain ⟨f1, f2, f3, f4, f5, _⟩ := noIndexes_fields hcc
  refine ⟨c', l, gr', by rw [h.id_eq]; exact hc', by rw [f5]; exact hl, hgr', ?_⟩
  have e1 : gr'.BUCKETSIZE_INV = gr.BUCKETSIZE_INV := (congrArg HashGrid.BUCKETSIZE_INV hgg :)
  rw [f1, f2, f3, f4, hsp]
  simp [HashGrid.span, e1]

theorem Frame.levelFor_frame {s s' : St} (h : Frame s s') (w h' : ℚ) :
    HashBounds.levelFor s'.hb w h' = HashBounds.levelFor s.hb w h' := by
  have e2 : s'.hb.MIN_SIZE_INV = s.hb.MIN_SIZE_INV := (congrArg HashBounds.MIN_SIZE_INV h.hbs :)
  have e4 : s'.hb.LOG2CACHE = s.hb.LOG2CACHE := (congrArg HashBounds.LOG2CACHE h.hbs :)
  unfold HashBounds.levelFor
  rw [e2, e4, h.levelCount_eq]

theorem Frame.levelsOk {s s' : St} (h : Frame s s') (hr : LevelsOk s) : LevelsOk s' := by
  intro e c' hc'
  rw [h.id_eq] at hc'
  obtain ⟨c, hc, hcc⟩ := h.cache_rev hc'
  obtain ⟨_, _, _, _, f5, _, _, f8, f9⟩ := noIndexes_fields hcc
  rw [f5, f8, f9, h.levelFor_frame]
  exact hr e c hc

theorem Frame.dimsOk {s s' : St} (h : Frame s s') {g : Boxes} (hr : DimsOk s g) :
    DimsOk s' g := by
  intro e box c' hb hc'
  rw [h.id_eq] at hc'
  obtain ⟨c, hc, hcc⟩ := h.cache_rev hc'
  obtain ⟨_, _, _, _, _, _, _, f8, f9⟩ := noIndexes_fields hcc
  rw [f8, f9]
  exact hr e box c hb hc

/-! # Item lists and records -/

theorem key_inj {c : EntryCache} {x y x' y' : Int} (h : c.inSpan x y) (h' : c.inSpan x' y')
    (hk : c.key x y = c.key x' y') : x = x' ∧ y = y' := by
  obtain ⟨a1, a2, a3, a4⟩ := h
  obtain ⟨b1, b2, b3, b4⟩ := h'
  unfold EntryCache.key at hk
  have hx : x = x' := by
    by_contra hne
    rcases lt_or_gt_of_ne hne with hlt | hgt
    · have h1 : 1 ≤ x' - x := by omega
      have h2 : 0 ≤ c.k2y - c.k1y + 1 := by omega
      have h3 := mul_le_mul_of_nonneg_right h1 h2
      have h4 : (x' - x) * (c.k2y - c.k1y + 1) = y - y' := by linarith
      omega
    · have h1 : 1 ≤ x - x' := by omega
      have h2 : 0 ≤ c.k2y - c.k1y + 1 := by omega
      have h3 := mul_le_mul_of_nonneg_right h1 h2
      have h4 : (x - x') * (c.k2y - c.k1y + 1) = y' - y := by linarith
      omega
  subst hx
  exact ⟨rfl, by omega⟩

@[simp] theorem setIndex_key (c : EntryCache) (k : Int) (v : Nat) (x y : Int) :
    (c.setIndex k v).key x y = c.key x y := rfl

@[simp] theorem setIndex_inSpan (c : EntryCache) (k : Int) (v : Nat) (x y : Int) :
    (c.setIndex k v).inSpan x y ↔ c.inSpan x y := Iff.rfl

theorem setIndex_indexes (c : EntryCache) (k : Int) (v : Nat) (j : Int) :
    (c.setIndex k v).indexes j = if j = k then some v else c.indexes j := rfl

@[simp] theorem setIndex_noIndexes (c : EntryCache) (k : Int) (v : Nat) :
    (c.setIndex k v).noIndexes = c.noIndexes := rfl

theorem ItemsOk_congr {s s' : St} {A : Nat → Nat → Int → Int → Prop} (h : ItemsOk s A)
    (hhb : s'.hb = s.hb) (hen : s'.entries = s.entries)
    (hI : ∀ i, (s'.buckets i).ITEM_LIST = (s.buckets i).ITEM_LIST) : ItemsOk s' A := by
  have hres : s'.resident = s.resident := by
    funext l x y
    simp [St.resident, hhb]
  have hca : s'.cache = s.cache := by
    funext e id
    simp [St.cache, hen]
  constructor
  · exact h.single
  · intro l x y b i e hr hg
    rw [hres] at hr
    rw [hI] at hg
    rw [hca, hhb]
    exact h.fwd l x y b i e hr hg
  · intro e l x y ha
    obtain ⟨c, b, i, h1, h2, h3, h4, h5⟩ := h.bwd e l x y ha
    exact ⟨c, b, i, by rw [hca, hhb]; exact h1, h2, by rw [hres]; exact h3, h4,
      by rw [hI]; exact h5⟩

theorem CounterStep.itemsOk {s s' : St} {l b : Nat} {d : Int} (h : CounterStep s s' l b d)
    {A : Nat → Nat → Int → Int → Prop} (hi : ItemsOk s A) : ItemsOk s' A :=
  ItemsOk_congr hi h.hb h.entries (fun i => (noCounter_fields (h.same i)).2.2.1)

theorem CounterStep.frame {s s' : St} {l b : Nat} {d : Int} (h : CounterStep s s' l b d) :
    Frame s s' := by
  refine ⟨by rw [h.hb], by rw [h.hb], ?_, ?_, ?_, by rw [h.nextBucket]⟩
  · intro l x y b hr
    rw [h.resident]; exact hr
  · intro e id
    simp [St.cache, h.entries]
  · intro e
    rw [h.entries]

/-- The state in the middle of `TreeBucket.set`: the slot index written and
the entry pushed. -/
theorem itemsOk_push {s : St} {A : Nat → Nat → Int → Int → Prop} {e l : Nat} {x y : Int}
    {b : Nat} {c : EntryCache} (hi : ItemsOk s A) (ht : TreeOk s)
    (hc : s.cache e s.hb.ID = some c) (hb : s.resident l x y = some b)
    (hsp : c.inSpan x y) (hn : ¬ A e l x y) (hl : ∀ l' x' y', A e l' x' y' → l' = l) :
    ItemsOk ((s.setCache e s.hb.ID (fun r => r.setIndex (c.key x y) (s.buckets b).ITEM_LIST.length)).setBucket b
        (fun t => { t with ITEM_LIST := t.ITEM_LIST ++ [e] }))
      (fun e' l' x' y' => A e' l' x' y' ∨ (e' = e ∧ l' = l ∧ x' = x ∧ y' = y)) := by
  have hkey : ∀ l1 x1 y1, A e l1 x1 y1 → c.key x1 y1 ≠ c.key x y := by
    intro l1 x1 y1 ha hk
    obtain ⟨c0, _, _, h1, h2, _⟩ := hi.bwd e l1 x1 y1 ha
    rw [hc] at h1
    cases h1
    obtain ⟨rfl, rfl⟩ := key_inj h2 hsp hk
    have := hl l1 x1 y1 ha
    subst this
    exact hn ha
  constructor
  · intro e1 l1 x1 y1 l2 x2 y2 h1 h2
    rcases h1 with h1 | ⟨rfl, rfl, rfl, rfl⟩
    · rcases h2 with h2 | ⟨rfl, rfl, rfl, rfl⟩
      · exact hi.single _ _ _ _ _ _ _ h1 h2
      · exact hl _ _ _ h1
    · rcases h2 with h2 | ⟨_, rfl, rfl, rfl⟩
      · exact (hl _ _ _ h2).symm
      · rfl
  · intro l1 x1 y1 b1 i e1 hr hg
    simp only [St.setBucket_resident, St.setCache_resident] at hr
    simp only [St.setBucket_hb, St.setCache_hb, St.setBucket_cache]
    by_cases hb1 : b1 = b
    · subst hb1
      obtain ⟨rfl, rfl, rfl⟩ := ht.inj _ _ _ _ _ _ b1 hr hb
      simp only [St.setBucket_buckets_self, St.setCache_buckets] at hg
      by_cases hlt : i < (s.buckets b1).ITEM_LIST.length
      · rw [List.getElem?_append_left hlt] at hg
        obtain ⟨f1, f2⟩ := hi.fwd _ _ _ _ _ _ hr hg
        have hne : e1 ≠ e := by
          rintro rfl
          exact hn f1
        refine ⟨Or.inl f1, ?_⟩
        intro c' hc'
        rw [St.setCache_cache_ne _ _ _ _ _ hne] at hc'
        exact f2 c' hc'
      · have hi' : i = (s.buckets b1).ITEM_LIST.length := by
          by_contra hne
          have : (s.buckets b1).ITEM_LIST.length + 1 ≤ i := by omega
          rw [List.getElem?_eq_none (by simpa using this)] at hg
          cases hg
        subst hi'
        simp at hg
        subst hg
        refine ⟨Or.inr ⟨rfl, rfl, rfl, rfl⟩, ?_⟩
        intro c' hc'
        rw [St.setCache_cache_self, hc] at hc'
        simp at hc'
        subst hc'
        simp [setIndex_indexes]
    · simp only [St.setBucket_buckets_ne _ _ _ _ hb1, St.setCache_buckets] at hg
      obtain ⟨f1, f2⟩ := hi.fwd _ _ _ _ _ _ hr hg
      refine ⟨Or.inl f1, ?_⟩
      intro c' hc'
      by_cases hne : e1 = e
      · subst hne
        rw [St.setCache_cache_self, hc] at hc'
        simp at hc'
        subst hc'
        have := hkey _ _ _ f1
        have h3 := f2 c hc
        rw [setIndex_key, setIndex_indexes, if_neg this]
        exact h3
      · rw [St.setCache_cache_ne _ _ _ _ _ hne] at hc'
        exact f2 c' hc'
  · intro e1 l1 x1 y1 ha
    simp only [St.setBucket_resident, St.setCache_resident, St.setBucket_hb, St.setCache_hb,
      St.setBucket_cache]
    rcases ha with ha | ⟨rfl, rfl, rfl, rfl⟩
    · obtain ⟨c0, b0, i0, h1, h2, h3, h4, h5⟩ := hi.bwd _ _ _ _ ha
      have hitems : ((s.setCache e1 s.hb.ID (fun r => r.setIndex (c.key x y) (s.buckets b).ITEM_LIST.length)).setBucket b
          (fun t => { t with ITEM_LIST := t.ITEM_LIST ++ [e] })).buckets b0 |>.ITEM_LIST[i0]?
          = some e1 := by
        by_cases hb0 : b0 = b
        · subst hb0
          simp only [St.setBucket_buckets_self, St.setCache_buckets]
          rw [List.getElem?_append_left (List.getElem?_eq_some_iff.mp h5).1]
          exact h5
        · simp only [St.setBucket_buckets_ne _ _ _ _ hb0, St.setCache_buckets]
          exact h5
      by_cases hne : e1 = e
      · subst hne
        rw [hc] at h1
        cases h1
        refine ⟨c.setIndex (c.key x y) (s.buckets b).ITEM_LIST.length, b0, i0,
          by rw [St.setCache_cache_self, hc]; rfl, h2, h3, ?_, ?_⟩
        · have := hkey _ _ _ ha
          rw [setIndex_key, setIndex_indexes, if_neg this]
          exact h4
        · exact hitems
      · refine ⟨c0, b0, i0, by rw [St.setCache_cache_ne _ _ _ _ _ hne]; exact h1, h2, h3, h4, ?_⟩
        by_cases hb0 : b0 = b
        · subst hb0
          simp only [St.setBucket_buckets_self, St.setCache_buckets]
          rw [List.getElem?_append_left (List.getElem?_eq_some_iff.mp h5).1]
          exact h5
        · simp only [St.setBucket_buckets_ne _ _ _ _ hb0, St.setCache_buckets]
          exact h5
    · refine ⟨c.setIndex (c.key x1 y1) (s.buckets b).ITEM_LIST.length, b,
        (s.buckets b).ITEM_LIST.length,
        by rw [St.setCache_cache_self, hc]; rfl, hsp, hb, ?_, ?_⟩
      · simp [setIndex_indexes]
      · simp

/-! # `TreeBucket.set` -/

theorem set_ok {s : St} {A : Nat → Nat → Int → Int → Prop} {fuel e l : Nat} {x y : Int}
    {b : Nat} {c : EntryCache} (hs : Static s) (ht : TreeOk s) (hcnt : CntOk s)
    (hi : ItemsOk s A) (hc : s.cache e s.hb.ID = some c) (hb : s.resident l x y = some b)
    (hsp : c.inSpan x y) (hn : ¬ A e l x y) (hl : ∀ l' x' y', A e l' x' y' → l' = l)
    (hf : s.hb.LEVEL_COUNT ≤ fuel + l) :
    (TreeBucket.set fuel b e s.hb.ID (c.key x y)).Ok s (fun _ s' =>
      Frame s s' ∧ TreeOk s' ∧ CntOk s'
        ∧ ItemsOk s' (fun e' l' x' y' => A e' l' x' y' ∨ (e' = e ∧ l' = l ∧ x' = x ∧ y' = y))) := by
  have hi2 := itemsOk_push hi ht hc hb hsp hn hl
  simp only [TreeBucket.set, M.Ok_bind, M.Ok_read, M.Ok_modify]
  generalize hs2 : ((s.setCache e s.hb.ID
    (fun r => r.setIndex (c.key x y) (s.buckets b).ITEM_LIST.length)).setBucket b
    (fun t => { t with ITEM_LIST := t.ITEM_LIST ++ [e] })) = s2 at hi2 ⊢
  have hhb : s2.hb = s.hb := by subst hs2; rfl
  have hnb : s2.nextBucket = s.nextBucket := by subst hs2; rfl
  have hres : s2.resident = s.resident := by subst hs2; rfl
  have hbk : ∀ i, i ≠ b → s2.buckets i = s.buckets i := by
    intro i hne
    subst hs2
    simp [St.setBucket_buckets_ne _ _ _ _ hne]
  have hbb : s2.buckets b = { s.buckets b with ITEM_LIST := (s.buckets b).ITEM_LIST ++ [e] } := by
    subst hs2
    simp
  have hsh : ∀ i, (s2.buckets i).shape = (s.buckets i).shape := by
    intro i
    by_cases hne : i = b
    · subst hne; rw [hbb]; rfl
    · rw [hbk i hne]
  have ht2 : TreeOk s2 := TreeOk_of_shape ht hhb hnb hsh
  have hst2 : Static s2 := Static_of_hb hs hhb
  have hfr : Frame s s2 := by
    refine ⟨by rw [hhb], by rw [hhb], fun l x y b h => by rw [hres]; exact h, ?_, ?_,
      by rw [hnb]⟩
    · intro e' id'
      subst hs2
      simp only [St.setBucket_cache, St.setCache_cache]
      split
      · rename_i h
        obtain ⟨rfl, rfl⟩ := h
        cases s.cache e' s.hb.ID <;> simp
      · rfl
    · intro e'
      subst hs2
      simp
  have hcnt2 : ∀ l' x' y' q, s.resident l' x' y' = some q → q ≠ b → s2.CntAt q := by
    intro l' x' y' q hq hqb
    refine CntAt_congr ?_ ?_ ?_ ?_ (hcnt l' x' y' q hq)
    · rw [hbk q hqb]
    · rw [hbk q hqb]
    · rw [hbk q hqb]
    · intro k c' _
      by_cases hcb : c' = b
      · subst hcb; rw [hbb]
      · rw [hbk c' hcb]
  split
  · rename_i hlen
    refine M.Ok_mono (add_ok fuel s2 l x y b hst2 ht2 (by rw [hres]; exact hb)
      (by rw [hhb]; exact hf)) ?_
    intro _ s' h1
    refine ⟨hfr.trans h1.frame, h1.treeOk ht2, ?_, h1.itemsOk hi2⟩
    intro l' x' y' q hq
    rw [h1.resident, hres] at hq
    by_cases hqb : q = b
    · subst hqb
      have hcb := hcnt l' x' y' q hq
      obtain ⟨rfl, rfl, rfl⟩ := ht.inj _ _ _ _ _ _ q hq hb
      unfold St.CntAt at hcb ⊢
      rw [h1.self, hbb, hcb]
      have hf' := noCounter_fields (h1.same q)
      have hpc : ∀ k, s'.posChild q k = s.posChild q k := by
        intro k
        refine posChild_congr ?_ ?_
        · rw [hf'.2.1, hbb]
        · intro c' hk
          obtain ⟨_, _, _, hr⟩ := ht.children _ _ _ _ k c' hq hk
          have hcq : c' ≠ q := by
            rintro rfl
            have := (ht.inj _ _ _ _ _ _ c' hr hq).1
            omega
          rw [h1.below _ _ _ c' (by rw [hres]; exact hr) (by omega) hcq, hbk c' hcq]
      unfold St.expected
      rw [hpc, hpc, hpc, hpc, hf'.2.2.1, hbb]
      have h0 : (s.buckets q).ITEM_LIST = [] := List.length_eq_zero.mp hlen
      simp [h0]
      ring
    · exact h1.keep l' x' y' q (by rw [hres]; exact hq) hqb (hcnt2 l' x' y' q hq hqb)
  · rename_i hlen
    simp only [M.Ok_pure]
    refine ⟨hfr, ht2, ?_, hi2⟩
    intro l' x' y' q hq
    rw [hres] at hq
    by_cases hqb : q = b
    · subst hqb
      refine CntAt_congr ?_ ?_ ?_ ?_ (hcnt l' x' y' q hq)
      · rw [hbb]
      · rw [hbb]
        have h0 : (s.buckets q).ITEM_LIST ≠ [] := fun h => hlen (by simp [h])
        simp [h0]
      · rw [hbb]
      · intro k c' hk
        obtain ⟨_, _, _, hr⟩ := ht.children _ _ _ _ k c' hq hk
        have hcq : c' ≠ q := by
          rintro rfl
          have := (ht.inj _ _ _ _ _ _ c' hr hq).1
          omega
        rw [hbk c' hcq]
    · exact hcnt2 l' x' y' q hq hqb

/-! # Swap-with-last removal -/

/-- The state after `TreeBucket.remove` has taken entry `e` out of bucket
`b`, described by what it holds: the item list of `b` lost its last position,
position `i0` (where `e` was) now holds the former last item, and that
item's record points at `i0`. -/
theorem itemsOk_pop {s s3 : St} {A : Nat → Nat → Int → Int → Prop} {e l : Nat} {x y : Int}
    {b : Nat} {c : EntryCache} {i0 : Nat} (last : Nat) (hi : ItemsOk s A) (ht : TreeOk s)
    (ha : A e l x y) (hc : s.cache e s.hb.ID = some c) (hb : s.resident l x y = some b)
    (hi0 : c.indexes (c.key x y) = some i0)
    (hlast : (s.buckets b).ITEM_LIST[(s.buckets b).ITEM_LIST.length - 1]? = some last)
    (hhb : s3.hb = s.hb)
    (hbk : ∀ i, i ≠ b → (s3.buckets i).ITEM_LIST = (s.buckets i).ITEM_LIST)
    (hbb : ∀ i, (s3.buckets b).ITEM_LIST[i]?
      = if i < (s.buckets b).ITEM_LIST.length - 1 then
          (if i = i0 then some last else (s.buckets b).ITEM_LIST[i]?)
        else none)
    (hca : ∀ e', s3.cache e' s.hb.ID
      = if i0 + 1 ≠ (s.buckets b).ITEM_LIST.length ∧ e' = last then
          (s.cache e' s.hb.ID).map
            (fun r => r.setIndex (r.key x y) i0)
        else s.cache e' s.hb.ID) :
    ItemsOk s3 (fun e' l' x' y' => A e' l' x' y' ∧ ¬ (e' = e ∧ l' = l ∧ x' = x ∧ y' = y)) := by
  have hres : s3.resident = s.resident := by
    funext l x y
    simp [St.resident, hhb]
  -- where `e` sits
  obtain ⟨c0, b0, j0, g1, g2, g3, g4, g5⟩ := hi.bwd e l x y ha
  rw [hc] at g1; cases g1
  rw [hb] at g3; cases g3
  rw [hi0] at g4; cases g4
  have hlen : i0 < (s.buckets b).ITEM_LIST.length := (List.getElem?_eq_some_iff.mp g5).1
  -- positions are unique
  have huniq : ∀ (i j e' : Nat), (s.buckets b).ITEM_LIST[i]? = some e' →
      (s.buckets b).ITEM_LIST[j]? = some e' → i = j := by
    intro i j e' h1 h2
    obtain ⟨f1, f2⟩ := hi.fwd _ _ _ _ _ _ hb h1
    obtain ⟨_, f2'⟩ := hi.fwd _ _ _ _ _ _ hb h2
    obtain ⟨c', _, _, k1, _⟩ := hi.bwd _ _ _ _ f1
    have := f2 c' k1
    rw [f2' c' k1] at this
    exact (Option.some.inj this).symm
  -- the last item
  obtain ⟨fl1, fl2⟩ := hi.fwd _ _ _ _ _ _ hb hlast
  obtain ⟨c2, b2, j2, k1, k2, k3, k4, k5⟩ := hi.bwd _ _ _ _ fl1
  have hkeyne : ∀ e' l1 x1 y1 c' b1, A e' l1 x1 y1 → s.cache e' s.hb.ID = some c' →
      s.resident l1 x1 y1 = some b1 → b1 ≠ b → A e' l x y → c'.key x1 y1 ≠ c'.key x y := by
    intro e' l1 x1 y1 c' b1 h1 h2 h3 hne h4 hk
    obtain ⟨c1, _, _, m1, m2, _⟩ := hi.bwd _ _ _ _ h1
    obtain ⟨c1', _, _, m1', m2', _⟩ := hi.bwd _ _ _ _ h4
    rw [h2] at m1 m1'
    cases m1; cases m1'
    obtain ⟨rfl, rfl⟩ := key_inj m2 m2' hk
    have := hi.single _ _ _ _ _ _ _ h1 h4
    subst this
    rw [hb] at h3
    exact hne (Option.some.inj h3).symm
  constructor
  · intro e1 l1 x1 y1 l2 x2 y2 h1 h2
    exact hi.single _ _ _ _ _ _ _ h1.1 h2.1
  · intro l1 x1 y1 b1 i e1 hr hg
    rw [hres] at hr
    rw [hhb]
    by_cases hb1 : b1 = b
    · subst hb1
      obtain ⟨rfl, rfl, rfl⟩ := ht.inj _ _ _ _ _ _ b1 hr hb
      rw [hbb] at hg
      split at hg
      · rename_i hlt
        split at hg
        · rename_i hii
          subst hii
          have hel : last = e1 := Option.some.inj hg
          subst hel
          have hne : i + 1 ≠ (s.buckets b1).ITEM_LIST.length := by omega
          have hee : last ≠ e := by
            rintro rfl
            have := huniq _ _ _ hlast g5
            omega
          refine ⟨⟨fl1, fun h => hee h.1⟩, ?_⟩
          intro c' hc'
          rw [hca, if_pos ⟨hne, rfl⟩, k1] at hc'
          simp at hc'
          subst hc'
          simp [setIndex_indexes]
        · rename_i hii
          obtain ⟨f1, f2⟩ := hi.fwd _ _ _ _ _ _ hr hg
          have hee : e1 ≠ e := by
            rintro rfl
            exact hii (huniq _ _ _ hg g5)
          refine ⟨⟨f1, fun h => hee h.1⟩, ?_⟩
          intro c' hc'
          rw [hca] at hc'
          split at hc'
          · rename_i hcond
            obtain ⟨_, rfl⟩ := hcond
            have := huniq _ _ _ hg hlast
            omega
          · exact f2 c' hc'
      · cases hg
    · rw [hbk b1 hb1] at hg
      obtain ⟨f1, f2⟩ := hi.fwd _ _ _ _ _ _ hr hg
      refine ⟨⟨f1, ?_⟩, ?_⟩
      · rintro ⟨_, rfl, rfl, rfl⟩
        rw [hb] at hr
        exact hb1 (Option.some.inj hr).symm
      · intro c' hc'
        rw [hca] at hc'
        split at hc'
        · rename_i hcond
          obtain ⟨_, rfl⟩ := hcond
          rw [k1] at hc'
          simp at hc'
          subst hc'
          rw [setIndex_key, setIndex_indexes, if_neg (hkeyne _ _ _ _ _ _ f1 k1 hr hb1 fl1)]
          exact f2 c2 k1
        · exact f2 c' hc'
  · intro e1 l1 x1 y1 ha1
    obtain ⟨ha1, hnot⟩ := ha1
    obtain ⟨c1, b1, j1, m1, m2, m3, m4, m5⟩ := hi.bwd _ _ _ _ ha1
    rw [hhb, hres]
    by_cases hb1 : b1 = b
    · subst hb1
      obtain ⟨rfl, rfl, rfl⟩ := ht.inj _ _ _ _ _ _ b1 m3 hb
      have hee : e1 ≠ e := fun h => hnot ⟨h, rfl, rfl, rfl⟩
      have hj1 : j1 ≠ i0 := by
        rintro rfl
        rw [g5] at m5
        exact hee (Option.some.inj m5).symm
      have hj1lt : j1 < (s.buckets b1).ITEM_LIST.length := (List.getElem?_eq_some_iff.mp m5).1
      by_cases hsw : i0 + 1 ≠ (s.buckets b1).ITEM_LIST.length ∧ e1 = last
      · obtain ⟨hsw1, rfl⟩ := hsw
        rw [k1] at m1
        cases m1
        refine ⟨c2.setIndex (c2.key x1 y1) i0, b1, i0, ?_, m2, m3, ?_, ?_⟩
        · rw [hca, if_pos ⟨hsw1, rfl⟩, k1]
          rfl
        · simp [setIndex_indexes]
        · rw [hbb, if_pos (by omega), if_pos rfl]
      · refine ⟨c1, b1, j1, ?_, m2, m3, m4, ?_⟩
        · rw [hca, if_neg hsw]
          exact m1
        · have hj1' : j1 < (s.buckets b1).ITEM_LIST.length - 1 := by
            by_contra hcon
            have hj : j1 = (s.buckets b1).ITEM_LIST.length - 1 := by omega
            rw [hj] at m5
            rw [hlast] at m5
            have hel : last = e1 := Option.some.inj m5
            subst hel
            have hi0' : i0 + 1 = (s.buckets b1).ITEM_LIST.length := by
              by_contra h'
              exact hsw ⟨h', rfl⟩
            omega
          rw [hbb, if_pos hj1', if_neg hj1]
          exact m5
    · by_cases hsw : i0 + 1 ≠ (s.buckets b).ITEM_LIST.length ∧ e1 = last
      · obtain ⟨hsw1, rfl⟩ := hsw
        rw [k1] at m1
        cases m1
        refine ⟨c2.setIndex (c2.key x y) i0, b1, j1, ?_, m2, m3, ?_, ?_⟩
        · rw [hca, if_pos ⟨hsw1, rfl⟩, k1]
          rfl
        · rw [setIndex_key, setIndex_indexes, if_neg (hkeyne _ _ _ _ _ _ ha1 k1 m3 hb1 fl1)]
          exact m4
        · rw [hbk b1 hb1]
          exact m5
      · refine ⟨c1, b1, j1, ?_, m2, m3, m4, ?_⟩
        · rw [hca, if_neg hsw]
          exact m1
        · rw [hbk b1 hb1]
          exact m5

/-! # `TreeBucket.remove` -/

/-- The end of `TreeBucket.remove`: the item list of `b` is one shorter, and
`subtract` runs when it has become empty. -/
theorem remove_tail {s s3 : St} {A' : Nat → Nat → Int → Int → Prop} {fuel l : Nat} {x y : Int}
    {b : Nat} (L : List Nat) (hs : Static s) (ht : TreeOk s) (hcnt : CntOk s)
    (hb : s.resident l x y = some b) (hf : s.hb.LEVEL_COUNT ≤ fuel + l)
    (hpos : 0 < (s.buckets b).ITEM_LIST.length)
    (hL : L.length = (s.buckets b).ITEM_LIST.length - 1)
    (hhb : s3.hb = s.hb) (hnb : s3.nextBucket = s.nextBucket)
    (hbk : ∀ i, i ≠ b → s3.buckets i = s.buckets i)
    (hbb : s3.buckets b = { s.buckets b with ITEM_LIST := L })
    (hrec : ∀ e id, (s3.cache e id).map EntryCache.noIndexes
      = (s.cache e id).map EntryCache.noIndexes)
    (hst : ∀ e, (s3.entries e)._HashBoundsTempCheck = (s.entries e)._HashBoundsTempCheck)
    (hi3 : ItemsOk s3 A') :
    (if ((s.buckets b).ITEM_LIST.length : Int) - 1 = 0 then TreeBucket.subtract fuel b
      else pure PUnit.unit).Ok s3 (fun _ s' =>
      Frame s s' ∧ TreeOk s' ∧ CntOk s' ∧ ItemsOk s' A') := by
  have hres : s3.resident = s.resident := by
    funext l x y
    simp [St.resident, hhb]
  have hsh : ∀ i, (s3.buckets i).shape = (s.buckets i).shape := by
    intro i
    by_cases hne : i = b
    · subst hne; rw [hbb]; rfl
    · rw [hbk i hne]
  have ht3 : TreeOk s3 := TreeOk_of_shape ht hhb hnb hsh
  have hst3 : Static s3 := Static_of_hb hs hhb
  have hfr : Frame s s3 :=
    ⟨by rw [hhb], by rw [hhb], fun l x y b h => by rw [hres]; exact h, hrec, hst, by rw [hnb]⟩
  have hcnt3 : ∀ l' x' y' q, s.resident l' x' y' = some q → q ≠ b → s3.CntAt q := by
    intro l' x' y' q hq hqb
    refine CntAt_congr ?_ ?_ ?_ ?_ (hcnt l' x' y' q hq)
    · rw [hbk q hqb]
    · rw [hbk q hqb]
    · rw [hbk q hqb]
    · intro k c' _
      by_cases hcb : c' = b
      · subst hcb; rw [hbb]
      · rw [hbk c' hcb]
  split
  · rename_i hlen
    have hlen1 : (s.buckets b).ITEM_LIST.length = 1 := by omega
    have hL0 : L = [] := List.length_eq_zero.mp (by omega)
    refine M.Ok_mono (subtract_ok fuel s3 l x y b hst3 ht3 (by rw [hres]; exact hb)
      (by rw [hhb]; exact hf)) ?_
    intro _ s' h1
    refine ⟨hfr.trans h1.frame, h1.treeOk ht3, ?_, h1.itemsOk hi3⟩
    intro l' x' y' q hq
    rw [h1.resident, hres] at hq
    by_cases hqb : q = b
    · subst hqb
      have hcb := hcnt l' x' y' q hq
      obtain ⟨rfl, rfl, rfl⟩ := ht.inj _ _ _ _ _ _ q hq hb
      unfold St.CntAt at hcb ⊢
      rw [h1.self, hbb, hcb]
      have hf' := noCounter_fields (h1.same q)
      have hpc : ∀ k, s'.posChild q k = s.posChild q k := by
        intro k
        refine posChild_congr ?_ ?_
        · rw [hf'.2.1, hbb]
        · intro c' hk
          obtain ⟨_, _, _, hr⟩ := ht.children _ _ _ _ k c' hq hk
          have hcq : c' ≠ q := by
            rintro rfl
            have := (ht.inj _ _ _ _ _ _ c' hr hq).1
            omega
          rw [h1.below _ _ _ c' (by rw [hres]; exact hr) (by omega) hcq, hbk c' hcq]
      unfold St.expected
      rw [hpc, hpc, hpc, hpc, hf'.2.2.1, hbb]
      have h0 : (s.buckets q).ITEM_LIST ≠ [] := by
        intro h
        rw [h] at hlen1
        simp at hlen1
      simp [h0, hL0]
      ring
    · exact h1.keep l' x' y' q (by rw [hres]; exact hq) hqb (hcnt3 l' x' y' q hq hqb)
  · rename_i hlen
    simp only [M.Ok_pure]
    refine ⟨hfr, ht3, ?_, hi3⟩
    intro l' x' y' q hq
    rw [hres] at hq
    by_cases hqb : q = b
    · subst hqb
      refine CntAt_congr ?_ ?_ ?_ ?_ (hcnt l' x' y' q hq)
      · rw [hbb]
      · rw [hbb]
        have h0 : (s.buckets q).ITEM_LIST ≠ [] := by
          intro h
          rw [h] at hpos
          simp at hpos
        have h1 : L ≠ [] := by
          intro h
          rw [h] at hL
          simp at hL
          omega
        simp [h0, h1]
      · rw [hbb]
      · intro k c' hk
        obtain ⟨_, _, _, hr⟩ := ht.children _ _ _ _ k c' hq hk
        have hcq : c' ≠ q := by
          rintro rfl
          have := (ht.inj _ _ _ _ _ _ c' hr hq).1
          omega
        rw [hbk c' hcq]
    · exact hcnt3 l' x' y' q hq hqb

theorem remove_ok {s : St} {A : Nat → Nat → Int → Int → Prop} {fuel e l : Nat} {x y : Int}
    {b : Nat} {c : EntryCache} (hs : Static s) (ht : TreeOk s) (hcnt : CntOk s)
    (hi : ItemsOk s A) (hc : s.cache e s.hb.ID = some c) (hid : c.hashID = s.hb.ID)
    (hb : s.resident l x y = some b) (ha : A e l x y)
    (hf : s.hb.LEVEL_COUNT ≤ fuel + l) :
    (TreeBucket.remove fuel b e s.hb.ID (c.key x y)).Ok s (fun _ s' =>
      Frame s s' ∧ TreeOk s' ∧ CntOk s'
        ∧ ItemsOk s' (fun e' l' x' y' => A e' l' x' y' ∧ ¬ (e' = e ∧ l' = l ∧ x' = x ∧ y' = y))) := by
  obtain ⟨c0, b0, i0, g1, g2, g3, g4, g5⟩ := hi.bwd e l x y ha
  rw [hc] at g1; cases g1
  rw [hb] at g3; cases g3
  have hlen : i0 < (s.buckets b).ITEM_LIST.length := (List.getElem?_eq_some_iff.mp g5).1
  have hlastex : ∃ last, (s.buckets b).ITEM_LIST[(s.buckets b).ITEM_LIST.length - 1]? = some last := by
    have : (s.buckets b).ITEM_LIST.length - 1 < (s.buckets b).ITEM_LIST.length := by omega
    exact ⟨_, List.getElem?_eq_getElem this⟩
  obtain ⟨last, hlast⟩ := hlastex
  simp only [TreeBucket.remove, M.Ok_bind, M.Ok_read, hc, g4]
  by_cases hsw : i0 + 1 = (s.buckets b).ITEM_LIST.length
  · have hcond : ¬ ((i0 : Int) ≠ ((s.buckets b).ITEM_LIST.length : Int) - 1) := by
      push_neg; omega
    rw [if_neg hcond]
    simp only [M.Ok_bind, M.Ok_pure, M.Ok_modify]
    refine remove_tail ((s.buckets b).ITEM_LIST.dropLast) hs ht hcnt hb hf (by omega)
      (by simp) rfl rfl ?_ ?_ ?_ ?_ ?_
    · intro i hne
      exact St.setBucket_buckets_ne _ _ _ _ hne
    · simp
    · intro e' id'; rfl
    · intro e'; rfl
    · refine itemsOk_pop last hi ht ha hc hb g4 hlast rfl ?_ ?_ ?_
      · intro i hne
        rw [St.setBucket_buckets_ne _ _ _ _ hne]
      · intro i
        simp only [St.setBucket_buckets_self, List.dropLast_eq_take, List.getElem?_take]
        split
        · rename_i hlt
          rw [if_neg (by omega)]
        · rfl
      · intro e'
        rw [if_neg (by rintro ⟨h, _⟩; exact h hsw)]
        rfl
  · have hcond : (i0 : Int) ≠ ((s.buckets b).ITEM_LIST.length : Int) - 1 := by omega
    rw [if_pos hcond, List.getLast?_eq_getElem?, hlast]
    simp only []
    rw [if_neg (by omega)]
    obtain ⟨fl1, fl2⟩ := hi.fwd _ _ _ _ _ _ hb hlast
    obtain ⟨c2, b2, j2, k1, k2, k3, k4, k5⟩ := hi.bwd _ _ _ _ fl1
    have hsite := ht.site l x y b hb
    simp only [M.Ok_bind, M.Ok_modify, hid, k1, M.Ok_pure]
    have hkey : ((s.buckets b).BUCKET_X - c2.k1x) * (c2.k2y - c2.k1y + 1) + (s.buckets b).BUCKET_Y
        - c2.k1y = c2.key x y := by
      rw [hsite.1, hsite.2.1]
      rfl
    rw [hkey]
    have hle : last ≠ e := by
      rintro rfl
      obtain ⟨_, f2⟩ := hi.fwd _ _ _ _ _ _ hb g5
      have h1 := f2 c hc
      have h2 := fl2 c hc
      rw [h1] at h2
      have := Option.some.inj h2
      omega
    refine remove_tail (((s.buckets b).ITEM_LIST.set i0 last).dropLast) hs ht hcnt hb hf
      (by omega) (by simp) rfl rfl ?_ ?_ ?_ ?_ ?_
    · intro i hne
      simp [St.setBucket_buckets_ne _ _ _ _ hne]
    · simp
    · intro e' id'
      simp only [St.setBucket_cache, St.setCache_cache]
      split
      · rename_i h
        obtain ⟨rfl, rfl⟩ := h
        cases s.cache e' s.hb.ID <;> simp
      · rfl
    · intro e'
      simp
    · refine itemsOk_pop last hi ht ha hc hb g4 hlast rfl ?_ ?_ ?_
      · intro i hne
        simp [St.setBucket_buckets_ne _ _ _ _ hne]
      · intro i
        simp only [St.setBucket_buckets_self, St.setCache_buckets, List.dropLast_eq_take,
          List.getElem?_take, List.length_set, List.getElem?_set]
        split
        · rename_i hlt
          by_cases hii : i = i0
          · subst hii
            simp [hlen]
          · rw [if_neg hii, if_neg (fun h => hii h.symm)]
        · rfl
      · intro e'
        rw [St.setBucket_cache, St.setCache_cache]
        by_cases he' : e' = last
        · subst he'
          rw [if_pos ⟨rfl, rfl⟩, if_pos ⟨hsw, rfl⟩, St.setBucket_cache, k1]
          rfl
        · rw [if_neg (fun h => he' h.1), if_neg (fun h => he' h.2)]
          rfl

/-! # Grids -/

theorem TreeOk.toExc {s : St} (h : TreeOk s) (orph : Nat → Prop) : TreeOkExc s orph :=
  ⟨h.lt, h.inj, h.site, fun l x y b hr hl _ => h.parent l x y b hr hl, h.top, h.children,
   h.quad⟩

theorem TreeOkExc.toOk {s : St} {orph : Nat → Prop} (h : TreeOkExc s orph)
    (ho : ∀ b, ¬ orph b) : TreeOk s :=
  ⟨h.lt, h.inj, h.site, fun l x y b hr hl => h.parent l x y b hr hl (ho b), h.top, h.children,
   h.quad⟩

theorem grid_ok {s : St} {l : Nat} {g : HashGrid} (h : s.hb.LEVELS[l]? = some g)
    (Q : HashGrid → St → Prop) : (HashGrid.grid l).Ok s Q ↔ Q g s := by
  unfold HashGrid.grid M.Ok
  simp only [h]
  constructor
  · rintro ⟨a, s', h1, h2⟩
    cases h1
    exact h2
  · intro h2
    exact ⟨g, s, rfl, h2⟩

theorem getBucket_ok {s : St} {l : Nat} (hl : l < s.hb.LEVELS.length) (x y : Int)
    (Q : Option Nat → St → Prop) :
    (HashGrid.getBucket l x y).Ok s Q ↔ Q (s.resident l x y) s := by
  obtain ⟨g, hg⟩ : ∃ g, s.hb.LEVELS[l]? = some g := ⟨_, List.getElem?_eq_getElem hl⟩
  simp only [HashGrid.getBucket, M.Ok_bind, grid_ok hg, St.resident, hg]
  cases hx : g.BUCKET_GRID.get x with
  | none => simp
  | some m => simp

theorem resident_alloc {s : St} {l : Nat} {g : HashGrid} (hg : s.hb.LEVELS[l]? = some g)
    (x y : Int) (l' : Nat) (x' y' : Int) :
    (s.alloc l x y g).resident l' x' y'
      = if l' = l ∧ x' = x ∧ y' = y then some s.nextBucket else s.resident l' x' y' := by
  unfold St.alloc St.resident St.setGrid
  simp only [List.getElem?_modify]
  by_cases hl' : l' = l
  · subst hl'
    simp only [hg, Option.map_some', if_true, true_and]
    by_cases hx : x' = x
    · subst hx
      simp only [JSArray.get, JSArray.set, if_true, true_and]
      by_cases hy : y' = y
      · subst hy
        simp
      · simp only [hy, if_false]
        cases hc : g.BUCKET_GRID.props x' with
        | none => simp [JSArray.empty, hy, hc]
        | some m => simp [hy, hc]
    · simp [JSArray.get, JSArray.set, hx]
  · have : ¬ l = l' := fun h => hl' h.symm
    simp only [hl', false_and, if_false, this]
    cases s.hb.LEVELS[l']? <;> simp

theorem alloc_buckets (s : St) (l : Nat) (x y : Int) (g : HashGrid) (i : Nat) :
    (s.alloc l x y g).buckets i
      = if i = s.nextBucket then TreeBucket.new x y g.BUCKETSIZE else s.buckets i := rfl

theorem alloc_entries (s : St) (l : Nat) (x y : Int) (g : HashGrid) :
    (s.alloc l x y g).entries = s.entries := rfl

theorem alloc_nextBucket (s : St) (l : Nat) (x y : Int) (g : HashGrid) :
    (s.alloc l x y g).nextBucket = s.nextBucket + 1 := rfl

theorem alloc_noLevels (s : St) (l : Nat) (x y : Int) (g : HashGrid) :
    (s.alloc l x y g).hb.noLevels = s.hb.noLevels := rfl

theorem alloc_grids (s : St) (l : Nat) (x y : Int) (g : HashGrid) :
    (s.alloc l x y g).hb.LEVELS.map HashGrid.noGrid = s.hb.LEVELS.map HashGrid.noGrid := by
  unfold St.alloc St.setGrid
  simp only
  apply List.ext_getElem?
  intro n
  simp only [List.getElem?_map, List.getElem?_modify]
  cases s.hb.LEVELS[n]? with
  | none => rfl
  | some g =>
    by_cases h : l = n
    · simp [h, HashGrid.noGrid]
    · simp [h]

theorem setBucket_alloc {s : St} {l : Nat} {g : HashGrid} (hg : s.hb.LEVELS[l]? = some g)
    (x y : Int) (Q : Unit → St → Prop) :
    (HashGrid.setBucket l x y s.nextBucket).Ok
      { s with
        buckets := fun i =>
          if i = s.nextBucket then TreeBucket.new x y g.BUCKETSIZE else s.buckets i
        nextBucket := s.nextBucket + 1 } Q
      ↔ Q () (s.alloc l x y g) := by
  have hg' : ({ s with
        buckets := fun i =>
          if i = s.nextBucket then TreeBucket.new x y g.BUCKETSIZE else s.buckets i
        nextBucket := s.nextBucket + 1 } : St).hb.LEVELS[l]? = some g := hg
  simp only [HashGrid.setBucket, M.Ok_bind, grid_ok hg', M.Ok_modify]
  rfl

/-! # Allocating a bucket -/

theorem quadCache_new (x y : Int) (size : ℚ) :
    (TreeBucket.new x y size).QUAD_CACHE
      = TreeBucket.QUADS.map (fun quad => quad.filterMap (TreeBucket.new x y size).CHILDREN) := by
  simp [TreeBucket.new, TreeBucket.QUADS]

theorem siteOk_new (x y : Int) (size : ℚ) : (TreeBucket.new x y size).SiteOk x y size := by
  simp [TreeBucket.new, TreeBucket.SiteOk]

theorem alloc_inv {s : St} {l : Nat} {x y : Int} {orph : Nat → Prop}
    {A : Nat → Nat → Int → Int → Prop} {g : HashGrid} (hs : Static s) (ht : TreeOkExc s orph)
    (hcnt : CntOk s) (hi : ItemsOk s A) (hg : s.hb.LEVELS[l]? = some g)
    (hnone : s.resident l x y = none) :
    Frame s (s.alloc l x y g)
      ∧ TreeOkExc (s.alloc l x y g) (fun b => orph b ∨ b = s.nextBucket)
      ∧ CntOk (s.alloc l x y g) ∧ ItemsOk (s.alloc l x y g) A := by
  have hres := resident_alloc hg x y
  have hold : ∀ l' x' y' b, s.resident l' x' y' = some b →
      (s.alloc l x y g).resident l' x' y' = some b := by
    intro l' x' y' b hr
    rw [hres]
    split
    · rename_i h
      obtain ⟨rfl, rfl, rfl⟩ := h
      rw [hnone] at hr
      cases hr
    · exact hr
  have hnew : ∀ l' x' y' b, (s.alloc l x y g).resident l' x' y' = some b →
      (b = s.nextBucket ∧ l' = l ∧ x' = x ∧ y' = y) ∨ (b ≠ s.nextBucket ∧ s.resident l' x' y' = some b) := by
    intro l' x' y' b hr
    rw [hres] at hr
    split at hr
    · rename_i h
      exact Or.inl ⟨(Option.some.inj hr).symm, h⟩
    · exact Or.inr ⟨by have := ht.lt _ _ _ _ hr; omega, hr⟩
  have hbo : ∀ b, b ≠ s.nextBucket → (s.alloc l x y g).buckets b = s.buckets b := by
    intro b hb
    rw [alloc_buckets, if_neg hb]
  have hbn : (s.alloc l x y g).buckets s.nextBucket = TreeBucket.new x y g.BUCKETSIZE := by
    rw [alloc_buckets, if_pos rfl]
  have hms : (s.alloc l x y g).hb.MIN_SIZE = s.hb.MIN_SIZE := rfl
  have hlc : (s.alloc l x y g).hb.LEVEL_COUNT = s.hb.LEVEL_COUNT := rfl
  have hid : (s.alloc l x y g).hb.ID = s.hb.ID := rfl
  have hca : (s.alloc l x y g).cache = s.cache := rfl
  refine ⟨?_, ?_, ?_, ?_⟩
  · exact ⟨alloc_noLevels _ _ _ _ _, alloc_grids _ _ _ _ _, hold, fun _ _ => rfl, fun _ => rfl,
      by rw [alloc_nextBucket]; omega⟩
  · constructor
    · intro l' x' y' b hr
      rw [alloc_nextBucket]
      rcases hnew _ _ _ _ hr with ⟨rfl, _⟩ | ⟨_, h⟩
      · omega
      · have := ht.lt _ _ _ _ h
        omega
    · intro l1 x1 y1 l2 x2 y2 b hr1 hr2
      rcases hnew _ _ _ _ hr1 with ⟨rfl, rfl, rfl, rfl⟩ | ⟨hb1, h1⟩
      · rcases hnew _ _ _ _ hr2 with ⟨_, rfl, rfl, rfl⟩ | ⟨hb2, _⟩
        · exact ⟨rfl, rfl, rfl⟩
        · exact absurd rfl hb2
      · rcases hnew _ _ _ _ hr2 with ⟨rfl, _⟩ | ⟨_, h2⟩
        · exact absurd rfl hb1
        · exact ht.inj _ _ _ _ _ _ b h1 h2
    · intro l' x' y' b hr
      rw [hms]
      rcases hnew _ _ _ _ hr with ⟨rfl, rfl, rfl, rfl⟩ | ⟨hb1, h1⟩
      · rw [hbn, ← (hs.grid _ g hg).1]
        exact siteOk_new _ _ _
      · rw [hbo b hb1]
        exact ht.site _ _ _ _ h1
    · intro l' x' y' b hr hl' horph
      rw [hlc] at hl'
      rcases hnew _ _ _ _ hr with ⟨rfl, _⟩ | ⟨hb1, h1⟩
      · exact absurd (Or.inr rfl) horph
      · obtain ⟨p, p1, p2, p3⟩ := ht.parent _ _ _ _ h1 hl' (fun h => horph (Or.inl h))
        have hp : p ≠ s.nextBucket := by
          have := ht.lt _ _ _ _ p2
          omega
        exact ⟨p, by rw [hbo b hb1]; exact p1, hold _ _ _ _ p2, by rw [hbo p hp]; exact p3⟩
    · intro l' x' y' b hr hl'
      rw [hlc] at hl'
      rcases hnew _ _ _ _ hr with ⟨rfl, _⟩ | ⟨hb1, h1⟩
      · rw [hbn]; rfl
      · rw [hbo b hb1]
        exact ht.top _ _ _ _ h1 hl'
    · intro l' x' y' p k c hr hk
      rcases hnew _ _ _ _ hr with ⟨rfl, _⟩ | ⟨hb1, h1⟩
      · rw [hbn] at hk
        cases hk
      · rw [hbo p hb1] at hk
        obtain ⟨k1, k2, k3, k4⟩ := ht.children _ _ _ _ _ _ h1 hk
        exact ⟨k1, k2, k3, hold _ _ _ _ k4⟩
    · intro l' x' y' b hr
      rcases hnew _ _ _ _ hr with ⟨rfl, _⟩ | ⟨hb1, h1⟩
      · rw [hbn]
        exact quadCache_new _ _ _
      · rw [hbo b hb1]
        exact ht.quad _ _ _ _ h1
  · intro l' x' y' b hr
    rcases hnew _ _ _ _ hr with ⟨rfl, _⟩ | ⟨hb1, h1⟩
    · unfold St.CntAt St.expected St.posChild
      rw [hbn]
      simp [TreeBucket.new]
    · refine CntAt_congr ?_ ?_ ?_ ?_ (hcnt _ _ _ _ h1)
      · rw [hbo b hb1]
      · rw [hbo b hb1]
      · rw [hbo b hb1]
      · intro k c hk
        obtain ⟨_, _, _, k4⟩ := ht.children _ _ _ _ _ _ h1 hk
        have hc : c ≠ s.nextBucket := by
          have := ht.lt _ _ _ _ k4
          omega
        rw [hbo c hc]
  · constructor
    · exact hi.single
    · intro l' x' y' b i e hr hget
      rw [hid, hca]
      rcases hnew _ _ _ _ hr with ⟨rfl, _⟩ | ⟨hb1, h1⟩
      · rw [hbn] at hget
        simp [TreeBucket.new] at hget
      · rw [hbo b hb1] at hget
        exact hi.fwd _ _ _ _ _ _ h1 hget
    · intro e l' x' y' ha
      obtain ⟨c, b, i, h1, h2, h3, h4, h5⟩ := hi.bwd _ _ _ _ ha
      have hb1 : b ≠ s.nextBucket := by
        have := ht.lt _ _ _ _ h3
        omega
      exact ⟨c, b, i, by rw [hid, hca]; exact h1, h2, hold _ _ _ _ h3, h4,
        by rw [hbo b hb1]; exact h5⟩

/-! # Linking a bucket to its parent -/

theorem link_inv {s2 : St} {l : Nat} {x y : Int} {nb p : Nat} {orph : Nat → Prop}
    {A : Nat → Nat → Int → Int → Prop}
    (ht : TreeOkExc s2 (fun b => orph b ∨ b = nb)) (hcnt : CntOk s2) (hi : ItemsOk s2 A)
    (hr : s2.resident l x y = some nb) (hp : s2.resident (l + 1) (x / 2) (y / 2) = some p)
    (hl : l + 1 < s2.hb.LEVEL_COUNT) (hc0 : (s2.buckets nb).COUNTER = 0) :
    Frame s2 (s2.link nb p ((y - y / 2 * 2) * 2 + x - x / 2 * 2))
      ∧ TreeOkExc (s2.link nb p ((y - y / 2 * 2) * 2 + x - x / 2 * 2)) orph
      ∧ CntOk (s2.link nb p ((y - y / 2 * 2) * 2 + x - x / 2 * 2))
      ∧ ItemsOk (s2.link nb p ((y - y / 2 * 2) * 2 + x - x / 2 * 2)) A
      ∧ (∀ i, i ≠ nb → i ≠ p →
          (s2.link nb p ((y - y / 2 * 2) * 2 + x - x / 2 * 2)).buckets i = s2.buckets i) := by
  have hnp : nb ≠ p := by
    rintro rfl
    have := (ht.inj _ _ _ _ _ _ nb hr hp).1
    omega
  have hpn : p ≠ nb := fun h => hnp h.symm
  generalize hidx : (y - y / 2 * 2) * 2 + x - x / 2 * 2 = idx
  have hbn : (s2.link nb p idx).buckets nb = { s2.buckets nb with PARENT := some p } := by
    unfold St.link
    rw [St.setBucket_buckets_ne _ _ _ _ hnp, St.setBucket_buckets_self]
  have hbp : (s2.link nb p idx).buckets p = TreeBucket.updateQuadCache
      { s2.buckets p with CHILDREN := fun k => if k = idx then some nb else (s2.buckets p).CHILDREN k } := by
    unfold St.link
    rw [St.setBucket_buckets_self, St.setBucket_buckets_ne _ _ _ _ hpn]
  have hbo : ∀ i, i ≠ nb → i ≠ p → (s2.link nb p idx).buckets i = s2.buckets i := by
    intro i h1 h2
    unfold St.link
    rw [St.setBucket_buckets_ne _ _ _ _ h2, St.setBucket_buckets_ne _ _ _ _ h1]
  have hres : (s2.link nb p idx).resident = s2.resident := rfl
  have hhb : (s2.link nb p idx).hb = s2.hb := rfl
  have hen : (s2.link nb p idx).entries = s2.entries := rfl
  have hcn : ∀ i, ((s2.link nb p idx).buckets i).COUNTER = (s2.buckets i).COUNTER := by
    intro i
    by_cases h1 : i = nb
    · subst h1; rw [hbn]
    · by_cases h2 : i = p
      · subst h2; rw [hbp]; rfl
      · rw [hbo i h1 h2]
  have hit : ∀ i, ((s2.link nb p idx).buckets i).ITEM_LIST = (s2.buckets i).ITEM_LIST := by
    intro i
    by_cases h1 : i = nb
    · subst h1; rw [hbn]
    · by_cases h2 : i = p
      · subst h2; rw [hbp]; rfl
      · rw [hbo i h1 h2]
  have hpa : ∀ i, i ≠ nb → ((s2.link nb p idx).buckets i).PARENT = (s2.buckets i).PARENT := by
    intro i h1
    by_cases h2 : i = p
    · subst h2; rw [hbp]; rfl
    · rw [hbo i h1 h2]
  have hch : ∀ i, i ≠ p → ((s2.link nb p idx).buckets i).CHILDREN = (s2.buckets i).CHILDREN := by
    intro i h2
    by_cases h1 : i = nb
    · subst h1; rw [hbn]
    · rw [hbo i h1 h2]
  have hchp : ∀ k, ((s2.link nb p idx).buckets p).CHILDREN k
      = if k = idx then some nb else (s2.buckets p).CHILDREN k := by
    intro k
    rw [hbp]
    rfl
  have hsi : ∀ i x' y' sz, ((s2.link nb p idx).buckets i).SiteOk x' y' sz
      ↔ (s2.buckets i).SiteOk x' y' sz := by
    intro i x' y' sz
    by_cases h1 : i = nb
    · subst h1; rw [hbn]; rfl
    · by_cases h2 : i = p
      · subst h2; rw [hbp]; rfl
      · rw [hbo i h1 h2]
  have hslot : ∀ k c, (s2.buckets p).CHILDREN k = some c → k ≠ idx → c ≠ nb := by
    rintro k c hk hne rfl
    obtain ⟨k1, k2, k3, k4⟩ := ht.children _ _ _ _ _ _ hp hk
    obtain ⟨_, e2, e3⟩ := ht.inj _ _ _ _ _ _ c k4 hr
    apply hne
    rw [← hidx]
    omega
  refine ⟨?_, ?_, ?_, ?_, hbo⟩
  · exact ⟨by rw [hhb], by rw [hhb], fun _ _ _ _ h => h, fun _ _ => rfl, fun _ => rfl,
      le_rfl⟩
  · constructor
    · exact ht.lt
    · exact ht.inj
    · intro l' x' y' b hb
      rw [hsi]
      exact ht.site _ _ _ _ hb
    · intro l' x' y' b hb hl' horph
      by_cases h1 : b = nb
      · subst h1
        obtain ⟨rfl, rfl, rfl⟩ := ht.inj _ _ _ _ _ _ b hb hr
        refine ⟨p, by rw [hbn], hp, ?_⟩
        rw [hidx, hchp, if_pos rfl]
      · obtain ⟨p', p1, p2, p3⟩ := ht.parent _ _ _ _ hb hl' (by
          rintro (h | h)
          · exact horph h
          · exact h1 h)
        refine ⟨p', by rw [hpa b h1]; exact p1, p2, ?_⟩
        by_cases h2 : p' = p
        · subst h2
          rw [hchp, if_neg ?_]
          · exact p3
          · intro hk
            apply h1
            obtain ⟨e1, e2, e3⟩ := ht.inj _ _ _ _ _ _ p' p2 hp
            have e1' : l' = l := by omega
            subst e1'
            have ex : x' = x := by rw [← hidx] at hk; omega
            have ey : y' = y := by rw [← hidx] at hk; omega
            subst ex ey
            rw [hres, hr] at hb
            exact (Option.some.inj hb).symm
        · rw [hch p' h2]
          exact p3
    · intro l' x' y' b hb hl'
      by_cases h1 : b = nb
      · subst h1
        obtain ⟨rfl, _, _⟩ := ht.inj _ _ _ _ _ _ b hb hr
        exact absurd hl hl'
      · rw [hpa b h1]
        exact ht.top _ _ _ _ hb hl'
    · intro l' x' y' q k c hq hk
      by_cases h2 : q = p
      · subst h2
        obtain ⟨rfl, rfl, rfl⟩ := ht.inj _ _ _ _ _ _ q hq hp
        rw [hchp] at hk
        split at hk
        · rename_i hki
          subst hki
          cases hk
          refine ⟨by rw [← hidx]; omega, by rw [← hidx]; omega, by omega, ?_⟩
          simp only [Nat.add_sub_cancel]
          have e1 : 2 * (x / 2) + k % 2 = x := by rw [← hidx]; omega
          have e2 : 2 * (y / 2) + k / 2 = y := by rw [← hidx]; omega
          rw [e1, e2]
          exact hr
        · exact ht.children _ _ _ _ _ _ hq hk
      · rw [hch q h2] at hk
        exact ht.children _ _ _ _ _ _ hq hk
    · intro l' x' y' b hb
      by_cases h2 : b = p
      · subst h2
        rw [hbp]
        rfl
      · by_cases h1 : b = nb
        · subst h1
          rw [hbn]
          exact ht.quad _ _ _ _ hb
        · rw [hbo b h1 h2]
          exact ht.quad _ _ _ _ hb
  · intro l' x' y' q hq
    have hq2 := hcnt l' x' y' q hq
    unfold St.CntAt St.expected at hq2 ⊢
    rw [hcn, hit, hq2]
    have hpc : ∀ k, (s2.link nb p idx).posChild q k = s2.posChild q k := by
      intro k
      by_cases h2 : q = p
      · subst h2
        unfold St.posChild
        rw [hchp]
        by_cases hki : k = idx
        · subst hki
          rw [if_pos rfl]
          simp only [hcn, hc0, lt_self_iff_false, if_false]
          cases hk : (s2.buckets q).CHILDREN k with
          | none => rfl
          | some c =>
            obtain ⟨k1, k2, k3, k4⟩ := ht.children _ _ _ _ _ _ hp hk
            have e1 : 2 * (x / 2) + k % 2 = x := by rw [← hidx]; omega
            have e2 : 2 * (y / 2) + k / 2 = y := by rw [← hidx]; omega
            simp only [Nat.add_sub_cancel] at k4
            rw [e1, e2, hr] at k4
            cases k4
            simp [hc0]
        · rw [if_neg hki]
          cases hk : (s2.buckets q).CHILDREN k with
          | none => rfl
          | some c => simp only [hcn]
      · unfold St.posChild
        rw [hch q h2]
        cases hk : (s2.buckets q).CHILDREN k with
        | none => rfl
        | some c => simp only [hcn]
    rw [hpc, hpc, hpc, hpc]
  · exact ItemsOk_congr hi hhb hen hit

/-! # `HashGrid.createBucket` -/

theorem createBucket_ok (fuel : Nat) : ∀ (s : St) (l : Nat) (x y : Int) (orph : Nat → Prop)
    (A : Nat → Nat → Int → Int → Prop),
    Static s → TreeOkExc s orph → CntOk s → ItemsOk s A →
    (∀ b, orph b → ∃ l' x' y', s.resident l' x' y' = some b ∧ l' < l) →
    s.resident l x y = none → l < s.hb.LEVEL_COUNT → s.hb.LEVEL_COUNT ≤ fuel + l →
    (HashGrid.createBucket fuel l x y).Ok s (fun b s' =>
      Frame s s' ∧ TreeOkExc s' orph ∧ CntOk s' ∧ ItemsOk s' A ∧ s'.resident l x y = some b
        ∧ (∀ l' x' y' i, s.resident l' x' y' = some i → l' < l → s'.buckets i = s.buckets i)
        ∧ (∀ l' x' y', l' ≤ l → ¬ (l' = l ∧ x' = x ∧ y' = y) →
            s'.resident l' x' y' = s.resident l' x' y')) := by
  induction fuel with
  | zero =>
    intro s l x y orph A hs ht hcnt hi horph hnone hl hf
    omega
  | succ fuel ih =>
    intro s l x y orph A hs ht hcnt hi horph hnone hl hf
    obtain ⟨g, hg⟩ : ∃ g, s.hb.LEVELS[l]? = some g :=
      ⟨_, List.getElem?_eq_getElem (by rw [hs.levels_len]; exact hl)⟩
    obtain ⟨hfrA, htA, hcntA, hiA⟩ := alloc_inv hs ht hcnt hi hg hnone
    have hresA := resident_alloc hg x y
    have hsA : Static (s.alloc l x y g) := hfrA.static hs
    have hnbA : (s.alloc l x y g).resident l x y = some s.nextBucket := by
      rw [hresA, if_pos ⟨rfl, rfl, rfl⟩]
    have hnotorph : ¬ orph s.nextBucket := by
      intro h
      obtain ⟨l', x', y', h1, _⟩ := horph _ h
      have := ht.lt _ _ _ _ h1
      omega
    have holdA : ∀ i, i ≠ s.nextBucket → (s.alloc l x y g).buckets i = s.buckets i := by
      intro i hne
      rw [alloc_buckets, if_neg hne]
    have hold : ∀ l' x' y' i, s.resident l' x' y' = some i → i ≠ s.nextBucket := by
      intro l' x' y' i h
      have := ht.lt _ _ _ _ h
      omega
    simp only [HashGrid.createBucket, M.Ok_bind, grid_ok hg, M.Ok_read, M.Ok_modify,
      setBucket_alloc hg]
    have hng := (hs.grid l g hg).2.2
    split
    · -- the coarsest grid
      rename_i hnext
      rw [hnext] at hng
      have hl1 : ¬ l + 1 < s.hb.LEVEL_COUNT := by
        intro h
        rw [if_pos h] at hng
        cases hng
      simp only [M.Ok_pure]
      refine ⟨hfrA, ?_, hcntA, hiA, hnbA, ?_, ?_⟩
      · exact ⟨htA.lt, htA.inj, htA.site, fun l' x' y' b hb hl' ho => by
          refine htA.parent l' x' y' b hb hl' ?_
          rintro (h | h)
          · exact ho h
          · subst h
            obtain ⟨rfl, _, _⟩ := htA.inj _ _ _ _ _ _ _ hb hnbA
            exact hl1 hl', htA.top, htA.children, htA.quad⟩
      · intro l' x' y' i hi' _
        exact holdA i (hold _ _ _ _ hi')
      · intro l' x' y' _ hne
        rw [hresA, if_neg hne]
    · rename_i nl hnext
      rw [hnext] at hng
      have hl1 : l + 1 < s.hb.LEVEL_COUNT := by
        by_contra h
        rw [if_neg h] at hng
        cases hng
      rw [if_pos hl1] at hng
      cases hng
      have hlenA : l + 1 < (s.alloc l x y g).hb.LEVELS.length := by
        rw [hsA.levels_len]
        exact hl1
      simp only [M.Ok_bind, getBucket_ok hlenA]
      -- the state in which the parent exists
      have hlink : ∀ (p : Nat) (s2 : St), Frame (s.alloc l x y g) s2 →
          TreeOkExc s2 (fun b => orph b ∨ b = s.nextBucket) → CntOk s2 → ItemsOk s2 A →
          s2.resident (l + 1) (x / 2) (y / 2) = some p →
          (∀ l' x' y' i, (s.alloc l x y g).resident l' x' y' = some i → l' < l + 1 →
            s2.buckets i = (s.alloc l x y g).buckets i) →
          (∀ l' x' y', l' ≤ l →
            s2.resident l' x' y' = (s.alloc l x y g).resident l' x' y') →
          Frame s (s2.link s.nextBucket p ((y - y / 2 * 2) * 2 + x - x / 2 * 2))
            ∧ TreeOkExc (s2.link s.nextBucket p ((y - y / 2 * 2) * 2 + x - x / 2 * 2)) orph
            ∧ CntOk (s2.link s.nextBucket p ((y - y / 2 * 2) * 2 + x - x / 2 * 2))
            ∧ ItemsOk (s2.link s.nextBucket p ((y - y / 2 * 2) * 2 + x - x / 2 * 2)) A
            ∧ (s2.link s.nextBucket p ((y - y / 2 * 2) * 2 + x - x / 2 * 2)).resident l x y
                = some s.nextBucket
            ∧ (∀ l' x' y' i, s.resident l' x' y' = some i → l' < l →
                (s2.link s.nextBucket p ((y - y / 2 * 2) * 2 + x - x / 2 * 2)).buckets i
                  = s.buckets i)
            ∧ (∀ l' x' y', l' ≤ l → ¬ (l' = l ∧ x' = x ∧ y' = y) →
                (s2.link s.nextBucket p ((y - y / 2 * 2) * 2 + x - x / 2 * 2)).resident l' x' y'
                  = s.resident l' x' y') := by
        intro p s2 hfr2 ht2 hcnt2 hi2 hp2 hun2 hres2
        have hr2 : s2.resident l x y = some s.nextBucket := hfr2.res _ _ _ _ hnbA
        have hb2 : s2.buckets s.nextBucket = TreeBucket.new x y g.BUCKETSIZE := by
          rw [hun2 l x y _ hnbA (by omega), alloc_buckets, if_pos rfl]
        have hlc2 : s2.hb.LEVEL_COUNT = s.hb.LEVEL_COUNT := by
          rw [hfr2.levelCount_eq, hfrA.levelCount_eq]
        obtain ⟨k1, k2, k3, k4, k5⟩ := link_inv ht2 hcnt2 hi2 hr2 hp2 (by rw [hlc2]; exact hl1)
          (by rw [hb2]; rfl)
        refine ⟨(hfrA.trans hfr2).trans k1, k2, k3, k4, k1.res _ _ _ _ hr2, ?_, ?_⟩
        · intro l' x' y' i hi' hl'
          have hine : i ≠ s.nextBucket := hold _ _ _ _ hi'
          have hiA' : (s.alloc l x y g).resident l' x' y' = some i := hfrA.res _ _ _ _ hi'
          have hip : i ≠ p := by
            rintro rfl
            have := (ht2.inj _ _ _ _ _ _ i (hfr2.res _ _ _ _ hiA') hp2).1
            omega
          rw [k5 i hine hip, hun2 _ _ _ i hiA' (by omega), holdA i hine]
        · intro l' x' y' hl' hne
          have : (s2.link s.nextBucket p ((y - y / 2 * 2) * 2 + x - x / 2 * 2)).resident
              = s2.resident := rfl
          rw [this, hres2 l' x' y' hl', hresA, if_neg hne]
      cases hfound : (s.alloc l x y g).resident (l + 1) (x / 2) (y / 2) with
      | some p =>
        simp only [M.Ok_pure, M.Ok_bind, M.Ok_modify]
        exact hlink p _ (Frame.refl _) htA hcntA hiA hfound (fun _ _ _ _ _ _ => rfl)
          (fun _ _ _ _ => rfl)
      | none =>
        simp only [M.Ok_bind, M.Ok_modify, M.Ok_pure]
        refine M.Ok_mono (ih (s.alloc l x y g) (l + 1) (x / 2) (y / 2)
          (fun b => orph b ∨ b = s.nextBucket) A hsA htA hcntA hiA ?_ hfound
          (by rw [hfrA.levelCount_eq]; exact hl1) (by rw [hfrA.levelCount_eq]; omega)) ?_
        · rintro b (hb | rfl)
          · obtain ⟨l', x', y', h1, h2⟩ := horph b hb
            exact ⟨l', x', y', hfrA.res _ _ _ _ h1, by omega⟩
          · exact ⟨l, x, y, hnbA, by omega⟩
        · intro p s2 ⟨hfr2, ht2, hcnt2, hi2, hp2, hun2, hres2⟩
          exact hlink p s2 hfr2 ht2 hcnt2 hi2 hp2 hun2
            (fun l' x' y' hl' => hres2 l' x' y' (by omega) (by omega))

/-! # `HashGrid.insert` -/

theorem ItemsOk.of_iff {s : St} {A A' : Nat → Nat → Int → Int → Prop} (h : ItemsOk s A)
    (hA : ∀ e l x y, A' e l x y ↔ A e l x y) : ItemsOk s A' := by
  have : A' = A := by
    funext e l x y
    exact propext (hA e l x y)
  rw [this]
  exact h

theorem Core.of_iff_core {s : St} {A A' : Nat → Nat → Int → Int → Prop} (h : Core s A)
    (hA : ∀ e l x y, A' e l x y ↔ A e l x y) : Core s A' :=
  ⟨h.static, h.tree, h.cnt, h.items.of_iff hA⟩

/-- The record of an entry without registrations may change freely. -/
theorem itemsOk_setCache {s : St} {A : Nat → Nat → Int → Int → Prop} {e : Nat}
    (hi : ItemsOk s A) (hne : ∀ l x y, ¬ A e l x y) (f : EntryCache → EntryCache) :
    ItemsOk (s.setCache e s.hb.ID f) A := by
  refine ⟨hi.single, ?_, ?_⟩
  · intro l x y b i e' hb he'
    have h1 := hi.fwd l x y b i e' hb he'
    have hee : e' ≠ e := by
      rintro rfl
      exact hne _ _ _ h1.1
    refine ⟨h1.1, ?_⟩
    intro c hc
    rw [St.setCache_hb, St.setCache_cache_ne _ _ _ _ _ hee] at hc
    exact h1.2 c hc
  · intro e' l x y ha
    have hee : e' ≠ e := by
      rintro rfl
      exact hne _ _ _ ha
    obtain ⟨c, b, i, h1, h2, h3, h4, h5⟩ := hi.bwd e' l x y ha
    refine ⟨c, b, i, ?_, h2, h3, h4, h5⟩
    rw [St.setCache_hb, St.setCache_cache_ne _ _ _ _ _ hee]
    exact h1

theorem core_setCache {s : St} {A : Nat → Nat → Int → Int → Prop} {e : Nat}
    (h : Core s A) (hne : ∀ l x y, ¬ A e l x y) (f : EntryCache → EntryCache) :
    Core (s.setCache e s.hb.ID f) A :=
  ⟨Static_of_hb h.static rfl,
   TreeOk_of_shape h.tree rfl rfl (fun _ => rfl),
   fun l x y b hb => h.cnt l x y b hb,
   itemsOk_setCache h.items hne f⟩

/-- One round of the inner loop of `HashGrid.insert`. -/
theorem cell_ok {s : St} {A : Nat → Nat → Int → Int → Prop} {fuel e l : Nat} {x y : Int}
    {c : EntryCache} (h : Core s A) (hc : s.cache e s.hb.ID = some c) (hsp : c.inSpan x y)
    (hn : ¬ A e l x y) (hone : ∀ l' x' y', A e l' x' y' → l' = l)
    (hl : l < s.hb.LEVEL_COUNT) (hf : s.hb.LEVEL_COUNT ≤ fuel) (k : Int)
    (hk : k = c.key x y) :
    (do
      let found ← HashGrid.getBucket l x y
      let bucket ← match found with
        | some b => pure b
        | none => HashGrid.createBucket fuel l x y
      TreeBucket.set fuel bucket e s.hb.ID k : M Unit).Ok s (fun _ s' =>
        Frame s s' ∧ Core s'
          (fun e' l' x' y' => A e' l' x' y' ∨ (e' = e ∧ l' = l ∧ x' = x ∧ y' = y))) := by
  have hlen : l < s.hb.LEVELS.length := by
    rw [h.static.levels_len]
    exact hl
  have key : ∀ b s1, Frame s s1 → Core s1 A → s1.resident l x y = some b →
      (TreeBucket.set fuel b e s.hb.ID k).Ok s1 (fun _ s' =>
        Frame s s' ∧ Core s'
          (fun e' l' x' y' => A e' l' x' y' ∨ (e' = e ∧ l' = l ∧ x' = x ∧ y' = y))) := by
    intro b s1 hfr h1 hb
    obtain ⟨c1, hc1, hn1⟩ := hfr.cache hc
    rw [← hfr.id_eq] at hc1 ⊢
    have hk1 : k = c1.key x y := by rw [hk, noIndexes_key hn1]
    rw [hk1]
    refine M.Ok_mono (set_ok h1.static h1.tree h1.cnt h1.items hc1 hb
      ((noIndexes_inSpan hn1 x y).mpr hsp) hn hone (by rw [hfr.levelCount_eq]; omega)) ?_
    intro _ s2 ⟨g1, g2, g3, g4⟩
    exact ⟨hfr.trans g1, g1.static h1.static, g2, g3, g4⟩
  simp only [M.Ok_bind, getBucket_ok hlen]
  cases hr : s.resident l x y with
  | some b =>
    simp only [M.Ok_bind, M.Ok_pure]
    exact key b s (Frame.refl s) h hr
  | none =>
    simp only [M.Ok_bind]
    refine M.Ok_mono (createBucket_ok fuel s l x y (fun _ => False) A h.static
      (h.tree.toExc _) h.cnt h.items (fun _ hb => hb.elim) hr hl (by omega)) ?_
    intro b s' ⟨h1, h2, h3, h4, h5, _, _⟩
    exact key b s' h1 ⟨h1.static h.static, h2.toOk (fun _ hb => hb), h3, h4⟩ h5

/-- `HashGrid.insert` registers the entry in every bucket of the span. -/
theorem gridInsert_ok {s : St} {A : Nat → Nat → Int → Int → Prop} {fuel e l : Nat}
    {c : EntryCache} {g : HashGrid} (box : Box) (ks : Option (Int × Int × Int × Int))
    (k1x k1y k2x k2y : Int) (h : Core s A) (hc : s.cache e s.hb.ID = some c)
    (hne : ∀ l' x' y', ¬ A e l' x' y') (hl : l < s.hb.LEVEL_COUNT)
    (hf : s.hb.LEVEL_COUNT ≤ fuel) (hg : s.hb.LEVELS[l]? = some g)
    (hk : ks.getD (g.span box) = (k1x, k1y, k2x, k2y)) :
    (HashGrid.insert fuel l e s.hb.ID box ks).Ok s (fun _ s' =>
      Frame (s.setCache e s.hb.ID
        (fun r => { r with k1x := k1x, k1y := k1y, k2x := k2x, k2y := k2y })) s'
      ∧ Core s' (fun e' l' x' y' => A e' l' x' y'
          ∨ (e' = e ∧ l' = l ∧ k1x ≤ x' ∧ x' ≤ k2x ∧ k1y ≤ y' ∧ y' ≤ k2y))) := by
  simp only [HashGrid.insert, M.Ok_bind, grid_ok hg, hk, M.Ok_modify]
  generalize hs1 : s.setCache e s.hb.ID
    (fun r => { r with k1x := k1x, k1y := k1y, k2x := k2x, k2y := k2y }) = s1
  have hcore1 : Core s1 A := by
    subst hs1
    exact core_setCache h hne _
  have hid1 : s1.hb = s.hb := by subst hs1; rfl
  have hc1 : s1.cache e s.hb.ID
      = some { c with k1x := k1x, k1y := k1y, k2x := k2x, k2y := k2y } := by
    subst hs1
    rw [St.setCache_cache_self, hc]
    rfl
  -- the outer loop
  refine M.Ok_mono (forEachM_ok (intRange k1x k2x) _
    (fun px s' => Frame s1 s' ∧ Core s' (fun e' l' x' y' => A e' l' x' y'
      ∨ (e' = e ∧ l' = l ∧ x' ∈ px ∧ k1y ≤ y' ∧ y' ≤ k2y))) s1 ?_ ?_) ?_
  · exact ⟨Frame.refl _, hcore1.of_iff_core (by simp)⟩
  · intro px x qx s2 hx ⟨hfr2, hcore2⟩
    have hxm : x ∈ intRange k1x k2x := by rw [hx]; simp
    have hxn : x ∉ px := by
      have := nodup_intRange k1x k2x
      rw [hx] at this
      intro hmem
      have h3 := (List.nodup_append.mp this).2.2
      exact h3 hmem (List.mem_cons_self _ _) 
    rw [mem_intRange] at hxm
    -- the inner loop
    refine M.Ok_mono (forEachM_ok (intRange k1y k2y) _
      (fun py s' => Frame s1 s' ∧ Core s' (fun e' l' x' y' => A e' l' x' y'
        ∨ (e' = e ∧ l' = l ∧ ((x' ∈ px ∧ k1y ≤ y' ∧ y' ≤ k2y) ∨ (x' = x ∧ y' ∈ py)))))
      s2 ?_ ?_) ?_
    · exact ⟨hfr2, hcore2.of_iff_core (by simp)⟩
    · intro py y qy s3 hy ⟨hfr3, hcore3⟩
      have hym : y ∈ intRange k1y k2y := by rw [hy]; simp
      have hyn : y ∉ py := by
        have := nodup_intRange k1y k2y
        rw [hy] at this
        intro hmem
        exact (List.nodup_append.mp this).2.2 hmem (List.mem_cons_self _ _)
      rw [mem_intRange] at hym
      obtain ⟨c3, hc3, hn3⟩ := hfr3.cache hc1
      have hflds := noIndexes_fields hn3
      have hid3 : s3.hb.ID = s.hb.ID := by rw [hfr3.id_eq, hid1]
      rw [← hid3] at hc3 ⊢
      refine M.Ok_mono (cell_ok hcore3 hc3 ?_ ?_ ?_ ?_ ?_ _ ?_) ?_
      · exact ⟨by rw [hflds.1]; exact hxm.1, by rw [hflds.2.2.1]; exact hxm.2,
          by rw [hflds.2.1]; exact hym.1, by rw [hflds.2.2.2.1]; exact hym.2⟩
      · rintro (ha | ⟨_, _, hh | hh⟩)
        · exact hne _ _ _ ha
        · exact hxn hh.1
        · exact hyn hh.2
      · rintro l' x' y' (ha | ⟨_, hl', _⟩)
        · exact (hne _ _ _ ha).elim
        · exact hl'
      · rw [hfr3.levelCount_eq, hid1]; exact hl
      · rw [hfr3.levelCount_eq, hid1]; exact hf
      · simp only [EntryCache.key, hflds.1, hflds.2.1, hflds.2.2.1, hflds.2.2.2.1]
        ring
      · intro _ s4 ⟨hfr4, hcore4⟩
        refine ⟨hfr3.trans hfr4, hcore4.of_iff_core ?_⟩
        intro e' l' x' y'
        simp only [List.mem_append, List.mem_singleton]
        tauto
    · intro _ s3 ⟨hfr3, hcore3⟩
      refine ⟨hfr3, hcore3.of_iff_core ?_⟩
      intro e' l' x' y'
      simp only [List.mem_append, List.mem_singleton, mem_intRange]
      constructor
      · rintro (ha | ⟨h1, h2, (h3 | h3), h4, h5⟩)
        · exact Or.inl ha
        · exact Or.inr ⟨h1, h2, Or.inl ⟨h3, h4, h5⟩⟩
        · exact Or.inr ⟨h1, h2, Or.inr ⟨h3, h4, h5⟩⟩
      · rintro (ha | ⟨h1, h2, (⟨h3, h4, h5⟩ | ⟨h3, h4, h5⟩)⟩)
        · exact Or.inl ha
        · exact Or.inr ⟨h1, h2, Or.inl h3, h4, h5⟩
        · exact Or.inr ⟨h1, h2, Or.inr h3, h4, h5⟩
  · intro _ s2 ⟨hfr2, hcore2⟩
    refine ⟨hfr2, hcore2.of_iff_core ?_⟩
    intro e' l' x' y'
    simp only [mem_intRange]
    tauto

/-! # `HashGrid.remove` -/

/-- `HashGrid.remove` takes the entry out of every bucket of its span. -/
theorem gridRemove_ok {s : St} {A : Nat → Nat → Int → Int → Prop} {fuel e l : Nat}
    {c : EntryCache} (h : Core s A) (hc : s.cache e s.hb.ID = some c)
    (hid : c.hashID = s.hb.ID) (hreg : ∀ x y, c.inSpan x y → A e l x y)
    (hf : s.hb.LEVEL_COUNT ≤ fuel) :
    (HashGrid.remove fuel l e s.hb.ID).Ok s (fun _ s' =>
      Frame s s' ∧ Core s' (fun e' l' x' y' => A e' l' x' y'
          ∧ ¬ (e' = e ∧ l' = l ∧ c.inSpan x' y'))) := by
  simp only [HashGrid.remove, M.Ok_bind, M.Ok_read, hc]
  -- the outer loop
  refine M.Ok_mono (forEachM_ok (intRange c.k1x c.k2x) _
    (fun px s' => Frame s s' ∧ Core s' (fun e' l' x' y' => A e' l' x' y'
      ∧ ¬ (e' = e ∧ l' = l ∧ x' ∈ px ∧ c.k1y ≤ y' ∧ y' ≤ c.k2y))) s ?_ ?_) ?_
  · exact ⟨Frame.refl _, h.of_iff_core (by simp)⟩
  · intro px x qx s2 hx ⟨hfr2, hcore2⟩
    have hxm : x ∈ intRange c.k1x c.k2x := by rw [hx]; simp
    have hxn : x ∉ px := by
      have := nodup_intRange c.k1x c.k2x
      rw [hx] at this
      intro hmem
      exact (List.nodup_append.mp this).2.2 hmem (List.mem_cons_self _ _)
    rw [mem_intRange] at hxm
    -- the inner loop
    refine M.Ok_mono (forEachM_ok (intRange c.k1y c.k2y) _
      (fun py s' => Frame s s' ∧ Core s' (fun e' l' x' y' => A e' l' x' y'
        ∧ ¬ (e' = e ∧ l' = l ∧ ((x' ∈ px ∧ c.k1y ≤ y' ∧ y' ≤ c.k2y) ∨ (x' = x ∧ y' ∈ py)))))
      s2 ?_ ?_) ?_
    · exact ⟨hfr2, hcore2.of_iff_core (by simp)⟩
    · intro py y qy s3 hy ⟨hfr3, hcore3⟩
      have hym : y ∈ intRange c.k1y c.k2y := by rw [hy]; simp
      have hyn : y ∉ py := by
        have := nodup_intRange c.k1y c.k2y
        rw [hy] at this
        intro hmem
        exact (List.nodup_append.mp this).2.2 hmem (List.mem_cons_self _ _)
      rw [mem_intRange] at hym
      obtain ⟨c3, hc3, hn3⟩ := hfr3.cache hc
      have hflds := noIndexes_fields hn3
      have hid3 : s3.hb.ID = s.hb.ID := hfr3.id_eq
      have hA3 : A e l x y ∧ ¬ (e = e ∧ l = l
          ∧ ((x ∈ px ∧ c.k1y ≤ y ∧ y ≤ c.k2y) ∨ (x = x ∧ y ∈ py))) := by
        refine ⟨hreg x y ⟨hxm.1, hxm.2, hym.1, hym.2⟩, ?_⟩
        rintro ⟨_, _, hh | hh⟩
        · exact hxn hh.1
        · exact hyn hh.2
      obtain ⟨c3', b, i, k1, k2, k3, k4, k5⟩ := hcore3.items.bwd e l x y hA3
      have hlen : l < s3.hb.LEVELS.length := St.resident_some_lt k3
      simp only [M.Ok_bind, getBucket_ok hlen, k3]
      rw [← hid3] at hc3 ⊢
      have hkey : (x - c.k1x) * (c.k2y - c.k1y + 1) - c.k1y + y = c3.key x y := by
        simp only [EntryCache.key, hflds.1, hflds.2.1, hflds.2.2.1, hflds.2.2.2.1]
        ring
      rw [hkey]
      refine M.Ok_mono (remove_ok hcore3.static hcore3.tree hcore3.cnt hcore3.items hc3
        (by rw [hflds.2.2.2.2.2.2.1, hid, hid3]) k3 hA3
        (by
          have := TreeOk.level_lt hcore3.tree hcore3.static k3
          rw [hfr3.levelCount_eq]
          omega)) ?_
      intro _ s4 ⟨g1, g2, g3, g4⟩
      refine ⟨hfr3.trans g1, ⟨g1.static hcore3.static, g2, g3, g4.of_iff ?_⟩⟩
      intro e' l' x' y'
      simp only [List.mem_append, List.mem_singleton]
      constructor
      · rintro ⟨ha, hno⟩
        refine ⟨⟨ha, ?_⟩, ?_⟩
        · rintro ⟨h1, h2, h3 | ⟨h3, h4⟩⟩
          · exact hno ⟨h1, h2, Or.inl h3⟩
          · exact hno ⟨h1, h2, Or.inr ⟨h3, Or.inl h4⟩⟩
        · rintro ⟨h1, h2, h3, h4⟩
          exact hno ⟨h1, h2, Or.inr ⟨h3, Or.inr h4⟩⟩
      · rintro ⟨⟨ha, hno⟩, hno2⟩
        refine ⟨ha, ?_⟩
        rintro ⟨h1, h2, h3 | ⟨h3, h4 | h4⟩⟩
        · exact hno ⟨h1, h2, Or.inl h3⟩
        · exact hno ⟨h1, h2, Or.inr ⟨h3, h4⟩⟩
        · exact hno2 ⟨h1, h2, h3, h4⟩
    · intro _ s3 ⟨hfr3, hcore3⟩
      refine ⟨hfr3, hcore3.of_iff_core ?_⟩
      intro e' l' x' y'
      simp only [List.mem_append, List.mem_singleton, mem_intRange]
      constructor
      · rintro ⟨ha, hno⟩
        refine ⟨ha, ?_⟩
        rintro ⟨h1, h2, ⟨h3, h4, h5⟩ | ⟨h3, h4, h5⟩⟩
        · exact hno ⟨h1, h2, Or.inl h3, h4, h5⟩
        · exact hno ⟨h1, h2, Or.inr h3, h4, h5⟩
      · rintro ⟨ha, hno⟩
        refine ⟨ha, ?_⟩
        rintro ⟨h1, h2, h3 | h3, h4, h5⟩
        · exact hno ⟨h1, h2, Or.inl ⟨h3, h4, h5⟩⟩
        · exact hno ⟨h1, h2, Or.inr ⟨h3, h4, h5⟩⟩
  · intro _ s2 ⟨hfr2, hcore2⟩
    refine ⟨hfr2, hcore2.of_iff_core ?_⟩
    intro e' l' x' y'
    simp only [mem_intRange, EntryCache.inSpan]
    constructor
    · rintro ⟨ha, hno⟩
      exact ⟨ha, fun ⟨h1, h2, ⟨h3, h4⟩, h5, h6⟩ => hno ⟨h1, h2, h3, h4, h5, h6⟩⟩
    · rintro ⟨ha, hno⟩
      exact ⟨ha, fun ⟨h1, h2, h3, h4, h5, h6⟩ => hno ⟨h1, h2, ⟨h3, h4⟩, h5, h6⟩⟩

theorem gridRemove_ok_id {s : St} {A : Nat → Nat → Int → Int → Prop} {fuel e l : Nat}
    {c : EntryCache} (id : Nat) (hid' : id = s.hb.ID) (h : Core s A)
    (hc : s.cache e id = some c)
    (hid : c.hashID = id) (hreg : ∀ x y, c.inSpan x y → A e l x y)
    (hf : s.hb.LEVEL_COUNT ≤ fuel) :
    (HashGrid.remove fuel l e id).Ok s (fun _ s' =>
      Frame s s' ∧ Core s' (fun e' l' x' y' => A e' l' x' y'
          ∧ ¬ (e' = e ∧ l' = l ∧ c.inSpan x' y'))) := by
  subst hid'
  exact gridRemove_ok h hc hid hreg hf

/-! # Steps on one entry -/

theorem Frame.toStep {s s' : St} (h : Frame s s') (e : Nat) : Step s s' e :=
  ⟨h.hbs, h.grids, h.res, fun e' id _ => h.recs e' id, fun e' _ => h.stamps e', h.nb⟩

theorem Step.refl_step (s : St) (e : Nat) : Step s s e := (Frame.refl s).toStep e

theorem Step.trans_step {s s1 s2 : St} {e : Nat} (h1 : Step s s1 e) (h2 : Step s1 s2 e) :
    Step s s2 e :=
  ⟨h2.hbs.trans h1.hbs, h2.grids.trans h1.grids,
   fun l x y b h => h2.res l x y b (h1.res l x y b h),
   fun e' id hne => (h2.recs e' id hne).trans (h1.recs e' id hne),
   fun e' hne => (h2.stamps e' hne).trans (h1.stamps e' hne), le_trans h1.nb h2.nb⟩

/-- A step that changes entry `e` alone. -/
theorem Step.of_entries {s s' : St} {e : Nat} (hhb : s'.hb = s.hb)
    (hnb : s'.nextBucket = s.nextBucket)
    (hen : ∀ e', e' ≠ e → s'.entries e' = s.entries e') : Step s s' e := by
  refine ⟨by rw [hhb], by rw [hhb], ?_, ?_, ?_, by rw [hnb]⟩
  · intro l x y b h
    unfold St.resident at h ⊢
    rw [hhb]
    exact h
  · intro e' id hne
    unfold St.cache
    rw [hen e' hne]
  · intro e' hne
    rw [hen e' hne]

theorem Step.id_eq_step {s s' : St} {e : Nat} (h : Step s s' e) : s'.hb.ID = s.hb.ID :=
  (congrArg HashBounds.ID h.hbs :)

theorem Step.levelCount_eq_step {s s' : St} {e : Nat} (h : Step s s' e) :
    s'.hb.LEVEL_COUNT = s.hb.LEVEL_COUNT := (congrArg HashBounds.LEVEL_COUNT h.hbs :)

theorem Step.queryID_eq_step {s s' : St} {e : Nat} (h : Step s s' e) :
    s'.hb.QUERYID = s.hb.QUERYID := (congrArg HashBounds.QUERYID h.hbs :)

theorem Step.grid_rev_step {s s' : St} {e : Nat} (h : Step s s' e) {l : Nat} {g : HashGrid}
    (hg : s.hb.LEVELS[l]? = some g) :
    ∃ g', s'.hb.LEVELS[l]? = some g' ∧ g'.noGrid = g.noGrid := by
  have h1 : (s.hb.LEVELS.map HashGrid.noGrid)[l]? = some g.noGrid := by
    simp [hg]
  rw [← h.grids] at h1
  simp only [List.getElem?_map, Option.map_eq_some'] at h1
  obtain ⟨g', hg1, hg2⟩ := h1
  exact ⟨g', hg1, hg2⟩

theorem Step.cache_step {s s' : St} {e : Nat} (h : Step s s' e) {e' id : Nat} {c : EntryCache}
    (hne : e' ≠ e) (hc : s.cache e' id = some c) :
    ∃ c', s'.cache e' id = some c' ∧ c'.noIndexes = c.noIndexes := by
  have := h.recs e' id hne
  rw [hc] at this
  cases hc' : s'.cache e' id with
  | none => simp [hc'] at this
  | some c' =>
    refine ⟨c', rfl, ?_⟩
    simpa [hc'] using this

theorem Step.cache_rev_step {s s' : St} {e : Nat} (h : Step s s' e) {e' id : Nat}
    {c' : EntryCache} (hne : e' ≠ e) (hc : s'.cache e' id = some c') :
    ∃ c, s.cache e' id = some c ∧ c'.noIndexes = c.noIndexes := by
  have := h.recs e' id hne
  rw [hc] at this
  cases hc0 : s.cache e' id with
  | none => simp [hc0] at this
  | some c =>
    refine ⟨c, rfl, ?_⟩
    simpa [hc0] using this

theorem Step.regs_ne {s s' : St} {e : Nat} (h : Step s s' e) {e' : Nat} (hne : e' ≠ e)
    (l : Nat) (x y : Int) : s'.regs e' l x y ↔ s.regs e' l x y := by
  unfold St.regs
  rw [h.id_eq_step]
  constructor
  · rintro ⟨c', hc', h1, h2, h3⟩
    obtain ⟨c, hc, hcc⟩ := h.cache_rev_step hne hc'
    obtain ⟨_, _, _, _, f5, f6, _⟩ := noIndexes_fields hcc
    exact ⟨c, hc, by rw [← f6]; exact h1, by rw [← f5]; exact h2,
      (noIndexes_inSpan hcc x y).mp h3⟩
  · rintro ⟨c, hc, h1, h2, h3⟩
    obtain ⟨c', hc', hcc⟩ := h.cache_step hne hc
    obtain ⟨_, _, _, _, f5, f6, _⟩ := noIndexes_fields hcc
    exact ⟨c', hc', by rw [f6]; exact h1, by rw [f5]; exact h2,
      (noIndexes_inSpan hcc x y).mpr h3⟩

theorem Step.contains_ne {s s' : St} {e : Nat} (h : Step s s' e) {e' : Nat} (hne : e' ≠ e) :
    HashBounds.contains s' e' = HashBounds.contains s e' := by
  unfold HashBounds.contains
  rw [h.id_eq_step]
  cases hc : s.cache e' s.hb.ID with
  | none =>
    have := h.recs e' s.hb.ID hne
    rw [hc] at this
    cases hc' : s'.cache e' s.hb.ID with
    | none => rfl
    | some c' => simp [hc'] at this
  | some c =>
    obtain ⟨c', hc', hcc⟩ := h.cache_step hne hc
    rw [hc']
    exact (noIndexes_fields hcc).2.2.2.2.2.1

theorem Step.levelFor_step {s s' : St} {e : Nat} (h : Step s s' e) (w h' : ℚ) :
    HashBounds.levelFor s'.hb w h' = HashBounds.levelFor s.hb w h' := by
  have e2 : s'.hb.MIN_SIZE_INV = s.hb.MIN_SIZE_INV := (congrArg HashBounds.MIN_SIZE_INV h.hbs :)
  have e4 : s'.hb.LOG2CACHE = s.hb.LOG2CACHE := (congrArg HashBounds.LOG2CACHE h.hbs :)
  unfold HashBounds.levelFor
  rw [e2, e4, h.levelCount_eq_step]

/-- The invariant after an operation on entry `e`, from what the operation
did to the buckets and to the record of `e`. -/
theorem Invariant.of_step {s s' : St} {g g' : Boxes} {e : Nat}
    (hinv : Invariant s g) (hst : Step s s' e) (hcore : Core s' s'.regs)
    (hrec : ∀ c', s'.cache e s'.hb.ID = some c' →
      (c'.hashID = s'.hb.ID ∧ ∃ l, c'.cachedIndex = some l ∧ l < s'.hb.LEVEL_COUNT)
      ∧ ∃ v, (s'.entries e)._HashBoundsTempCheck = some v ∧ v < s'.hb.QUERYID)
    (hg : ∀ e', e' ≠ e → g' e' = g e')
    (hcont : HashBounds.contains s' e = true ↔ (g' e).isSome = true)
    (hbox : ∀ box, g' e = some box →
      0 ≤ box.width ∧ 0 ≤ box.height
      ∧ ∃ c l gr, s'.cache e s'.hb.ID = some c ∧ c.cachedIndex = some l
        ∧ s'.hb.LEVELS[l]? = some gr ∧ (c.k1x, c.k1y, c.k2x, c.k2y) = gr.span box)
    (hlev : ∀ c', s'.cache e s'.hb.ID = some c' →
      c'.cachedIndex = HashBounds.levelFor s'.hb c'.cacheWidth c'.cacheHeight)
    (hdim : ∀ box c', g' e = some box → s'.cache e s'.hb.ID = some c' →
      c'.cacheWidth = box.width ∧ c'.cacheHeight = box.height) :
    Invariant s' g' := by
  refine ⟨hcore.static, hcore.tree, hcore.cnt, hcore.items, ?_, ?_, ?_, ?_, ?_⟩
  rotate_left 3
  · intro e' c' hc'
    by_cases hne : e' = e
    · subst hne
      exact hlev c' hc'
    · rw [hst.id_eq_step] at hc'
      obtain ⟨c, hc, hcc⟩ := hst.cache_rev_step hne hc'
      obtain ⟨_, _, _, _, f5, _, _, f8, f9⟩ := noIndexes_fields hcc
      rw [f5, f8, f9, hst.levelFor_step]
      exact hinv.levels e' c hc
  · intro e' box c' hb' hc'
    by_cases hne : e' = e
    · subst hne
      exact hdim box c' hb' hc'
    · rw [hg e' hne] at hb'
      rw [hst.id_eq_step] at hc'
      obtain ⟨c, hc, hcc⟩ := hst.cache_rev_step hne hc'
      obtain ⟨_, _, _, _, _, _, _, f8, f9⟩ := noIndexes_fields hcc
      rw [f8, f9]
      exact hinv.dims e' box c hb' hc
  · intro e' c' hc'
    by_cases hne : e' = e
    · subst hne
      exact (hrec c' hc').1
    · rw [hst.id_eq_step] at hc'
      obtain ⟨c, hc, hcc⟩ := hst.cache_rev_step hne hc'
      obtain ⟨_, _, _, _, f5, _, f7, _⟩ := noIndexes_fields hcc
      rw [f5, f7, hst.id_eq_step, hst.levelCount_eq_step]
      exact hinv.recs e' c hc
  · obtain ⟨h1, h2, h3⟩ := hinv.stamps
    refine ⟨by rw [hst.queryID_eq_step]; exact h1, by rw [hst.queryID_eq_step]; exact h2, ?_⟩
    intro e' c' hc'
    by_cases hne : e' = e
    · subst hne
      exact (hrec c' hc').2
    · rw [hst.id_eq_step] at hc'
      obtain ⟨c, hc, _⟩ := hst.cache_rev_step hne hc'
      rw [hst.stamps e' hne, hst.queryID_eq_step]
      exact h3 e' c hc
  · refine ⟨?_, ?_⟩
    · intro e'
      by_cases hne : e' = e
      · subst hne
        exact hcont
      · rw [hst.contains_ne hne, hg e' hne]
        exact hinv.boxes.1 e'
    · intro e' box hb'
      by_cases hne : e' = e
      · subst hne
        exact hbox box hb'
      · rw [hg e' hne] at hb'
        obtain ⟨h1, h2, c, l, gr, hc, hl, hgr, hsp⟩ := hinv.boxes.2 e' box hb'
        refine ⟨h1, h2, ?_⟩
        obtain ⟨c', hc', hcc⟩ := hst.cache_step hne hc
        obtain ⟨gr', hgr', hgg⟩ := hst.grid_rev_step hgr
        obtain ⟨f1, f2, f3, f4, f5, _⟩ := noIndexes_fields hcc
        refine ⟨c', l, gr', by rw [hst.id_eq_step]; exact hc', by rw [f5]; exact hl, hgr', ?_⟩
        have e1 : gr'.BUCKETSIZE_INV = gr.BUCKETSIZE_INV :=
          (congrArg HashGrid.BUCKETSIZE_INV hgg :)
        rw [f1, f2, f3, f4, hsp]
        simp [HashGrid.span, e1]

/-! # Records and `getLevel` -/

theorem RecOnly.refl_rec (s : St) (e : Nat) : RecOnly s s e := ⟨rfl, rfl, rfl, fun _ _ => rfl⟩

theorem RecOnly.trans_rec {s s1 s2 : St} {e : Nat} (h1 : RecOnly s s1 e) (h2 : RecOnly s1 s2 e) :
    RecOnly s s2 e :=
  ⟨h2.hb.trans h1.hb, h2.buckets.trans h1.buckets, h2.nextBucket.trans h1.nextBucket,
   fun e' hne => (h2.entries e' hne).trans (h1.entries e' hne)⟩

theorem RecOnly.setCache (s : St) (e id : Nat) (f : EntryCache → EntryCache) :
    RecOnly s (s.setCache e id f) e := by
  refine ⟨rfl, rfl, rfl, ?_⟩
  intro e' hne
  simp [St.setCache, hne]

theorem RecOnly.toStep_rec {s s' : St} {e : Nat} (h : RecOnly s s' e) : Step s s' e :=
  Step.of_entries h.hb h.nextBucket h.entries

theorem RecOnly.resident_rec {s s' : St} {e : Nat} (h : RecOnly s s' e) :
    s'.resident = s.resident := by
  funext l x y
  unfold St.resident
  rw [h.hb]

theorem RecOnly.cache_ne {s s' : St} {e : Nat} (h : RecOnly s s' e) {e' : Nat}
    (hne : e' ≠ e) (id : Nat) : s'.cache e' id = s.cache e' id := by
  unfold St.cache
  rw [h.entries e' hne]

/-- The record of an entry without registrations may change freely. -/
theorem core_recOnly_free {s s' : St} {A : Nat → Nat → Int → Int → Prop} {e : Nat}
    (h : Core s A) (hr : RecOnly s s' e) (hne : ∀ l x y, ¬ A e l x y) : Core s' A := by
  refine ⟨Static_of_hb h.static hr.hb,
    TreeOk_of_shape h.tree hr.hb hr.nextBucket (fun i => by rw [hr.buckets]), ?_, ?_⟩
  · intro l x y b hb
    rw [hr.resident_rec] at hb
    have := h.cnt l x y b hb
    unfold St.CntAt St.expected St.posChild at this ⊢
    rw [hr.buckets]
    exact this
  · refine ⟨h.items.single, ?_, ?_⟩
    · intro l x y b i e' hb he'
      rw [hr.resident_rec] at hb
      rw [hr.buckets] at he'
      have h1 := h.items.fwd l x y b i e' hb he'
      have hee : e' ≠ e := by
        rintro rfl
        exact hne _ _ _ h1.1
      refine ⟨h1.1, ?_⟩
      intro c hc
      rw [hr.hb, hr.cache_ne hee] at hc
      exact h1.2 c hc
    · intro e' l x y ha
      have hee : e' ≠ e := by
        rintro rfl
        exact hne _ _ _ ha
      obtain ⟨c, b, i, h1, h2, h3, h4, h5⟩ := h.items.bwd e' l x y ha
      refine ⟨c, b, i, ?_, h2, ?_, h4, ?_⟩
      · rw [hr.hb, hr.cache_ne hee]
        exact h1
      · rw [hr.resident_rec]
        exact h3
      · rw [hr.buckets]
        exact h5

/-- The record of an entry may change in the fields that the item lists do
not depend on. -/
theorem core_recOnly_keep {s s' : St} {A : Nat → Nat → Int → Int → Prop} {e : Nat}
    {c c' : EntryCache} (h : Core s A) (hr : RecOnly s s' e)
    (hc : s.cache e s.hb.ID = some c) (hc' : s'.cache e s.hb.ID = some c')
    (hk : c'.k1x = c.k1x ∧ c'.k1y = c.k1y ∧ c'.k2x = c.k2x ∧ c'.k2y = c.k2y)
    (hix : c'.indexes = c.indexes) : Core s' A := by
  have hkey : ∀ x y, c'.key x y = c.key x y := by
    intro x y
    simp [EntryCache.key, hk.1, hk.2.1, hk.2.2.1, hk.2.2.2]
  have hsp : ∀ x y, c'.inSpan x y ↔ c.inSpan x y := by
    intro x y
    simp [EntryCache.inSpan, hk.1, hk.2.1, hk.2.2.1, hk.2.2.2]
  refine ⟨Static_of_hb h.static hr.hb,
    TreeOk_of_shape h.tree hr.hb hr.nextBucket (fun i => by rw [hr.buckets]), ?_, ?_⟩
  · intro l x y b hb
    rw [hr.resident_rec] at hb
    have := h.cnt l x y b hb
    unfold St.CntAt St.expected St.posChild at this ⊢
    rw [hr.buckets]
    exact this
  · refine ⟨h.items.single, ?_, ?_⟩
    · intro l x y b i e' hb he'
      rw [hr.resident_rec] at hb
      rw [hr.buckets] at he'
      have h1 := h.items.fwd l x y b i e' hb he'
      refine ⟨h1.1, ?_⟩
      intro c2 hc2
      rw [hr.hb] at hc2
      by_cases hee : e' = e
      · subst hee
        rw [hc'] at hc2
        cases hc2
        rw [hkey, hix]
        exact h1.2 c hc
      · rw [hr.cache_ne hee] at hc2
        exact h1.2 c2 hc2
    · intro e' l x y ha
      obtain ⟨c2, b, i, h1, h2, h3, h4, h5⟩ := h.items.bwd e' l x y ha
      rw [← hr.resident_rec] at h3
      rw [← hr.buckets] at h5
      by_cases hee : e' = e
      · subst hee
        rw [hc] at h1
        cases h1
        refine ⟨c', b, i, by rw [hr.hb]; exact hc', (hsp x y).mpr h2, h3, ?_, h5⟩
        rw [hkey, hix]
        exact h4
      · refine ⟨c2, b, i, ?_, h2, h3, h4, h5⟩
        rw [hr.hb, hr.cache_ne hee]
        exact h1

/-- `getLevel` returns an existing level for a box of non-negative width and
height, and stores it in the record. -/
theorem getLevel_ok {s : St} {e : Nat} {c : EntryCache} (box : Box) (hs : Static s)
    (hc : s.cache e s.hb.ID = some c)
    (hci : ∃ l, c.cachedIndex = some l ∧ l < s.hb.LEVEL_COUNT)
    (hlv : c.cachedIndex = HashBounds.levelFor s.hb c.cacheWidth c.cacheHeight)
    (hw : 0 ≤ box.width) (hh : 0 ≤ box.height) :
    (HashBounds.getLevel box e).Ok s (fun r s' =>
      ∃ l c', r = some l ∧ l < s.hb.LEVEL_COUNT ∧ RecOnly s s' e
        ∧ (s'.entries e)._HashBoundsTempCheck = (s.entries e)._HashBoundsTempCheck
        ∧ s'.cache e s.hb.ID = some c' ∧ c'.cachedIndex = some l
        ∧ (c'.k1x = c.k1x ∧ c'.k1y = c.k1y ∧ c'.k2x = c.k2x ∧ c'.k2y = c.k2y)
        ∧ c'.indexes = c.indexes ∧ c'.hashID = c.hashID ∧ c'.isInHash = c.isInHash
        ∧ c'.cacheWidth = box.width ∧ c'.cacheHeight = box.height
        ∧ HashBounds.levelFor s.hb box.width box.height = some l) := by
  simp only [HashBounds.getLevel, M.Ok_bind, M.Ok_read, hc]
  split
  · rename_i heq
    obtain ⟨l, hl1, hl2⟩ := hci
    refine (M.Ok_pure _ _ _).mpr ?_
    refine ⟨l, c, hl1, hl2, RecOnly.refl_rec s e, rfl, hc, hl1, ⟨rfl, rfl, rfl, rfl⟩, rfl, rfl,
      rfl, heq.1, heq.2, ?_⟩
    rw [← heq.1, ← heq.2, ← hlv]
    exact hl1
  · refine (M.Ok_bind _ _ _ _).mpr ((M.Ok_modify _ _ _).mpr ((M.Ok_pure _ _ _).mpr ?_))
    have hinv : 0 ≤ s.hb.MIN_SIZE_INV := by
      rw [hs.minSize_inv]
      exact fl_nonneg (le_of_lt (one_div_pos.mpr hs.minSize_pos))
    have hi0 : (0 : Int) ≤ ⌈fl (max box.width box.height * s.hb.MIN_SIZE_INV)⌉ :=
      Int.ceil_nonneg (fl_nonneg (mul_nonneg (le_max_of_le_left hw) hinv))
    have hidx : ∃ l, (if ⌈fl (max box.width box.height * s.hb.MIN_SIZE_INV)⌉
          ≥ (s.hb.LOG2CACHE.length : Int) then some (s.hb.LEVEL_COUNT - 1)
        else if ⌈fl (max box.width box.height * s.hb.MIN_SIZE_INV)⌉ < 0 then none
        else s.hb.LOG2CACHE[(⌈fl (max box.width box.height * s.hb.MIN_SIZE_INV)⌉).toNat]?)
          = some l ∧ l < s.hb.LEVEL_COUNT := by
      split
      · exact ⟨_, rfl, by have := hs.count_pos; omega⟩
      · rename_i hlt
        rw [if_neg (by omega)]
        have hlt2 : (⌈fl (max box.width box.height * s.hb.MIN_SIZE_INV)⌉).toNat
            < s.hb.LOG2CACHE.length := by omega
        exact ⟨_, List.getElem?_eq_getElem hlt2,
          hs.log2 _ _ (List.getElem?_eq_getElem hlt2)⟩
    obtain ⟨l, hl1, hl2⟩ := hidx
    refine ⟨l, { c with cachedIndex := some l, cacheWidth := box.width,
                        cacheHeight := box.height }, hl1, hl2,
      RecOnly.setCache s e _ _, St.setCache_stamp _ _ _ _ _, ?_, rfl,
      ⟨rfl, rfl, rfl, rfl⟩, rfl, rfl, rfl, rfl, rfl, hl1⟩
    rw [St.setCache_cache_self, hc, hl1]
    rfl

/-! # Bounds objects -/

theorem numeric_some {b : Bounds} {box : Box} (h : b.numeric = some box) :
    ∃ cb, HashBounds.convertBoundsD b = .ok cb ∧ cb.box? = some box := by
  unfold Bounds.numeric at h
  cases hcb : HashBounds.convertBoundsD b with
  | error err => rw [hcb] at h; cases h
  | ok cb =>
    rw [hcb] at h
    exact ⟨cb, rfl, h⟩

/-! # `HashBounds.insert` -/

theorem gridInsert_ok_id {s : St} {A : Nat → Nat → Int → Int → Prop} {fuel e l : Nat}
    {c : EntryCache} {g : HashGrid} (id : Nat) (hid : id = s.hb.ID) (box : Box)
    (ks : Option (Int × Int × Int × Int))
    (k1x k1y k2x k2y : Int) (h : Core s A) (hc : s.cache e id = some c)
    (hne : ∀ l' x' y', ¬ A e l' x' y') (hl : l < s.hb.LEVEL_COUNT)
    (hf : s.hb.LEVEL_COUNT ≤ fuel) (hg : s.hb.LEVELS[l]? = some g)
    (hk : ks.getD (g.span box) = (k1x, k1y, k2x, k2y)) :
    (HashGrid.insert fuel l e id box ks).Ok s (fun _ s' =>
      Frame (s.setCache e id
        (fun r => { r with k1x := k1x, k1y := k1y, k2x := k2x, k2y := k2y })) s'
      ∧ Core s' (fun e' l' x' y' => A e' l' x' y'
          ∨ (e' = e ∧ l' = l ∧ k1x ≤ x' ∧ x' ≤ k2x ∧ k1y ≤ y' ∧ y' ≤ k2y))) := by
  subst hid
  exact gridInsert_ok box ks k1x k1y k2x k2y h hc hne hl hf hg hk

theorem regs_of_contains_false {s : St} {e : Nat} (h : HashBounds.contains s e = false)
    (l : Nat) (x y : Int) : ¬ s.regs e l x y := by
  rintro ⟨c, hc, h1, _⟩
  simp [HashBounds.contains, hc, h1] at h

/-- What `HashBounds.insert` and `HashBounds.update` do once the record of
the entry is in place without registrations: `HashGrid.insert` on the level
`l` of the record, and the invariant holds again. -/
theorem place_ok {s s3 : St} {g : Boxes} {e l : Nat} {box : Box} {c3 : EntryCache}
    (ks : Option (Int × Int × Int × Int))
    {A : Nat → Nat → Int → Int → Prop}
    (hinv : Invariant s g) (hst : Step s s3 e) (hcore : Core s3 A)
    (hA : ∀ e' l x y, e' ≠ e → (A e' l x y ↔ s.regs e' l x y))
    (hne : ∀ l x y, ¬ A e l x y)
    (hw : 0 ≤ box.width) (hh : 0 ≤ box.height)
    (hc3 : s3.cache e s.hb.ID = some c3) (hin : c3.isInHash = true)
    (hid : c3.hashID = s.hb.ID) (hci : c3.cachedIndex = some l) (hl : l < s.hb.LEVEL_COUNT)
    (hks : ∀ gr, s3.hb.LEVELS[l]? = some gr → ks.getD (gr.span box) = gr.span box)
    (hstamp : ∃ v, (s3.entries e)._HashBoundsTempCheck = some v ∧ v < s.hb.QUERYID)
    (hdim3 : c3.cacheWidth = box.width ∧ c3.cacheHeight = box.height)
    (hlf : HashBounds.levelFor s.hb box.width box.height = some l) :
    (HashGrid.insert s.hb.LEVELS.length l e s.hb.ID box ks).Ok s3 (fun _ s' =>
      Invariant s' (Function.update g e (some box)) ∧ Step s s' e) := by
  have hid3 : s3.hb.ID = s.hb.ID := hst.id_eq_step
  have hlc3 : s3.hb.LEVEL_COUNT = s.hb.LEVEL_COUNT := hst.levelCount_eq_step
  obtain ⟨gr, hgr⟩ : ∃ gr, s3.hb.LEVELS[l]? = some gr :=
    ⟨_, List.getElem?_eq_getElem (by rw [hcore.static.levels_len, hlc3]; exact hl)⟩
  have hk := hks gr hgr
  refine M.Ok_mono (gridInsert_ok_id s.hb.ID hid3.symm box ks _ _ _ _ hcore hc3 hne
    (by rw [hlc3]; exact hl) (by rw [hlc3, ← hinv.static.levels_len]) hgr hk) ?_
  intro _ s4 ⟨hfr, hcore4⟩
  have hc3' : (s3.setCache e s.hb.ID (fun r => { r with
      k1x := (gr.span box).1, k1y := (gr.span box).2.1, k2x := (gr.span box).2.2.1,
      k2y := (gr.span box).2.2.2 })).cache e s.hb.ID
      = some { c3 with k1x := (gr.span box).1, k1y := (gr.span box).2.1,
                       k2x := (gr.span box).2.2.1, k2y := (gr.span box).2.2.2 } := by
    rw [St.setCache_cache_self, hc3]
    rfl
  obtain ⟨c4, hc4, hcc4⟩ := hfr.cache hc3'
  obtain ⟨f1, f2, f3, f4, f5, f6, f7, f8, f9⟩ := noIndexes_fields hcc4
  have hst4 : Step s s4 e := (hst.trans_step (RecOnly.setCache s3 e _ _).toStep_rec).trans_step (hfr.toStep e)
  have hid4 : s4.hb.ID = s.hb.ID := hst4.id_eq_step
  obtain ⟨gr4, hgr4, hgg4⟩ := hfr.grid_rev hgr
  have hw4 : c4.cacheWidth = box.width := f8.trans hdim3.1
  have hh4 : c4.cacheHeight = box.height := f9.trans hdim3.2
  refine ⟨Invariant.of_step hinv hst4 (hcore4.of_iff_core ?_) ?_ ?_ ?_ ?_ ?_ ?_, hst4⟩
  rotate_left 5
  · intro c' hc'
    rw [hid4, hc4] at hc'
    cases hc'
    rw [hw4, hh4, hst4.levelFor_step, hlf, f5]
    exact hci
  · intro box' c' hb' hc'
    rw [Function.update_same] at hb'
    cases hb'
    rw [hid4, hc4] at hc'
    cases hc'
    exact ⟨hw4, hh4⟩
  · intro e' l' x' y'
    by_cases hee : e' = e
    · subst hee
      unfold St.regs
      rw [hid4, hc4]
      constructor
      · rintro ⟨c, hc, h1, h2, h3⟩
        cases hc
        rw [f5, hci] at h2
        cases h2
        refine Or.inr ⟨rfl, rfl, ?_⟩
        obtain ⟨g1, g2, g3, g4⟩ := h3
        rw [f1] at g1
        rw [f3] at g2
        rw [f2] at g3
        rw [f4] at g4
        exact ⟨g1, g2, g3, g4⟩
      · rintro (ha | ⟨_, rfl, g1, g2, g3, g4⟩)
        · exact (hne _ _ _ ha).elim
        · refine ⟨c4, rfl, by rw [f6]; exact hin, by rw [f5]; exact hci, ?_⟩
          refine ⟨by rw [f1]; exact g1, by rw [f3]; exact g2, by rw [f2]; exact g3,
            by rw [f4]; exact g4⟩
    · rw [hst4.regs_ne hee, ← hA e' l' x' y' hee]
      constructor
      · exact Or.inl
      · rintro (ha | ⟨h1, _⟩)
        · exact ha
        · exact (hee h1).elim
  · intro c' hc'
    rw [hid4, hc4] at hc'
    cases hc'
    refine ⟨⟨by rw [f7, hid4]; exact hid, l, by rw [f5]; exact hci,
      by rw [hst4.levelCount_eq_step]; exact hl⟩, ?_⟩
    obtain ⟨v, hv1, hv2⟩ := hstamp
    refine ⟨v, ?_, by rw [hst4.queryID_eq_step]; exact hv2⟩
    rw [hfr.stamps, St.setCache_stamp]
    exact hv1
  · intro e' hee
    exact Function.update_noteq hee _ _
  · rw [Function.update_same]
    simp only [Option.isSome_some, iff_true]
    unfold HashBounds.contains
    rw [hid4, hc4]
    exact f6.trans hin
  · intro box' hb'
    rw [Function.update_same] at hb'
    cases hb'
    refine ⟨hw, hh, c4, l, gr4, by rw [hid4]; exact hc4, by rw [f5]; exact hci,
      hgr4, ?_⟩
    have e1 : gr4.BUCKETSIZE_INV = gr.BUCKETSIZE_INV :=
      (congrArg HashGrid.BUCKETSIZE_INV hgg4 :)
    rw [f1, f2, f3, f4]
    simp [HashGrid.span, e1]

/-! # `HashBounds.insert` -/

theorem createCache_recOnly (s : St) (e id : Nat) :
    RecOnly s (HashBounds.createCache s e id) e := by
  refine ⟨rfl, rfl, rfl, ?_⟩
  intro e' hne
  simp [HashBounds.createCache, hne]

theorem createCache_cache (s : St) (e id : Nat) :
    (HashBounds.createCache s e id).cache e id = some (HashBounds.freshCache id) := by
  simp [HashBounds.createCache, St.cache]

theorem createCache_stamp (s : St) (e id : Nat) :
    ((HashBounds.createCache s e id).entries e)._HashBoundsTempCheck = some (-1) := by
  simp [HashBounds.createCache]

theorem setupLog2_zero (n : Nat) : (HashBounds.setupLog2 n)[0]? = some 0 := by
  unfold HashBounds.setupLog2
  have hpos : 0 < ⌊((2 : ℚ) ^ ((n : Int) - 2) + 1)⌋₊ := by
    rw [Nat.floor_pos]
    have : (0 : ℚ) < (2 : ℚ) ^ ((n : Int) - 2) := zpow_pos (by norm_num) _
    linarith
  simp only [List.getElem?_map]
  rw [List.getElem?_range hpos]
  rfl

theorem setupLog2_length_pos (n : Nat) : 0 < (HashBounds.setupLog2 n).length := by
  have := setupLog2_zero n
  exact (List.getElem?_eq_some_iff.mp this).1

/-- The level of a box of width and height 0 is 0. -/
theorem levelFor_zero {s : St} (hs : Static s) : HashBounds.levelFor s.hb 0 0 = some 0 := by
  unfold HashBounds.levelFor
  simp only [max_self, zero_mul, fl_zero, Int.ceil_zero]
  have hlen := setupLog2_length_pos s.hb.LEVEL_COUNT
  rw [← hs.table] at hlen
  rw [if_neg (by omega), if_neg (by omega)]
  simp only [Int.toNat_zero]
  rw [hs.table]
  exact setupLog2_zero _

/-- `HashBounds.insert` of an entry that is not in the index, with a box of
non-negative width and height, succeeds and keeps the invariant. -/
theorem insert_ok {s : St} {g : Boxes} {e : Nat} {b : Bounds} {box : Box}
    (hinv : Invariant s g) (hnc : HashBounds.contains s e = false)
    (hb : b.numeric = some box) (hw : 0 ≤ box.width) (hh : 0 ≤ box.height) :
    (HashBounds.insert e b).Ok s (fun _ s' =>
      Invariant s' (Function.update g e (some box)) ∧ Step s s' e) := by
  obtain ⟨cb, hcb, hbox⟩ := numeric_some hb
  have hne := regs_of_contains_false hnc
  have tail : ∀ s1 c1, RecOnly s s1 e → s1.cache e s.hb.ID = some c1 →
      c1.hashID = s.hb.ID → (∃ l, c1.cachedIndex = some l ∧ l < s.hb.LEVEL_COUNT) →
      (∃ v, (s1.entries e)._HashBoundsTempCheck = some v ∧ v < s.hb.QUERYID) →
      c1.cachedIndex = HashBounds.levelFor s.hb c1.cacheWidth c1.cacheHeight →
      (HashBounds.getLevel box e).Ok
        (s1.setCache e s.hb.ID (fun r => { r with isInHash := true }))
        (fun level s3 => (match level with
          | none => M.throw .typeError
          | some l => HashGrid.insert s.hb.LEVELS.length l e s.hb.ID box none).Ok s3
            (fun _ s' => Invariant s' (Function.update g e (some box)) ∧ Step s s' e)) := by
    intro s1 c1 hr1 hc1 hid1 hci1 hst1 hlv1
    have hcore0 : Core s s.regs := ⟨hinv.static, hinv.tree, hinv.cnt, hinv.items⟩
    have hr2 := hr1.trans_rec (RecOnly.setCache s1 e s.hb.ID (fun r => { r with isInHash := true }))
    have hc2 : (s1.setCache e s.hb.ID (fun r => { r with isInHash := true })).cache e s.hb.ID
        = some { c1 with isInHash := true } := by
      rw [St.setCache_cache_self, hc1]
      rfl
    have hst2 : ((s1.setCache e s.hb.ID (fun r => { r with isInHash := true })).entries
        e)._HashBoundsTempCheck = (s1.entries e)._HashBoundsTempCheck :=
      St.setCache_stamp _ _ _ _ _
    generalize s1.setCache e s.hb.ID (fun r => { r with isInHash := true }) = s2
      at hr2 hc2 hst2 ⊢
    have hcore2 := core_recOnly_free hcore0 hr2 hne
    have hhb2 : s2.hb = s.hb := hr2.hb
    refine M.Ok_mono (getLevel_ok box hcore2.static (by rw [hhb2]; exact hc2)
      (by rw [hhb2]; exact hci1) (by rw [hhb2]; exact hlv1) hw hh) ?_
    rintro r s3 ⟨l, c3, rfl, hl, hr3, hstamp3, hc3, hci3, hk3, hix3, hid3, hin3, hcw3, hch3,
      hlf3⟩
    simp only
    rw [hhb2] at hc3 hl hlf3
    have hr03 := hr2.trans_rec hr3
    refine place_ok none hinv hr03.toStep_rec (core_recOnly_free hcore0 hr03 hne)
      (fun _ _ _ _ _ => Iff.rfl) hne hw hh
      hc3 hin3 (hid3.trans hid1) hci3 hl (fun _ _ => rfl) ?_ ⟨hcw3, hch3⟩ hlf3
    rw [hstamp3, hst2]
    exact hst1
  simp only [HashBounds.insert, M.Ok_bind, M.Ok_read, hnc, hcb]
  rw [if_neg (by simp)]
  split
  · rename_i hnone
    simp only [M.Ok_bind, M.Ok_modify, hbox]
    refine tail _ _ (createCache_recOnly s e s.hb.ID) (createCache_cache s e s.hb.ID) rfl
      ⟨0, rfl, hinv.static.count_pos⟩ ⟨-1, createCache_stamp s e s.hb.ID, ?_⟩
      (levelFor_zero hinv.static).symm
    have := hinv.stamps.1
    omega
  · rename_i hsome
    simp only [M.Ok_bind, M.Ok_pure, M.Ok_modify, hbox]
    obtain ⟨c, hc⟩ : ∃ c, s.cache e s.hb.ID = some c := by
      cases h : s.cache e s.hb.ID with
      | none => simp [h] at hsome
      | some c => exact ⟨c, rfl⟩
    exact tail s c (RecOnly.refl_rec s e) hc (hinv.recs e c hc).1 (hinv.recs e c hc).2
      (hinv.stamps.2.2 e c hc) (hinv.levels e c hc)

/-! # `HashBounds.remove` -/

theorem contains_true {s : St} {e : Nat} (h : HashBounds.contains s e = true) :
    ∃ c, s.cache e s.hb.ID = some c ∧ c.isInHash = true := by
  unfold HashBounds.contains at h
  cases hc : s.cache e s.hb.ID with
  | none => simp [hc] at h
  | some c =>
    rw [hc] at h
    exact ⟨c, rfl, h⟩

/-- `HashBounds.remove` of an entry that is in the index succeeds and keeps
the invariant. -/
theorem remove_inv {s : St} {g : Boxes} {e : Nat}
    (hinv : Invariant s g) (hct : HashBounds.contains s e = true) :
    (HashBounds.remove e).Ok s (fun _ s' =>
      Invariant s' (Function.update g e none) ∧ Step s s' e) := by
  obtain ⟨c, hc, hin⟩ := contains_true hct
  obtain ⟨hid, l, hci, hl⟩ := hinv.recs e c hc
  have hcore0 : Core s s.regs := ⟨hinv.static, hinv.tree, hinv.cnt, hinv.items⟩
  simp only [HashBounds.remove, M.Ok_bind, M.Ok_read, hct, hc]
  rw [if_neg (by simp)]
  simp only [Option.some_bind, hci, M.Ok_bind]
  refine M.Ok_mono (gridRemove_ok hcore0 hc hid (fun x y hsp => ⟨c, hc, hin, hci, hsp⟩)
    (by rw [hinv.static.levels_len])) ?_
  intro _ s1 ⟨hfr, hcore1⟩
  simp only [M.Ok_modify]
  rw [hfr.id_eq]
  obtain ⟨c1, hc1, hcc1⟩ := hfr.cache hc
  obtain ⟨f1, f2, f3, f4, f5, f6, f7, f8, f9⟩ := noIndexes_fields hcc1
  have hr2 := RecOnly.setCache s1 e s.hb.ID (fun r => { r with isInHash := false })
  have hc2 : (s1.setCache e s.hb.ID (fun r => { r with isInHash := false })).cache e s.hb.ID
      = some { c1 with isInHash := false } := by
    rw [St.setCache_cache_self, hc1]
    rfl
  have hst2 : ((s1.setCache e s.hb.ID (fun r => { r with isInHash := false })).entries
      e)._HashBoundsTempCheck = (s1.entries e)._HashBoundsTempCheck :=
    St.setCache_stamp _ _ _ _ _
  generalize s1.setCache e s.hb.ID (fun r => { r with isInHash := false }) = s2
    at hr2 hc2 hst2 ⊢
  have hnone : ∀ l' x' y', ¬ (s.regs e l' x' y' ∧ ¬ (e = e ∧ l' = l ∧ c.inSpan x' y')) := by
    rintro l' x' y' ⟨⟨c', hc', h1, h2, h3⟩, hno⟩
    rw [hc] at hc'
    cases hc'
    rw [hci] at h2
    cases h2
    exact hno ⟨rfl, rfl, h3⟩
  have hcore2 := core_recOnly_free hcore1 hr2 hnone
  have hstep : Step s s2 e := (hfr.toStep e).trans_step hr2.toStep_rec
  have hid2 : s2.hb.ID = s.hb.ID := hstep.id_eq_step
  refine ⟨Invariant.of_step hinv hstep (hcore2.of_iff_core ?_) ?_ ?_ ?_ ?_ ?_ ?_, hstep⟩
  rotate_left 5
  · intro c' hc'
    rw [hid2, hc2] at hc'
    cases hc'
    rw [hstep.levelFor_step]
    show c1.cachedIndex = HashBounds.levelFor s.hb c1.cacheWidth c1.cacheHeight
    rw [f5, f8, f9]
    exact hinv.levels e c hc
  · intro box' c' hb' hc'
    rw [Function.update_same] at hb'
    cases hb'
  · intro e' l' x' y'
    by_cases hee : e' = e
    · subst hee
      constructor
      · rintro ⟨c', hc', h1, _⟩
        rw [hid2, hc2] at hc'
        cases hc'
        cases h1
      · intro h
        exact (hnone _ _ _ h).elim
    · rw [hstep.regs_ne hee]
      constructor
      · intro h
        exact ⟨h, fun h' => hee h'.1⟩
      · exact fun h => h.1
  · intro c' hc'
    rw [hid2, hc2] at hc'
    cases hc'
    refine ⟨⟨by rw [hid2]; exact f7.trans hid, l, f5.trans hci,
      by rw [hstep.levelCount_eq_step]; exact hl⟩, ?_⟩
    obtain ⟨v, hv1, hv2⟩ := hinv.stamps.2.2 e c hc
    refine ⟨v, ?_, by rw [hstep.queryID_eq_step]; exact hv2⟩
    rw [hst2, hfr.stamps]
    exact hv1
  · intro e' hee
    exact Function.update_noteq hee _ _
  · rw [Function.update_same]
    unfold HashBounds.contains
    rw [hid2, hc2]
    simp
  · intro box' hb'
    rw [Function.update_same] at hb'
    cases hb'

/-! # `HashBounds.update` -/

theorem span_noGrid {g g' : HashGrid} (h : g'.noGrid = g.noGrid) (box : Box) :
    g'.span box = g.span box := by
  have e1 : g'.BUCKETSIZE_INV = g.BUCKETSIZE_INV := (congrArg HashGrid.BUCKETSIZE_INV h :)
  simp [HashGrid.span, e1]

/-- Taking an entry out of its buckets on level `pl` and registering it on
level `l` with a new box keeps the invariant. -/
theorem relocate_ok {s s1 : St} {g : Boxes} {e pl l : Nat} {box : Box} {c0 c1 : EntryCache}
    (ks : Option (Int × Int × Int × Int))
    (hinv : Invariant s g) (hr : RecOnly s s1 e) (hcore : Core s1 s.regs)
    (hw : 0 ≤ box.width) (hh : 0 ≤ box.height)
    (hc0 : s.cache e s.hb.ID = some c0) (hin0 : c0.isInHash = true)
    (hci0 : c0.cachedIndex = some pl)
    (hc1 : s1.cache e s.hb.ID = some c1) (hin : c1.isInHash = true)
    (hid : c1.hashID = s.hb.ID) (hci : c1.cachedIndex = some l) (hl : l < s.hb.LEVEL_COUNT)
    (hk : c1.k1x = c0.k1x ∧ c1.k1y = c0.k1y ∧ c1.k2x = c0.k2x ∧ c1.k2y = c0.k2y)
    (hks : ks = none ∨ ∃ gr, s1.hb.LEVELS[l]? = some gr ∧ ks = some (gr.span box))
    (hstamp : ∃ v, (s1.entries e)._HashBoundsTempCheck = some v ∧ v < s.hb.QUERYID)
    (hdim1 : c1.cacheWidth = box.width ∧ c1.cacheHeight = box.height)
    (hlf : HashBounds.levelFor s.hb box.width box.height = some l) :
    (HashGrid.remove s.hb.LEVELS.length pl e s.hb.ID).Ok s1 (fun _ s2 =>
      (HashGrid.insert s.hb.LEVELS.length l e s.hb.ID box ks).Ok s2 (fun _ s' =>
        Invariant s' (Function.update g e (some box)) ∧ Step s s' e)) := by
  have hsp : ∀ x y, c1.inSpan x y ↔ c0.inSpan x y := by
    intro x y
    simp [EntryCache.inSpan, hk.1, hk.2.1, hk.2.2.1, hk.2.2.2]
  have hhb1 : s1.hb = s.hb := hr.hb
  refine M.Ok_mono (gridRemove_ok_id s.hb.ID (by rw [hhb1]) hcore hc1 hid
    (fun x y h => ⟨c0, hc0, hin0, hci0, (hsp x y).mp h⟩)
    (by rw [hhb1, hinv.static.levels_len])) ?_
  intro _ s2 ⟨hfr, hcore2⟩
  obtain ⟨c2, hc2, hcc2⟩ := hfr.cache hc1
  obtain ⟨f1, f2, f3, f4, f5, f6, f7, f8, f9⟩ := noIndexes_fields hcc2
  refine place_ok ks hinv (hr.toStep_rec.trans_step (hfr.toStep e)) hcore2 ?_ ?_ hw hh hc2
    (f6.trans hin) (f7.trans hid) (f5.trans hci) hl ?_ ?_ ⟨f8.trans hdim1.1, f9.trans hdim1.2⟩
    hlf
  · intro e' l' x' y' hee
    constructor
    · exact fun h => h.1
    · exact fun h => ⟨h, fun h' => hee h'.1⟩
  · rintro l' x' y' ⟨⟨c', hc', h1, h2, h3⟩, hno⟩
    rw [hc0] at hc'
    cases hc'
    rw [hci0] at h2
    cases h2
    exact hno ⟨rfl, rfl, (hsp _ _).mpr h3⟩
  · intro gr2 hgr2
    rcases hks with rfl | ⟨gr, hgr, rfl⟩
    · rfl
    · obtain ⟨gr1, hgr1, hgg⟩ := hfr.grid hgr2
      rw [hgr] at hgr1
      cases hgr1
      simp only [Option.getD_some]
      exact (span_noGrid hgg box).symm
  · obtain ⟨v, hv1, hv2⟩ := hstamp
    exact ⟨v, by rw [hfr.stamps]; exact hv1, hv2⟩

/-- `HashBounds.update` of an entry that is in the index, with a box of
non-negative width and height: it returns, the invariant holds afterwards,
the result is `true` exactly when the level of the box differs from the
stored level or the span of the box in the grid of its level differs from
the stored span, and when the result is `false` only the record of the entry
has changed, its slot indexes apart. -/
theorem update_full {s : St} {g : Boxes} {e : Nat} {b : Bounds} {box : Box} {c : EntryCache}
    (hinv : Invariant s g) (hct : HashBounds.contains s e = true)
    (hb : b.numeric = some box) (hw : 0 ≤ box.width) (hh : 0 ≤ box.height)
    (hc : s.cache e s.hb.ID = some c) :
    (HashBounds.update e b).Ok s (fun r s' =>
      Invariant s' (Function.update g e (some box)) ∧ Step s s' e
      ∧ ∃ l gr, HashBounds.levelFor s.hb box.width box.height = some l
          ∧ s.hb.LEVELS[l]? = some gr
          ∧ (r = true ↔ (c.cachedIndex ≠ some l
              ∨ (c.k1x, c.k1y, c.k2x, c.k2y) ≠ gr.span box))
          ∧ (r = false → RecOnly s s' e
              ∧ ∃ c', s'.cache e s.hb.ID = some c' ∧ c'.indexes = c.indexes)) := by
  obtain ⟨cb, hcb, hbox⟩ := numeric_some hb
  obtain ⟨c0, hc0, hin⟩ := contains_true hct
  rw [hc] at hc0
  cases hc0
  obtain ⟨hid, pl, hci, hpl⟩ := hinv.recs e c hc
  have hcore0 : Core s s.regs := ⟨hinv.static, hinv.tree, hinv.cnt, hinv.items⟩
  simp only [HashBounds.update, M.Ok_bind, M.Ok_read, hct, hcb, hbox, hc]
  rw [if_neg (by simp)]
  simp only [Option.some_bind, hci, M.Ok_bind]
  refine M.Ok_mono (getLevel_ok box hinv.static hc ⟨pl, hci, hpl⟩ (hinv.levels e c hc) hw hh) ?_
  rintro r s1 ⟨l, c1, rfl, hl, hr1, hstamp1, hc1, hci1, hk1, hix1, hid1, hin1, hcw1, hch1, hlf⟩
  have hcore1 := core_recOnly_keep hcore0 hr1 hc hc1 hk1 hix1
  have hst1 : ∃ v, (s1.entries e)._HashBoundsTempCheck = some v ∧ v < s.hb.QUERYID := by
    rw [hstamp1]
    exact hinv.stamps.2.2 e c hc
  obtain ⟨gr, hgr⟩ : ∃ gr, s.hb.LEVELS[l]? = some gr :=
    ⟨_, List.getElem?_eq_getElem (by rw [hinv.static.levels_len]; exact hl)⟩
  split
  · rename_i hne
    simp only [M.Ok_bind, M.Ok_pure]
    refine M.Ok_mono (relocate_ok none hinv hr1 hcore1 hw hh hc hin hci hc1
      (hin1.trans hin) (hid1.trans hid) hci1 hl hk1 (Or.inl rfl) hst1 ⟨hcw1, hch1⟩ hlf) ?_
    intro _ s2 h2
    refine M.Ok_mono h2 ?_
    intro _ s' ⟨hi', hs'⟩
    refine ⟨hi', hs', l, gr, hlf, hgr, ?_, ?_⟩
    · simp only [true_iff]
      left
      exact hne
    · intro hf
      cases hf
  · rename_i heq
    have hpl_eq : pl = l := by simpa using heq
    subst hpl_eq
    have hgr1 : s1.hb.LEVELS[pl]? = some gr := by rw [hr1.hb]; exact hgr
    simp only [HashGrid.update, M.Ok_bind, grid_ok hgr1, M.Ok_read, hc1]
    split
    · rename_i hdiff
      simp only [M.Ok_bind, M.Ok_pure]
      refine M.Ok_mono (relocate_ok _ hinv hr1 hcore1 hw hh hc hin hci hc1
        (hin1.trans hin) (hid1.trans hid) hci1 hl hk1 (Or.inr ⟨gr, hgr1, rfl⟩) hst1
        ⟨hcw1, hch1⟩ hlf) ?_
      intro _ s2 h2
      refine M.Ok_mono h2 ?_
      intro _ s' ⟨hi', hs'⟩
      refine ⟨hi', hs', pl, gr, hlf, hgr, ?_, ?_⟩
      · simp only [true_iff]
        right
        intro heq'
        have h1 := Prod.mk.inj heq'
        have h2' := Prod.mk.inj h1.2
        have h3 := Prod.mk.inj h2'.2
        rw [hk1.1, hk1.2.1, hk1.2.2.1, hk1.2.2.2] at hdiff
        rcases hdiff with hd | hd | hd | hd
        · exact hd h1.1
        · exact hd h2'.1
        · exact hd h3.1
        · exact hd h3.2
      · intro hf
        cases hf
    · rename_i hsame
      simp only [ne_eq, not_or, not_not] at hsame
      obtain ⟨k1, k2, k3, k4⟩ := hsame
      refine (M.Ok_pure _ _ _).mpr ?_
      have hst : Step s s1 e := hr1.toStep_rec
      have hid1' : s1.hb.ID = s.hb.ID := hst.id_eq_step
      refine ⟨Invariant.of_step hinv hst (hcore1.of_iff_core ?_) ?_ ?_ ?_ ?_ ?_ ?_, hst,
        pl, gr, hlf, hgr, ?_, ?_⟩
      · intro e' l' x' y'
        by_cases hee : e' = e
        · subst hee
          unfold St.regs
          rw [hid1', hc1, hc]
          constructor
          · rintro ⟨c', hc', h1, h2, h3⟩
            cases hc'
            refine ⟨c, rfl, hin, ?_, ?_⟩
            · rw [hci1] at h2
              rw [hci]
              exact h2
            · obtain ⟨g1, g2, g3, g4⟩ := h3
              rw [hk1.1] at g1
              rw [hk1.2.2.1] at g2
              rw [hk1.2.1] at g3
              rw [hk1.2.2.2] at g4
              exact ⟨g1, g2, g3, g4⟩
          · rintro ⟨c', hc', h1, h2, h3⟩
            cases hc'
            refine ⟨c1, rfl, hin1.trans hin, ?_, ?_⟩
            · rw [hci] at h2
              rw [hci1]
              exact h2
            · obtain ⟨g1, g2, g3, g4⟩ := h3
              exact ⟨by rw [hk1.1]; exact g1, by rw [hk1.2.2.1]; exact g2,
                by rw [hk1.2.1]; exact g3, by rw [hk1.2.2.2]; exact g4⟩
        · exact hst.regs_ne hee l' x' y'
      · intro c' hc'
        rw [hid1', hc1] at hc'
        cases hc'
        refine ⟨⟨by rw [hid1']; exact hid1.trans hid, pl, hci1,
          by rw [hst.levelCount_eq_step]; exact hl⟩, ?_⟩
        obtain ⟨v, hv1, hv2⟩ := hst1
        exact ⟨v, hv1, by rw [hst.queryID_eq_step]; exact hv2⟩
      · intro e' hee
        exact Function.update_noteq hee _ _
      · rw [Function.update_same]
        simp only [Option.isSome_some, iff_true]
        unfold HashBounds.contains
        rw [hid1', hc1]
        exact hin1.trans hin
      · intro box' hb'
        rw [Function.update_same] at hb'
        cases hb'
        refine ⟨hw, hh, c1, pl, gr, by rw [hid1']; exact hc1, hci1, hgr1, ?_⟩
        rw [k1, k2, k3, k4]
      · intro c' hc'
        rw [hid1', hc1] at hc'
        cases hc'
        rw [hcw1, hch1, hst.levelFor_step, hlf]
        exact hci1
      · intro box' c' hb' hc'
        rw [Function.update_same] at hb'
        cases hb'
        rw [hid1', hc1] at hc'
        cases hc'
        exact ⟨hcw1, hch1⟩
      · constructor
        · intro hf
          cases hf
        · rintro (hne | hne)
          · exact (hne rfl).elim
          · exfalso
            apply hne
            rw [← hk1.1, ← hk1.2.1, ← hk1.2.2.1, ← hk1.2.2.2, k1, k2, k3, k4]
      · intro _
        exact ⟨hr1, c1, hc1, hix1⟩

/-- `HashBounds.update` of an entry that is in the index, with a box of
non-negative width and height, succeeds and keeps the invariant. -/
theorem update_inv {s : St} {g : Boxes} {e : Nat} {b : Bounds} {box : Box}
    (hinv : Invariant s g) (hct : HashBounds.contains s e = true)
    (hb : b.numeric = some box) (hw : 0 ≤ box.width) (hh : 0 ≤ box.height) :
    (HashBounds.update e b).Ok s (fun _ s' =>
      Invariant s' (Function.update g e (some box)) ∧ Step s s' e) := by
  obtain ⟨c, hc, _⟩ := contains_true hct
  refine M.Ok_mono (update_full hinv hct hb hw hh hc) ?_
  intro _ s' h
  exact ⟨h.1, h.2.1⟩

/-! # The constructor -/

theorem find_range_le (p : Nat → Bool) (n m : Nat) (hm : m < n) (hp : p m = true) :
    ∃ k, (List.range n).find? p = some k ∧ k ≤ m := by
  induction n with
  | zero => omega
  | succ n ih =>
    rw [List.range_succ, List.find?_append]
    by_cases hmn : m < n
    · obtain ⟨k, hk1, hk2⟩ := ih hmn
      exact ⟨k, by rw [hk1]; rfl, hk2⟩
    · have hmn' : m = n := by omega
      subst hmn'
      cases hf : (List.range m).find? p with
      | some k =>
        refine ⟨k, rfl, ?_⟩
        have := List.mem_of_find?_eq_some hf
        rw [List.mem_range] at this
        omega
      | none =>
        refine ⟨m, ?_, le_rfl⟩
        simp [hp]

theorem ceilLog2_le (i m : Nat) (h : i ≤ 2 ^ m) : ceilLog2 i ≤ m := by
  unfold ceilLog2
  by_cases hm : m < i + 1
  · obtain ⟨k, hk1, hk2⟩ := find_range_le (fun k => decide (i ≤ 2 ^ k)) (i + 1) m hm
      (by simpa using h)
    rw [hk1]
    exact hk2
  · cases hf : (List.range (i + 1)).find? (fun k => decide (i ≤ 2 ^ k)) with
    | some k =>
      have := List.mem_of_find?_eq_some hf
      rw [List.mem_range] at this
      simp only [Option.getD_some]
      omega
    | none => simp

theorem setupLog2_lt (n : Nat) (hn : 1 ≤ n) (i v : Nat)
    (h : (HashBounds.setupLog2 n)[i]? = some v) : v < n := by
  unfold HashBounds.setupLog2 at h
  simp only [List.getElem?_map, Option.map_eq_some'] at h
  obtain ⟨j, hj, rfl⟩ := h
  have hj' := List.getElem?_eq_some_iff.mp hj
  obtain ⟨hlt, hji⟩ := hj'
  simp only [List.length_range] at hlt
  simp only [List.getElem_range] at hji
  subst hji
  have hle : ceilLog2 i % 256 ≤ ceilLog2 i := Nat.mod_le _ _
  by_cases h1 : n = 1
  · subst h1
    have : ⌊((2 : ℚ) ^ (((1 : Nat) : Int) - 2) + 1)⌋₊ = 1 := by
      norm_num
      rw [Nat.floor_eq_iff (by norm_num)]
      norm_num
    rw [this] at hlt
    have hi0 : i = 0 := by omega
    subst hi0
    have := ceilLog2_le 0 0 (by norm_num)
    omega
  · have hn2 : 2 ≤ n := by omega
    have hpow : ((2 : ℚ) ^ ((n : Int) - 2) + 1) = ((2 ^ (n - 2) + 1 : Nat) : ℚ) := by
      have : ((n : Int) - 2) = ((n - 2 : Nat) : Int) := by omega
      rw [this, zpow_natCast]
      push_cast
      ring
    rw [hpow, Nat.floor_natCast] at hlt
    have := ceilLog2_le i (n - 2) (by omega)
    omega

/-! # The constructor -/

theorem Invariant.of_frame {s s' : St} {g : Boxes} (h : Invariant s g) (hfr : Frame s s')
    (hcore : Core s' s.regs) : Invariant s' g :=
  ⟨hcore.static, hcore.tree, hcore.cnt, by rw [hfr.regs]; exact hcore.items,
   hfr.recsOk h.recs, hfr.stampsOk h.stamps, hfr.boxesOk h.boxes, hfr.levelsOk h.levels,
   hfr.dimsOk h.dims⟩

theorem Invariant.core {s : St} {g : Boxes} (h : Invariant s g) : Core s s.regs :=
  ⟨h.static, h.tree, h.cnt, h.items⟩

/-- An index without buckets and without records satisfies the invariant. -/
theorem invariant_empty {s : St} (hs : Static s) (hres : ∀ l x y, s.resident l x y = none)
    (hrec : ∀ e, s.cache e s.hb.ID = none) (hq : s.hb.QUERYID = 0) :
    Invariant s (fun _ => none) := by
  have hno : ∀ {l x y b}, s.resident l x y = some b → False := by
    intro l x y b h
    rw [hres] at h
    cases h
  have hregs : ∀ {e l x y}, s.regs e l x y → False := by
    rintro e l x y ⟨c, hc, _⟩
    rw [hrec] at hc
    cases hc
  refine ⟨hs, ⟨?_, ?_, ?_, ?_, ?_, ?_, ?_⟩, ?_, ⟨?_, ?_, ?_⟩, ?_, ⟨?_, ?_, ?_⟩, ⟨?_, ?_⟩,
    ?_, ?_⟩
  · intro l x y b h; exact (hno h).elim
  · intro l x y l' x' y' b h; exact (hno h).elim
  · intro l x y b h; exact (hno h).elim
  · intro l x y b h; exact (hno h).elim
  · intro l x y b h; exact (hno h).elim
  · intro l x y p k c h; exact (hno h).elim
  · intro l x y b h; exact (hno h).elim
  · intro l x y b h; exact (hno h).elim
  · intro e l x y l' x' y' h; exact (hregs h).elim
  · intro l x y b i e h; exact (hno h).elim
  · intro e l x y h; exact (hregs h).elim
  · intro e c hc
    rw [hrec] at hc
    cases hc
  · rw [hq]
  · rw [hq]; norm_num
  · intro e c hc
    rw [hrec] at hc
    cases hc
  · intro e
    simp [HashBounds.contains, hrec]
  · intro e box h
    cases h
  · intro e c hc
    rw [hrec] at hc
    cases hc
  · intro e box c h
    cases h

/-- `HashGrid.initializeArea` on the finest grid of an index in which that
grid has no bucket yet. -/
theorem initializeArea_ok {s : St} {A : Nat → Nat → Int → Int → Prop} {fuel : Nat}
    (ib : Bounds) (h : Core s A) (hfree : ∀ x y, s.resident 0 x y = none)
    (hf : s.hb.LEVEL_COUNT ≤ fuel) :
    (HashGrid.initializeArea fuel 0 ib).Ok s (fun _ s' => Frame s s' ∧ Core s' A) := by
  obtain ⟨g, hg⟩ : ∃ g, s.hb.LEVELS[0]? = some g :=
    ⟨_, List.getElem?_eq_getElem (by
      rw [h.static.levels_len]
      exact h.static.count_pos)⟩
  simp only [HashGrid.initializeArea, M.Ok_bind, grid_ok hg]
  split
  · rename_i maxX maxY minX minY _ _ _ _
    refine M.Ok_mono (forEachM_ok _ _
      (fun px s' => Frame s s' ∧ Core s' A
        ∧ ∀ x' y', x' ∉ px → s'.resident 0 x' y' = none) s ?_ ?_) ?_
    · exact ⟨Frame.refl s, h, fun x' y' _ => hfree x' y'⟩
    · intro px x qx s2 hx ⟨hfr2, hcore2, hres2⟩
      have hxn : x ∉ px := by
        have := nodup_intRange ⌊fl (minX * g.BUCKETSIZE_INV)⌋ (⌈fl (maxX * g.BUCKETSIZE_INV)⌉ - 1)
        rw [hx] at this
        intro hmem
        exact (List.nodup_append.mp this).2.2 hmem (List.mem_cons_self _ _)
      refine M.Ok_mono (forEachM_ok _ _
        (fun py s' => Frame s s' ∧ Core s' A
          ∧ ∀ x' y', x' ∉ px → ¬ (x' = x ∧ y' ∈ py) → s'.resident 0 x' y' = none) s2 ?_ ?_) ?_
      · exact ⟨hfr2, hcore2, fun x' y' hx' _ => hres2 x' y' hx'⟩
      · intro py y qy s3 hy ⟨hfr3, hcore3, hres3⟩
        have hyn : y ∉ py := by
          have := nodup_intRange ⌊fl (minY * g.BUCKETSIZE_INV)⌋ (⌈fl (maxY * g.BUCKETSIZE_INV)⌉ - 1)
          rw [hy] at this
          intro hmem
          exact (List.nodup_append.mp this).2.2 hmem (List.mem_cons_self _ _)
        simp only [M.Ok_bind, M.Ok_pure]
        have hlc : s3.hb.LEVEL_COUNT = s.hb.LEVEL_COUNT := hfr3.levelCount_eq
        refine M.Ok_mono (createBucket_ok fuel s3 0 x y (fun _ => False) A hcore3.static
          (hcore3.tree.toExc _) hcore3.cnt hcore3.items (fun _ hb => hb.elim)
          (hres3 x y hxn (fun hh => hyn hh.2))
          (by rw [hlc]; exact h.static.count_pos) (by rw [hlc]; omega)) ?_
        intro b s4 ⟨g1, g2, g3, g4, g5, _, g7⟩
        refine ⟨hfr3.trans g1, ⟨g1.static hcore3.static, g2.toOk (fun _ hb => hb), g3, g4⟩, ?_⟩
        intro x' y' hx' hxy
        rw [g7 0 x' y' le_rfl ?_]
        · refine hres3 x' y' hx' ?_
          rintro ⟨h1, h2⟩
          exact hxy ⟨h1, List.mem_append_left _ h2⟩
        · rintro ⟨_, h1, h2⟩
          exact hxy ⟨h1, by rw [h2]; simp⟩
      · intro _ s3 ⟨hfr3, hcore3, hres3⟩
        refine ⟨hfr3, hcore3, ?_⟩
        intro x' y' hx'
        refine hres3 x' y' (fun hh => hx' (List.mem_append_left _ hh)) ?_
        rintro ⟨h1, _⟩
        exact hx' (by rw [h1]; simp)
    · intro _ s2 ⟨hfr2, hcore2, _⟩
      exact ⟨hfr2, hcore2⟩
  · simp only [M.Ok_pure]
    exact ⟨Frame.refl s, h⟩

theorem Ok_of_eq {α : Type} {m : M α} {s s' : St} {a : α} {Q : α → St → Prop}
    (h : m s = (.ok a, s')) (hQ : Q a s') : m.Ok s Q := ⟨a, s', h, hQ⟩

theorem createLevels_run (s : St) :
    HashBounds.createLevels s = (.ok (), HashBounds.createLevels.exec s) := rfl

theorem createLevels_levels (s : St) :
    (HashBounds.createLevels.exec s).hb.LEVELS
      = (List.range s.hb.LEVEL_COUNT).zipWith (fun level g =>
          { g with PREV_GRID := if level > 0 then some (level - 1) else none
                   NEXT_GRID := if level < s.hb.LEVEL_COUNT - 1 then some (level + 1)
                                else none })
        ((List.range s.hb.LEVEL_COUNT).map (fun level =>
          HashGrid.new (s.hb.MIN_SIZE * (2 : ℚ) ^ level) level)) := rfl

theorem createLevels_getElem {s : St} {l : Nat} {g : HashGrid}
    (h : (HashBounds.createLevels.exec s).hb.LEVELS[l]? = some g) :
    l < s.hb.LEVEL_COUNT ∧ g.BUCKETSIZE = s.hb.MIN_SIZE * 2 ^ l
      ∧ g.BUCKETSIZE_INV = fl (1 / g.BUCKETSIZE)
      ∧ g.NEXT_GRID = (if l < s.hb.LEVEL_COUNT - 1 then some (l + 1) else none)
      ∧ g.BUCKET_GRID = JSArray.empty := by
  rw [createLevels_levels] at h
  rw [List.getElem?_zipWith_eq_some] at h
  obtain ⟨a, b, ha, hb, rfl⟩ := h
  simp only [List.getElem?_map, Option.map_eq_some'] at hb
  obtain ⟨j, hj, rfl⟩ := hb
  obtain ⟨h1, h2⟩ := List.getElem?_eq_some_iff.mp ha
  obtain ⟨h3, h4⟩ := List.getElem?_eq_some_iff.mp hj
  simp only [List.getElem_range] at h2 h4
  subst h2 h4
  simp only [List.length_range] at h1
  exact ⟨h1, rfl, rfl, rfl, rfl⟩

theorem createLevels_static {s : St} (hmin : 0 < s.hb.MIN_SIZE)
    (hinv : s.hb.MIN_SIZE_INV = fl (1 / s.hb.MIN_SIZE)) (hn : 1 ≤ s.hb.LEVEL_COUNT)
    (hle : s.hb.LEVEL_COUNT ≤ 54)
    (hlog : s.hb.LOG2CACHE = HashBounds.setupLog2 s.hb.LEVEL_COUNT) :
    Static (HashBounds.createLevels.exec s) := by
  have hlen : (HashBounds.createLevels.exec s).hb.LEVELS.length = s.hb.LEVEL_COUNT := by
    rw [createLevels_levels]
    simp
  refine ⟨hmin, hinv, hn, hle, hlen, ?_, ?_, ?_, hlog⟩
  · have : (HashBounds.createLevels.exec s).hb.BASE
        = if s.hb.LEVEL_COUNT - 1 < (HashBounds.createLevels.exec s).hb.LEVELS.length
          then some (s.hb.LEVEL_COUNT - 1) else none := rfl
    rw [this, hlen, if_pos (by omega)]
    rfl
  · intro l g hg
    obtain ⟨h1, h2, h3, h4, _⟩ := createLevels_getElem hg
    refine ⟨h2, h3, ?_⟩
    rw [h4]
    have : (HashBounds.createLevels.exec s).hb.LEVEL_COUNT = s.hb.LEVEL_COUNT := rfl
    rw [this]
    by_cases hl : l + 1 < s.hb.LEVEL_COUNT
    · rw [if_pos hl, if_pos (by omega)]
    · rw [if_neg hl, if_neg (by omega)]
  · intro i v hv
    have h1 : (HashBounds.createLevels.exec s).hb.LOG2CACHE = s.hb.LOG2CACHE := rfl
    rw [h1, hlog] at hv
    exact setupLog2_lt _ hn i v hv

theorem createLevels_resident (s : St) (l : Nat) (x y : Int) :
    (HashBounds.createLevels.exec s).resident l x y = none := by
  unfold St.resident
  cases hg : (HashBounds.createLevels.exec s).hb.LEVELS[l]? with
  | none => rfl
  | some g =>
    obtain ⟨_, _, _, _, h5⟩ := createLevels_getElem hg
    simp only [h5]
    rfl

/-- `HashBounds.init` on a fresh index establishes the invariant. -/
theorem init_ok {s : St} (hmin : 0 < s.hb.MIN_SIZE)
    (hinv : s.hb.MIN_SIZE_INV = fl (1 / s.hb.MIN_SIZE)) (hn : 1 ≤ s.hb.LEVEL_COUNT)
    (hle : s.hb.LEVEL_COUNT ≤ 54)
    (hlog : s.hb.LOG2CACHE = HashBounds.setupLog2 s.hb.LEVEL_COUNT)
    (hq : s.hb.QUERYID = 0) (hrec : ∀ e, s.cache e s.hb.ID = none) :
    HashBounds.init.Ok s (fun _ s' => Invariant s' (fun _ => none)) := by
  simp only [HashBounds.init, M.Ok_bind]
  refine Ok_of_eq (createLevels_run s) ?_
  simp only [M.Ok_read]
  have hi0 : Invariant (HashBounds.createLevels.exec s) (fun _ => none) :=
    invariant_empty (createLevels_static hmin hinv hn hle hlog) (createLevels_resident s)
      hrec hq
  refine M.Ok_mono (initializeArea_ok _ hi0.core (createLevels_resident s 0)
    (by rw [hi0.static.levels_len])) ?_
  intro _ s' ⟨hfr, hcore⟩
  exact hi0.of_frame hfr hcore

/-- The table of `setupLog2` is within the largest array length exactly when
there are at most 54 levels. -/
theorem range_iff {levelCount : Int} (hlc : 1 ≤ levelCount) :
    ¬ ((2 : ℚ) ^ (levelCount - 2) + 1 > 9007199254740991) ↔ levelCount ≤ 54 := by
  constructor
  · intro h
    by_contra hgt
    apply h
    obtain ⟨n, hn⟩ : ∃ n : Nat, levelCount - 2 = (n : Int) + 53 := ⟨(levelCount - 55).toNat, by omega⟩
    rw [hn, zpow_add₀ (by norm_num), zpow_natCast]
    have h1 : (1 : ℚ) ≤ 2 ^ n := one_le_pow₀ (by norm_num)
    have h2 : ((2 : ℚ) ^ (53 : Int)) = 9007199254740992 := by norm_num
    rw [h2]
    nlinarith
  · intro h
    interval_cases levelCount <;> norm_num

/-- The constructor establishes the invariant. -/
theorem new_ok {s0 : St} {minSize : ℚ} {levelCount : Int} {ib : Option Bounds}
    {id : Option Nat} (hmin : 0 < minSize)
    (hfresh : ∀ e, s0.cache e (id.getD s0.LAST_ID) = none)
    (hlc : 1 ≤ levelCount) (hle : levelCount ≤ 54) (cb : Bounds)
    (hcb : HashBounds.convertBoundsD (ib.getD {}) = .ok cb) :
    (HashBounds.new minSize levelCount ib id).Ok s0 (fun _ s' =>
      Invariant s' (fun _ => none)) := by
  have hr := (range_iff hlc).mpr hle
  simp only [HashBounds.new, M.Ok_bind, M.Ok_read]
  rw [if_neg (by omega)]
  simp only [M.Ok_bind, M.Ok_read, hcb]
  cases id with
  | none =>
    simp only [Option.isNone_none, if_true, M.Ok_bind, M.Ok_modify]
    rw [if_neg hr]
    simp only [M.Ok_bind, M.Ok_modify]
    exact init_ok hmin rfl (by show 1 ≤ levelCount.toNat; omega)
      (by show levelCount.toNat ≤ 54; omega) rfl rfl hfresh
  | some i =>
    simp only [Option.isNone_some, M.Ok_bind, M.Ok_modify]
    rw [if_neg (by simp)]
    simp only [M.Ok_bind, M.Ok_pure, M.Ok_modify]
    rw [if_neg hr]
    simp only [M.Ok_bind, M.Ok_modify]
    exact init_ok hmin rfl (by show 1 ≤ levelCount.toNat; omega)
      (by show levelCount.toNat ≤ 54; omega) rfl rfl hfresh

/-! # Traversals -/

theorem Stamped.refl_st (QID : Int) (s : St) : Stamped QID s s :=
  ⟨rfl, rfl, rfl, fun _ => rfl, fun _ => Or.inl rfl⟩

theorem Stamped.trans_st {QID : Int} {s s1 s2 : St} (h1 : Stamped QID s s1)
    (h2 : Stamped QID s1 s2) : Stamped QID s s2 := by
  refine ⟨h2.hb.trans h1.hb, h2.buckets.trans h1.buckets, h2.nextBucket.trans h1.nextBucket,
    fun e => (h2.recs e).trans (h1.recs e), ?_⟩
  intro e
  rcases h2.stamps e with h | h
  · rw [h]
    exact h1.stamps e
  · exact Or.inr h

theorem Stamped.keep {QID : Int} {s s' : St} (h : Stamped QID s s') {e : Nat}
    (he : s.stamp e = some QID) : s'.stamp e = some QID := by
  rcases h.stamps e with h1 | h1
  · rw [h1, he]
  · exact h1

theorem Stamped.resident_st {QID : Int} {s s' : St} (h : Stamped QID s s') :
    s'.resident = s.resident := by
  funext l x y
  unfold St.resident
  rw [h.hb]

theorem Stamped.static_st {QID : Int} {s s' : St} (h : Stamped QID s s') (hs : Static s) :
    Static s' := Static_of_hb hs h.hb

theorem Stamped.treeOk_st {QID : Int} {s s' : St} (h : Stamped QID s s') (ht : TreeOk s) :
    TreeOk s' := TreeOk_of_shape ht h.hb h.nextBucket (fun i => by rw [h.buckets])

theorem Walk.refl_walk (call : Visitor) (QID : Int) (s : St) (tr : List Nat) :
    Walk call QID s tr true tr s := by
  refine ⟨Stamped.refl_st QID s, [], by simp, List.nodup_nil, by simp, ?_, by simp⟩
  intro p e q h
  simp at h

theorem Walk.trans_walk {call : Visitor} {QID : Int} {s s1 s2 : St} {tr tr1 tr2 : List Nat}
    {r : Bool} (h1 : Walk call QID s tr true tr1 s1) (h2 : Walk call QID s1 tr1 r tr2 s2) :
    Walk call QID s tr r tr2 s2 := by
  obtain ⟨hs1, ext1, rfl, hn1, hst1, hc1, _⟩ := h1
  obtain ⟨hs2, ext2, rfl, hn2, hst2, hc2, hr2⟩ := h2
  refine ⟨hs1.trans_st hs2, ext1 ++ ext2, by simp, ?_, ?_, ?_, ?_⟩
  · rw [List.nodup_append]
    refine ⟨hn1, hn2, ?_⟩
    intro e he1 he2
    exact (hst2 e he2).1 (hst1 e he1).2
  · intro e he
    rcases List.mem_append.mp he with h | h
    · exact ⟨(hst1 e h).1, hs2.keep (hst1 e h).2⟩
    · refine ⟨?_, (hst2 e h).2⟩
      intro hq
      exact (hst2 e h).1 (hs1.keep hq)
  · intro p e q h
    rcases List.append_eq_append_iff.mp h with ⟨a', ha1, ha2⟩ | ⟨c', hc1', hc2'⟩
    · -- the entry lies in `ext2`
      subst ha1
      have := hc2 a' e q ha2
      rw [← List.append_assoc]
      exact this
    · cases c' with
      | nil =>
        simp only [List.append_nil] at hc1'
        simp only [List.nil_append] at hc2'
        subst hc1'
        have := hc2 [] e q hc2'.symm
        simpa using this
      | cons a0 c' =>
        -- the entry lies in `ext1`
        simp only [List.cons_append, List.cons.injEq] at hc2'
        obtain ⟨rfl, rfl⟩ := hc2'
        have := hc1 p e c' hc1'
        constructor
        · intro hf
          have := (this.mp hf).2
          cases this
        · rintro ⟨hq, hr⟩
          have hne := hr2 hr
          rw [List.append_eq_nil] at hq
          exact (hne hq.2).elim
  · intro hr
    have := hr2 hr
    simp [this]

/-! # Loops of the traversal -/

/-- The rule for a loop that a `false` answer stops. -/
theorem everyM_walk {α : Type} (call : Visitor) (QID : Int) (I : St → Prop)
    (hI : ∀ s s', I s → Stamped QID s s' → I s')
    (l : List α) (body : α → List Nat → M (Bool × List Nat))
    (hbody : ∀ a ∈ l, ∀ s tr, I s →
      (body a tr).Ok s (fun r s' => Walk call QID s tr r.1 r.2 s')) :
    ∀ s tr, I s → (everyM l body tr).Ok s (fun r s' => Walk call QID s tr r.1 r.2 s') := by
  induction l with
  | nil =>
    intro s tr _
    simp only [everyM, M.Ok_pure]
    exact Walk.refl_walk call QID s tr
  | cons a rest ih =>
    intro s tr hi
    simp only [everyM, M.Ok_bind]
    refine M.Ok_mono (hbody a (List.mem_cons_self _ _) s tr hi) ?_
    rintro ⟨r, tr1⟩ s1 hw
    simp only at hw ⊢
    cases r with
    | true =>
      simp only [if_true]
      refine M.Ok_mono (ih (fun a' ha' => hbody a' (List.mem_cons_of_mem _ ha')) s1 tr1
        (hI s s1 hi hw.stamped)) ?_
      intro r2 s2 hw2
      exact hw.trans_walk hw2
    | false =>
      simp only [Bool.false_eq_true, if_false, M.Ok_pure]
      exact hw

theorem setStamp_stamped (s : St) (e : Nat) (QID : Int) :
    Stamped QID s (s.setStamp e (some QID)) := by
  refine ⟨rfl, rfl, rfl, ?_, ?_⟩
  · intro e'
    unfold St.setStamp
    by_cases h : e' = e
    · subst h
      simp
    · simp [h]
  · intro e'
    unfold St.stamp
    rw [St.setStamp_stamp]
    by_cases h : e' = e
    · exact Or.inr (by rw [if_pos h])
    · exact Or.inl (by rw [if_neg h])

theorem visitItem_walk (call : Visitor) (QID : Int) (item : Nat) (s : St) (tr : List Nat) :
    (TreeBucket.visitItem call QID item tr).Ok s
      (fun r s' => Walk call QID s tr r.1 r.2 s') := by
  simp only [TreeBucket.visitItem, M.Ok_bind, M.Ok_read]
  split
  · rename_i hne
    simp only [M.Ok_bind, M.Ok_modify, M.Ok_pure]
    refine ⟨setStamp_stamped s item QID, [item], rfl, List.nodup_singleton _, ?_, ?_, ?_⟩
    · intro e he
      rw [List.mem_singleton] at he
      subst he
      refine ⟨hne, ?_⟩
      unfold St.stamp
      rw [St.setStamp_stamp, if_pos rfl]
    · intro p e q h
      cases p with
      | nil =>
        simp only [List.nil_append, List.cons.injEq] at h
        obtain ⟨rfl, rfl⟩ := h
        simp
      | cons a p =>
        simp only [List.cons_append, List.cons.injEq] at h
        have := h.2
        simp at this
    · intro _
      simp
  · simp only [M.Ok_pure]
    exact Walk.refl_walk call QID s tr

theorem _every_walk (call : Visitor) (QID : Int) (b : Nat) (s : St) (tr : List Nat) :
    (TreeBucket._every call QID b tr).Ok s
      (fun r s' => Walk call QID s tr r.1 r.2 s') := by
  simp only [TreeBucket._every, M.Ok_bind, M.Ok_read]
  exact everyM_walk call QID (fun _ => True) (fun _ _ _ _ => trivial) _ _
    (fun a _ s' tr' _ => visitItem_walk call QID a s' tr') s tr trivial

/-- The buckets in a list of `QUAD_CACHE` are children. -/
theorem quadCache_mem {s : St} {l : Nat} {x y : Int} {b : Nat} (ht : TreeOk s)
    (hb : s.resident l x y = some b) {n : Nat} {c : Nat}
    (hc : c ∈ (s.buckets b).QUAD_CACHE.getD n []) :
    1 ≤ l ∧ ∃ x' y', s.resident (l - 1) x' y' = some c := by
  rw [ht.quad l x y b hb] at hc
  rw [List.getD_eq_getElem?_getD, List.getElem?_map] at hc
  cases hq : TreeBucket.QUADS[n]? with
  | none => simp [hq] at hc
  | some quad =>
    simp only [hq, Option.map_some', Option.getD_some, List.mem_filterMap] at hc
    obtain ⟨k, _, hk⟩ := hc
    obtain ⟨_, _, h1, h2⟩ := ht.children l x y b k c hb hk
    exact ⟨h1, _, _, h2⟩

/-- `TreeBucket.everyAll` returns, given fuel above the level of the bucket. -/
theorem everyAll_walk (call : Visitor) (QID : Int) (fuel : Nat) :
    ∀ (s : St) (l : Nat) (x y : Int) (b : Nat) (tr : List Nat), TreeOk s →
      s.resident l x y = some b → l < fuel →
      (TreeBucket.everyAll call QID fuel b tr).Ok s
        (fun r s' => Walk call QID s tr r.1 r.2 s') := by
  induction fuel with
  | zero =>
    intro s l x y b tr _ _ hl
    omega
  | succ fuel ih =>
    intro s l x y b tr ht hb hl
    simp only [TreeBucket.everyAll, M.Ok_bind, M.Ok_read]
    split
    · simp only [M.Ok_pure]
      exact Walk.refl_walk call QID s tr
    · simp only [M.Ok_bind]
      refine M.Ok_mono (_every_walk call QID b s tr) ?_
      rintro ⟨r, tr1⟩ s1 hw
      cases r with
      | false =>
        simp only [Bool.not_false, if_true, M.Ok_pure]
        exact hw
      | true =>
        simp only [Bool.not_true, Bool.false_eq_true, if_false]
        refine M.Ok_mono (everyM_walk call QID (fun s' => Stamped QID s s')
          (fun _ _ h1 h2 => h1.trans_st h2) _ _ ?_ s1 tr1 hw.stamped) ?_
        · intro c hc s2 tr2 hst2
          obtain ⟨h1, x', y', h2⟩ := quadCache_mem ht hb hc
          refine ih s2 (l - 1) x' y' c tr2 (hst2.treeOk_st ht) ?_ (by omega)
          rw [hst2.resident_st]
          exact h2
        · intro r2 s2 hw2
          exact hw.trans_walk hw2

/-- `TreeBucket.every` returns, given fuel above the level of the bucket. -/
theorem every_walk (box : Box) (call : Visitor) (QID : Int) (fuel : Nat) :
    ∀ (s : St) (l : Nat) (x y : Int) (b : Nat) (tr : List Nat), TreeOk s →
      s.resident l x y = some b → l < fuel →
      (TreeBucket.every box call QID fuel b tr).Ok s
        (fun r s' => Walk call QID s tr r.1 r.2 s') := by
  induction fuel with
  | zero =>
    intro s l x y b tr _ _ hl
    omega
  | succ fuel ih =>
    intro s l x y b tr ht hb hl
    simp only [TreeBucket.every, M.Ok_bind, M.Ok_read]
    split
    · simp only [M.Ok_pure]
      exact Walk.refl_walk call QID s tr
    · split
      · exact everyAll_walk call QID (fuel + 1) s l x y b tr ht hb hl
      · simp only [M.Ok_bind]
        refine M.Ok_mono (_every_walk call QID b s tr) ?_
        rintro ⟨r, tr1⟩ s1 hw
        cases r with
        | false =>
          simp only [Bool.not_false, if_true, M.Ok_pure]
          exact hw
        | true =>
          simp only [Bool.not_true, Bool.false_eq_true, if_false]
          refine M.Ok_mono (everyM_walk call QID (fun s' => Stamped QID s s')
            (fun _ _ h1 h2 => h1.trans_st h2) _ _ ?_ s1 tr1 hw.stamped) ?_
          · intro c hc s2 tr2 hst2
            obtain ⟨h1, x', y', h2⟩ := quadCache_mem ht hb hc
            refine ih s2 (l - 1) x' y' c tr2 (hst2.treeOk_st ht) ?_ (by omega)
            rw [hst2.resident_st]
            exact h2
          · intro r2 s2 hw2
            exact hw.trans_walk hw2

theorem mem_elems {α : Type} {a : JSArray α} {v : α} (h : v ∈ a.elems) :
    ∃ k : Int, a.get k = some v := by
  unfold JSArray.elems at h
  rw [List.mem_filterMap] at h
  obtain ⟨k, _, hk⟩ := h
  exact ⟨k, hk⟩

/-- `HashGrid.every` returns. -/
theorem gridEvery_walk (call : Visitor) (QID : Int) (fuel l : Nat) (bounds : Option Box)
    (s : St) (tr : List Nat) (ht : TreeOk s) (hl : l < s.hb.LEVELS.length) (hf : l < fuel) :
    (HashGrid.every fuel l bounds call QID tr).Ok s
      (fun r s' => Walk call QID s tr r.1 r.2 s') := by
  obtain ⟨g, hg⟩ : ∃ g, s.hb.LEVELS[l]? = some g := ⟨_, List.getElem?_eq_getElem hl⟩
  simp only [HashGrid.every, M.Ok_bind, grid_ok hg]
  cases bounds with
  | none =>
    simp only
    refine everyM_walk call QID (fun s' => Stamped QID s s') (fun _ _ h1 h2 => h1.trans_st h2)
      _ _ ?_ s tr (Stamped.refl_st QID s)
    intro dataX hdx s1 tr1 hst1
    obtain ⟨kx, hkx⟩ := mem_elems hdx
    refine everyM_walk call QID (fun s' => Stamped QID s s') (fun _ _ h1 h2 => h1.trans_st h2)
      _ _ ?_ s1 tr1 hst1
    intro b hb s2 tr2 hst2
    obtain ⟨ky, hky⟩ := mem_elems hb
    refine everyAll_walk call QID fuel s2 l kx ky b tr2 (hst2.treeOk_st ht) ?_ hf
    rw [hst2.resident_st]
    simp only [St.resident, hg, hkx, hky]
  | some box =>
    simp only
    refine everyM_walk call QID (fun s' => Stamped QID s s') (fun _ _ h1 h2 => h1.trans_st h2)
      _ _ ?_ s tr (Stamped.refl_st QID s)
    intro x _ s1 tr1 hst1
    refine everyM_walk call QID (fun s' => Stamped QID s s') (fun _ _ h1 h2 => h1.trans_st h2)
      _ _ ?_ s1 tr1 hst1
    intro y _ s2 tr2 hst2
    have hl2 : l < s2.hb.LEVELS.length := by rw [hst2.hb]; exact hl
    simp only [M.Ok_bind, getBucket_ok hl2]
    cases hr : s2.resident l x y with
    | none =>
      simp only [M.Ok_pure]
      exact Walk.refl_walk call QID s2 tr2
    | some b =>
      simp only
      exact every_walk box call QID fuel s2 l x y b tr2 (hst2.treeOk_st ht) hr hf

/-! # Queries -/

theorem nextQuery_static {s : St} (h : Static s) : Static s.nextQuery :=
  ⟨h.minSize_pos, h.minSize_inv, h.count_pos, h.count_le, h.levels_len, h.base, h.grid, h.log2, h.table⟩

theorem nextQuery_treeOk {s : St} (h : TreeOk s) : TreeOk s.nextQuery :=
  ⟨h.lt, h.inj, h.site, h.parent, h.top, h.children, h.quad⟩

/-- A query on a state that satisfies the invariant returns; its outcome is
that of a traversal with the old value of the query counter as query id. -/
theorem query_ok {s : St} {g : Boxes} (hinv : Invariant s g) (b : Option Bounds)
    (call : Visitor) (qb : Option (Option Box)) (hq : HashBounds.queryBox b = .ok qb) :
    (HashBounds.query b call).Ok s (fun r s' =>
      Walk call s.hb.QUERYID s.nextQuery [] r.1 r.2 s') := by
  have hlt : ¬ s.hb.QUERYID ≥ 4294967295 := by
    have := hinv.stamps.2.1
    omega
  have hbase : s.nextQuery.hb.BASE = some (s.hb.LEVEL_COUNT - 1) := hinv.static.base
  have hlen : s.nextQuery.hb.LEVELS.length = s.hb.LEVEL_COUNT := hinv.static.levels_len
  have hpos := hinv.static.count_pos
  simp only [HashBounds.query, hq, M.Ok_bind, HashBounds.getQueryID, M.Ok_read]
  rw [if_neg hlt]
  simp only [M.Ok_bind, M.Ok_pure, HashBounds.nextQueryID, M.Ok_read, M.Ok_modify]
  have key : ∀ bounds, (HashBounds.baseEvery bounds call s.hb.QUERYID).Ok s.nextQuery
      (fun r s' => Walk call s.hb.QUERYID s.nextQuery [] r.1 r.2 s') := by
    intro bounds
    simp only [HashBounds.baseEvery, M.Ok_bind, M.Ok_read, hbase]
    exact gridEvery_walk call s.hb.QUERYID _ _ bounds s.nextQuery []
      (nextQuery_treeOk hinv.tree) (by rw [hlen]; omega) (by rw [hlen]; omega)
  cases qb with
  | none => exact key none
  | some ob =>
    cases ob with
    | none =>
      show (M.read >>= fun s1 => match s1.hb.BASE with
        | none => M.throw Err.typeError
        | some _ => pure ((true, []) : Bool × List Nat)).Ok s.nextQuery _
      simp only [M.Ok_bind, M.Ok_read, hbase, M.Ok_pure]
      exact Walk.refl_walk call s.hb.QUERYID s.nextQuery []
    | some box => exact key (some box)

/-- A query keeps the invariant, as long as the query counter stays below
its wrap-around. -/
theorem Invariant.of_stamped {s s' : St} {g : Boxes} (hinv : Invariant s g)
    (hst : Stamped s.hb.QUERYID s.nextQuery s') (hq : s.hb.QUERYID < 4294967294) :
    Invariant s' g := by
  have hhb : s'.hb = s.nextQuery.hb := hst.hb
  have hid : s'.hb.ID = s.hb.ID := by rw [hhb]; rfl
  have hlc : s'.hb.LEVEL_COUNT = s.hb.LEVEL_COUNT := by rw [hhb]; rfl
  have hqid : s'.hb.QUERYID = s.hb.QUERYID + 1 := by rw [hhb]; rfl
  have hlv : s'.hb.LEVELS = s.hb.LEVELS := by rw [hhb]; rfl
  have hres : s'.resident = s.resident := by rw [hst.resident_st]; rfl
  have hbk : s'.buckets = s.buckets := hst.buckets
  have hca : ∀ e id, s'.cache e id = s.cache e id := by
    intro e id
    unfold St.cache
    rw [hst.recs e]
    rfl
  have hregs : s'.regs = s.regs := by
    funext e l x y
    unfold St.regs
    rw [hid, hca]
  have hlf : ∀ w h', HashBounds.levelFor s'.hb w h' = HashBounds.levelFor s.hb w h' := by
    intro w h'
    rw [hhb]
    rfl
  refine ⟨hst.static_st (nextQuery_static hinv.static),
    hst.treeOk_st (nextQuery_treeOk hinv.tree), ?_, ?_, ?_, ?_, ?_, ?_, ?_⟩
  rotate_left 5
  · intro e c hc
    rw [hid, hca] at hc
    rw [hlf]
    exact hinv.levels e c hc
  · intro e box c hb hc
    rw [hid, hca] at hc
    exact hinv.dims e box c hb hc
  · intro l x y b hb
    rw [hres] at hb
    have := hinv.cnt l x y b hb
    unfold St.CntAt St.expected St.posChild at this ⊢
    rw [hbk]
    exact this
  · rw [hregs]
    refine ⟨hinv.items.single, ?_, ?_⟩
    · intro l x y b i e hb he
      rw [hres] at hb
      rw [hbk] at he
      rw [hid]
      simp only [hca]
      exact hinv.items.fwd l x y b i e hb he
    · intro e l x y ha
      rw [hid, hres, hbk]
      simp only [hca]
      exact hinv.items.bwd e l x y ha
  · intro e c hc
    rw [hid, hca] at hc
    rw [hid, hlc]
    exact hinv.recs e c hc
  · obtain ⟨h1, h2, h3⟩ := hinv.stamps
    refine ⟨by rw [hqid]; omega, by rw [hqid]; omega, ?_⟩
    intro e c hc
    rw [hid, hca] at hc
    obtain ⟨v, hv1, hv2⟩ := h3 e c hc
    rw [hqid]
    rcases hst.stamps e with h | h
    · refine ⟨v, ?_, by omega⟩
      have : s'.stamp e = (s.entries e)._HashBoundsTempCheck := h
      exact this.trans hv1
    · exact ⟨s.hb.QUERYID, h, by omega⟩
  · refine ⟨?_, ?_⟩
    · intro e
      have : HashBounds.contains s' e = HashBounds.contains s e := by
        unfold HashBounds.contains
        rw [hid, hca]
      rw [this]
      exact hinv.boxes.1 e
    · intro e box hb
      obtain ⟨h1, h2, c, l, gr, hc, hl, hgr, hsp⟩ := hinv.boxes.2 e box hb
      exact ⟨h1, h2, c, l, gr, by rw [hid, hca]; exact hc, hl,
        by rw [hlv]; exact hgr, hsp⟩

/-! # Reachable states -/

/-- `insert` of an entry that is in the index throws and changes nothing. -/
theorem insert_present {s : St} {e : Nat} (b : Bounds) (h : HashBounds.contains s e = true) :
    HashBounds.insert e b s = (.error .alreadyPresent, s) := by
  simp [HashBounds.insert, bind, M.andThen, M.read, h, M.throw]

/-- `remove` of an entry that is not in the index throws and changes nothing. -/
theorem remove_absent {s : St} {e : Nat} (h : HashBounds.contains s e = false) :
    HashBounds.remove e s = (.error .notPresent, s) := by
  simp [HashBounds.remove, bind, M.andThen, M.read, h, M.throw]

/-- `update` of an entry that is not in the index throws and changes nothing. -/
theorem update_absent {s : St} {e : Nat} (b : Bounds) (h : HashBounds.contains s e = false) :
    HashBounds.update e b s = (.error .notPresent, s) := by
  simp [HashBounds.update, bind, M.andThen, M.read, h, M.throw]

theorem new_levelCount {s0 : St} {minSize : ℚ} {levelCount : Int} {ib : Option Bounds}
    {id : Option Nat} (h : (HashBounds.new minSize levelCount ib id).val s0 = .ok ()) :
    1 ≤ levelCount ∧ levelCount ≤ 54
      ∧ ∃ cb, HashBounds.convertBoundsD (ib.getD {}) = .ok cb := by
  by_cases hlc : levelCount < 1
  · simp [HashBounds.new, hlc, M.val, M.throw] at h
  · have hlc1 : 1 ≤ levelCount := by omega
    cases hcb : HashBounds.convertBoundsD (ib.getD {}) with
    | ok cb =>
      refine ⟨hlc1, ?_, cb, rfl⟩
      rw [← range_iff hlc1]
      intro hr
      cases id <;>
        simp [HashBounds.new, hlc, M.val, M.throw, bind, M.andThen, M.read, M.modify, hcb,
          pure, M.ret, hr] at h
    | error err =>
      exfalso
      cases id <;>
        simp [HashBounds.new, hlc, M.val, M.throw, bind, M.andThen, M.read, M.modify, hcb,
          pure, M.ret] at h

/-- Every reachable state satisfies the invariant. -/
theorem Reach.invariant {s : St} {g : Boxes} (h : Reach s g) : Invariant s g := by
  induction h with
  | init s0 minSize levelCount ib id hmin hfresh hval =>
    obtain ⟨hlc, hle, cb, hcb⟩ := new_levelCount hval
    obtain ⟨_, _, hQ⟩ := M.Ok_val (new_ok hmin hfresh hlc hle cb hcb)
    exact hQ
  | insert s g e b box _ hb hw hh hval ih =>
    have hnc : HashBounds.contains s e = false := by
      by_contra hc
      rw [Bool.not_eq_false] at hc
      rw [M.val, insert_present b hc] at hval
      cases hval
    obtain ⟨_, _, hQ⟩ := M.Ok_val (insert_ok ih hnc hb hw hh)
    exact hQ.1
  | update s g e b box r _ hb hw hh hval ih =>
    have hct : HashBounds.contains s e = true := by
      by_contra hc
      rw [Bool.not_eq_true] at hc
      rw [M.val, update_absent b hc] at hval
      cases hval
    obtain ⟨_, _, hQ⟩ := M.Ok_val (update_inv ih hct hb hw hh)
    exact hQ.1
  | remove s g e _ hval ih =>
    have hct : HashBounds.contains s e = true := by
      by_contra hc
      rw [Bool.not_eq_true] at hc
      rw [M.val, remove_absent hc] at hval
      cases hval
    obtain ⟨_, _, hQ⟩ := M.Ok_val (remove_inv ih hct)
    exact hQ.1
  | query s g b call r _ hq hval ih =>
    cases hqb : HashBounds.queryBox b with
    | error err =>
      exfalso
      simp [HashBounds.every, HashBounds.query, hqb, M.val, bind, M.andThen, M.throw] at hval
    | ok qb =>
      have h1 : (HashBounds.every b call).Ok s (fun _ s' => Invariant s' g) := by
        simp only [HashBounds.every, M.Ok_bind, M.Ok_pure]
        refine M.Ok_mono (query_ok ih b call qb hqb) ?_
        intro r' s' hw
        exact ih.of_stamped hw.stamped hq
      obtain ⟨_, _, hQ⟩ := M.Ok_val h1
      exact hQ

/-! # Consequences of the invariant -/

theorem count_le_one_of_unique {e : Nat} : ∀ (L : List Nat),
    (∀ i j : Nat, L[i]? = some e → L[j]? = some e → i = j) → L.count e ≤ 1 := by
  intro L
  induction L with
  | nil => intro _; simp
  | cons a L ih =>
    intro h
    by_cases hae : a = e
    · subst hae
      have hnot : a ∉ L := by
        intro hmem
        obtain ⟨j, hj⟩ := List.getElem?_of_mem hmem
        have := h 0 (j + 1) (by simp) (by simpa using hj)
        omega
      rw [List.count_cons_self, List.count_eq_zero_of_not_mem hnot]
    · rw [List.count_cons_of_ne (Ne.symm hae)]
      refine ih ?_
      intro i j hi hj
      have := h (i + 1) (j + 1) (by simpa using hi) (by simpa using hj)
      omega

theorem count_eq_one_of_unique {e : Nat} {L : List Nat} {i : Nat} (hi : L[i]? = some e)
    (h : ∀ j : Nat, L[j]? = some e → j = i) : L.count e = 1 := by
  have h1 : L.count e ≤ 1 :=
    count_le_one_of_unique L (fun a b ha hb => (h a ha).trans (h b hb).symm)
  have h2 : 0 < L.count e := List.count_pos_iff.mpr (List.getElem?_mem hi)
  omega

/-- An entry in the item list of a resident bucket is in the index. -/
theorem Invariant.contains_of_mem {s : St} {g : Boxes} (h : Invariant s g) {l : Nat}
    {x y : Int} {b e : Nat} (hb : s.resident l x y = some b)
    (he : e ∈ (s.buckets b).ITEM_LIST) : HashBounds.contains s e = true := by
  obtain ⟨i, hi⟩ := List.getElem?_of_mem he
  obtain ⟨⟨c, hc, hin, _⟩, _⟩ := h.items.fwd l x y b i e hb hi
  simp [HashBounds.contains, hc, hin]

/-- The buckets that hold a contained entry are those of its span on its
level, each holds it once, at the recorded slot. -/
theorem Invariant.span {s : St} {g : Boxes} (h : Invariant s g) {e : Nat}
    (hc : HashBounds.contains s e = true) :
    ∃ r l box gr, s.cache e s.hb.ID = some r ∧ r.cachedIndex = some l ∧ g e = some box
      ∧ s.hb.LEVELS[l]? = some gr ∧ (r.k1x, r.k1y, r.k2x, r.k2y) = gr.span box
      ∧ (∀ x y, r.inSpan x y → ∃ b i, s.resident l x y = some b
          ∧ r.indexes (r.key x y) = some i ∧ (s.buckets b).ITEM_LIST[i]? = some e
          ∧ (s.buckets b).ITEM_LIST.count e = 1)
      ∧ (∀ l' x y b, s.resident l' x y = some b → e ∈ (s.buckets b).ITEM_LIST →
          l' = l ∧ r.inSpan x y) := by
  obtain ⟨r, hr, hin⟩ := contains_true hc
  have hsome : (g e).isSome = true := (h.boxes.1 e).mp hc
  obtain ⟨box, hbox⟩ := Option.isSome_iff_exists.mp hsome
  obtain ⟨_, _, c, l, gr, hc', hl, hgr, hsp⟩ := h.boxes.2 e box hbox
  rw [hr] at hc'
  cases hc'
  refine ⟨r, l, box, gr, hr, hl, hbox, hgr, hsp, ?_, ?_⟩
  · intro x y hxy
    obtain ⟨c, b, i, k1, k2, k3, k4, k5⟩ := h.items.bwd e l x y ⟨r, hr, hin, hl, hxy⟩
    rw [hr] at k1
    cases k1
    refine ⟨b, i, k3, k4, k5, count_eq_one_of_unique k5 ?_⟩
    intro j hj
    have := (h.items.fwd l x y b j e k3 hj).2 r hr
    rw [k4] at this
    cases this
    rfl
  · intro l' x y b hb he
    obtain ⟨i, hi⟩ := List.getElem?_of_mem he
    obtain ⟨⟨c, hc', _, h2, h3⟩, _⟩ := h.items.fwd l' x y b i e hb hi
    rw [hr] at hc'
    cases hc'
    rw [hl] at h2
    cases h2
    exact ⟨rfl, h3⟩

theorem posChild_nonneg (s : St) (b : Nat) (k : Int) : 0 ≤ s.posChild b k := by
  unfold St.posChild
  split
  · split <;> norm_num
  · exact le_rfl

theorem posChild_le_one (s : St) (b : Nat) (k : Int) : s.posChild b k ≤ 1 := by
  unfold St.posChild
  split
  · split <;> norm_num
  · norm_num

theorem posChild_pos {s : St} {b : Nat} {k : Int} (h : 0 < s.posChild b k) :
    ∃ c, (s.buckets b).CHILDREN k = some c ∧ 0 < (s.buckets c).COUNTER := by
  unfold St.posChild at h
  split at h
  · rename_i c hc
    split at h
    · rename_i hpos
      exact ⟨c, hc, hpos⟩
    · exact absurd h (lt_irrefl _)
  · exact absurd h (lt_irrefl _)

theorem posChild_of_child {s : St} {b c : Nat} {k : Int}
    (hk : (s.buckets b).CHILDREN k = some c) (hc : 0 < (s.buckets c).COUNTER) :
    s.posChild b k = 1 := by
  unfold St.posChild
  rw [hk]
  simp only
  rw [if_pos hc]

/-- A counter is never negative. -/
theorem Invariant.counter_nonneg {s : St} {g : Boxes} (h : Invariant s g) {l : Nat}
    {x y : Int} {b : Nat} (hb : s.resident l x y = some b) : 0 ≤ (s.buckets b).COUNTER := by
  have := h.cnt l x y b hb
  unfold St.CntAt St.expected at this
  rw [this]
  have h0 := posChild_nonneg s b 0
  have h1 := posChild_nonneg s b 1
  have h2 := posChild_nonneg s b 2
  have h3 := posChild_nonneg s b 3
  split <;> omega

/-- A bucket with a non-empty item list below it has a positive counter. -/
theorem Invariant.counter_pos_of_desc {s : St} {g : Boxes} (h : Invariant s g) {b d : Nat}
    (hd : Desc s b d) : ∀ l x y, s.resident l x y = some b →
      (s.buckets d).ITEM_LIST ≠ [] → 0 < (s.buckets b).COUNTER := by
  have hself : ∀ l x y c, s.resident l x y = some c → (s.buckets c).ITEM_LIST ≠ [] →
      0 < (s.buckets c).COUNTER := by
    intro l x y c hc hne
    have := h.cnt l x y c hc
    unfold St.CntAt St.expected at this
    rw [this, if_neg hne]
    have h0 := posChild_nonneg s c 0
    have h1 := posChild_nonneg s c 1
    have h2 := posChild_nonneg s c 2
    have h3 := posChild_nonneg s c 3
    omega
  have hchild : ∀ l x y b k c, s.resident l x y = some b →
      (s.buckets b).CHILDREN k = some c → 0 < (s.buckets c).COUNTER →
      0 < (s.buckets b).COUNTER := by
    intro l x y b k c hb hk hc
    obtain ⟨k0, k4, _, _⟩ := h.tree.children l x y b k c hb hk
    have := h.cnt l x y b hb
    unfold St.CntAt St.expected at this
    rw [this]
    have h0 := posChild_nonneg s b 0
    have h1 := posChild_nonneg s b 1
    have h2 := posChild_nonneg s b 2
    have h3 := posChild_nonneg s b 3
    have hk1 := posChild_of_child hk hc
    have hcases : k = 0 ∨ k = 1 ∨ k = 2 ∨ k = 3 := by omega
    rcases hcases with rfl | rfl | rfl | rfl <;> split <;> omega
  induction hd with
  | child b k c hk =>
    intro l x y hb hne
    obtain ⟨_, _, _, hc⟩ := h.tree.children l x y b k c hb hk
    exact hchild l x y b k c hb hk (hself _ _ _ c hc hne)
  | step b k c d hk _ ih =>
    intro l x y hb hne
    obtain ⟨_, _, _, hc⟩ := h.tree.children l x y b k c hb hk
    exact hchild l x y b k c hb hk (ih _ _ _ hc hne)

/-- A bucket with a positive counter has a non-empty item list or one
below it. -/
theorem Invariant.desc_of_counter_pos {s : St} {g : Boxes} (h : Invariant s g) :
    ∀ l x y b, s.resident l x y = some b → 0 < (s.buckets b).COUNTER →
      (s.buckets b).ITEM_LIST ≠ [] ∨ ∃ d, Desc s b d ∧ (s.buckets d).ITEM_LIST ≠ [] := by
  intro l
  induction l with
  | zero =>
    intro x y b hb hpos
    by_cases hne : (s.buckets b).ITEM_LIST = []
    · exfalso
      have := h.cnt 0 x y b hb
      unfold St.CntAt St.expected at this
      rw [this, if_pos hne] at hpos
      have hz : ∀ k, s.posChild b k = 0 := by
        intro k
        have h0 := posChild_nonneg s b k
        by_contra hk
        obtain ⟨c, hc, _⟩ := posChild_pos (lt_of_le_of_ne h0 (Ne.symm hk))
        have := (h.tree.children 0 x y b k c hb hc).2.2.1
        omega
      rw [hz 0, hz 1, hz 2, hz 3] at hpos
      exact absurd hpos (by norm_num)
    · exact Or.inl hne
  | succ l ih =>
    intro x y b hb hpos
    by_cases hne : (s.buckets b).ITEM_LIST = []
    · right
      have := h.cnt (l + 1) x y b hb
      unfold St.CntAt St.expected at this
      rw [this, if_pos hne] at hpos
      have hex : ∃ k, 0 < s.posChild b k := by
        by_contra hno
        push_neg at hno
        have h0 := hno 0
        have h1 := hno 1
        have h2 := hno 2
        have h3 := hno 3
        omega
      obtain ⟨k, hk⟩ := hex
      obtain ⟨c, hc, hcpos⟩ := posChild_pos hk
      obtain ⟨_, _, _, hcres⟩ := h.tree.children (l + 1) x y b k c hb hc
      rcases ih _ _ c hcres hcpos with h1 | ⟨d, hd1, hd2⟩
      · exact ⟨c, Desc.child b k c hc, h1⟩
      · exact ⟨d, Desc.step b k c d hc hd1, hd2⟩
    · exact Or.inl hne

/-- The buckets below a resident bucket are resident. -/
theorem Invariant.desc_resident {s : St} {g : Boxes} (h : Invariant s g) {b d : Nat}
    (hd : Desc s b d) : ∀ l x y, s.resident l x y = some b →
      ∃ l' x' y', s.resident l' x' y' = some d := by
  induction hd with
  | child b k c hk =>
    intro l x y hb
    exact ⟨_, _, _, (h.tree.children l x y b k c hb hk).2.2.2⟩
  | step b k c d hk _ ih =>
    intro l x y hb
    exact ih _ _ _ (h.tree.children l x y b k c hb hk).2.2.2

/-! # Bounds objects: conversion and truncation -/

theorem convertBounds_ps {b : Bounds} (h : (b.TYPE = none ∧ b.x.isSome = true) ∨ b.TYPE = some 1) :
    ∃ cb, HashBounds.convertBounds b = .ok cb ∧ cb.TYPE = some 1
      ∧ cb.x = b.x ∧ cb.y = b.y ∧ cb.width = b.width ∧ cb.height = b.height
      ∧ cb.minX = b.x ∧ cb.minY = b.y
      ∧ cb.maxX = jsAdd b.x b.width ∧ cb.maxY = jsAdd b.y b.height := by
  rcases h with ⟨h1, h2⟩ | h1
  · refine ⟨{ HashBounds.psToMM b with TYPE := some 1 }, ?_, rfl, rfl, rfl, rfl, rfl, rfl, rfl,
      rfl, rfl⟩
    unfold HashBounds.convertBounds
    rw [h1]
    simp only
    rw [if_pos h2]
  · refine ⟨HashBounds.psToMM b, ?_, h1, rfl, rfl, rfl, rfl, rfl, rfl, rfl, rfl⟩
    unfold HashBounds.convertBounds
    rw [h1]
    rfl

theorem convertBounds_mm {b : Bounds} (h : (b.TYPE = none ∧ b.x = none) ∨ b.TYPE = some 2) :
    ∃ cb, HashBounds.convertBounds b = .ok cb ∧ cb.TYPE = some 2
      ∧ cb.minX = b.minX ∧ cb.minY = b.minY ∧ cb.maxX = b.maxX ∧ cb.maxY = b.maxY
      ∧ cb.x = b.minX ∧ cb.y = b.minY
      ∧ cb.width = jsSub b.maxX b.minX ∧ cb.height = jsSub b.maxY b.minY := by
  rcases h with ⟨h1, h2⟩ | h1
  · refine ⟨{ HashBounds.mmToPS b with TYPE := some 2 }, ?_, rfl, rfl, rfl, rfl, rfl, rfl, rfl,
      rfl, rfl⟩
    unfold HashBounds.convertBounds
    rw [h1]
    simp only
    rw [if_neg (by rw [h2]; simp)]
  · refine ⟨HashBounds.mmToPS b, ?_, h1, rfl, rfl, rfl, rfl, rfl, rfl, rfl, rfl⟩
    unfold HashBounds.convertBounds
    rw [h1]
    rfl

/-- The cases of `convertBounds`. -/
theorem convertBounds_cases {b cb : Bounds} (h : HashBounds.convertBounds b = .ok cb) :
    (((b.TYPE = none ∧ b.x.isSome = true) ∨ b.TYPE = some 1)
      ∧ cb = { HashBounds.psToMM b with TYPE := some 1 })
    ∨ (((b.TYPE = none ∧ b.x = none) ∨ b.TYPE = some 2)
      ∧ cb = { HashBounds.mmToPS b with TYPE := some 2 }) := by
  unfold HashBounds.convertBounds at h
  split at h
  · rename_i hT
    split at h
    · rename_i hx
      cases h
      exact Or.inl ⟨Or.inl ⟨hT, hx⟩, rfl⟩
    · rename_i hx
      cases h
      refine Or.inr ⟨Or.inl ⟨hT, ?_⟩, rfl⟩
      cases hbx : b.x with
      | none => rfl
      | some v => rw [hbx] at hx; simp at hx
  · rename_i hT
    cases h
    refine Or.inl ⟨Or.inr hT, ?_⟩
    obtain ⟨x, y, w, h', a1, a2, a3, a4, ty⟩ := b
    simp only at hT
    subst hT
    rfl
  · rename_i hT
    cases h
    refine Or.inr ⟨Or.inr hT, ?_⟩
    obtain ⟨x, y, w, h', a1, a2, a3, a4, ty⟩ := b
    simp only at hT
    subst hT
    rfl
  · cases h

/-- `convertBounds` is idempotent. -/
theorem convertBounds_idem {b cb : Bounds} (h : HashBounds.convertBounds b = .ok cb) :
    HashBounds.convertBounds cb = .ok cb := by
  rcases convertBounds_cases h with ⟨_, rfl⟩ | ⟨_, rfl⟩
  · rfl
  · rfl

/-! # Repeated updates -/

/-- `update` with a box whose width, height, level and span are those of the
record returns `false` and changes nothing. -/
theorem update_same {s : St} {e : Nat} {b cb : Bounds} {box : Box} {c : EntryCache}
    {l : Nat} {gr : HashGrid}
    (hct : HashBounds.contains s e = true) (hcb : HashBounds.convertBoundsD b = .ok cb)
    (hbox : cb.box? = some box) (hc : s.cache e s.hb.ID = some c)
    (hw : c.cacheWidth = box.width) (hh : c.cacheHeight = box.height)
    (hl : c.cachedIndex = some l) (hgr : s.hb.LEVELS[l]? = some gr)
    (hsp : (c.k1x, c.k1y, c.k2x, c.k2y) = gr.span box) :
    HashBounds.update e b s = (.ok false, s) := by
  have h1 : c.k1x = (gr.span box).1 := congrArg (fun p => p.1) hsp
  have h2 : c.k1y = (gr.span box).2.1 := congrArg (fun p => p.2.1) hsp
  have h3 : c.k2x = (gr.span box).2.2.1 := congrArg (fun p => p.2.2.1) hsp
  have h4 : c.k2y = (gr.span box).2.2.2 := congrArg (fun p => p.2.2.2) hsp
  simp [HashBounds.update, bind, M.andThen, M.read, hct, hcb, hbox, HashBounds.getLevel, hc,
    hw, hh, hl, HashGrid.update, HashGrid.grid, hgr, pure, M.ret, h1, h2, h3, h4]

/-! # The levels after construction -/

theorem createLevels_prev {s : St} {l : Nat} {g : HashGrid}
    (h : (HashBounds.createLevels.exec s).hb.LEVELS[l]? = some g) :
    g.PREV_GRID = (if l > 0 then some (l - 1) else none) := by
  rw [createLevels_levels] at h
  rw [List.getElem?_zipWith_eq_some] at h
  obtain ⟨a, b, ha, hb, rfl⟩ := h
  simp only [List.getElem?_map, Option.map_eq_some'] at hb
  obtain ⟨j, hj, rfl⟩ := hb
  obtain ⟨h1, h2⟩ := List.getElem?_eq_some_iff.mp ha
  obtain ⟨h3, h4⟩ := List.getElem?_eq_some_iff.mp hj
  simp only [List.getElem_range] at h2 h4
  subst h2 h4
  rfl

/-- The fields of the index and the links of its grids after `init`. -/
theorem init_struct {s : St} (hmin : 0 < s.hb.MIN_SIZE)
    (hinv : s.hb.MIN_SIZE_INV = fl (1 / s.hb.MIN_SIZE)) (hn : 1 ≤ s.hb.LEVEL_COUNT)
    (hle : s.hb.LEVEL_COUNT ≤ 54)
    (hlog : s.hb.LOG2CACHE = HashBounds.setupLog2 s.hb.LEVEL_COUNT)
    (hq : s.hb.QUERYID = 0) (hrec : ∀ e, s.cache e s.hb.ID = none) :
    HashBounds.init.Ok s (fun _ s' => s'.hb.MIN_SIZE = s.hb.MIN_SIZE
      ∧ s'.hb.LEVEL_COUNT = s.hb.LEVEL_COUNT
      ∧ ∀ l g, s'.hb.LEVELS[l]? = some g →
          g.PREV_GRID = (if l > 0 then some (l - 1) else none)) := by
  simp only [HashBounds.init, M.Ok_bind]
  refine Ok_of_eq (createLevels_run s) ?_
  simp only [M.Ok_read]
  have hi0 : Invariant (HashBounds.createLevels.exec s) (fun _ => none) :=
    invariant_empty (createLevels_static hmin hinv hn hle hlog) (createLevels_resident s)
      hrec hq
  refine M.Ok_mono (initializeArea_ok _ hi0.core (createLevels_resident s 0)
    (by rw [hi0.static.levels_len])) ?_
  intro _ s' ⟨hfr, _⟩
  refine ⟨(congrArg HashBounds.MIN_SIZE hfr.hbs :), hfr.levelCount_eq, ?_⟩
  intro l g' hg'
  obtain ⟨g0, hg0, hgg⟩ := hfr.grid hg'
  have : g'.PREV_GRID = g0.PREV_GRID := (congrArg HashGrid.PREV_GRID hgg :)
  rw [this]
  exact createLevels_prev hg0

/-- The fields of the index and the links of its grids after construction. -/
theorem new_struct {s0 : St} {minSize : ℚ} {levelCount : Int} {ib : Option Bounds}
    {id : Option Nat} (hmin : 0 < minSize)
    (hfresh : ∀ e, s0.cache e (id.getD s0.LAST_ID) = none)
    (hlc : 1 ≤ levelCount) (hle : levelCount ≤ 54) (cb : Bounds)
    (hcb : HashBounds.convertBoundsD (ib.getD {}) = .ok cb) :
    (HashBounds.new minSize levelCount ib id).Ok s0 (fun _ s' =>
      s'.hb.MIN_SIZE = minSize ∧ s'.hb.LEVEL_COUNT = levelCount.toNat
      ∧ ∀ l g, s'.hb.LEVELS[l]? = some g →
          g.PREV_GRID = (if l > 0 then some (l - 1) else none)) := by
  have hr := (range_iff hlc).mpr hle
  simp only [HashBounds.new, M.Ok_bind, M.Ok_read]
  rw [if_neg (by omega)]
  simp only [M.Ok_bind, M.Ok_read, hcb]
  cases id with
  | none =>
    simp only [Option.isNone_none, if_true, M.Ok_bind, M.Ok_modify]
    rw [if_neg hr]
    simp only [M.Ok_bind, M.Ok_modify]
    exact init_struct hmin rfl (by show 1 ≤ levelCount.toNat; omega)
      (by show levelCount.toNat ≤ 54; omega) rfl rfl hfresh
  | some i =>
    simp only [Option.isNone_some, M.Ok_bind, M.Ok_modify]
    rw [if_neg (by simp)]
    simp only [M.Ok_bind, M.Ok_pure, M.Ok_modify]
    rw [if_neg hr]
    simp only [M.Ok_bind, M.Ok_modify]
    exact init_struct hmin rfl (by show 1 ≤ levelCount.toNat; omega)
      (by show levelCount.toNat ≤ 54; omega) rfl rfl hfresh

theorem ReadOnly.refl_ro (s : St) : ReadOnly s s := ⟨rfl, rfl, rfl, fun _ => rfl⟩

theorem ReadOnly.levels_ro {s s' : St} (h : ReadOnly s s') : s'.hb.LEVELS = s.hb.LEVELS :=
  (congrArg HashBounds.LEVELS h.hb :)

theorem ReadOnly.resident_ro {s s' : St} (h : ReadOnly s s') : s'.resident = s.resident := by
  funext l x y
  unfold St.resident
  rw [h.levels_ro]

theorem ReadOnly.treeOk_ro {s s' : St} (h : ReadOnly s s') (ht : TreeOk s) : TreeOk s' := by
  obtain ⟨t1, t2, t3, t4, t5, t6, t7⟩ := ht
  have hms : s'.hb.MIN_SIZE = s.hb.MIN_SIZE := (congrArg HashBounds.MIN_SIZE h.hb :)
  have hlc : s'.hb.LEVEL_COUNT = s.hb.LEVEL_COUNT := (congrArg HashBounds.LEVEL_COUNT h.hb :)
  have hres := h.resident_ro
  have h2 := h.buckets
  refine ⟨?_, ?_, ?_, ?_, ?_, ?_, ?_⟩
  · rw [hres, h.nextBucket]; exact t1
  · rw [hres]; exact t2
  · rw [hres, h2, hms]; exact t3
  · rw [hres, h2, hlc]; exact t4
  · rw [hres, h2, hlc]; exact t5
  · rw [hres, h2]; exact t6
  · rw [hres, h2]; exact t7

theorem ReadOnly.of_stamped_ro {QID : Int} {s s1 s' : St} (h : ReadOnly s s1)
    (hst : Stamped QID s1 s') : ReadOnly s s' :=
  ⟨by rw [hst.hb]; exact h.hb, by rw [hst.buckets]; exact h.buckets,
    by rw [hst.nextBucket]; exact h.nextBucket, fun e => by rw [hst.recs e]; exact h.recs e⟩

theorem ReadOnly.next_ro {s s1 : St} (h : ReadOnly s s1) (q : Int) :
    ReadOnly s { s1 with hb := { s1.hb with QUERYID := q } } :=
  ⟨h.hb, h.buckets, h.nextBucket, h.recs⟩

/-- A traversal from the coarsest grid changes stamps only. -/
theorem baseEvery_ro {s s1 : St} (hs : Static s) (ht : TreeOk s) (h : ReadOnly s s1)
    (bounds : Option Box) (call : Visitor) (QID : Int) :
    (HashBounds.baseEvery bounds call QID).Ok s1 (fun _ s' => ReadOnly s s') := by
  have hpos := hs.count_pos
  have hbase : s1.hb.BASE = some (s.hb.LEVEL_COUNT - 1) := by
    have : s1.hb.BASE = s.hb.BASE := (congrArg HashBounds.BASE h.hb :)
    rw [this]; exact hs.base
  have hlen : s1.hb.LEVELS.length = s.hb.LEVEL_COUNT := by
    rw [h.levels_ro]; exact hs.levels_len
  simp only [HashBounds.baseEvery, M.Ok_bind, M.Ok_read, hbase]
  refine M.Ok_mono (gridEvery_walk call QID _ _ bounds s1 [] (h.treeOk_ro ht)
    (by rw [hlen]; omega) (by rw [hlen]; omega)) ?_
  intro r s' hw
  exact h.of_stamped_ro hw.stamped

/-- A query changes the query counter and the stamps of entries, nothing
else, whatever the value of the query counter. -/
theorem query_frame {s : St} (hs : Static s) (ht : TreeOk s) (b : Option Bounds)
    (call : Visitor) (qb : Option (Option Box)) (hq : HashBounds.queryBox b = .ok qb) :
    (HashBounds.query b call).Ok s (fun _ s' => ReadOnly s s') := by
  have fin : ∀ (s1 : St), ReadOnly s s1 →
      (match qb with
        | none => HashBounds.baseEvery none call s1.hb.QUERYID
        | some (some box) => HashBounds.baseEvery (some box) call s1.hb.QUERYID
        | some none => do
          let s ← M.read
          match s.hb.BASE with
          | none => M.throw .typeError
          | some _ => pure (true, [])).Ok (s1.withQueryID (s1.hb.QUERYID + 1))
        (fun _ s' => ReadOnly s s') := by
    intro s1 h1
    have h1' : ReadOnly s (s1.withQueryID (s1.hb.QUERYID + 1)) := h1.next_ro _
    cases qb with
    | none => exact baseEvery_ro hs ht h1' none call _
    | some ob =>
      cases ob with
      | none =>
        show (M.read >>= fun s2 => match s2.hb.BASE with
          | none => M.throw Err.typeError
          | some _ => pure ((true, []) : Bool × List Nat)).Ok _ _
        have hbase : (s1.withQueryID (s1.hb.QUERYID + 1)).hb.BASE
            = some (s.hb.LEVEL_COUNT - 1) := by
          have : s1.hb.BASE = s.hb.BASE := (congrArg HashBounds.BASE h1.hb :)
          show s1.hb.BASE = _
          rw [this]; exact hs.base
        simp only [M.Ok_bind, M.Ok_read, hbase, M.Ok_pure]
        exact h1'
      | some box => exact baseEvery_ro hs ht h1' (some box) call _
  simp only [HashBounds.query, hq, M.Ok_bind, HashBounds.getQueryID, M.Ok_read]
  by_cases hwrap : s.hb.QUERYID ≥ 4294967295
  · rw [if_pos hwrap]
    simp only [M.Ok_bind, M.Ok_modify, HashBounds.nextQueryID, M.Ok_read, M.Ok_pure]
    refine M.Ok_mono (baseEvery_ro hs ht (((ReadOnly.refl_ro s).next_ro (-1)).next_ro (-1 + 1))
      none (fun _ _ => true) _) ?_
    intro _ s2 h2
    exact fin s2 h2
  · rw [if_neg hwrap]
    simp only [M.Ok_bind, M.Ok_modify, HashBounds.nextQueryID, M.Ok_read, M.Ok_pure]
    exact fin s (ReadOnly.refl_ro s)

theorem withQueryID_static {s : St} (h : Static s) (q : Int) : Static (s.withQueryID q) :=
  ⟨h.minSize_pos, h.minSize_inv, h.count_pos, h.count_le, h.levels_len, h.base, h.grid,
    h.log2, h.table⟩

theorem withQueryID_ro (s : St) (q : Int) : ReadOnly s (s.withQueryID q) :=
  (ReadOnly.refl_ro s).next_ro q

/-- Between two states with a well-formed forest, of which the second keeps
every resident bucket of the first at its place, a resident bucket keeps its
parent and its children. -/
theorem tree_kept {s s' : St} (hs : Static s) (ht : TreeOk s) (ht' : TreeOk s')
    (hlc : s'.hb.LEVEL_COUNT = s.hb.LEVEL_COUNT)
    (hres : ∀ l x y b, s.resident l x y = some b → s'.resident l x y = some b)
    {l : Nat} {x y : Int} {b : Nat} (hb : s.resident l x y = some b) :
    s'.resident l x y = some b ∧ (s'.buckets b).PARENT = (s.buckets b).PARENT
      ∧ ∀ k c, (s.buckets b).CHILDREN k = some c → (s'.buckets b).CHILDREN k = some c := by
  have hb' := hres l x y b hb
  refine ⟨hb', ?_, ?_⟩
  · by_cases hl : l + 1 < s.hb.LEVEL_COUNT
    · obtain ⟨p, hp1, hp2, _⟩ := ht.parent l x y b hb hl
      obtain ⟨p', hp1', hp2', _⟩ := ht'.parent l x y b hb' (by rw [hlc]; exact hl)
      have := hres _ _ _ _ hp2
      rw [this] at hp2'
      cases hp2'
      rw [hp1, hp1']
    · rw [ht.top l x y b hb hl, ht'.top l x y b hb' (by rw [hlc]; exact hl)]
  · intro k c hc
    obtain ⟨hk0, hk4, hl1, hcr⟩ := ht.children l x y b k c hb hc
    have hcr' := hres _ _ _ _ hcr
    have hlt := ht.level_lt hs hb
    obtain ⟨p', _, hp2, hp3⟩ := ht'.parent (l - 1) _ _ c hcr' (by rw [hlc]; omega)
    have e1 : l - 1 + 1 = l := by omega
    have e2 : (2 * x + k % 2) / 2 = x := by omega
    have e3 : (2 * y + k / 2) / 2 = y := by omega
    rw [e1, e2, e3, hb'] at hp2
    cases hp2
    rw [e2, e3] at hp3
    have e4 : (2 * y + k / 2 - y * 2) * 2 + (2 * x + k % 2) - x * 2 = k := by omega
    rw [e4] at hp3
    exact hp3

/-! # Runs that may stop early: what holds if they return -/

namespace M

variable {α β : Type}

theorem Post_mono {m : M α} {s : St} {Q Q' : α → St → Prop}
    (h : m.Post s Q) (hQ : ∀ a s', Q a s' → Q' a s') : m.Post s Q' :=
  fun a s' hrun => hQ a s' (h a s' hrun)

theorem Post_pure (a : α) (s : St) (Q : α → St → Prop) :
    (pure a : M α).Post s Q ↔ Q a s := by
  constructor
  · intro h
    exact h a s rfl
  · intro h a' s' hrun
    cases hrun
    exact h

theorem Post_read (s : St) (Q : St → St → Prop) : M.read.Post s Q ↔ Q s s := by
  constructor
  · intro h
    exact h s s rfl
  · intro h a' s' hrun
    cases hrun
    exact h

theorem Post_modify (f : St → St) (s : St) (Q : Unit → St → Prop) :
    (M.modify f).Post s Q ↔ Q () (f s) := by
  constructor
  · intro h
    exact h () (f s) rfl
  · intro h a' s' hrun
    cases hrun
    exact h

theorem Post_throw (e : Err) (s : St) (Q : α → St → Prop) :
    (M.throw e : M α).Post s Q ↔ True := by
  constructor
  · intro _
    trivial
  · intro _ a' s' hrun
    cases hrun

theorem Post_bind (m : M α) (f : α → M β) (s : St) (Q : β → St → Prop) :
    (m >>= f).Post s Q ↔ m.Post s (fun a s1 => (f a).Post s1 Q) := by
  constructor
  · intro h a s1 hm b s' hf
    apply h b s'
    rw [bind_apply, hm]
    exact hf
  · intro h b s' hrun
    rw [bind_apply] at hrun
    rcases hm : m s with ⟨r, s1⟩
    rw [hm] at hrun
    cases r with
    | error e => cases hrun
    | ok a => exact h a s1 hm b s' hrun

/-- A run that returns has every property that holds if it returns. -/
theorem Ok_post {m : M α} {s : St} {Q Q' : α → St → Prop}
    (h : m.Ok s Q) (h' : m.Post s Q') : m.Ok s (fun a s' => Q a s' ∧ Q' a s') := by
  obtain ⟨a, s', h1, h2⟩ := h
  exact ⟨a, s', h1, h2, h' a s' h1⟩

theorem Post_det {m : M α} {s : St} {a0 : α} {s0 : St} (h : m s = (.ok a0, s0))
    (Q : α → St → Prop) : m.Post s Q ↔ Q a0 s0 := by
  constructor
  · intro hp
    exact hp a0 s0 h
  · intro hq a s' hrun
    rw [h] at hrun
    cases hrun
    exact hq

theorem det_of_ok {m : M α} {s : St} {a0 : α} {s0 : St}
    (h : m.Ok s (fun a s' => a = a0 ∧ s' = s0)) : m s = (.ok a0, s0) := by
  obtain ⟨a, s', h1, rfl, rfl⟩ := h
  exact h1

end M

/-- The rule for a loop, for a property of the state that every round
keeps. -/
theorem forEachM_post {α : Type} (l : List α) (body : α → M Unit) (I : St → Prop)
    (hbody : ∀ a ∈ l, ∀ s, I s → (body a).Post s (fun _ s' => I s')) :
    ∀ s, I s → (forEachM l body).Post s (fun _ s' => I s') := by
  induction l with
  | nil =>
    intro s hi
    simp only [forEachM]
    exact (M.Post_pure _ _ _).mpr hi
  | cons a rest ih =>
    intro s hi
    simp only [forEachM]
    rw [M.Post_bind]
    refine M.Post_mono (hbody a (List.mem_cons_self _ _) s hi) ?_
    intro _ s1 h1
    exact ih (fun a' ha' => hbody a' (List.mem_cons_of_mem _ ha')) s1 h1

theorem grid_post {s : St} {l : Nat} (Q : HashGrid → St → Prop)
    (h : ∀ g, s.hb.LEVELS[l]? = some g → Q g s) : (HashGrid.grid l).Post s Q := by
  intro g s' hrun
  unfold HashGrid.grid at hrun
  cases hg : s.hb.LEVELS[l]? with
  | none =>
    rw [hg] at hrun
    cases hrun
  | some g0 =>
    rw [hg] at hrun
    cases hrun
    exact h g hg

theorem getBucket_post {s : St} {l : Nat} {x y : Int} (Q : Option Nat → St → Prop)
    (h : Q (s.resident l x y) s) : (HashGrid.getBucket l x y).Post s Q := by
  simp only [HashGrid.getBucket, M.Post_bind]
  refine grid_post _ ?_
  intro g hg
  have hr : s.resident l x y = match g.BUCKET_GRID.get x with
      | some map2 => map2.get y
      | none => none := by
    unfold St.resident
    rw [hg]
    all_goals rfl
  cases hx : g.BUCKET_GRID.get x with
  | none =>
    rw [hx] at hr
    simp only at hr
    simp only [M.Post_pure]
    rw [hr] at h
    exact h
  | some m =>
    rw [hx] at hr
    simp only at hr
    simp only [M.Post_pure]
    rw [hr] at h
    exact h

/-- A property of the state that no write to a counter disturbs survives
`add`. -/
theorem add_post (P : St → Prop)
    (hP : ∀ s b (v : TreeBucket → Int), P s →
      P (s.setBucket b (fun t => { t with COUNTER := v t }))) :
    ∀ fuel b s, P s → (TreeBucket.add fuel b).Post s (fun _ s' => P s') := by
  intro fuel
  induction fuel with
  | zero =>
    intro b s _
    simp only [TreeBucket.add]
    exact (M.Post_throw _ _ _).mpr trivial
  | succ fuel ih =>
    intro b s hp
    simp only [TreeBucket.add, M.Post_bind, M.Post_read]
    have fin : ∀ s1, P s1 → (M.modify (fun s => s.setBucket b
        (fun t => { t with COUNTER := t.COUNTER + 1 }))).Post s1 (fun _ s' => P s') := by
      intro s1 h1
      exact (M.Post_modify _ _ _).mpr (hP s1 b (fun t => t.COUNTER + 1) h1)
    split
    · split
      · rw [M.Post_bind]
        exact M.Post_mono (ih _ s hp) (fun _ s1 h1 => fin s1 h1)
      · first
          | exact fin s hp
          | (rw [M.Post_bind, M.Post_pure]; exact fin s hp)
    · first
        | exact fin s hp
        | (rw [M.Post_bind, M.Post_pure]; exact fin s hp)

/-- A property of the state that no write to a counter disturbs survives
`subtract`. -/
theorem subtract_post (P : St → Prop)
    (hP : ∀ s b (v : TreeBucket → Int), P s →
      P (s.setBucket b (fun t => { t with COUNTER := v t }))) :
    ∀ fuel b s, P s → (TreeBucket.subtract fuel b).Post s (fun _ s' => P s') := by
  intro fuel
  induction fuel with
  | zero =>
    intro b s _
    simp only [TreeBucket.subtract]
    exact (M.Post_throw _ _ _).mpr trivial
  | succ fuel ih =>
    intro b s hp
    simp only [TreeBucket.subtract, M.Post_bind, M.Post_modify, M.Post_read]
    have h1 := hP s b (fun t => t.COUNTER - 1) hp
    split
    · split
      · exact ih _ _ h1
      · exact (M.Post_pure _ _ _).mpr h1
    · exact (M.Post_pure _ _ _).mpr h1

/-! # The item lists during `insert` -/

theorem Appended.refl_app (e : Nat) (s : St) : Appended e s s :=
  ⟨fun _ _ => ⟨0, by simp⟩, fun _ h1 h2 => by omega, le_rfl, fun _ _ _ _ h => Or.inl h,
    fun _ _ => rfl⟩

theorem Appended.of_neutral {e : Nat} {s s1 s2 : St} (h : Appended e s s1)
    (hl : ∀ b, (s2.buckets b).ITEM_LIST = (s1.buckets b).ITEM_LIST)
    (hnb : s2.nextBucket = s1.nextBucket) (hres : s2.resident = s1.resident)
    (hen : ∀ e', e' ≠ e → s2.entries e' = s1.entries e') : Appended e s s2 := by
  refine ⟨?_, ?_, ?_, ?_, ?_⟩
  · intro b hb
    rw [hl]
    exact h.old b hb
  · intro b h1 h2
    rw [hl]
    exact h.fresh b h1 (by omega)
  · rw [hnb]
    exact h.nb
  · intro l x y b hb
    rw [hres] at hb
    exact h.res l x y b hb
  · intro e' hne
    rw [hen e' hne]
    exact h.others e' hne

theorem Appended.setCache_app {e : Nat} {s s1 : St} (h : Appended e s s1) (id : Nat)
    (f : EntryCache → EntryCache) : Appended e s (s1.setCache e id f) := by
  refine h.of_neutral (fun _ => rfl) rfl rfl ?_
  intro e' hne
  simp [St.setCache, hne]

theorem Appended.createCache_app {e : Nat} {s s1 : St} (h : Appended e s s1) (id : Nat) :
    Appended e s (HashBounds.createCache s1 e id) := by
  refine h.of_neutral (fun _ => rfl) rfl rfl ?_
  intro e' hne
  simp [HashBounds.createCache, hne]

theorem Appended.shape_app {e : Nat} {s s1 : St} (h : Appended e s s1) (b : Nat)
    (f : TreeBucket → TreeBucket) (hf : ∀ t, (f t).ITEM_LIST = t.ITEM_LIST) :
    Appended e s (s1.setBucket b f) := by
  refine h.of_neutral ?_ rfl rfl (fun _ _ => rfl)
  intro i
  rw [St.setBucket_buckets]
  by_cases hi : i = b
  · rw [if_pos hi, hf, hi]
  · rw [if_neg hi]

theorem Appended.push_app {e : Nat} {s s1 : St} (h : Appended e s s1) (b : Nat) :
    Appended e s (s1.setBucket b (fun t => { t with ITEM_LIST := t.ITEM_LIST ++ [e] })) := by
  refine ⟨?_, ?_, h.nb, h.res, h.others⟩
  · intro i hi
    rw [St.setBucket_buckets]
    by_cases hib : i = b
    · rw [if_pos hib]
      obtain ⟨n, hn⟩ := h.old b (hib ▸ hi)
      refine ⟨n + 1, ?_⟩
      show (s1.buckets b).ITEM_LIST ++ [e] = _
      rw [hn, hib, List.replicate_succ', List.append_assoc]
    · rw [if_neg hib]
      exact h.old i hi
  · intro i h1 h2
    rw [St.setBucket_buckets]
    by_cases hib : i = b
    · rw [if_pos hib]
      obtain ⟨n, hn⟩ := h.fresh b (hib ▸ h1) (hib ▸ h2)
      refine ⟨n + 1, ?_⟩
      show (s1.buckets b).ITEM_LIST ++ [e] = _
      rw [hn, List.replicate_succ']
    · rw [if_neg hib]
      exact h.fresh i h1 h2

theorem Appended.alloc_app {e : Nat} {s s1 : St} (h : Appended e s s1) {l : Nat}
    {g : HashGrid} (hg : s1.hb.LEVELS[l]? = some g) (x y : Int) :
    Appended e s (s1.alloc l x y g) := by
  have hnb := h.nb
  refine ⟨?_, ?_, ?_, ?_, ?_⟩
  · intro b hb
    rw [alloc_buckets, if_neg (by omega)]
    exact h.old b hb
  · intro b h1 h2
    rw [alloc_nextBucket] at h2
    rw [alloc_buckets]
    by_cases hb : b = s1.nextBucket
    · rw [if_pos hb]
      exact ⟨0, rfl⟩
    · rw [if_neg hb]
      exact h.fresh b h1 (by omega)
  · rw [alloc_nextBucket]
    omega
  · intro l' x' y' b hb
    rw [resident_alloc hg] at hb
    by_cases hc : l' = l ∧ x' = x ∧ y' = y
    · rw [if_pos hc] at hb
      cases hb
      exact Or.inr hnb
    · rw [if_neg hc] at hb
      exact h.res l' x' y' b hb
  · intro e' hne
    rw [alloc_entries]
    exact h.others e' hne

/-- `createBucket` during an `insert`. -/
theorem createBucket_app (e : Nat) (s : St) (fuel : Nat) : ∀ (s1 : St) (l : Nat) (x y : Int),
    Appended e s s1 →
    (HashGrid.createBucket fuel l x y).Post s1 (fun _ s' => Appended e s s') := by
  induction fuel with
  | zero =>
    intro s1 l x y _
    simp only [HashGrid.createBucket]
    exact (M.Post_throw _ _ _).mpr trivial
  | succ fuel ih =>
    intro s1 l x y h
    simp only [HashGrid.createBucket, M.Post_bind]
    refine grid_post _ ?_
    intro g hg
    simp only [M.Post_read, M.Post_modify]
    have hdet := M.det_of_ok ((setBucket_alloc hg x y _).mpr ⟨rfl, rfl⟩)
    rw [M.Post_det hdet]
    have hA := h.alloc_app hg x y
    have hlink : ∀ (p : Nat) (s2 : St), Appended e s s2 →
        Appended e s ((s2.setBucket s1.nextBucket (fun t => { t with PARENT := some p })).setBucket
          p (fun t => TreeBucket.updateQuadCache
            { t with CHILDREN := fun k =>
                if k = (y - y / 2 * 2) * 2 + x - x / 2 * 2 then some s1.nextBucket
                else t.CHILDREN k })) := by
      intro p s2 h2
      apply Appended.shape_app
      · apply Appended.shape_app
        · exact h2
        · intro t; rfl
      · intro t; rfl
    split
    · exact (M.Post_pure _ _ _).mpr hA
    · simp only [M.Post_bind]
      refine getBucket_post _ ?_
      split
      · simp only [M.Post_pure, M.Post_bind, M.Post_modify]
        exact hlink _ _ hA
      · simp only [M.Post_bind]
        refine M.Post_mono (ih _ _ _ _ hA) ?_
        intro p s2 h2
        simp only [M.Post_pure, M.Post_bind, M.Post_modify]
        exact hlink _ _ h2

/-- `TreeBucket.set` during an `insert`. -/
theorem set_app (e : Nat) (s : St) (fuel b id : Nat) (key : Int) (s1 : St)
    (h : Appended e s s1) :
    (TreeBucket.set fuel b e id key).Post s1 (fun _ s' => Appended e s s') := by
  simp only [TreeBucket.set, M.Post_bind, M.Post_read, M.Post_modify]
  have h2 := (h.setCache_app id (fun r => r.setIndex key (s1.buckets b).ITEM_LIST.length)).push_app b
  split
  · exact add_post (fun s' => Appended e s s')
      (fun s' b' v hs' => hs'.shape_app b' _ (fun _ => rfl)) _ _ _ h2
  · exact (M.Post_pure _ _ _).mpr h2

/-- `HashGrid.insert` during an `insert`. -/
theorem gridInsert_app (e : Nat) (s : St) (fuel l id : Nat) (box : Box)
    (ks : Option (Int × Int × Int × Int)) (s1 : St) (h : Appended e s s1) :
    (HashGrid.insert fuel l e id box ks).Post s1 (fun _ s' => Appended e s s') := by
  simp only [HashGrid.insert, M.Post_bind]
  refine grid_post _ ?_
  intro g hg
  simp only [M.Post_modify]
  refine forEachM_post _ _ (fun s' => Appended e s s') ?_ _ (h.setCache_app _ _)
  intro x _ s2 h2
  refine forEachM_post _ _ (fun s' => Appended e s s') ?_ _ h2
  intro y _ s3 h3
  simp only [M.Post_bind]
  refine getBucket_post _ ?_
  split
  · simp only [M.Post_bind, M.Post_pure]
    exact set_app e s _ _ _ _ _ h3
  · rw [M.Post_bind]
    refine M.Post_mono (createBucket_app e s _ _ _ _ _ h3) ?_
    intro b s4 h4
    exact set_app e s _ _ _ _ _ h4

/-- `HashBounds.insert` appends the entry to item lists and does nothing
else to them. -/
theorem insert_app (e : Nat) (b : Bounds) (s : St) :
    (HashBounds.insert e b).Post s (fun _ s' => Appended e s s') := by
  simp only [HashBounds.insert, M.Post_bind, M.Post_read]
  split
  · exact (M.Post_throw _ _ _).mpr trivial
  · have tail : ∀ s1, Appended e s s1 →
        (match HashBounds.convertBoundsD b with
          | .error err => M.throw err
          | .ok cb => do
            M.modify (fun s => s.setCache e s.hb.ID (fun r => { r with isInHash := true }))
            match cb.box? with
            | none => M.throw .stuck
            | some box =>
              let level ← HashBounds.getLevel box e
              match level with
              | none => M.throw .typeError
              | some l => HashGrid.insert s.hb.LEVELS.length l e s.hb.ID box none).Post s1
          (fun _ s' => Appended e s s') := by
      intro s1 h1
      split
      · exact (M.Post_throw _ _ _).mpr trivial
      · simp only [M.Post_bind, M.Post_modify]
        have h2 := h1.setCache_app s1.hb.ID (fun r => { r with isInHash := true })
        split
        · exact (M.Post_throw _ _ _).mpr trivial
        · simp only [M.Post_bind, HashBounds.getLevel, M.Post_read]
          split
          · exact (M.Post_throw _ _ _).mpr trivial
          · split
            · simp only [M.Post_pure]
              split
              · exact (M.Post_throw _ _ _).mpr trivial
              · exact gridInsert_app e s _ _ _ _ _ _ h2
            · simp only [M.Post_bind, M.Post_modify, M.Post_pure]
              split
              · exact (M.Post_throw _ _ _).mpr trivial
              · exact gridInsert_app e s _ _ _ _ _ _ (h2.setCache_app _ _)
    split
    · simp only [M.Post_bind, M.Post_modify]
      exact tail _ ((Appended.refl_app e s).createCache_app _)
    · simp only [M.Post_bind, M.Post_pure]
      exact tail _ (Appended.refl_app e s)

/-! # The item lists during `remove` -/

theorem Popped.refl_pop (e : Nat) (s : St) : Popped e s s :=
  ⟨fun _ => Or.inl rfl, rfl, rfl⟩

theorem Popped.counter_pop {e : Nat} {s s1 : St} (h : Popped e s s1) (b : Nat)
    (v : TreeBucket → Int) :
    Popped e s (s1.setBucket b (fun t => { t with COUNTER := v t })) := by
  refine ⟨?_, h.entries, h.hb⟩
  intro i
  rw [St.setBucket_buckets]
  by_cases hi : i = b
  · rw [if_pos hi]
    subst hi
    exact h.lists i
  · rw [if_neg hi]
    exact h.lists i

/-- `TreeBucket.remove` on a bucket whose item list ended with the entry when
the `remove` began, the slot index of the entry pointing there. -/
theorem remove_pop {e : Nat} {s s1 : St} {fuel b id : Nat} {key : Int} {c : EntryCache}
    {L : List Nat} (h : Popped e s s1) (hc : s.cache e id = some c)
    (hL : (s.buckets b).ITEM_LIST = L ++ [e]) (hidx : c.indexes key = some L.length) :
    (TreeBucket.remove fuel b e id key).Post s1 (fun _ s' => Popped e s s') := by
  have hc1 : s1.cache e id = some c := by
    unfold St.cache
    rw [h.entries]
    exact hc
  rcases h.lists b with h1 | h1
  · -- the entry is still there, at the end
    rw [hL] at h1
    simp only [TreeBucket.remove, M.Post_bind, M.Post_read, hc1, hidx]
    have hlen : ((L.length : Nat) : Int) = (((s1.buckets b).ITEM_LIST.length : Nat) : Int) - 1 := by
      rw [h1]
      simp
    rw [if_neg (by rw [hlen]; simp)]
    simp only [M.Post_bind, M.Post_pure, M.Post_modify]
    have h2 : Popped e s (s1.setBucket b
        (fun t => { t with ITEM_LIST := t.ITEM_LIST.dropLast })) := by
      refine ⟨?_, h.entries, h.hb⟩
      intro i
      rw [St.setBucket_buckets]
      by_cases hi : i = b
      · rw [if_pos hi]
        subst hi
        right
        show (s.buckets i).ITEM_LIST = (s1.buckets i).ITEM_LIST.dropLast ++ [e]
        rw [hL, h1]
        simp
      · rw [if_neg hi]
        exact h.lists i
    split
    · exact subtract_post (fun s' => Popped e s s')
        (fun s' b' v hs' => hs'.counter_pop b' v) _ _ _ h2
    · exact (M.Post_pure _ _ _).mpr h2
  · -- the entry has been taken out already: the run stops
    rw [hL] at h1
    have hM : (s1.buckets b).ITEM_LIST = L := (List.append_inj_left' h1 rfl).symm
    intro a s' hrun
    exfalso
    cases hlast : L.getLast? with
    | none =>
      simp [TreeBucket.remove, bind, M.andThen, M.read, hc1, hidx, hM, hlast, M.throw] at hrun
      rw [if_neg (by omega)] at hrun
      simp [M.andThen, M.throw] at hrun
    | some swap =>
      simp [TreeBucket.remove, bind, M.andThen, M.read, hc1, hidx, hM, hlast, M.throw] at hrun
      rw [if_neg (by omega)] at hrun
      simp [M.andThen, M.throw] at hrun

/-- `HashGrid.remove` when the entry is at the end of the item list of every
bucket of its span. -/
theorem gridRemove_pop {e : Nat} {s : St} {fuel l id : Nat} {c : EntryCache}
    (hc : s.cache e id = some c)
    (hH : ∀ x y b, c.inSpan x y → s.resident l x y = some b →
      ∃ L, (s.buckets b).ITEM_LIST = L ++ [e] ∧ c.indexes (c.key x y) = some L.length) :
    (HashGrid.remove fuel l e id).Post s (fun _ s' => Popped e s s') := by
  simp only [HashGrid.remove, M.Post_bind, M.Post_read, hc]
  refine forEachM_post _ _ (fun s' => Popped e s s') ?_ _ (Popped.refl_pop e s)
  intro x hx s2 h2
  refine forEachM_post _ _ (fun s' => Popped e s s') ?_ _ h2
  intro y hy s3 h3
  rw [mem_intRange] at hx hy
  simp only [M.Post_bind]
  refine getBucket_post _ ?_
  have hres : s3.resident l x y = s.resident l x y := by
    unfold St.resident
    rw [h3.hb]
  rw [hres]
  cases hb : s.resident l x y with
  | none => exact (M.Post_throw _ _ _).mpr trivial
  | some b =>
    obtain ⟨L, hL, hidx⟩ := hH x y b ⟨hx.1, hx.2, hy.1, hy.2⟩ hb
    have hkey : (x - c.k1x) * (c.k2y - c.k1y + 1) - c.k1y + y = c.key x y := by
      unfold EntryCache.key
      ring
    simp only [hkey]
    exact remove_pop h3 hc hL hidx

/-- `HashBounds.remove` when the entry is at the end of the item list of
every bucket of its span: every item list is as before or has lost the entry
at its end, and the other entries are untouched. -/
theorem remove_pop_all {e : Nat} {s : St} {c : EntryCache} {l : Nat}
    (hc : s.cache e s.hb.ID = some c) (hl : c.cachedIndex = some l)
    (hH : ∀ x y b, c.inSpan x y → s.resident l x y = some b →
      ∃ L, (s.buckets b).ITEM_LIST = L ++ [e] ∧ c.indexes (c.key x y) = some L.length) :
    (HashBounds.remove e).Post s (fun _ s' =>
      (∀ b, (s'.buckets b).ITEM_LIST = (s.buckets b).ITEM_LIST
        ∨ (s.buckets b).ITEM_LIST = (s'.buckets b).ITEM_LIST ++ [e])
      ∧ ∀ e', e' ≠ e → s'.entries e' = s.entries e') := by
  simp only [HashBounds.remove, M.Post_bind, M.Post_read]
  split
  · exact (M.Post_throw _ _ _).mpr trivial
  · rw [hc]
    simp only [Option.some_bind, hl, M.Post_bind]
    refine M.Post_mono (gridRemove_pop hc hH) ?_
    intro _ s1 h1
    rw [M.Post_modify]
    refine ⟨h1.lists, ?_⟩
    intro e' hne
    have : (s1.setCache e s1.hb.ID (fun r => { r with isInHash := false })).entries e'
        = s1.entries e' := by
      simp [St.setCache, hne]
    rw [this, h1.entries]

/-! # `insert` followed by `remove` -/

/-- After an `insert` of an entry that was not contained, the entry is the
last item of every bucket of its span, and its slot index points there. -/
theorem last_of_appended {s s1 : St} {g g1 : Boxes} {e : Nat} (hinv : Invariant s g)
    (hnc : HashBounds.contains s e = false) (hinv1 : Invariant s1 g1)
    (hct1 : HashBounds.contains s1 e = true) (happ : Appended e s s1) :
    ∃ c l, s1.cache e s1.hb.ID = some c ∧ c.cachedIndex = some l
      ∧ ∀ x y b, c.inSpan x y → s1.resident l x y = some b →
          ∃ L, (s1.buckets b).ITEM_LIST = L ++ [e] ∧ c.indexes (c.key x y) = some L.length := by
  obtain ⟨r, l, box, gr, hr, hl, _, _, _, hin, _⟩ := hinv1.span hct1
  refine ⟨r, l, hr, hl, ?_⟩
  intro x y b hsp hb
  obtain ⟨b', i, hb', hidx, hget, hcount⟩ := hin x y hsp
  rw [hb] at hb'
  cases hb'
  have hmem : e ∈ (s1.buckets b).ITEM_LIST := List.getElem?_mem hget
  -- the list is a list without `e` followed by copies of `e`
  obtain ⟨P, n, hP, hPe⟩ : ∃ P n, (s1.buckets b).ITEM_LIST = P ++ List.replicate n e
      ∧ (n = 0 → e ∉ P) := by
    by_cases hold : b < s.nextBucket
    · obtain ⟨n, hn⟩ := happ.old b hold
      refine ⟨_, n, hn, ?_⟩
      intro _ hmemP
      rcases happ.res l x y b hb with h1 | h1
      · have := hinv.contains_of_mem h1 hmemP
        rw [hnc] at this
        cases this
      · omega
    · obtain ⟨n, hn⟩ := happ.fresh b (by omega) (hinv1.tree.lt l x y b hb)
      exact ⟨[], n, by simpa using hn, fun _ h => by cases h⟩
  cases n with
  | zero =>
    exfalso
    rw [hP] at hmem
    simp only [List.replicate_zero, List.append_nil] at hmem
    exact hPe rfl hmem
  | succ m =>
    rw [List.replicate_succ', ← List.append_assoc] at hP
    refine ⟨P ++ List.replicate m e, hP, ?_⟩
    rw [hidx]
    congr 1
    rw [hP] at hcount hget
    rw [List.count_append] at hcount
    simp only [List.count_singleton_self] at hcount
    have hnot : e ∉ P ++ List.replicate m e := by
      intro hm
      have := List.count_pos_iff.mpr hm
      omega
    have hlt := (List.getElem?_eq_some_iff.mp hget).1
    simp only [List.length_append, List.length_singleton] at hlt
    by_contra hne
    have hi : i < (P ++ List.replicate m e).length := by
      simp only [List.length_append] at hlt hne ⊢
      omega
    rw [List.getElem?_append_left hi] at hget
    exact hnot (List.getElem?_mem hget)

/-- The counters after an `insert` and a `remove` of the same entry: level by
level, a bucket that was resident has its old counter and a new bucket has
the counter 0. -/
theorem counters_undo {s s2 : St} {g g2 : Boxes} (hinv : Invariant s g)
    (hinv2 : Invariant s2 g2) (hlc : s2.hb.LEVEL_COUNT = s.hb.LEVEL_COUNT)
    (hres : ∀ l x y b, s.resident l x y = some b → s2.resident l x y = some b)
    (hold : ∀ l x y b, s.resident l x y = some b →
      (s2.buckets b).ITEM_LIST = (s.buckets b).ITEM_LIST)
    (hnew : ∀ l x y b, s2.resident l x y = some b → s.resident l x y = none →
      (s2.buckets b).ITEM_LIST = []) :
    ∀ l, (∀ x y b, s.resident l x y = some b → (s2.buckets b).COUNTER = (s.buckets b).COUNTER)
      ∧ (∀ x y b, s2.resident l x y = some b → s.resident l x y = none →
          (s2.buckets b).COUNTER = 0) := by
  intro l
  induction l using Nat.strong_induction_on with
  | _ l ih =>
    -- a child of a new bucket, or a new child of an old bucket, has the counter 0
    have hchild0 : ∀ x y b k c, s2.resident l x y = some b →
        (s2.buckets b).CHILDREN k = some c →
        (∀ c', (s.buckets b).CHILDREN k = some c' → s.resident l x y = none) →
        (s.resident l x y = none ∨ (s.buckets b).CHILDREN k = none) →
        (s2.buckets c).COUNTER = 0 := by
      intro x y b k c hb2 hk2 _ hcase
      obtain ⟨hk0, hk4, hl1, hc2⟩ := hinv2.tree.children l x y b k c hb2 hk2
      have hlt := hinv2.tree.level_lt hinv2.static hb2
      rw [hlc] at hlt
      refine (ih (l - 1) (by omega)).2 _ _ c hc2 ?_
      cases hc : s.resident (l - 1) (2 * x + k % 2) (2 * y + k / 2) with
      | none => rfl
      | some c' =>
        exfalso
        have hc'2 := hres _ _ _ _ hc
        rw [hc2] at hc'2
        cases hc'2
        obtain ⟨p, _, hp2, hp3⟩ := hinv.tree.parent (l - 1) _ _ c hc (by omega)
        have e1 : l - 1 + 1 = l := by omega
        have e2 : (2 * x + k % 2) / 2 = x := by omega
        have e3 : (2 * y + k / 2) / 2 = y := by omega
        rw [e1, e2, e3] at hp2
        rcases hcase with h0 | h0
        · rw [h0] at hp2
          cases hp2
        · have hp2' := hres _ _ _ _ hp2
          rw [hb2] at hp2'
          cases hp2'
          rw [e2, e3] at hp3
          have e4 : (2 * y + k / 2 - y * 2) * 2 + (2 * x + k % 2) - x * 2 = k := by omega
          rw [e4, h0] at hp3
          cases hp3
    constructor
    · intro x y b hb
      have hb2 := hres l x y b hb
      have hk := tree_kept hinv.static hinv.tree hinv2.tree hlc hres hb
      have hpc : ∀ k, s2.posChild b k = s.posChild b k := by
        intro k
        unfold St.posChild
        cases hck : (s.buckets b).CHILDREN k with
        | some c =>
          rw [hk.2.2 k c hck]
          obtain ⟨_, _, hl1, hc⟩ := hinv.tree.children l x y b k c hb hck
          have := (ih (l - 1) (by omega)).1 _ _ c hc
          simp only [this]
        | none =>
          cases hck2 : (s2.buckets b).CHILDREN k with
          | none => rfl
          | some c =>
            have := hchild0 x y b k c hb2 hck2 (fun c' h' => by rw [hck] at h'; cases h')
              (Or.inr hck)
            simp only [this]
            rfl
      have h1 := hinv.cnt l x y b hb
      have h2 := hinv2.cnt l x y b hb2
      unfold St.CntAt St.expected at h1 h2
      rw [h1, h2, hold l x y b hb, hpc 0, hpc 1, hpc 2, hpc 3]
    · intro x y b hb2 hnone
      have hpc : ∀ k, s2.posChild b k = 0 := by
        intro k
        unfold St.posChild
        cases hck2 : (s2.buckets b).CHILDREN k with
        | none => rfl
        | some c =>
          have := hchild0 x y b k c hb2 hck2 (fun _ _ => hnone) (Or.inl hnone)
          simp only [this]
          rfl
      have h2 := hinv2.cnt l x y b hb2
      unfold St.CntAt St.expected at h2
      rw [h2, hnew l x y b hb2 hnone, hpc 0, hpc 1, hpc 2, hpc 3]
      simp

/-- `insert` of an entry that is not contained, followed by `remove` of the
entry: both return; every bucket that was resident is resident with its item
list and counter as before, the other entries are as before, and a bucket
that has become resident is empty with the counter 0. -/
theorem insert_remove_undo {s : St} {g : Boxes} {e : Nat} {b : Bounds} {box : Box}
    (hinv : Invariant s g) (hnc : HashBounds.contains s e = false)
    (hb : b.numeric = some box) (hw : 0 ≤ box.width) (hh : 0 ≤ box.height) :
    (HashBounds.insert e b).val s = .ok ()
    ∧ (HashBounds.remove e).val ((HashBounds.insert e b).exec s) = .ok ()
    ∧ (∀ l x y bk, s.resident l x y = some bk →
        ((HashBounds.remove e).exec ((HashBounds.insert e b).exec s)).resident l x y = some bk
        ∧ (((HashBounds.remove e).exec ((HashBounds.insert e b).exec s)).buckets bk).ITEM_LIST
            = (s.buckets bk).ITEM_LIST
        ∧ (((HashBounds.remove e).exec ((HashBounds.insert e b).exec s)).buckets bk).COUNTER
            = (s.buckets bk).COUNTER)
    ∧ (∀ e', e' ≠ e →
        ((HashBounds.remove e).exec ((HashBounds.insert e b).exec s)).entries e' = s.entries e')
    ∧ (∀ l x y bk,
        ((HashBounds.remove e).exec ((HashBounds.insert e b).exec s)).resident l x y = some bk →
        s.resident l x y = none →
        (((HashBounds.remove e).exec ((HashBounds.insert e b).exec s)).buckets bk).ITEM_LIST = []
        ∧ (((HashBounds.remove e).exec ((HashBounds.insert e b).exec s)).buckets bk).COUNTER
            = 0) := by
  obtain ⟨_, hval1, ⟨hinv1, hst1⟩, happ⟩ :=
    M.Ok_val (M.Ok_post (insert_ok hinv hnc hb hw hh) (insert_app e b s))
  generalize (HashBounds.insert e b).exec s = s1 at hval1 hinv1 hst1 happ ⊢
  have hg1 : Function.update g e (some box) e = some box := by simp
  have hct1 : HashBounds.contains s1 e = true := (hinv1.boxes.1 e).mpr (by rw [hg1]; rfl)
  obtain ⟨c, l, hc, hl, hH⟩ := last_of_appended hinv hnc hinv1 hct1 happ
  obtain ⟨_, hval2, ⟨hinv2, hst2⟩, hlists, hothers⟩ :=
    M.Ok_val (M.Ok_post (remove_inv hinv1 hct1) (remove_pop_all hc hl hH))
  generalize (HashBounds.remove e).exec s1 = s2 at hval2 hinv2 hst2 hlists hothers ⊢
  have hnc2 : HashBounds.contains s2 e = false := by
    have := hinv2.boxes.1 e
    simp only [Function.update_same, Option.isSome_none] at this
    cases hcc : HashBounds.contains s2 e with
    | false => rfl
    | true => exact absurd (this.mp hcc) (by simp)
  have hres : ∀ l x y bk, s.resident l x y = some bk → s2.resident l x y = some bk :=
    fun l x y bk h => hst2.res _ _ _ _ (hst1.res _ _ _ _ h)
  have hlc : s2.hb.LEVEL_COUNT = s.hb.LEVEL_COUNT := by
    rw [hst2.levelCount_eq_step, hst1.levelCount_eq_step]
  have hid : s2.hb.ID = s.hb.ID := by rw [hst2.id_eq_step, hst1.id_eq_step]
  have hent : ∀ e', e' ≠ e → s2.entries e' = s.entries e' := by
    intro e' hne
    rw [hothers e' hne, happ.others e' hne]
  have hnot : ∀ l x y bk, s.resident l x y = some bk → e ∉ (s.buckets bk).ITEM_LIST := by
    intro l x y bk hbk hm
    have := hinv.contains_of_mem hbk hm
    rw [hnc] at this
    cases this
  have hnot2 : ∀ l x y bk, s2.resident l x y = some bk → e ∉ (s2.buckets bk).ITEM_LIST := by
    intro l x y bk hbk hm
    have := hinv2.contains_of_mem hbk hm
    rw [hnc2] at this
    cases this
  have hold : ∀ l x y bk, s.resident l x y = some bk →
      (s2.buckets bk).ITEM_LIST = (s.buckets bk).ITEM_LIST := by
    intro l x y bk hbk
    obtain ⟨n, hn⟩ := happ.old bk (hinv.tree.lt l x y bk hbk)
    have hn0 := hnot l x y bk hbk
    have hn2 := hnot2 l x y bk (hres l x y bk hbk)
    rcases hlists bk with h1 | h1
    · rw [h1, hn]
      cases n with
      | zero => simp
      | succ m =>
        exfalso
        apply hn2
        rw [h1, hn]
        simp
    · rw [hn] at h1
      cases n with
      | zero =>
        exfalso
        apply hn0
        simp only [List.replicate_zero, List.append_nil] at h1
        rw [h1]
        simp
      | succ m =>
        rw [List.replicate_succ', ← List.append_assoc] at h1
        have h2 := List.append_inj_left' h1 rfl
        rw [← h2]
        cases m with
        | zero => simp
        | succ k =>
          exfalso
          apply hn2
          rw [← h2]
          simp
  have hnew : ∀ l x y bk, s2.resident l x y = some bk → s.resident l x y = none →
      (s2.buckets bk).ITEM_LIST = [] := by
    intro l x y bk hbk hnone
    rw [List.eq_nil_iff_forall_not_mem]
    intro e' hm
    have hne : e' ≠ e := by
      rintro rfl
      exact hnot2 l x y bk hbk hm
    obtain ⟨i, hi⟩ := List.getElem?_of_mem hm
    obtain ⟨hreg, _⟩ := hinv2.items.fwd l x y bk i e' hbk hi
    have hreg' : s.regs e' l x y := by
      unfold St.regs St.cache at hreg ⊢
      rw [hid, hent e' hne] at hreg
      exact hreg
    obtain ⟨_, b', _, _, _, hb', _⟩ := hinv.items.bwd e' l x y hreg'
    rw [hnone] at hb'
    cases hb'
  have hcnt := counters_undo hinv hinv2 hlc hres hold hnew
  refine ⟨hval1, hval2, ?_, hent, ?_⟩
  · intro l x y bk hbk
    exact ⟨hres l x y bk hbk, hold l x y bk hbk, (hcnt l).1 x y bk hbk⟩
  · intro l x y bk hbk hnone
    exact ⟨hnew l x y bk hbk hnone, (hcnt l).2 x y bk hbk hnone⟩

/-! # The example states are reachable -/

theorem reach_exTouch0 : Reach exTouch0 (fun _ => none) :=
  Reach.init St.blank 16 2 none none (by norm_num) (fun _ => rfl) (by decide!)

theorem reach_exTouch1 :
    Reach exTouch1 (Function.update (fun _ => none) 0 (some ⟨0, 0, 1, 1, 1, 1⟩)) :=
  Reach.insert exTouch0 _ 0 (Bounds.ps 0 0 1 1) ⟨0, 0, 1, 1, 1, 1⟩ reach_exTouch0
    (by decide!) (by norm_num) (by norm_num) (by decide!)

theorem reach_exTouch : Reach exTouch boxesTouch :=
  Reach.insert exTouch1 _ 1 (Bounds.ps 16 0 1 1) ⟨16, 0, 17, 1, 1, 1⟩ reach_exTouch1
    (by decide!) (by norm_num) (by norm_num) (by decide!)

theorem reach_exNegative0 : Reach exNegative0 (fun _ => none) :=
  Reach.init St.blank 16 1 none none (by norm_num) (fun _ => rfl) (by decide!)

theorem reach_exNegative : Reach exNegative boxesNegative :=
  Reach.insert exNegative0 _ 0 (Bounds.ps (-16) 0 1 1) ⟨-16, 0, -15, 1, 1, 1⟩
    reach_exNegative0 (by decide!) (by norm_num) (by norm_num) (by decide!)

theorem reach_exRemoved : Reach exRemoved (Function.update boxesNegative 0 none) :=
  Reach.remove exNegative _ 0 reach_exNegative (by decide!)

theorem reach_exReinserted :
    Reach exReinserted
      (Function.update (Function.update boxesNegative 0 none) 0
        (some ⟨-16, 0, -15, 1, 1, 1⟩)) :=
  Reach.insert exRemoved _ 0 (Bounds.ps (-16) 0 1 1) ⟨-16, 0, -15, 1, 1, 1⟩
    reach_exRemoved (by decide!) (by norm_num) (by norm_num) (by decide!)

theorem reach_exTouchRemoved : Reach exTouchRemoved (Function.update boxesTouch 1 none) :=
  Reach.remove exTouch _ 1 reach_exTouch (by decide!)

theorem reach_exColumn1 :
    Reach exColumn1 (Function.update (fun _ => none) 0 (some ⟨0, 0, 1, 1, 1, 1⟩)) :=
  Reach.insert exTouch0 _ 0 (Bounds.ps 0 0 1 1) ⟨0, 0, 1, 1, 1, 1⟩ reach_exTouch0
    (by decide!) (by norm_num) (by norm_num) (by decide!)

theorem reach_exColumn : Reach exColumn boxesColumn :=
  Reach.insert exColumn1 _ 1 (Bounds.ps 0 16 1 1) ⟨0, 16, 1, 17, 1, 1⟩ reach_exColumn1
    (by decide!) (by norm_num) (by norm_num) (by decide!)

theorem reach_exColumnRemoved : Reach exColumnRemoved (Function.update boxesColumn 1 none) :=
  Reach.remove exColumn _ 1 reach_exColumn (by decide!)

theorem reach_exThree0 : Reach exThree0 (fun _ => none) :=
  Reach.init St.blank 16 3 none none (by norm_num) (fun _ => rfl) (by decide!)

theorem reach_exThree1 :
    Reach exThree1 (Function.update (fun _ => none) 0 (some ⟨0, 0, 1, 1, 1, 1⟩)) :=
  Reach.insert exThree0 _ 0 (Bounds.ps 0 0 1 1) ⟨0, 0, 1, 1, 1, 1⟩ reach_exThree0
    (by decide!) (by norm_num) (by norm_num) (by decide!)

theorem reach_exThree : Reach exThree boxesThree :=
  Reach.insert exThree1 _ 1 (Bounds.ps 16 0 1 1) ⟨16, 0, 17, 1, 1, 1⟩ reach_exThree1
    (by decide!) (by norm_num) (by norm_num) (by decide!)

theorem reach_exFar1 :
    Reach exFar1 (Function.update (fun _ => none) 0 (some ⟨256, 0, 257, 1, 1, 1⟩)) :=
  Reach.insert exNegative0 _ 0 (Bounds.ps 256 0 1 1) ⟨256, 0, 257, 1, 1, 1⟩ reach_exNegative0
    (by decide!) (by norm_num) (by norm_num) (by decide!)

theorem reach_exFar2 : Reach exFar2 boxesFar :=
  Reach.insert exFar1 _ 1 (Bounds.ps 16 0 1 1) ⟨16, 0, 17, 1, 1, 1⟩ reach_exFar1
    (by decide!) (by norm_num) (by norm_num) (by decide!)

theorem reach_exFar3 : Reach exFar3 (Function.update boxesFar 1 none) :=
  Reach.remove exFar2 _ 1 reach_exFar2 (by decide!)

theorem reach_exWarm : Reach exWarm (fun _ => none) :=
  Reach.init St.blank 16 1 (some (Bounds.mm 0 0 16 16)) none (by norm_num) (fun _ => rfl)
    (by decide!)

theorem reach_exWide : Reach exWide boxesWide :=
  Reach.insert exNegative0 _ 0 (Bounds.ps 8 0 16 1) ⟨8, 0, 24, 1, 16, 1⟩ reach_exNegative0
    (by decide!) (by norm_num) (by norm_num) (by decide!)

theorem reach_exSeven :
    Reach exSeven (Function.update (fun _ => none) 0 (some ⟨49, 0, 50, 1, 1, 1⟩)) :=
  Reach.insert exSeven0 _ 0 (Bounds.ps 49 0 1 1) ⟨49, 0, 50, 1, 1, 1⟩
    (Reach.init St.blank 49 1 none none (by norm_num) (fun _ => rfl) (by decide!))
    (by decide!) (by norm_num) (by norm_num) (by decide!)

theorem reach_exSquare :
    Reach exSquare (Function.update (fun _ => none) 0 (some ⟨196, 196, 245, 245, 49, 49⟩)) :=
  Reach.insert exSquare0 _ 0 (Bounds.ps 196 196 49 49) ⟨196, 196, 245, 245, 49, 49⟩
    (Reach.init St.blank 49 2 none none (by norm_num) (fun _ => rfl) (by decide!))
    (by decide!) (by norm_num) (by norm_num) (by decide!)

theorem reach_exThird :
    Reach exThird
      (Function.update (fun _ => none) 0 (some ⟨0, 0, aboveThree, 1, aboveThree, 1⟩)) :=
  Reach.insert exThird0 _ 0 (Bounds.ps 0 0 aboveThree 1) ⟨0, 0, aboveThree, 1, aboveThree, 1⟩
    (Reach.init St.blank 3 2 none none (by norm_num) (fun _ => rfl) (by decide!))
    (by decide!) (by decide!) (by norm_num) (by decide!)

theorem reach_exFive :
    Reach exFive
      (Function.update (Function.update (fun _ => none) 0 (some ⟨11, 0, 12, 1, 1, 1⟩))
        1 (some ⟨belowFifteen, 0, belowFifteen + 1, 1, 1, 1⟩)) :=
  Reach.insert exFive1 _ 1 (Bounds.ps belowFifteen 0 1 1)
    ⟨belowFifteen, 0, belowFifteen + 1, 1, 1, 1⟩
    (Reach.insert exFive0 _ 0 (Bounds.ps 11 0 1 1) ⟨11, 0, 12, 1, 1, 1⟩
      (Reach.init St.blank 5 2 none none (by norm_num) (fun _ => rfl) (by decide!))
      (by decide!) (by norm_num) (by norm_num) (by decide!))
    (by decide!) (by norm_num) (by norm_num) (by decide!)

/-- A state reached with boxes of bounded bucket coordinates is reachable. -/
theorem ReachSafe.toReach {s : St} {g : Boxes} (h : ReachSafe s g) : Reach s g := by
  induction h with
  | init s0 minSize levelCount ib id h1 h2 h3 => exact Reach.init s0 minSize levelCount ib id h1 h2 h3
  | insert s g e b box _ h1 h2 h3 _ h5 ih => exact Reach.insert s g e b box ih h1 h2 h3 h5
  | update s g e b box r _ h1 h2 h3 _ h5 ih => exact Reach.update s g e b box r ih h1 h2 h3 h5
  | remove s g e _ h1 ih => exact Reach.remove s g e ih h1
  | query s g b call r _ h1 h2 ih => exact Reach.query s g b call r ih h1 h2

theorem reachSafe_exThree : ReachSafe exThree boxesThree :=
  ReachSafe.insert exThree1 _ 1 (Bounds.ps 16 0 1 1) ⟨16, 0, 17, 1, 1, 1⟩
    (ReachSafe.insert exThree0 _ 0 (Bounds.ps 0 0 1 1) ⟨0, 0, 1, 1, 1, 1⟩
      (ReachSafe.init St.blank 16 3 none none (by norm_num) (fun _ => rfl) (by decide!))
      (by decide!) (by norm_num) (by norm_num)
      (by unfold HashBounds.safeBox; decide!) (by decide!))
    (by decide!) (by norm_num) (by norm_num)
    (by unfold HashBounds.safeBox; decide!) (by decide!)

/-! # Theorems -/

/-- C1 (the code at the failing input). The state `exTouch` is reachable, its
entry 1 is contained with current box `[16,17] × [0,1]`, and that box overlaps
the query box `[0,16] × [0,1]` in the sense of `boundsOverlap` (they share the
edge `x = 16`), yet `toArray` of that box returns entry 0 only: `getQuad`
sends a query with `maxX = HALFX` to the left quadrants alone. -/
theorem C1_edge_touching_entry_is_missed :
    Reach exTouch boxesTouch
    ∧ boxesTouch 1 = some ⟨16, 0, 17, 1, 1, 1⟩
    ∧ HashBounds.contains exTouch 1 = true
    ∧ HashBounds.boundsOverlap ⟨16, 0, 17, 1, 1, 1⟩ ⟨0, 0, 16, 1, 16, 1⟩ = true
    ∧ (HashBounds.toArray (some (Bounds.mm 0 0 16 1))).val exTouch = .ok [0] :=
  ⟨reach_exTouch, by decide!, by decide!, by decide!, by decide!⟩

/-- C2 (deduplication). In every reachable state, whenever a query returns,
with or without a box and whatever the visitor answers, the list of the
entries it handed to the visitor holds no entry twice; in particular no
result of `toArray` holds an entry twice. -/
theorem C2_query_visits_no_entry_twice (s : St) (g : Boxes) (h : Reach s g)
    (b : Option Bounds) (call : Visitor) :
    (∀ r tr, (HashBounds.query b call).val s = .ok (r, tr) → tr.Nodup)
    ∧ (∀ tr, (HashBounds.toArray b).val s = .ok tr → tr.Nodup) := by
  have key : ∀ call' : Visitor, ∀ r tr,
      (HashBounds.query b call').val s = .ok (r, tr) → tr.Nodup := by
    intro call' r tr hval
    cases hq : HashBounds.queryBox b with
    | error err =>
      simp [HashBounds.query, M.val, hq, M.throw] at hval
    | ok qb =>
      have hok : (HashBounds.query b call').Ok s (fun r _ => r.2.Nodup) := by
        refine M.Ok_mono (query_ok h.invariant b call' qb hq) ?_
        rintro r s' ⟨_, ext, h1, h2, _⟩
        rw [h1]
        simpa using h2
      obtain ⟨⟨r', tr'⟩, h1, h2⟩ := M.Ok_val hok
      rw [h1] at hval
      cases hval
      exact h2
  refine ⟨key call, ?_⟩
  intro tr hval
  cases hq : HashBounds.queryBox b with
  | error err =>
    simp [HashBounds.toArray, HashBounds.query, M.val, hq, M.throw, bind, M.andThen] at hval
  | ok qb =>
    have hok : (HashBounds.toArray b).Ok s (fun tr _ => tr.Nodup) := by
      simp only [HashBounds.toArray, M.Ok_bind, M.Ok_pure]
      refine M.Ok_mono (query_ok h.invariant b _ qb hq) ?_
      rintro r s' ⟨_, ext, h1, h2, _⟩
      rw [h1]
      simpa using h2
    obtain ⟨tr', h1, h2⟩ := M.Ok_val hok
    rw [h1] at hval
    cases hval
    exact h2

/-- C2 at a concrete input: the index `exWide`, whose entry 0 is in the item
lists of the two buckets `(0, 0)` and `(1, 0)`, and the box `[12, 20] × [0, 1]`,
which meets both buckets: `toArray` returns the entry once. -/
theorem C2_query_visits_no_entry_twice_witness :
    Reach exWide boxesWide
    ∧ exWide.resident 0 0 0 = some 0 ∧ (exWide.buckets 0).ITEM_LIST = [0]
    ∧ exWide.resident 0 1 0 = some 1 ∧ (exWide.buckets 1).ITEM_LIST = [0]
    ∧ (exWide.hb.LEVELS.map (fun gr => gr.span ⟨12, 0, 20, 1, 8, 1⟩)) = [(0, 0, 1, 0)]
    ∧ (HashBounds.toArray (some (Bounds.mm 12 0 20 1))).val exWide = .ok [0]
    ∧ ([0] : List Nat).Nodup :=
  ⟨reach_exWide, by decide!, by decide!, by decide!, by decide!, by decide!, by decide!,
   (C2_query_visits_no_entry_twice exWide boxesWide reach_exWide
     (some (Bounds.mm 12 0 20 1)) (fun _ _ => true)).2 [0] (by decide!)⟩

/-- C3 (the code at the failing input). The state `exNegative` is reachable,
its entry 0 is contained and a query with its own box finds it, yet
`toArray()` without a box returns the empty array: `Array.prototype.every`
does not visit the key `-1` of `BUCKET_GRID`. -/
theorem C3_unbounded_query_skips_negative_buckets :
    Reach exNegative boxesNegative
    ∧ HashBounds.contains exNegative 0 = true
    ∧ (HashBounds.toArray (some (Bounds.ps (-16) 0 1 1))).val exNegative = .ok [0]
    ∧ (HashBounds.toArray none).val exNegative = .ok [] :=
  ⟨reach_exNegative, by decide!, by decide!, by decide!⟩

/-- C4 (the claim as written fails). The index `exTouch` is not empty, yet
`every` with a box that reaches no entry and a visitor that always answers
`false` never invokes the visitor, and returns `true`. -/
theorem C4_false_visitor_never_invoked :
    Reach exTouch boxesTouch
    ∧ HashBounds.contains exTouch 0 = true
    ∧ (HashBounds.query (some (Bounds.ps 100 100 1 1)) (fun _ _ => false)).val exTouch
        = .ok (true, [])
    ∧ (HashBounds.every (some (Bounds.ps 100 100 1 1)) (fun _ _ => false)).val exTouch
        = .ok true :=
  ⟨reach_exTouch, by decide!, by decide!, by decide!⟩

/-- C4 (amended). In every reachable state `every` returns; with `tr` the
list of the entries handed to the visitor, in order, it returns `false` if
and only if some invocation of the visitor answered `false`, no invocation
follows one that answered `false`, and a visitor that always answers `false`
is invoked at most once, exactly once if and only if `every` returns
`false`. -/
theorem C4_every_cancellation (s : St) (g : Boxes) (h : Reach s g)
    (b : Option Bounds) (call : Visitor) (qb : Option (Option Box))
    (hq : HashBounds.queryBox b = .ok qb) :
    ∃ r tr, (HashBounds.query b call).val s = .ok (r, tr)
      ∧ (HashBounds.every b call).val s = .ok r
      ∧ (r = false ↔ ∃ p e q, tr = p ++ e :: q ∧ call p e = false)
      ∧ (∀ p e q, tr = p ++ e :: q → call p e = false → q = [])
      ∧ ((∀ p e, call p e = false) → tr.length ≤ 1 ∧ (tr.length = 1 ↔ r = false)) := by
  have hw := query_ok h.invariant b call qb hq
  obtain ⟨⟨r, tr⟩, hval, hwalk⟩ := M.Ok_val hw
  have hev : (HashBounds.every b call).val s = .ok r := by
    have : HashBounds.query b call s = (.ok (r, tr), (HashBounds.query b call).exec s) := by
      have h1 : (HashBounds.query b call s).1 = .ok (r, tr) := hval
      exact Prod.ext h1 rfl
    simp [HashBounds.every, M.val, bind, M.andThen, this, pure, M.ret]
  obtain ⟨_, ext, h1, _, _, hc, hne⟩ := hwalk
  simp only [List.nil_append] at h1 hc
  subst h1
  have hfalse : r = false ↔ ∃ p e q, tr = p ++ e :: q ∧ call p e = false := by
    constructor
    · intro hr
      have hne' := hne hr
      refine ⟨tr.dropLast, tr.getLast hne', [], (List.dropLast_append_getLast hne').symm, ?_⟩
      exact (hc _ _ [] (List.dropLast_append_getLast hne').symm).mpr ⟨rfl, hr⟩
    · rintro ⟨p, e, q, hpq, hcall⟩
      exact ((hc p e q hpq).mp hcall).2
  refine ⟨r, tr, hval, hev, hfalse, ?_, ?_⟩
  · intro p e q hpq hcall
    exact ((hc p e q hpq).mp hcall).1
  · intro hall
    cases hext : tr with
    | nil =>
      refine ⟨by simp, ?_⟩
      constructor
      · intro h0
        simp at h0
      · intro hr
        exact absurd hext (hne hr)
    | cons e q =>
      have := (hc [] e q (by rw [hext]; rfl)).mp (hall [] e)
      obtain ⟨hq', hr⟩ := this
      subst hq'
      exact ⟨by simp, fun _ => hr, fun _ => by simp⟩

/-- C4 (amended) at a concrete input: the two-entry index `exTouch`, a box
that reaches entry 0, a visitor that always answers `false`. -/
theorem C4_every_cancellation_witness :
    Reach exTouch boxesTouch
    ∧ HashBounds.queryBox (some (Bounds.mm 0 0 16 1)) = .ok (some (some ⟨0, 0, 16, 1, 16, 1⟩))
    ∧ ∃ r tr, (HashBounds.query (some (Bounds.mm 0 0 16 1)) (fun _ _ => false)).val exTouch
          = .ok (r, tr)
      ∧ (HashBounds.every (some (Bounds.mm 0 0 16 1)) (fun _ _ => false)).val exTouch = .ok r
      ∧ (r = false ↔ ∃ p e q, tr = p ++ e :: q ∧ (fun _ _ => false : Visitor) p e = false)
      ∧ (∀ p e q, tr = p ++ e :: q → (fun _ _ => false : Visitor) p e = false → q = [])
      ∧ ((∀ p e, (fun _ _ => false : Visitor) p e = false) →
          tr.length ≤ 1 ∧ (tr.length = 1 ↔ r = false)) :=
  ⟨reach_exTouch, by decide!,
   C4_every_cancellation exTouch boxesTouch reach_exTouch
     (some (Bounds.mm 0 0 16 1)) (fun _ _ => false) (some (some ⟨0, 0, 16, 1, 16, 1⟩))
     (by decide!)⟩

/-- C5 (the code at the failing input). `new HashBounds(49, 1)`, then
`insert(e, {x: 49, y: 0, width: 1, height: 1})`: the state `exSeven` is
reachable, and entry 0 is contained with the box `[49, 50] × [0, 1]` on the
only level, of bucket size 49. The floor of `49 / 49` is 1, but the record
holds `k1x = 0`: the source multiplies by `BUCKETSIZE_INV`, the double
nearest to `1 / 49`, and the rounded product is below 1. The entry is in the
item lists of the buckets `(0, 0)` and `(1, 0)`. -/
theorem C5_span_of_rounded_product :
    Reach exSeven (Function.update (fun _ => none) 0 (some ⟨49, 0, 50, 1, 1, 1⟩))
    ∧ HashBounds.contains exSeven 0 = true
    ∧ exSeven.hb.LEVELS.map (fun gr => gr.BUCKETSIZE) = [49]
    ∧ ⌊(49 : ℚ) / 49⌋ = 1
    ∧ exSeven.hb.LEVELS.map (fun gr => ⌊fl (49 * gr.BUCKETSIZE_INV)⌋) = [0]
    ∧ (exSeven.cache 0 exSeven.hb.ID).map
        (fun c => (c.cachedIndex, c.k1x, c.k1y, c.k2x, c.k2y)) = some (some 0, 0, 0, 1, 0)
    ∧ exSeven.resident 0 0 0 = some 0 ∧ (exSeven.buckets 0).ITEM_LIST = [0]
    ∧ exSeven.resident 0 1 0 = some 1 ∧ (exSeven.buckets 1).ITEM_LIST = [0] :=
  ⟨reach_exSeven, by decide!, by decide!, by decide!, by decide!, by decide!, by decide!,
    by decide!, by decide!, by decide!⟩

/-- C6 (the code at the failing input). `new HashBounds(1, 1)`, then `insert`
of the entries 0 and 1 with the box `{x: 0, y: 9007199254740990, width: 1,
height: 1}` and `remove` of entry 0; the calls return. The records hold the
span `k1x = 0`, `k1y = 2 ^ 53 - 2`, `k2x = 1`, `k2y = 2 ^ 53 - 1`. For the
bucket `(1, 2 ^ 53 - 1)` the slot key of `HashGrid.insert` and
`HashGrid.remove` is 3, but the `swapKey` of `TreeBucket.remove` is 2: its
sum `2 + (2 ^ 53 - 1)` rounds to `2 ^ 53`. After `remove` of entry 0, entry
1 is contained and is the only item of that bucket, at position 0, while
its slot index under key 3 is still 1: the slot index does not point at the
entry, and it lies outside the item list, where the next `remove` reads
it. -/
theorem C6_stale_slot_index_after_swap :
    (HashBounds.insertD 0 (Bounds.ps 0 (2 ^ 53 - 2) 1 1)).val exEdge0 = .ok ()
    ∧ (HashBounds.insertD 1 (Bounds.ps 0 (2 ^ 53 - 2) 1 1)).val exEdge1 = .ok ()
    ∧ (HashBounds.removeD 0).val exEdge2 = .ok ()
    ∧ HashBounds.contains exEdge3 1 = true
    ∧ (exEdge3.cache 1 exEdge3.hb.ID).map
        (fun c => (c.cachedIndex, c.k1x, c.k1y, c.k2x, c.k2y))
      = some (some 0, 0, 2 ^ 53 - 2, 1, 2 ^ 53 - 1)
    ∧ (exEdge3.cache 1 exEdge3.hb.ID).map
        (fun c => (c.keyD 1 (2 ^ 53 - 1), c.swapKeyD 1 (2 ^ 53 - 1))) = some (3, 2)
    ∧ fl (2 + (2 ^ 53 - 1)) = 2 ^ 53
    ∧ exEdge3.resident 0 1 (2 ^ 53 - 1) = some 3
    ∧ (exEdge3.buckets 3).ITEM_LIST = [1]
    ∧ (exEdge3.cache 1 exEdge3.hb.ID).map (fun c => c.indexes 3) = some (some 1)
    ∧ (exEdge3.buckets 3).ITEM_LIST[1]? = none :=
  ⟨by decide!, by decide!, by decide!, by decide!, by decide!, by decide!, by decide!,
    by decide!, by decide!, by decide!, by decide!⟩

/-- C7 (the code at the failing input). `new HashBounds(1, 1)`, then `insert`
of the entries 0 and 1 with the box `{x: 0, y: 9007199254740990, width: 1,
height: 1}`, `remove` of entry 0 and `remove` of entry 1; the calls return.
No entry is contained any more, yet the bucket `(1, 2 ^ 53 - 1)` is resident
with the item list `[1]` and the counter 0: the last `remove` has read the
stale slot index 1 of entry 1, copied the item at position 0 to position 1,
popped it again and decremented the counter. -/
theorem C7_nonempty_bucket_with_counter_zero :
    (HashBounds.insertD 0 (Bounds.ps 0 (2 ^ 53 - 2) 1 1)).val exEdge0 = .ok ()
    ∧ (HashBounds.insertD 1 (Bounds.ps 0 (2 ^ 53 - 2) 1 1)).val exEdge1 = .ok ()
    ∧ (HashBounds.removeD 0).val exEdge2 = .ok ()
    ∧ (HashBounds.removeD 1).val exEdge3 = .ok ()
    ∧ HashBounds.contains exEdge4 0 = false
    ∧ HashBounds.contains exEdge4 1 = false
    ∧ exEdge4.resident 0 1 (2 ^ 53 - 1) = some 3
    ∧ (exEdge4.buckets 3).ITEM_LIST = [1]
    ∧ (exEdge4.buckets 3).COUNTER = 0 :=
  ⟨by decide!, by decide!, by decide!, by decide!, by decide!, by decide!, by decide!,
    by decide!, by decide!⟩

/-- C8 (the code at the failing input). The state `exRemoved` is reachable
and holds no entry; `prune()` returns, and afterwards the bucket `(-1, 0)`
is still resident in the grid with `COUNTER` 0:
`Array.prototype.forEach` does not visit the key `-1` of `BUCKET_GRID`. -/
theorem C8_prune_leaves_empty_bucket :
    Reach exRemoved (Function.update boxesNegative 0 none)
    ∧ HashBounds.prune.val exRemoved = .ok ()
    ∧ HashBounds.contains exNegativePruned 0 = false
    ∧ (HashGrid.getBucket 0 (-1) 0).val exNegativePruned = .ok (some 0)
    ∧ (exNegativePruned.buckets 0).COUNTER = 0 :=
  ⟨reach_exRemoved, by decide!, by decide!, by decide!, by decide!⟩

/-- C9 (`insert` and `contains`). In every reachable state, for a bounds
object that converts to a box of non-negative width and height, `insert`
raises an error if and only if the entry is contained beforehand; the error
is then `alreadyPresent` and the state is unchanged; and when `insert`
returns, the entry is contained afterwards. -/
theorem C9_insert_error_iff_contained (s : St) (g : Boxes) (h : Reach s g) (e : Nat)
    (b : Bounds) (box : Box) (hb : b.numeric = some box) (hw : 0 ≤ box.width)
    (hh : 0 ≤ box.height) :
    ((∃ err, (HashBounds.insert e b).val s = .error err) ↔ HashBounds.contains s e = true)
    ∧ (HashBounds.contains s e = true →
        (HashBounds.insert e b).val s = .error .alreadyPresent
        ∧ (HashBounds.insert e b).exec s = s)
    ∧ ((HashBounds.insert e b).val s = .ok () →
        HashBounds.contains ((HashBounds.insert e b).exec s) e = true) := by
  have hinv := h.invariant
  have hyes : HashBounds.contains s e = true →
      (HashBounds.insert e b).val s = .error .alreadyPresent
      ∧ (HashBounds.insert e b).exec s = s := by
    intro hc
    have := insert_present b hc
    exact ⟨by rw [M.val, this], by rw [M.exec, this]⟩
  have hno : HashBounds.contains s e = false →
      (HashBounds.insert e b).val s = .ok ()
      ∧ HashBounds.contains ((HashBounds.insert e b).exec s) e = true := by
    intro hc
    obtain ⟨a, ha, hQ⟩ := M.Ok_val (insert_ok hinv hc hb hw hh)
    refine ⟨ha, ?_⟩
    have := (hQ.1.boxes.1 e).mpr (by rw [Function.update_same]; rfl)
    exact this
  refine ⟨?_, hyes, ?_⟩
  · constructor
    · rintro ⟨err, herr⟩
      by_contra hc
      rw [Bool.not_eq_true] at hc
      rw [(hno hc).1] at herr
      cases herr
    · intro hc
      exact ⟨_, (hyes hc).1⟩
  · intro hok
    cases hc : HashBounds.contains s e with
    | false => exact (hno hc).2
    | true =>
      rw [(hyes hc).1] at hok
      cases hok

/-- C9 at a concrete input, the two-entry index `exTouch` and the box
`[0, 1] × [0, 1]`: for entry 0, which is contained, `insert` raises
`alreadyPresent` and leaves the state as it is; for entry 2, which is not,
`insert` returns and the entry is contained afterwards. -/
theorem C9_insert_error_iff_contained_witness :
    Reach exTouch boxesTouch
    ∧ (Bounds.ps 0 0 1 1).numeric = some ⟨0, 0, 1, 1, 1, 1⟩
    ∧ HashBounds.contains exTouch 0 = true
    ∧ (HashBounds.insert 0 (Bounds.ps 0 0 1 1)).val exTouch = .error .alreadyPresent
    ∧ (HashBounds.insert 0 (Bounds.ps 0 0 1 1)).exec exTouch = exTouch
    ∧ HashBounds.contains exTouch 2 = false
    ∧ (HashBounds.insert 2 (Bounds.ps 0 0 1 1)).val exTouch = .ok ()
    ∧ HashBounds.contains ((HashBounds.insert 2 (Bounds.ps 0 0 1 1)).exec exTouch) 2 = true :=
  ⟨reach_exTouch, by decide!, by decide!,
   ((C9_insert_error_iff_contained exTouch boxesTouch reach_exTouch 0 (Bounds.ps 0 0 1 1)
     ⟨0, 0, 1, 1, 1, 1⟩ (by decide!) (by norm_num) (by norm_num)).2.1 (by decide!)).1,
   ((C9_insert_error_iff_contained exTouch boxesTouch reach_exTouch 0 (Bounds.ps 0 0 1 1)
     ⟨0, 0, 1, 1, 1, 1⟩ (by decide!) (by norm_num) (by norm_num)).2.1 (by decide!)).2,
   by decide!, by decide!,
   (C9_insert_error_iff_contained exTouch boxesTouch reach_exTouch 2 (Bounds.ps 0 0 1 1)
     ⟨0, 0, 1, 1, 1, 1⟩ (by decide!) (by norm_num) (by norm_num)).2.2 (by decide!)⟩

/-- C10 (the code at the failing input). In the reachable state `exNegative`
`remove` of the entry returns and the entry is no longer contained; the
second `insert` returns, the entry is contained again and a query with its
own box finds it, yet `toArray()` without a box returns the empty array:
the bucket `(-1, 0)` that holds the entry is never visited. -/
theorem C10_reinserted_entry_missed_by_unbounded_query :
    Reach exReinserted
      (Function.update (Function.update boxesNegative 0 none) 0
        (some ⟨-16, 0, -15, 1, 1, 1⟩))
    ∧ (HashBounds.remove 0).val exNegative = .ok ()
    ∧ HashBounds.contains exRemoved 0 = false
    ∧ (HashBounds.insert 0 (Bounds.ps (-16) 0 1 1)).val exRemoved = .ok ()
    ∧ HashBounds.contains exReinserted 0 = true
    ∧ (HashBounds.toArray (some (Bounds.ps (-16) 0 1 1))).val exReinserted = .ok [0]
    ∧ (HashBounds.toArray none).val exReinserted = .ok [] :=
  ⟨reach_exReinserted, by decide!, by decide!, by decide!, by decide!, by decide!,
   by decide!⟩

/-! # Theorems on failure, construction, boxes and pruning -/

/-- C12 (the code at the failing input). In the reachable empty index
`exTouch0`, `insert` of entry 0 with the box `{x: 0, y: 0, width: -16,
height: -16}` stops with a `TypeError` (`getLevel` reads `LOG2CACHE[-1]`),
and `contains` of the entry has changed from `false` to `true`. In the
reachable index `exTouch1`, which contains entry 0, `update` with the same
box stops with a `TypeError` after the entry has been taken out of its
bucket: the item list and the counter of that bucket have changed. -/
theorem C12_failed_insert_marks_entry :
    Reach exTouch0 (fun _ => none)
    ∧ HashBounds.contains exTouch0 0 = false
    ∧ (HashBounds.insert 0 (Bounds.ps 0 0 (-16) (-16))).val exTouch0 = .error .typeError
    ∧ HashBounds.contains exNegSize 0 = true
    ∧ (HashBounds.update 0 (Bounds.ps 0 0 (-16) (-16))).val exTouch1 = .error .typeError
    ∧ exTouch1.resident 0 0 0 = some 0
    ∧ ((exTouch1.buckets 0).ITEM_LIST, (exTouch1.buckets 0).COUNTER) = ([0], 1)
    ∧ ((((HashBounds.update 0 (Bounds.ps 0 0 (-16) (-16))).exec exTouch1).buckets 0).ITEM_LIST,
        (((HashBounds.update 0 (Bounds.ps 0 0 (-16) (-16))).exec exTouch1).buckets 0).COUNTER)
      = ([], 0) :=
  ⟨reach_exTouch0, by decide!, by decide!, by decide!, by decide!, by decide!, by decide!,
    by decide!⟩

/-- C14 (the code at the failing input). `new HashBounds(16, 55)` stops with
a `RangeError`: `setupLog2` asks for a byte array of length `2 ^ 53 + 1`. The
same holds for every level count from 55 on, whatever the other arguments:
no such construction returns. A level count below 1 is refused with the
error of the source. -/
theorem C14_construction_range_error :
    (HashBounds.new 16 55 none none).val St.blank = .error .rangeError
    ∧ (∀ (s0 : St) (minSize : ℚ) (levelCount : Int) (ib : Option Bounds) (id : Option Nat),
        55 ≤ levelCount → (HashBounds.new minSize levelCount ib id).val s0 ≠ .ok ())
    ∧ (∀ (s0 : St) (minSize : ℚ) (levelCount : Int) (ib : Option Bounds) (id : Option Nat),
        levelCount < 1 →
        (HashBounds.new minSize levelCount ib id).val s0 = .error .levelCount) := by
  refine ⟨by decide!, ?_, ?_⟩
  · intro s0 minSize levelCount ib id h hval
    have := (new_levelCount hval).2.1
    omega
  · intro s0 minSize levelCount ib id h
    simp [HashBounds.new, h, M.val, M.throw]

/-- C16 (the code at the failing input). Two indexes `A` (id 0) and `B`
(id 1) are constructed over one store and entry 0 is inserted into both.
`B.toArray()` would return the entry; after the single call `A.toArray()`,
which returns the entry, `B.toArray()` returns nothing although
`B.contains` is still `true`: the stamp `_HashBoundsTempCheck` is one field
of the entry, shared by the two indexes, and both issue the query id 0. -/
theorem C16_query_on_one_index_hides_entry_in_other :
    (exTwoA1.hb.ID, exTwoB1.hb.ID) = (0, 1)
    ∧ HashBounds.contains (exTwoB1.withIndex exTwoA1.hb) 0 = true
    ∧ HashBounds.contains exTwoB1 0 = true
    ∧ (HashBounds.toArray none).val exTwoB1 = .ok [0]
    ∧ (HashBounds.toArray none).val (exTwoB1.withIndex exTwoA1.hb) = .ok [0]
    ∧ HashBounds.contains (exTwoA2.withIndex exTwoB1.hb) 0 = true
    ∧ (HashBounds.toArray none).val (exTwoA2.withIndex exTwoB1.hb) = .ok [] :=
  ⟨by decide!, by decide!, by decide!, by decide!, by decide!, by decide!, by decide!⟩

/-- C17 (the code at the failing input). The module sources construct
`new HashBounds(16, 1, {minX: 0, minY: 0, maxX: 16, maxY: 16})` with one
bucket, at `(0, 0)`: the buckets `(0, 1)`, `(1, 0)` and `(1, 1)`, which lie
within `floor(0 / 16) ≤ x, y ≤ ceil(16 / 16)`, do not exist, because the
loops of `initializeArea` stop below the upper end. -/
theorem C17_prewarming_stops_below_upper_end :
    Reach exWarm (fun _ => none)
    ∧ ((⌊(0 : ℚ) / 16⌋ : Int), (⌈(16 : ℚ) / 16⌉ : Int)) = (0, 1)
    ∧ exWarm.resident 0 0 0 = some 0
    ∧ exWarm.resident 0 0 1 = none
    ∧ exWarm.resident 0 1 0 = none
    ∧ exWarm.resident 0 1 1 = none
    ∧ exWarm.nextBucket = 1 :=
  ⟨reach_exWarm, by norm_num, by decide!, by decide!, by decide!, by decide!, by decide!⟩

/-- C18 (the code at the failing input). On the freshly constructed index
`exWarm`, whose initial bounds are `[0, 16] × [0, 16]`, `boundsFitsInHash`
answers `true` for the box `[0, 16] × [0, 16]`; the box goes to level 0 with
the span `(0, 0)` to `(1, 1)`, of which bucket `(1, 1)` does not exist, and
`insert` of an entry with that box creates three buckets. -/
theorem C18_fitting_box_creates_buckets :
    (HashBounds.boundsFitsInHash (Bounds.mm 0 0 16 16)).val exWarm = .ok true
    ∧ (HashBounds.insert 0 (Bounds.mm 0 0 16 16)).val exWarm = .ok ()
    ∧ (exWarmInserted.cache 0 exWarmInserted.hb.ID).map
        (fun c => (c.cachedIndex, c.k1x, c.k1y, c.k2x, c.k2y)) = some (some 0, 0, 0, 1, 1)
    ∧ exWarm.resident 0 1 1 = none
    ∧ exWarm.nextBucket = 1
    ∧ exWarmInserted.nextBucket = 4 :=
  ⟨by decide!, by decide!, by decide!, by decide!, by decide!, by decide!⟩

/-- C24 (the code at the failing input). The index
`new HashBounds(16, 1, undefined, 0)` is the first of its program, so the
counter `HashBounds.LAST_ID` is still 0 after its construction. After
`insert` of entry 0, `clear()` returns, draws the id 0 again, and
`contains` of the entry is still `true`. -/
theorem C24_clear_keeps_explicit_id :
    (HashBounds.new 16 1 none (some 0)).val St.blank = .ok ()
    ∧ (HashBounds.insert 0 (Bounds.ps 0 0 1 1)).val exClear0 = .ok ()
    ∧ HashBounds.contains exClear1 0 = true
    ∧ HashBounds.clear.val exClear1 = .ok ()
    ∧ (exClear1.hb.ID, exCleared.hb.ID) = (0, 0)
    ∧ HashBounds.contains exCleared 0 = true :=
  ⟨by decide!, by decide!, by decide!, by decide!, by decide!, by decide!⟩

/-- C25 (the code at the failing input). The entry of the reachable index
`exNegative` lies in bucket `(-1, 0)`; a box query with id 0 finds it and
stamps it with 0 (`exWrap0`). With the counter at 4294967295 (`exWrap`) the
same query returns nothing, although at the counter value 7 it returns the
entry: the traversal that resets the stamps does not reach the bucket at the
negative key, the query is issued the id 0 and the entry still carries the
stamp 0. The counter is 1 afterwards. -/
theorem C25_wrapping_query_skips_entry :
    Reach exNegative boxesNegative
    ∧ (HashBounds.toArray (some (Bounds.mm (-16) 0 (-15) 1))).val exNegative = .ok [0]
    ∧ HashBounds.contains exWrap 0 = true
    ∧ exWrap.hb.QUERYID = 4294967295
    ∧ (HashBounds.toArray (some (Bounds.mm (-16) 0 (-15) 1))).val (exWrap0.withQueryID 7)
        = .ok [0]
    ∧ (HashBounds.toArray (some (Bounds.mm (-16) 0 (-15) 1))).val exWrap = .ok []
    ∧ exWrapped.hb.QUERYID = 1 :=
  ⟨reach_exNegative, by decide!, by decide!, by decide!, by decide!, by decide!, by decide!⟩

/-- C27 (the code at the failing input). In the reachable index
`exTouchRemoved` bucket 2 at `(1, 0)` of level 0 is empty and sits in slot
`(0 mod 2) * 2 + (1 mod 2) = 1` of its parent, bucket 1, whose slot 0 holds
bucket 0 with entry 0. `prune()` clears slot 0 of the parent and leaves slot
1, then stops with a `TypeError` in `deleteBucket(16, 0)`: `pruneBucket`
computes the slot and the grid keys from the world coordinates
`bucket.X = 16`, `bucket.Y = 0`. Bucket 0 is still resident. -/
theorem C27_prune_clears_wrong_slot :
    Reach exTouchRemoved (Function.update boxesTouch 1 none)
    ∧ (exTouchRemoved.resident 0 0 0, exTouchRemoved.resident 0 1 0,
        exTouchRemoved.resident 1 0 0) = (some 0, some 2, some 1)
    ∧ ((exTouchRemoved.buckets 2).ITEM_LIST, (exTouchRemoved.buckets 2).COUNTER,
        (exTouchRemoved.buckets 2).PARENT) = ([], 0, some 1)
    ∧ ((exTouchRemoved.buckets 1).CHILDREN 0, (exTouchRemoved.buckets 1).CHILDREN 1)
        = (some 0, some 2)
    ∧ HashBounds.prune.val exTouchRemoved = .error .typeError
    ∧ ((exTouchPruned.buckets 1).CHILDREN 0, (exTouchPruned.buckets 1).CHILDREN 1)
        = (none, some 2)
    ∧ (exTouchPruned.resident 0 0 0, (exTouchPruned.buckets 0).ITEM_LIST) = (some 0, [0]) :=
  ⟨reach_exTouchRemoved, by decide!, by decide!, by decide!, by decide!, by decide!,
    by decide!⟩

/-- C28 (the code at the failing input). In the reachable index
`exColumnRemoved` (two levels; entry 0 in bucket `(0, 0)`, the bucket
`(0, 1)` empty) `prune()` returns normally. Afterwards bucket 0 is still
resident at `(0, 0)` of level 0 with bucket 1, resident at `(0, 0)` of level
1, as its `PARENT`, but slot `(0 - 0) * 2 + (0 - 0) = 0` of bucket 1 is
empty. -/
theorem C28_prune_breaks_parent_link :
    Reach exColumnRemoved (Function.update boxesColumn 1 none)
    ∧ (exColumnRemoved.buckets 1).CHILDREN 0 = some 0
    ∧ HashBounds.prune.val exColumnRemoved = .ok ()
    ∧ exColumnPruned.hb.LEVEL_COUNT = 2
    ∧ exColumnPruned.resident 0 0 0 = some 0
    ∧ (exColumnPruned.buckets 0).PARENT = some 1
    ∧ exColumnPruned.resident 1 0 0 = some 1
    ∧ (exColumnPruned.buckets 1).CHILDREN 0 = none :=
  ⟨reach_exColumnRemoved, by decide!, by decide!, by decide!, by decide!, by decide!,
    by decide!, by decide!⟩

/-- C34 (the code at the failing input). One index, one entry: the entry is
inserted, two queries stamp it with 1, it is removed, the counter reaches
4294967295 and a query wraps it (the counter is 1 afterwards), the entry is
inserted again. Every call returns. The next query is issued the id 1, the
stamp the stored entry still carries, and `toArray()` returns nothing
although the entry is contained and stored in the resident bucket 0. -/
theorem C34_stale_stamp_after_wrap :
    Reach exStale1 (Function.update (fun _ => none) 0 (some ⟨0, 0, 1, 1, 1, 1⟩))
    ∧ (HashBounds.toArray none).val exStale1 = .ok [0]
    ∧ (HashBounds.toArray none).val exStale2 = .ok [0]
    ∧ (HashBounds.remove 0).val exStale3 = .ok ()
    ∧ exStale5.hb.QUERYID = 4294967295
    ∧ (HashBounds.toArray none).val exStale5 = .ok []
    ∧ exStale6.hb.QUERYID = 1
    ∧ (HashBounds.insert 0 (Bounds.ps 0 0 1 1)).val exStale6 = .ok ()
    ∧ HashBounds.contains exStale7 0 = true
    ∧ (exStale7.resident 0 0 0, (exStale7.buckets 0).ITEM_LIST) = (some 0, [0])
    ∧ exStale7.stamp 0 = some 1
    ∧ HashBounds.getQueryID.val exStale7 = .ok 1
    ∧ (HashBounds.toArray none).val exStale7 = .ok [] :=
  ⟨Reach.insert exNegative0 _ 0 (Bounds.ps 0 0 1 1) ⟨0, 0, 1, 1, 1, 1⟩ reach_exNegative0
      (by decide!) (by norm_num) (by norm_num) (by decide!),
    by decide!, by decide!, by decide!, by decide!, by decide!, by decide!, by decide!,
    by decide!, by decide!, by decide!, by decide!, by decide!⟩

/-- C35 (the code at the failing input). In the reachable one-level index
`exFar3` bucket 0 at `(16, 0)` holds entry 0 and bucket 1 at `(1, 0)` is
empty. `prune()` returns normally; it has removed bucket 0 from the grid
(`pruneBucket` calls `deleteBucket(bucket.X, bucket.Y)`, which is
`deleteBucket(16, 0)` for the empty bucket) and left the empty bucket
resident. Entry 0 is still contained, and its span bucket `(16, 0)` is no
longer resident. -/
theorem C35_prune_removes_nonempty_bucket :
    Reach exFar3 (Function.update boxesFar 1 none)
    ∧ (exFar3.resident 0 16 0, (exFar3.buckets 0).ITEM_LIST) = (some 0, [0])
    ∧ (exFar3.resident 0 1 0, (exFar3.buckets 1).ITEM_LIST) = (some 1, [])
    ∧ HashBounds.prune.val exFar3 = .ok ()
    ∧ exFarPruned.resident 0 16 0 = none
    ∧ exFarPruned.resident 0 1 0 = some 1
    ∧ HashBounds.contains exFarPruned 0 = true
    ∧ (exFarPruned.cache 0 exFarPruned.hb.ID).map
        (fun c => (c.cachedIndex, c.k1x, c.k1y, c.k2x, c.k2y)) = some (some 0, 16, 0, 16, 0) :=
  ⟨reach_exFar3, by decide!, by decide!, by decide!, by decide!, by decide!, by decide!,
    by decide!⟩

/-- C36 (the code at the failing input). For the constructor arguments
`(16, 1, {minX: 0, minY: 0, maxX: 16, maxY: 16})` both constructors return;
the build artifact has created the four buckets `(0, 0)` to `(1, 1)` of
level 0, the module sources only bucket `(0, 0)`. -/
theorem C36_build_artifact_differs :
    (HashBounds.new 16 1 (some (Bounds.mm 0 0 16 16)) none).val St.blank = .ok ()
    ∧ (HashBounds.newDist 16 1 (some (Bounds.mm 0 0 16 16)) none).val St.blank = .ok ()
    ∧ (exWarm.resident 0 0 0, exWarm.resident 0 0 1, exWarm.resident 0 1 0,
        exWarm.resident 0 1 1) = (some 0, none, none, none)
    ∧ (exWarmDist.resident 0 0 0, exWarmDist.resident 0 0 1, exWarmDist.resident 0 1 0,
        exWarmDist.resident 0 1 1) = (some 0, some 1, some 2, some 3) :=
  ⟨by decide!, by decide!, by decide!, by decide!⟩

/-- C38 (the code at the failing input). In the reachable index
`exColumnRemoved` entry 0 is contained with the box `[0, 1] × [0, 1]` and
`toArray` of that box returns it. After `prune()`, which returns normally,
the entry is still contained, and `toArray` of the box and `toArray()` without
a box both return nothing: `prune` has cleared the slot of the entry's
bucket in its parent, so the bucket is no longer reached from the coarsest
grid. -/
theorem C38_prune_hides_contained_entry :
    Reach exColumnRemoved (Function.update boxesColumn 1 none)
    ∧ Function.update boxesColumn 1 none 0 = some ⟨0, 0, 1, 1, 1, 1⟩
    ∧ (HashBounds.toArray (some (Bounds.mm 0 0 1 1))).val exColumnRemoved = .ok [0]
    ∧ HashBounds.prune.val exColumnRemoved = .ok ()
    ∧ HashBounds.contains exColumnPruned 0 = true
    ∧ (HashBounds.toArray (some (Bounds.mm 0 0 1 1))).val exColumnPruned = .ok []
    ∧ (HashBounds.toArray none).val exColumnPruned = .ok [] :=
  ⟨reach_exColumnRemoved, by decide!, by decide!, by decide!, by decide!, by decide!,
    by decide!⟩

/-- C40 (the code at the failing input). The rectangle `[-165, -155] ×
[-165, -155]` and the area `[-160, 160] × [-160, 160]` intersect in
`[-160, -155] × [-160, -155]`. Converted from min and max form, truncated and
converted, the rectangle is that intersection; converted from point and size
form (`x = -165`, `width = 10`), truncated and converted, it is `[-160, -150] × [-160, -150]`:
`truncateBounds` raises `x` to the area and keeps the width. -/
theorem C40_truncation_depends_on_representation :
    (HashBounds.convertBounds (Bounds.mm (-165) (-165) (-155) (-155))
      >>= (fun b => HashBounds.truncateBounds b (-160) (-160) 160 160)
      >>= HashBounds.convertBounds).map (fun b => (b.minX, b.minY, b.maxX, b.maxY))
      = .ok (some (-160), some (-160), some (-155), some (-155))
    ∧ (HashBounds.convertBounds (Bounds.ps (-165) (-165) 10 10)
      >>= (fun b => HashBounds.truncateBounds b (-160) (-160) 160 160)
      >>= HashBounds.convertBounds).map (fun b => (b.minX, b.minY, b.maxX, b.maxY))
      = .ok (some (-160), some (-160), some (-150), some (-150))
    ∧ (HashBounds.convertBounds (Bounds.ps (-165) (-165) 10 10)).map
        (fun b => (b.TYPE, b.minX, b.minY, b.maxX, b.maxY))
      = .ok (some 1, some (-165), some (-165), some (-155), some (-155))
    ∧ (HashBounds.convertBounds (Bounds.mm (-165) (-165) (-155) (-155))).map
        (fun b => (b.TYPE, b.minX, b.minY, b.maxX, b.maxY))
      = .ok (some 2, some (-165), some (-165), some (-155), some (-155)) :=
  ⟨by decide!, by decide!, by decide!, by decide!⟩

/-! # Theorems on updates, levels and boxes -/

/-- C11 (the claim as written fails). In the reachable index `exThree1`,
which contains entry 0, `update` with the box `{x: 0, y: 0, width: -16,
height: -16}` stops with a `TypeError`, since `getLevel` finds no level for
it, and the immediately following `update` with the same box stops with a
`TypeError` as well: it does not return `false`. -/
theorem C11_update_of_negative_size_raises_twice :
    Reach exThree1 (Function.update (fun _ => none) 0 (some ⟨0, 0, 1, 1, 1, 1⟩))
    ∧ HashBounds.contains exThree1 0 = true
    ∧ (HashBounds.update 0 (Bounds.ps 0 0 (-16) (-16))).val exThree1 = .error .typeError
    ∧ (HashBounds.update 0 (Bounds.ps 0 0 (-16) (-16))).val
        ((HashBounds.update 0 (Bounds.ps 0 0 (-16) (-16))).exec exThree1)
      = .error .typeError :=
  ⟨reach_exThree1, by decide!, by decide!, by decide!⟩

/-- C11 (amended). In every reachable state, for a contained entry and a box
with all numbers present and non-negative width and height: when `update`
returns, a second `update` with the same box (in the form the caller passed
it, in the form the conversion left it in, or in any other form with the
same numbers) returns `false` and leaves the whole state, and so every
bucket and every record, as it is. -/
theorem C11_update_idempotent (s : St) (g : Boxes) (h : Reach s g) (e : Nat)
    (b b' : Bounds) (box : Box) (r : Bool) (hct : HashBounds.contains s e = true)
    (hb : b.numeric = some box) (hb' : b'.numeric = some box)
    (hw : 0 ≤ box.width) (hh : 0 ≤ box.height)
    (hret : (HashBounds.update e b).val s = .ok r) :
    (HashBounds.update e b').val ((HashBounds.update e b).exec s) = .ok false
      ∧ (HashBounds.update e b').exec ((HashBounds.update e b).exec s)
          = (HashBounds.update e b).exec s := by
  obtain ⟨_, _, hinv1, _⟩ := M.Ok_val (update_inv h.invariant hct hb hw hh)
  have hg : Function.update g e (some box) e = some box := by simp
  have hct1 := (hinv1.boxes.1 e).mpr (by rw [hg]; rfl)
  obtain ⟨_, _, c, l, gr, hc, hl, hgr, hsp⟩ := hinv1.boxes.2 e box hg
  obtain ⟨hcw, hch⟩ := hinv1.dims e box c hg hc
  obtain ⟨cb, hcb, hbox⟩ := numeric_some hb'
  have := update_same hct1 hcb hbox hc hcw hch hl hgr hsp
  constructor
  · show (HashBounds.update e b' ((HashBounds.update e b).exec s)).1 = _
    rw [this]
  · show (HashBounds.update e b' ((HashBounds.update e b).exec s)).2 = _
    rw [this]

/-- C11 (amended) at a concrete input: entry 0 of the two-entry index
`exTouch` is moved to the box `[16, 17] × [0, 1]`, which changes its span
(`update` returns `true`); the second `update`, with the same box in min and
max form, returns `false`. -/
theorem C11_update_idempotent_witness :
    Reach exTouch boxesTouch
    ∧ HashBounds.contains exTouch 0 = true
    ∧ (HashBounds.update 0 (Bounds.ps 16 0 1 1)).val exTouch = .ok true
    ∧ (HashBounds.update 0 (Bounds.mm 16 0 17 1)).val
          ((HashBounds.update 0 (Bounds.ps 16 0 1 1)).exec exTouch) = .ok false
    ∧ (HashBounds.update 0 (Bounds.mm 16 0 17 1)).exec
          ((HashBounds.update 0 (Bounds.ps 16 0 1 1)).exec exTouch)
          = (HashBounds.update 0 (Bounds.ps 16 0 1 1)).exec exTouch :=
  ⟨reach_exTouch, by decide!, by decide!,
   C11_update_idempotent exTouch boxesTouch reach_exTouch 0 (Bounds.ps 16 0 1 1)
    (Bounds.mm 16 0 17 1) ⟨16, 0, 17, 1, 1, 1⟩ true (by decide!) (by decide!) (by decide!)
    (by norm_num) (by norm_num) (by decide!)⟩

/-- `getLevel` returns the level `levelFor` names, also when it answers from
the record. -/
theorem getLevel_val {s : St} (hl : LevelsOk s) (box : Box) (e : Nat) (c : EntryCache)
    (hc : s.cache e s.hb.ID = some c) :
    (HashBounds.getLevel box e).val s
      = .ok (HashBounds.levelFor s.hb box.width box.height) := by
  have h1 := hl e c hc
  by_cases hd : c.cacheWidth = box.width ∧ c.cacheHeight = box.height
  · obtain ⟨h2, h3⟩ := hd
    rw [h2, h3] at h1
    simp [HashBounds.getLevel, M.val, bind, M.andThen, M.read, hc, h2, h3, h1, pure, M.ret]
  · simp [HashBounds.getLevel, M.val, bind, M.andThen, M.read, hc, hd, pure, M.ret, M.modify,
      HashBounds.levelFor]

/-- C13 (the code at the failing input). `new HashBounds(3, 2)`, and a box
of width `3.0000000000000004`, the double next above 3, and height 1. The
least `L` with `3 * 2 ^ L ≥ 3.0000000000000004` is 1, and `levelCount - 1`
is 1, so the level of the claim is 1. `getLevel` selects level 0: the
product of the width and `MIN_SIZE_INV`, the double nearest to `1 / 3`,
rounds to 1, and the table holds 0 at 1. `insert` registers the entry on
level 0, in the reachable state `exThird`. -/
theorem C13_level_of_rounded_product :
    Reach exThird
      (Function.update (fun _ => none) 0 (some ⟨0, 0, aboveThree, 1, aboveThree, 1⟩))
    ∧ (exThird0.hb.MIN_SIZE, exThird0.hb.LEVEL_COUNT, exThird0.hb.LOG2CACHE) = (3, 2, [0, 0])
    ∧ (3 : ℚ) * 2 ^ 0 < max aboveThree 1 ∧ max aboveThree 1 ≤ 3 * 2 ^ 1
    ∧ fl (max aboveThree 1 * exThird0.hb.MIN_SIZE_INV) = 1
    ∧ HashBounds.levelFor exThird0.hb aboveThree 1 = some 0
    ∧ (HashBounds.getLevel ⟨0, 0, aboveThree, 1, aboveThree, 1⟩ 0).val exThird = .ok (some 0)
    ∧ (exThird.cache 0 exThird.hb.ID).map (fun c => c.cachedIndex) = some (some 0) :=
  ⟨reach_exThird, by decide!, by decide!, by decide!, by decide!, by decide!, by decide!,
    by decide!⟩

/-- C15 (level structure). After a construction that returns, with a
positive `minSize` and `levelCount = n`, the index has exactly `n ≥ 1` grids,
`BASE` is grid `n - 1`, and grid `L` has the bucket size `minSize * 2 ^ L`,
grid `L + 1` as `NEXT_GRID` (none for `L = n - 1`) and grid `L - 1` as
`PREV_GRID` (none for `L = 0`). -/
theorem C15_level_structure (s0 : St) (minSize : ℚ) (levelCount : Int)
    (ib : Option Bounds) (id : Option Nat) (hmin : 0 < minSize)
    (hfresh : ∀ e, s0.cache e (id.getD s0.LAST_ID) = none)
    (hval : (HashBounds.new minSize levelCount ib id).val s0 = .ok ()) :
    1 ≤ levelCount
    ∧ ((HashBounds.new minSize levelCount ib id).exec s0).hb.LEVELS.length = levelCount.toNat
    ∧ ((HashBounds.new minSize levelCount ib id).exec s0).hb.BASE
        = some (levelCount.toNat - 1)
    ∧ ∀ L : Nat, L < levelCount.toNat →
        ∃ gr, ((HashBounds.new minSize levelCount ib id).exec s0).hb.LEVELS[L]? = some gr
          ∧ gr.BUCKETSIZE = minSize * 2 ^ L
          ∧ gr.NEXT_GRID = (if L + 1 < levelCount.toNat then some (L + 1) else none)
          ∧ gr.PREV_GRID = (if L > 0 then some (L - 1) else none) := by
  obtain ⟨hlc, hle, cb, hcb⟩ := new_levelCount hval
  obtain ⟨_, _, hinv, hms, hcnt, hprev⟩ :=
    M.Ok_val (M.Ok_and (new_ok hmin hfresh hlc hle cb hcb)
      (new_struct hmin hfresh hlc hle cb hcb))
  have hs := hinv.static
  refine ⟨hlc, by rw [hs.levels_len, hcnt], by rw [hs.base, hcnt], ?_⟩
  intro L hL
  have hlt : L < ((HashBounds.new minSize levelCount ib id).exec s0).hb.LEVELS.length := by
    rw [hs.levels_len, hcnt]; exact hL
  refine ⟨_, List.getElem?_eq_getElem hlt, ?_, ?_, ?_⟩
  · have := (hs.grid L _ (List.getElem?_eq_getElem hlt)).1
    rw [this, hms]
  · have := (hs.grid L _ (List.getElem?_eq_getElem hlt)).2.2
    rw [this, hcnt]
  · exact hprev L _ (List.getElem?_eq_getElem hlt)

/-- C15 at a concrete input: `new HashBounds(16, 2)`. -/
theorem C15_level_structure_witness :
    1 ≤ (2 : Int)
    ∧ ((HashBounds.new 16 2 none none).exec St.blank).hb.LEVELS.length = (2 : Int).toNat
    ∧ ((HashBounds.new 16 2 none none).exec St.blank).hb.BASE = some ((2 : Int).toNat - 1)
    ∧ ∀ L : Nat, L < (2 : Int).toNat →
        ∃ gr, ((HashBounds.new 16 2 none none).exec St.blank).hb.LEVELS[L]? = some gr
          ∧ gr.BUCKETSIZE = 16 * 2 ^ L
          ∧ gr.NEXT_GRID = (if L + 1 < (2 : Int).toNat then some (L + 1) else none)
          ∧ gr.PREV_GRID = (if L > 0 then some (L - 1) else none) :=
  C15_level_structure St.blank 16 2 none none (by norm_num) (fun _ => rfl) (by decide!)

/-- C19 (`convertBounds` normalises). For a box that is untagged with `x`
defined, or tagged 1, `convertBounds` returns the box tagged 1 with `x`, `y`,
`width`, `height` as they were and `minX = x`, `minY = y`,
`maxX = x + width`, `maxY = y + height`; for a box that is untagged with `x`
undefined, or tagged 2, it returns the box tagged 2 with `minX`, `minY`,
`maxX`, `maxY` as they were and `x = minX`, `y = minY`,
`width = maxX - minX`, `height = maxY - minY`. Applying `convertBounds` to
its result returns the same box. -/
theorem C19_convertBounds_normalises (b : Bounds) :
    (((b.TYPE = none ∧ b.x.isSome = true) ∨ b.TYPE = some 1) →
      ∃ cb, HashBounds.convertBounds b = .ok cb ∧ cb.TYPE = some 1
        ∧ cb.x = b.x ∧ cb.y = b.y ∧ cb.width = b.width ∧ cb.height = b.height
        ∧ cb.minX = b.x ∧ cb.minY = b.y
        ∧ cb.maxX = jsAdd b.x b.width ∧ cb.maxY = jsAdd b.y b.height)
    ∧ (((b.TYPE = none ∧ b.x = none) ∨ b.TYPE = some 2) →
      ∃ cb, HashBounds.convertBounds b = .ok cb ∧ cb.TYPE = some 2
        ∧ cb.minX = b.minX ∧ cb.minY = b.minY ∧ cb.maxX = b.maxX ∧ cb.maxY = b.maxY
        ∧ cb.x = b.minX ∧ cb.y = b.minY
        ∧ cb.width = jsSub b.maxX b.minX ∧ cb.height = jsSub b.maxY b.minY)
    ∧ (∀ cb, HashBounds.convertBounds b = .ok cb → HashBounds.convertBounds cb = .ok cb) :=
  ⟨convertBounds_ps, convertBounds_mm, fun _ h => convertBounds_idem h⟩

/-- C20 (round trip). For a box with `x`, `y`, `width` and `height` present,
whatever their signs, `psToMM` followed by `mmToPS` gives back `x`, `y`,
`width` and `height`; for a box with `minX`, `minY`, `maxX` and `maxY`
present, `mmToPS` followed by `psToMM` gives back these four. -/
theorem C20_round_trip (b : Bounds) (x y w h a1 a2 a3 a4 : ℚ) :
    (b.x = some x → b.y = some y → b.width = some w → b.height = some h →
      (HashBounds.mmToPS (HashBounds.psToMM b)).x = some x
      ∧ (HashBounds.mmToPS (HashBounds.psToMM b)).y = some y
      ∧ (HashBounds.mmToPS (HashBounds.psToMM b)).width = some w
      ∧ (HashBounds.mmToPS (HashBounds.psToMM b)).height = some h)
    ∧ (b.minX = some a1 → b.minY = some a2 → b.maxX = some a3 → b.maxY = some a4 →
      (HashBounds.psToMM (HashBounds.mmToPS b)).minX = some a1
      ∧ (HashBounds.psToMM (HashBounds.mmToPS b)).minY = some a2
      ∧ (HashBounds.psToMM (HashBounds.mmToPS b)).maxX = some a3
      ∧ (HashBounds.psToMM (HashBounds.mmToPS b)).maxY = some a4) := by
  constructor
  · intro h1 h2 h3 h4
    simp [HashBounds.mmToPS, HashBounds.psToMM, h1, h2, h3, h4, jsAdd, jsSub]
  · intro h1 h2 h3 h4
    simp [HashBounds.mmToPS, HashBounds.psToMM, h1, h2, h3, h4, jsAdd, jsSub]

/-- C21 (`convertBounds` and the tag). `convertBounds` raises the format
error for every box whose tag is defined and is neither 1 nor 2, and returns
a box for every box tagged 1 or 2. -/
theorem C21_convertBounds_tag (b : Bounds) :
    (∀ t : Int, b.TYPE = some t → t ≠ 1 → t ≠ 2 →
      HashBounds.convertBounds b = .error .invalidBounds)
    ∧ (b.TYPE = some 1 ∨ b.TYPE = some 2 → ∃ cb, HashBounds.convertBounds b = .ok cb) := by
  constructor
  · intro t ht h1 h2
    unfold HashBounds.convertBounds
    rw [ht]
    split
    · rename_i hh; cases hh
    · rename_i hh; exact absurd (Option.some.inj hh) h1
    · rename_i hh; exact absurd (Option.some.inj hh) h2
    · rfl
  · rintro (h | h)
    · obtain ⟨cb, hcb, _⟩ := @convertBounds_ps b (Or.inr h)
      exact ⟨cb, hcb⟩
    · obtain ⟨cb, hcb, _⟩ := @convertBounds_mm b (Or.inr h)
      exact ⟨cb, hcb⟩

/-- C22 (the claim as written fails). `convertBounds` of the empty object
returns it tagged 2, and the constructor without initial bounds, which
converts the empty object, returns. -/
theorem C22_empty_object_is_converted :
    HashBounds.convertBounds {} = .ok { TYPE := some 2 }
    ∧ (HashBounds.new 16 1 none none).val St.blank = .ok () :=
  ⟨by decide!, by decide!⟩

/-- C22 (amended). `convertBounds` raises an error exactly for the boxes
whose tag is defined and is neither 1 nor 2. It refuses no untagged box,
whichever fields are present or missing, the empty object included: it
returns the box tagged 1 when `x` is defined and tagged 2 otherwise, and so
does the conversion as `insert` and `update` run it, which is therefore not
what stops them for such a box. -/
theorem C22_untagged_box_never_refused (b : Bounds) :
    ((∃ err, HashBounds.convertBounds b = .error err)
      ↔ ∃ t : Int, b.TYPE = some t ∧ t ≠ 1 ∧ t ≠ 2)
    ∧ (b.TYPE = none →
        (∃ cb, HashBounds.convertBounds b = .ok cb
          ∧ cb.TYPE = some (if b.x.isSome then 1 else 2))
        ∧ (∃ cb, HashBounds.convertBoundsD b = .ok cb
          ∧ cb.TYPE = some (if b.x.isSome then 1 else 2))) := by
  constructor
  · constructor
    · rintro ⟨err, herr⟩
      cases hT : b.TYPE with
      | none =>
        unfold HashBounds.convertBounds at herr
        rw [hT] at herr
        simp only at herr
        split at herr <;> cases herr
      | some t =>
        refine ⟨t, rfl, ?_, ?_⟩
        · rintro rfl
          unfold HashBounds.convertBounds at herr
          rw [hT] at herr
          cases herr
        · rintro rfl
          unfold HashBounds.convertBounds at herr
          rw [hT] at herr
          cases herr
    · rintro ⟨t, hT, h1, h2⟩
      refine ⟨.invalidBounds, ?_⟩
      unfold HashBounds.convertBounds
      rw [hT]
      split
      · rename_i hh; cases hh
      · rename_i hh; exact absurd (Option.some.inj hh) h1
      · rename_i hh; exact absurd (Option.some.inj hh) h2
      · rfl
  · intro hT
    constructor
    · unfold HashBounds.convertBounds
      rw [hT]
      by_cases hx : b.x.isSome = true
      · simp [hx]
      · simp [hx]
    · unfold HashBounds.convertBoundsD
      rw [hT]
      by_cases hx : b.x.isSome = true
      · simp [hx]
      · simp [hx]

/-- C23 (the code at the failing input). The box `{x: -5, y: 0, width: 10,
height: 1}` is tagged 1 by `convertBounds`; `truncateBounds` to the area
`[-10, 0.2] × [-10, 10]` sets its width to the rounded difference
`0.2 - (-5)`, and `convertBounds` then sets `maxX` to the rounded sum
`-5 + width`, which is `0.20000000000000018`, above the `maxX` of the area:
`boundsContains(box, area)` is false. -/
theorem C23_truncated_box_exceeds_area :
    (HashBounds.convertBoundsD (Bounds.ps (-5) 0 10 1)).map (fun b => b.TYPE)
      = .ok (some 1)
    ∧ exTruncated.map (fun b => (b.TYPE, b.minX, b.minY, b.maxX, b.maxY))
      = .ok (some 1, some (-5), some 0,
          some (225179981368525 / 1125899906842624), some 1)
    ∧ fl (1 / 5) < 225179981368525 / 1125899906842624
    ∧ exTruncated.map
        (fun b => HashBounds.boundsContainsObj b (Bounds.mm (-10) (-10) (fl (1 / 5)) 10))
      = .ok false :=
  ⟨by decide!, by decide!, by decide!, by decide!⟩

/-- C26 (the claim as written fails). In the reachable index `exWide` entry
0 is contained, and its record holds level 0. For the box `{x: 0, y: 0,
width: -16, height: -16}` the table of `getLevel` has no level (the key is
`-1`), which differs from the stored level, yet `update` does not return
`true`: it stops with a `TypeError`. -/
theorem C26_update_of_negative_size_raises :
    Reach exWide boxesWide
    ∧ HashBounds.contains exWide 0 = true
    ∧ (exWide.cache 0 exWide.hb.ID).map (fun c => c.cachedIndex) = some (some 0)
    ∧ HashBounds.levelFor exWide.hb (-16) (-16) = none
    ∧ (HashBounds.update 0 (Bounds.ps 0 0 (-16) (-16))).val exWide = .error .typeError :=
  ⟨reach_exWide, by decide!, by decide!, by decide!, by decide!⟩

/-- C26 (amended). In every reachable state `update` of an entry that is not
contained raises the error of the source and changes nothing. For a contained
entry and a box with all numbers present and non-negative width and height,
`getLevel` selects a level `l`; with `gr` the grid of that level, whenever
`update` returns, it returns `true` exactly when `l` differs from the level
stored in the record or the span of the box in `gr` differs from the stored
span; and when it returns `false` no bucket has changed (so no item list and
no counter) and the slot indexes of every record of the index are as
before. -/
theorem C26_update_result (s : St) (g : Boxes) (h : Reach s g) (e : Nat) (b : Bounds)
    (box : Box) (hct : HashBounds.contains s e = true)
    (hb : b.numeric = some box) (hw : 0 ≤ box.width) (hh : 0 ≤ box.height) :
    (∀ (e0 : Nat) (b0 : Bounds), HashBounds.contains s e0 = false →
      (HashBounds.update e0 b0).val s = .error .notPresent
      ∧ (HashBounds.update e0 b0).exec s = s)
    ∧ ∃ c l gr, s.cache e s.hb.ID = some c
        ∧ (HashBounds.getLevel box e).val s = .ok (some l)
        ∧ s.hb.LEVELS[l]? = some gr
        ∧ ∀ r, (HashBounds.update e b).val s = .ok r →
          (r = true ↔ (c.cachedIndex ≠ some l
            ∨ (c.k1x, c.k1y, c.k2x, c.k2y) ≠ gr.span box))
          ∧ (r = false → ((HashBounds.update e b).exec s).buckets = s.buckets
            ∧ ∀ e' c1, s.cache e' s.hb.ID = some c1 →
                ∃ c2, ((HashBounds.update e b).exec s).cache e' s.hb.ID = some c2
                  ∧ c2.indexes = c1.indexes) := by
  constructor
  · intro e0 b0 h0
    have := update_absent b0 h0
    exact ⟨congrArg Prod.fst this, congrArg Prod.snd this⟩
  · obtain ⟨c, hc, _⟩ := contains_true hct
    obtain ⟨r, hval, _, _, l, gr, hl, hgr, hiff, hfalse⟩ :=
      M.Ok_val (update_full h.invariant hct hb hw hh hc)
    refine ⟨c, l, gr, hc, ?_, hgr, ?_⟩
    · rw [getLevel_val h.invariant.levels box e c hc, hl]
    · intro r' hr'
      rw [hval] at hr'
      cases hr'
      refine ⟨hiff, ?_⟩
      intro hr
      obtain ⟨hro, c', hc', hidx⟩ := hfalse hr
      refine ⟨hro.buckets, ?_⟩
      intro e' c1 hc1
      by_cases hee : e' = e
      · subst hee
        rw [hc] at hc1
        cases hc1
        exact ⟨c', hc', hidx⟩
      · refine ⟨c1, ?_, rfl⟩
        unfold St.cache at hc1 ⊢
        rw [hro.entries e' hee]
        exact hc1

/-- C26 (amended) at a concrete input, the two-entry index `exTouch`, whose
entry 0 holds level 0 and the span of bucket `(0, 0)`. Moved to the box
`[16, 17] × [0, 1]`, whose span on level 0 is that of bucket `(1, 0)`,
`update` returns `true`; moved to the box `[1, 2] × [1, 2]`, of the same
level and span, `update` returns `false` and no bucket has changed. -/
theorem C26_update_result_witness :
    Reach exTouch boxesTouch
    ∧ HashBounds.contains exTouch 0 = true
    ∧ (exTouch.cache 0 exTouch.hb.ID).map
        (fun c => (c.cachedIndex, c.k1x, c.k1y, c.k2x, c.k2y)) = some (some 0, 0, 0, 0, 0)
    ∧ exTouch.hb.LEVELS.map (fun gr => gr.span ⟨16, 0, 17, 1, 1, 1⟩)
        = [(1, 0, 1, 0), (0, 0, 0, 0)]
    ∧ exTouch.hb.LEVELS.map (fun gr => gr.span ⟨1, 1, 2, 2, 1, 1⟩)
        = [(0, 0, 0, 0), (0, 0, 0, 0)]
    ∧ (HashBounds.update 0 (Bounds.ps 16 0 1 1)).val exTouch = .ok true
    ∧ (HashBounds.update 0 (Bounds.ps 1 1 1 1)).val exTouch = .ok false
    ∧ ((HashBounds.update 0 (Bounds.ps 1 1 1 1)).exec exTouch).buckets = exTouch.buckets
    ∧ (∃ c l gr, exTouch.cache 0 exTouch.hb.ID = some c
        ∧ (HashBounds.getLevel ⟨16, 0, 17, 1, 1, 1⟩ 0).val exTouch = .ok (some l)
        ∧ exTouch.hb.LEVELS[l]? = some gr
        ∧ ∀ r, (HashBounds.update 0 (Bounds.ps 16 0 1 1)).val exTouch = .ok r →
          (r = true ↔ (c.cachedIndex ≠ some l
            ∨ (c.k1x, c.k1y, c.k2x, c.k2y) ≠ gr.span ⟨16, 0, 17, 1, 1, 1⟩))
          ∧ (r = false →
            ((HashBounds.update 0 (Bounds.ps 16 0 1 1)).exec exTouch).buckets = exTouch.buckets
            ∧ ∀ e' c1, exTouch.cache e' exTouch.hb.ID = some c1 →
                ∃ c2, ((HashBounds.update 0 (Bounds.ps 16 0 1 1)).exec exTouch).cache e'
                    exTouch.hb.ID = some c2
                  ∧ c2.indexes = c1.indexes)) := by
  refine ⟨reach_exTouch, by decide!, by decide!, by decide!, by decide!, by decide!,
    by decide!, ?_, ?_⟩
  · obtain ⟨_, c, l, gr, _, _, _, hall⟩ :=
      C26_update_result exTouch boxesTouch reach_exTouch 0 (Bounds.ps 1 1 1 1)
        ⟨1, 1, 2, 2, 1, 1⟩ (by decide!) (by decide!) (by norm_num) (by norm_num)
    exact ((hall false (by decide!)).2 rfl).1
  · exact (C26_update_result exTouch boxesTouch reach_exTouch 0 (Bounds.ps 16 0 1 1)
      ⟨16, 0, 17, 1, 1, 1⟩ (by decide!) (by decide!) (by norm_num) (by norm_num)).2

/-- C29 (the code at the failing input). In the reachable index `exTouch1`
bucket 1, resident at `(0, 0)` of level 1, covers `[0, 32] × [0, 32]` and has
one child. The box `[0, 32] × [0, 32]` completely encloses it, and `getQuad`
answers 0, not -1. -/
theorem C29_enclosing_box_of_single_child_bucket :
    Reach exTouch1 (Function.update (fun _ => none) 0 (some ⟨0, 0, 1, 1, 1, 1⟩))
    ∧ exTouch1.resident 1 0 0 = some 1
    ∧ ((exTouch1.buckets 1).X, (exTouch1.buckets 1).Y, (exTouch1.buckets 1).MAX_X,
        (exTouch1.buckets 1).MAX_Y, (exTouch1.buckets 1).BUCKET_SIZE) = (0, 0, 32, 32, 32)
    ∧ (exTouch1.buckets 1).getQuad ⟨0, 0, 32, 32, 32, 32⟩ = 0 :=
  ⟨reach_exTouch1, by decide!, by decide!, by decide!⟩

/-- C30 (the claim as written fails). In the reachable three-level index
`exThree` bucket 2, resident at `(0, 0)` of level 2, has the counter 1, and
two of the buckets below it, buckets 0 and 3, have a non-empty item list. -/
theorem C30_counter_is_not_subtree_size :
    Reach exThree boxesThree
    ∧ exThree.resident 2 0 0 = some 2
    ∧ (exThree.buckets 2).COUNTER = 1
    ∧ Desc exThree 2 0 ∧ Desc exThree 2 3
    ∧ (exThree.buckets 0).ITEM_LIST = [0] ∧ (exThree.buckets 3).ITEM_LIST = [1] :=
  ⟨reach_exThree, by decide!, by decide!,
    Desc.step 2 0 1 0 (by decide!) (Desc.child 1 0 0 (by decide!)),
    Desc.step 2 0 1 3 (by decide!) (Desc.child 1 1 3 (by decide!)),
    by decide!, by decide!⟩

/-- C30 (amended). In every state reached with boxes whose bucket
coordinates stay within `2 ^ 25` in absolute value on every level, the
counter of a resident bucket is 1 if its own item list is non-empty (0
otherwise) plus the number of its child slots that hold a bucket with a
positive counter. -/
theorem C30_counter_value (s : St) (g : Boxes) (h : ReachSafe s g) (l : Nat) (x y : Int)
    (b : Nat) (hb : s.resident l x y = some b) :
    (s.buckets b).COUNTER
      = (if (s.buckets b).ITEM_LIST = [] then 0 else 1)
        + s.posChild b 0 + s.posChild b 1 + s.posChild b 2 + s.posChild b 3 :=
  h.toReach.invariant.cnt l x y b hb

/-- C30 (amended) at a concrete input: bucket 2, resident at `(0, 0)` of
level 2 of the index `exThree`; its own item list is empty, and of its child
slots only slot 0 holds a bucket with a positive counter. -/
theorem C30_counter_value_witness :
    ReachSafe exThree boxesThree
    ∧ exThree.resident 2 0 0 = some 2
    ∧ (exThree.buckets 2).ITEM_LIST = []
    ∧ (exThree.posChild 2 0, exThree.posChild 2 1, exThree.posChild 2 2,
        exThree.posChild 2 3) = (1, 0, 0, 0)
    ∧ (exThree.buckets 2).COUNTER
      = (if (exThree.buckets 2).ITEM_LIST = [] then 0 else 1)
        + exThree.posChild 2 0 + exThree.posChild 2 1 + exThree.posChild 2 2
        + exThree.posChild 2 3 :=
  ⟨reachSafe_exThree, by decide!, by decide!, by decide!,
   C30_counter_value exThree boxesThree reachSafe_exThree 2 0 0 2 (by decide!)⟩

/-- C31 (the code at the failing input). `new HashBounds(49, 2)`, then
`insert(e, {x: 196, y: 196, width: 49, height: 49})`: the larger side, 49, is
at most `49 * 2 ^ (2 - 1)`. The entry is registered on level 0 with the span
`k1x = k1y = 3`, `k2x = k2y = 5` (the rounded product of 196 and
`BUCKETSIZE_INV` is below 4): `k2x - k1x` is 2, the entry is in the item
lists of nine buckets, and the slot key of bucket `(5, 5)` is 8. -/
theorem C31_span_of_three_buckets :
    Reach exSquare
      (Function.update (fun _ => none) 0 (some ⟨196, 196, 245, 245, 49, 49⟩))
    ∧ (exSquare.hb.MIN_SIZE, exSquare.hb.LEVEL_COUNT) = (49, 2)
    ∧ max (49 : ℚ) 49 ≤ 49 * 2 ^ (2 - 1)
    ∧ (exSquare.cache 0 exSquare.hb.ID).map
        (fun c => (c.cachedIndex, c.k1x, c.k1y, c.k2x, c.k2y)) = some (some 0, 3, 3, 5, 5)
    ∧ ((List.range exSquare.nextBucket).filter
        (fun b => decide (0 ∈ (exSquare.buckets b).ITEM_LIST))).length = 9
    ∧ (exSquare.cache 0 exSquare.hb.ID).map (fun c => (c.key 5 5, c.indexes 8))
        = some (8, some 0) :=
  ⟨reach_exSquare, by decide!, by decide!, by decide!, by decide!, by decide!⟩

/-- C32 (no implicit pruning). In every reachable state, after a call of
`insert`, `update` or `remove` that returns (with a box of non-negative width
and height, all numbers present), every bucket that was resident is resident
at the same level and coordinates, has the same `PARENT`, and every child
slot that held a bucket holds the same bucket. -/
theorem C32_no_implicit_pruning (s : St) (g : Boxes) (h : Reach s g) (e : Nat)
    (b : Bounds) (box : Box) (s' : St) (hb : b.numeric = some box)
    (hw : 0 ≤ box.width) (hh : 0 ≤ box.height)
    (hop : ((HashBounds.insert e b).val s = .ok () ∧ s' = (HashBounds.insert e b).exec s)
      ∨ ((∃ r, (HashBounds.update e b).val s = .ok r) ∧ s' = (HashBounds.update e b).exec s)
      ∨ ((HashBounds.remove e).val s = .ok () ∧ s' = (HashBounds.remove e).exec s)) :
    ∀ l x y bk, s.resident l x y = some bk →
      s'.resident l x y = some bk ∧ (s'.buckets bk).PARENT = (s.buckets bk).PARENT
      ∧ ∀ k c, (s.buckets bk).CHILDREN k = some c → (s'.buckets bk).CHILDREN k = some c := by
  have hinv := h.invariant
  have key : ∃ g', Invariant s' g' ∧ Step s s' e := by
    rcases hop with ⟨hval, rfl⟩ | ⟨⟨r, hval⟩, rfl⟩ | ⟨hval, rfl⟩
    · have hnc : HashBounds.contains s e = false := by
        by_contra hc
        rw [Bool.not_eq_false] at hc
        rw [M.val, insert_present b hc] at hval
        cases hval
      obtain ⟨_, _, hQ⟩ := M.Ok_val (insert_ok hinv hnc hb hw hh)
      exact ⟨_, hQ⟩
    · have hct : HashBounds.contains s e = true := by
        by_contra hc
        rw [Bool.not_eq_true] at hc
        rw [M.val, update_absent b hc] at hval
        cases hval
      obtain ⟨_, _, hQ⟩ := M.Ok_val (update_inv hinv hct hb hw hh)
      exact ⟨_, hQ⟩
    · have hct : HashBounds.contains s e = true := by
        by_contra hc
        rw [Bool.not_eq_true] at hc
        rw [M.val, remove_absent hc] at hval
        cases hval
      obtain ⟨_, _, hQ⟩ := M.Ok_val (remove_inv hinv hct)
      exact ⟨_, hQ⟩
  obtain ⟨g', hinv', hst⟩ := key
  intro l x y bk hbk
  exact tree_kept hinv.static hinv.tree hinv'.tree hst.levelCount_eq_step hst.res hbk

/-- C32 at a concrete input: `remove` of entry 1 from the two-entry index
`exTouch`, and bucket 1, resident at `(0, 0)` of level 1. -/
theorem C32_no_implicit_pruning_witness :
    exTouchRemoved.resident 1 0 0 = some 1
      ∧ (exTouchRemoved.buckets 1).PARENT = (exTouch.buckets 1).PARENT
      ∧ ∀ k c, (exTouch.buckets 1).CHILDREN k = some c →
          (exTouchRemoved.buckets 1).CHILDREN k = some c :=
  C32_no_implicit_pruning exTouch boxesTouch reach_exTouch 1 (Bounds.ps 16 0 1 1)
    ⟨16, 0, 17, 1, 1, 1⟩ exTouchRemoved (by decide!) (by norm_num) (by norm_num)
    (Or.inr (Or.inr ⟨by decide!, rfl⟩)) 1 0 0 1 (by decide!)

/-- C33 (queries are read-only on structure). In every reachable state, and
in that state with any value of the query counter (the wrap-around value
4294967295 included), `every`, `forEach` and `toArray` with bounds that
convert return, and the state afterwards differs from the state before in
the query counter of the index and in the stamps of entries only: the other
fields of the index (so the grids and their resident buckets), every bucket
object (item list, counter, parent, children, quadrant cache) and every
record of every entry are the same. -/
theorem C33_queries_read_only (s : St) (g : Boxes) (h : Reach s g) (q : Int)
    (b : Option Bounds) (call : Visitor) (qb : Option (Option Box))
    (hq : HashBounds.queryBox b = .ok qb) :
    (∃ r, (HashBounds.every b call).val (s.withQueryID q) = .ok r)
    ∧ ReadOnly (s.withQueryID q) ((HashBounds.every b call).exec (s.withQueryID q))
    ∧ (∃ r, (HashBounds.forEach b).val (s.withQueryID q) = .ok r)
    ∧ ReadOnly (s.withQueryID q) ((HashBounds.forEach b).exec (s.withQueryID q))
    ∧ (∃ r, (HashBounds.toArray b).val (s.withQueryID q) = .ok r)
    ∧ ReadOnly (s.withQueryID q) ((HashBounds.toArray b).exec (s.withQueryID q)) := by
  have hinv := h.invariant
  have hs := withQueryID_static hinv.static q
  have ht := (withQueryID_ro s q).treeOk_ro hinv.tree
  have h1 : (HashBounds.every b call).Ok (s.withQueryID q)
      (fun _ s' => ReadOnly (s.withQueryID q) s') := by
    simp only [HashBounds.every, M.Ok_bind, M.Ok_pure]
    exact query_frame hs ht b call qb hq
  have h2 : (HashBounds.forEach b).Ok (s.withQueryID q)
      (fun _ s' => ReadOnly (s.withQueryID q) s') := by
    simp only [HashBounds.forEach, M.Ok_bind, M.Ok_pure]
    exact query_frame hs ht b _ qb hq
  have h3 : (HashBounds.toArray b).Ok (s.withQueryID q)
      (fun _ s' => ReadOnly (s.withQueryID q) s') := by
    simp only [HashBounds.toArray, M.Ok_bind, M.Ok_pure]
    exact query_frame hs ht b _ qb hq
  obtain ⟨r1, hv1, hQ1⟩ := M.Ok_val h1
  obtain ⟨r2, hv2, hQ2⟩ := M.Ok_val h2
  obtain ⟨r3, hv3, hQ3⟩ := M.Ok_val h3
  exact ⟨⟨r1, hv1⟩, hQ1, ⟨r2, hv2⟩, hQ2, ⟨r3, hv3⟩, hQ3⟩

/-- C33 at a concrete input: a box query on the two-entry index `exTouch`
with its query counter at the wrap-around. -/
theorem C33_queries_read_only_witness :
    (∃ r, (HashBounds.every (some (Bounds.mm 0 0 16 1)) (fun _ _ => true)).val
        (exTouch.withQueryID 4294967295) = .ok r)
    ∧ ReadOnly (exTouch.withQueryID 4294967295)
        ((HashBounds.every (some (Bounds.mm 0 0 16 1)) (fun _ _ => true)).exec
          (exTouch.withQueryID 4294967295))
    ∧ (∃ r, (HashBounds.forEach (some (Bounds.mm 0 0 16 1))).val
        (exTouch.withQueryID 4294967295) = .ok r)
    ∧ ReadOnly (exTouch.withQueryID 4294967295)
        ((HashBounds.forEach (some (Bounds.mm 0 0 16 1))).exec
          (exTouch.withQueryID 4294967295))
    ∧ (∃ r, (HashBounds.toArray (some (Bounds.mm 0 0 16 1))).val
        (exTouch.withQueryID 4294967295) = .ok r)
    ∧ ReadOnly (exTouch.withQueryID 4294967295)
        ((HashBounds.toArray (some (Bounds.mm 0 0 16 1))).exec
          (exTouch.withQueryID 4294967295)) :=
  C33_queries_read_only exTouch boxesTouch reach_exTouch 4294967295
    (some (Bounds.mm 0 0 16 1)) (fun _ _ => true) (some (some ⟨0, 0, 16, 1, 16, 1⟩))
    (by decide!)

/-! # Theorems on sequences of calls -/

/-- C39 (insert then remove). In every reachable state, for an entry that is
not contained and a box with all numbers present and non-negative width and
height: when `insert` and the `remove` of the entry that follows it have
returned, every bucket that was resident is resident at its place with the
same item list (the same entries in the same order) and the same counter;
every other entry is as before, its slot indexes included; and a bucket that
has become resident has an empty item list and the counter 0. -/
theorem C39_insert_then_remove (s : St) (g : Boxes) (h : Reach s g) (e : Nat)
    (b : Bounds) (box : Box) (hnc : HashBounds.contains s e = false)
    (hb : b.numeric = some box) (hw : 0 ≤ box.width) (hh : 0 ≤ box.height)
    (_hins : (HashBounds.insert e b).val s = .ok ())
    (_hrem : (HashBounds.remove e).val ((HashBounds.insert e b).exec s) = .ok ()) :
    (∀ l x y bk, s.resident l x y = some bk →
        ((HashBounds.remove e).exec ((HashBounds.insert e b).exec s)).resident l x y = some bk
        ∧ (((HashBounds.remove e).exec ((HashBounds.insert e b).exec s)).buckets bk).ITEM_LIST
            = (s.buckets bk).ITEM_LIST
        ∧ (((HashBounds.remove e).exec ((HashBounds.insert e b).exec s)).buckets bk).COUNTER
            = (s.buckets bk).COUNTER)
    ∧ (∀ e', e' ≠ e →
        ((HashBounds.remove e).exec ((HashBounds.insert e b).exec s)).entries e' = s.entries e')
    ∧ (∀ l x y bk,
        ((HashBounds.remove e).exec ((HashBounds.insert e b).exec s)).resident l x y = some bk →
        s.resident l x y = none →
        (((HashBounds.remove e).exec ((HashBounds.insert e b).exec s)).buckets bk).ITEM_LIST = []
        ∧ (((HashBounds.remove e).exec ((HashBounds.insert e b).exec s)).buckets bk).COUNTER
            = 0) :=
  (insert_remove_undo h.invariant hnc hb hw hh).2.2

/-- C39 at a concrete input: the index `exTouch1`, which holds entry 0 in
bucket 0, and entry 1 with the box `[16, 17] × [0, 1]`, for which `insert`
makes the bucket `(1, 0)` of level 0 resident. Both calls return; bucket 0
holds entry 0 as before, and the new bucket is left empty. -/
theorem C39_insert_then_remove_witness :
    Reach exTouch1 (Function.update (fun _ => none) 0 (some ⟨0, 0, 1, 1, 1, 1⟩))
    ∧ HashBounds.contains exTouch1 1 = false
    ∧ (HashBounds.insert 1 (Bounds.ps 16 0 1 1)).val exTouch1 = .ok ()
    ∧ (HashBounds.remove 1).val ((HashBounds.insert 1 (Bounds.ps 16 0 1 1)).exec exTouch1)
        = .ok ()
    ∧ exTouch1.resident 0 0 0 = some 0 ∧ (exTouch1.buckets 0).ITEM_LIST = [0]
    ∧ exTouch1.resident 0 1 0 = none
    ∧ ((HashBounds.remove 1).exec
        ((HashBounds.insert 1 (Bounds.ps 16 0 1 1)).exec exTouch1)).resident 0 1 0 = some 2
    ∧ ((∀ l x y bk, exTouch1.resident l x y = some bk →
        ((HashBounds.remove 1).exec
          ((HashBounds.insert 1 (Bounds.ps 16 0 1 1)).exec exTouch1)).resident l x y = some bk
        ∧ (((HashBounds.remove 1).exec
            ((HashBounds.insert 1 (Bounds.ps 16 0 1 1)).exec exTouch1)).buckets bk).ITEM_LIST
            = (exTouch1.buckets bk).ITEM_LIST
        ∧ (((HashBounds.remove 1).exec
            ((HashBounds.insert 1 (Bounds.ps 16 0 1 1)).exec exTouch1)).buckets bk).COUNTER
            = (exTouch1.buckets bk).COUNTER)
      ∧ (∀ e', e' ≠ 1 →
        ((HashBounds.remove 1).exec
          ((HashBounds.insert 1 (Bounds.ps 16 0 1 1)).exec exTouch1)).entries e'
          = exTouch1.entries e')
      ∧ (∀ l x y bk,
        ((HashBounds.remove 1).exec
          ((HashBounds.insert 1 (Bounds.ps 16 0 1 1)).exec exTouch1)).resident l x y = some bk →
        exTouch1.resident l x y = none →
        (((HashBounds.remove 1).exec
            ((HashBounds.insert 1 (Bounds.ps 16 0 1 1)).exec exTouch1)).buckets bk).ITEM_LIST = []
        ∧ (((HashBounds.remove 1).exec
            ((HashBounds.insert 1 (Bounds.ps 16 0 1 1)).exec exTouch1)).buckets bk).COUNTER
            = 0)) :=
  ⟨reach_exTouch1, by decide!, by decide!, by decide!, by decide!, by decide!, by decide!,
   by decide!,
   C39_insert_then_remove exTouch1 _ reach_exTouch1 1 (Bounds.ps 16 0 1 1)
    ⟨16, 0, 17, 1, 1, 1⟩ (by decide!) (by decide!) (by norm_num) (by norm_num)
    (by decide!) (by decide!)⟩

/-- C37 (the code at the failing input). `new HashBounds(5, 2)`, then
`insert(e0, {x: 11, y: 0, width: 1, height: 1})` and `insert(e1, {x:
14.999999999999998, y: 0, width: 1, height: 1})`, where `14.999999999999998`
is the double next below 15. The state `exFive` is reachable and entry 1 is
contained. Its box and the query box `[11, 15] × [0, 1]` share the interior
of `[14.999999999999998, 15] × [0, 1]`: the four inequalities of the claim
hold. Entry 1 is registered in the bucket `(3, 0)` of level 0 (the rounded
product of its `minX` and `BUCKETSIZE_INV` is 3), the right child of the
bucket `(1, 0)` of level 1, whose `HALFX` is 15; `getQuad` sends the query,
whose `maxX` is 15, to the left children alone, and `toArray` of the query
box returns entry 0 only, while `toArray()` returns both entries. -/
theorem C37_entry_below_bucket_edge_is_missed :
    Reach exFive
      (Function.update (Function.update (fun _ => none) 0 (some ⟨11, 0, 12, 1, 1, 1⟩))
        1 (some ⟨belowFifteen, 0, belowFifteen + 1, 1, 1, 1⟩))
    ∧ HashBounds.contains exFive 1 = true
    ∧ (Bounds.ps belowFifteen 0 1 1).numeric = some ⟨belowFifteen, 0, belowFifteen + 1, 1, 1, 1⟩
    ∧ (Bounds.mm 11 0 15 1).numeric = some ⟨11, 0, 15, 1, 4, 1⟩
    ∧ (belowFifteen < 15 ∧ (11 : ℚ) < belowFifteen + 1 ∧ (0 : ℚ) < 1 ∧ (0 : ℚ) < 1)
    ∧ (exFive.cache 1 exFive.hb.ID).map
        (fun c => (c.cachedIndex, c.k1x, c.k1y, c.k2x, c.k2y)) = some (some 0, 3, 0, 3, 0)
    ∧ (HashBounds.toArray (some (Bounds.mm 11 0 15 1))).val exFive = .ok [0]
    ∧ (HashBounds.toArray none).val exFive = .ok [0, 1] :=
  ⟨reach_exFive, by decide!, by decide!, by decide!,
    ⟨by decide!, by decide!, by norm_num, by norm_num⟩, by decide!, by decide!, by decide!⟩
